import Mathlib

/-!
# hip-SL: alpha-cycle controller, recall scorer, statistics and trial scheduling

A shallow embedding of `src/hip-sl.go` (the `Sim` methods `AlphaCyc`,
`MemStats`, `InitStats`, `TrialStats`, `LogTrnEpc`, the trial scheduling
`TrainTrial`, `TestTrial`, `TestItem`, `TestAll`, `RunEnd`, `NewRun`, the
logs `LogTrnTrl`, `LogTstTrl`, `LogTstEpc`, `LogRun`, and the configuration
`Config`, `ConfigNet`, `Init`, `mainrun`) together with theorems about the
phase schedule, the recall statistics, the epoch statistics and the order of
the calls of a trial.

Modelling conventions.

* The leabra network is an external collaborator.  Its state is an abstract
  type `σ`; its operations are the fields of `Leabra σ`.  The two pathway
  gains `WtScale.Abs` and the type of the `ECout` layer, which `AlphaCyc`
  writes itself, are explicit fields of `Network σ`.
* `float32` unit values and gains are finite and are modelled as rationals.
  `float64` statistics are modelled by `F64`, which adds the IEEE special
  values that an unguarded division produces; finite arithmetic is exact.
* Every operation that `AlphaCyc` performs is appended to the ghost field
  `Sim.log` together with the pathway gains in force when it ran.
* What a function executes is stated over the log and over the state: the
  time, the counters, the log tables, and the network.  For the network the
  statements use `recLeabra`, a network whose state is the list of the calls
  made on it, each with its arguments.
* Go `int` fields (`CntErr`, `FirstZero`, the environment counters) are
  integers; they count trials and epochs and stay far from the 64-bit range.
* Layer and projection lookups by name are taken to succeed (the network is
  configured).  The per-cycle copies of activations and the CSV output at
  the end of `AlphaCyc` only read the state and are not modelled.
* The counters of the environments (`env.Ctr`, `env.FixedTable` of the
  emergent library) are modelled after the library: `Incr` wraps to 0 and
  reports it when `Max > 0` is reached, `Step` increments the trial counter
  and, when that wraps, the epoch counter, `Init` resets the counters, sets
  `Trial.Max` to the length of the table and `Trial.Cur` to -1.  The random
  presentation order is not modelled.
* Log tables are lists of rows; `SetNumRows(row + 1)` followed by writing all
  cells of `row` keeps the first `row` rows and puts the new row after them.
* A Go run-time panic and the exhaustion of the fuel of a loop are the two
  results of `Fault`; functions that can do neither return a plain state.
* `time.Now().UnixNano()` is a parameter `now` of the functions that read the
  clock.  `StopNow` is also written by `Sim.Stop`, which the user interface
  calls while a loop runs; for the loop of `TestAll` these requests are a
  parameter `stop`.
-/

namespace HipSL

/-! ## Values -/

/-- Go `float64` values: exact rationals plus the IEEE special values. -/
inductive F64 where
  | fin (q : ℚ)
  | posInf
  | negInf
  | nan
  deriving DecidableEq

namespace F64

/-- The `float64` value of a unit counter. -/
def ofNat (n : ℕ) : F64 := fin n

/-- Go `x < y` on `float64`: every comparison with a NaN is false. -/
def lt : F64 → F64 → Bool
  | fin a, fin b => decide (a < b)
  | fin _, posInf => true
  | negInf, fin _ => true
  | negInf, posInf => true
  | _, _ => false

/-- Go `x / y` on `float64` (signed zeros are not distinguished). -/
def div : F64 → F64 → F64
  | nan, _ => nan
  | _, nan => nan
  | fin a, fin b =>
    if b = 0 then (if a = 0 then nan else if 0 < a then posInf else negInf)
    else fin (a / b)
  | fin _, posInf => fin 0
  | fin _, negInf => fin 0
  | posInf, fin b => if 0 ≤ b then posInf else negInf
  | negInf, fin b => if 0 ≤ b then negInf else posInf
  | posInf, posInf => nan
  | posInf, negInf => nan
  | negInf, posInf => nan
  | negInf, negInf => nan

/-- The `float64` value of a Go `int`. -/
def ofInt (n : ℤ) : F64 := fin n

/-- Go `x + y` on `float64`. -/
def add : F64 → F64 → F64
  | nan, _ => nan
  | _, nan => nan
  | fin a, fin b => fin (a + b)
  | fin _, posInf => posInf
  | fin _, negInf => negInf
  | posInf, fin _ => posInf
  | negInf, fin _ => negInf
  | posInf, posInf => posInf
  | negInf, negInf => negInf
  | posInf, negInf => nan
  | negInf, posInf => nan

/-- Go unary minus on `float64`. -/
def neg : F64 → F64
  | fin a => fin (-a)
  | posInf => negInf
  | negInf => posInf
  | nan => nan

/-- Go `x - y` on `float64`. -/
def sub (x y : F64) : F64 := add x (neg y)

/-- Go `x == y` on `float64`: a NaN is equal to nothing. -/
def eq : F64 → F64 → Bool
  | fin a, fin b => decide (a = b)
  | posInf, posInf => true
  | negInf, negInf => true
  | _, _ => false

/-- Go `x != y` on `float64`. -/
def ne (x y : F64) : Bool := !(eq x y)

end F64

/-- Layers of the hippocampus network that `hip-sl.go` looks up by name. -/
inductive LayerName where
  | Input | ECin | ECout | DG | CA3 | CA1
  deriving DecidableEq, Repr

/-- Unit variables read through `UnitVal1D` and `UnitVals`. -/
inductive UnitVar where
  | Act | ActM | Targ | ActQ1
  deriving DecidableEq, Repr

/-- The `emer.LayerType` values. -/
inductive LayerType where
  | Hidden | Input | Target | Compare
  deriving DecidableEq, Repr

/-- The `leabra.TimeScales` enumeration, in declaration order. -/
inductive TimeScales where
  | Cycle | FastSpike | Quarter | Phase | BetaCycle | AlphaCycle | ThetaCycle
  | Event | Trial | Tick | Sequence | Condition | Block | Epoch | Run | Expt
  | Scene | Episode
  deriving DecidableEq, Repr

/-- The integer value of a time scale (`iota` order). -/
def TimeScales.toNat : TimeScales → ℕ
  | .Cycle => 0 | .FastSpike => 1 | .Quarter => 2 | .Phase => 3
  | .BetaCycle => 4 | .AlphaCycle => 5 | .ThetaCycle => 6 | .Event => 7
  | .Trial => 8 | .Tick => 9 | .Sequence => 10 | .Condition => 11
  | .Block => 12 | .Epoch => 13 | .Run => 14 | .Expt => 15 | .Scene => 16
  | .Episode => 17

/-- The part of `leabra.Time` that `AlphaCyc` drives. -/
structure Time where
  Cycle : ℕ := 0
  Quarter : ℕ := 0
  deriving DecidableEq, Repr

/-- `Time.AlphaCycStart`. -/
def Time.AlphaCycStart (_t : Time) : Time := { Cycle := 0, Quarter := 0 }

/-- `Time.CycleInc`. -/
def Time.CycleInc (t : Time) : Time := { t with Cycle := t.Cycle + 1 }

/-- `Time.QuarterInc`. -/
def Time.QuarterInc (t : Time) : Time := { t with Quarter := t.Quarter + 1 }

/-! ## The network collaborator -/

/-- The network as `hip-sl.go` sees it: the two CA1 afferent gains
(`ca1FmECin.WtScale.Abs`, `ca1FmCa3.WtScale.Abs`), the type of `ECout`, and
the rest of the leabra state. -/
structure Network (σ : Type) where
  ca1FmECinAbs : ℚ
  ca1FmCa3Abs : ℚ
  ecoutTyp : LayerType
  core : σ

/-- The leabra operations used by the simulation.  State-changing
operations read the whole network (gains and layer type included) and
produce the new leabra state.  `ApplyExt n ly trl train` applies to layer `ly`
the pattern that the environment (the training one when `train`) holds for
its trial `trl`, if it holds one (`en.State(ly.Nm)` and the `nil` test of
`ApplyInputs`); `ConfigLayers n seed` adds the layers and projections of
`ConfigNet`, the perforant path seeded with `seed`; `ApplyParams` applies the
network sheet of the parameter set; `Build` yields the state after the
attempt and the error, if any; `PrjnBuild n recv send seed` stores `seed` in
the pattern of the projection and rebuilds it. -/
structure Leabra (σ : Type) where
  ShapeLen : σ → LayerName → ℕ
  UnitVal1D : σ → LayerName → UnitVar → ℕ → ℚ
  WtFmDWt : Network σ → σ
  UpdateExtFlags : Network σ → σ
  AlphaCycInit : Network σ → σ
  Cycle : Network σ → Time → σ
  GScaleFmAvgAct : Network σ → σ
  InitGInc : Network σ → σ
  ApplyExt1D32 : Network σ → LayerName → List ℚ → σ
  QuarterFinal : Network σ → Time → σ
  DWt : Network σ → σ
  CosDiffCos : σ → LayerName → F64
  MSE : σ → LayerName → ℚ → F64 × F64
  InitExt : Network σ → σ
  ApplyExt : Network σ → LayerName → ℤ → Bool → σ
  InitWts : Network σ → σ
  ConfigLayers : Network σ → ℤ → σ
  Defaults : Network σ → σ
  ApplyParams : Network σ → Network σ
  Build : Network σ → σ × Option String
  PrjnBuild : Network σ → LayerName → LayerName → ℤ → σ

/-- `Layer.UnitVals`: the values of one variable over all units of a layer. -/
def Leabra.UnitVals {σ : Type} (L : Leabra σ) (c : σ) (ly : LayerName) (v : UnitVar) :
    List ℚ :=
  (List.range (L.ShapeLen c ly)).map (L.UnitVal1D c ly v)

/-! ## Simulation state -/

/-- The position of a layer in the enumeration of the layers. -/
def LayerName.index : LayerName → ℕ
  | .Input => 0 | .ECin => 1 | .ECout => 2 | .DG => 3 | .CA3 => 4 | .CA1 => 5

/-- The layer at a position of the enumeration. -/
def LayerName.atIndex : ℕ → LayerName
  | 0 => .Input | 1 => .ECin | 2 => .ECout | 3 => .DG | 4 => .CA3 | _ => .CA1

/-- The integer value of a layer type. -/
def LayerType.index : LayerType → ℕ
  | .Hidden => 0 | .Input => 1 | .Target => 2 | .Compare => 3

/-- The layer type with a given integer value. -/
def LayerType.atIndex : ℕ → LayerType
  | 0 => .Hidden | 1 => .Input | 2 => .Target | _ => .Compare

/-- Operations recorded in the ghost log. -/
inductive Op where
  | WtFmDWt
  | SetType (t : LayerType)
  | UpdateExtFlags
  | SetECinAbs (v : ℚ)
  | SetCa3Abs (v : ℚ)
  | AlphaCycInit
  | AlphaCycStart
  | Cycle
  | LogTstCyc
  | CycleInc
  | UpdateView (train : Bool)
  | GScaleFmAvgAct
  | InitGInc
  | ApplyExt1D32
  | QuarterFinal
  | MemStats (train : Bool)
  | QuarterInc
  | DWt
  | TstCycPlotUpdate
  | TrialStats (accum : Bool)
  | LogTrnEpc
  | TrainTrial
  | TestTrial
  | TestAll
  | TestItem (idx : ℤ)
  | EnvInit (train : Bool)
  | ApplyInputs (train : Bool)
  | InitExt
  | ApplyExt (ly : LayerName)
  | AlphaCyc (train : Bool) (trial : ℤ)
  | LogTrnTrl
  | LogTstTrl
  | LogTstEpc
  | LogRun
  | RunEnd
  | SaveWtsJSON
  | NewRun
  | RandSeed (seed : ℤ)
  | PrjnSeed (recv send : LayerName) (seed : ℤ)
  | InitWts
  | ConfigLayers (seed : ℤ)
  | Defaults
  | ApplyParams
  | Build
  | LogPrintln (msg : String)
  | OpenPats
  | ConfigEnv
  | ConfigNet
  | ConfigLog (name : String)
  | Init
  | Train
  | Stopped
  | ConfigGui
  | StartEventLoop

/-- The data of a logged operation: the number of its kind and its
arguments.  Operations are compared through these data. -/
structure OpKey where
  tag : ℕ
  n1 : ℕ := 0
  n2 : ℕ := 0
  z : ℤ := 0
  q : ℚ := 0
  s : String := ""
  deriving DecidableEq

/-- The data of an operation. -/
def Op.toKey : Op → OpKey
  | .WtFmDWt => { tag := 0 }
  | .SetType t => { tag := 1, n1 := t.index }
  | .UpdateExtFlags => { tag := 2 }
  | .SetECinAbs v => { tag := 3, q := v }
  | .SetCa3Abs v => { tag := 4, q := v }
  | .AlphaCycInit => { tag := 5 }
  | .AlphaCycStart => { tag := 6 }
  | .Cycle => { tag := 7 }
  | .LogTstCyc => { tag := 8 }
  | .CycleInc => { tag := 9 }
  | .UpdateView train => { tag := 10, n1 := if train then 1 else 0 }
  | .GScaleFmAvgAct => { tag := 11 }
  | .InitGInc => { tag := 12 }
  | .ApplyExt1D32 => { tag := 13 }
  | .QuarterFinal => { tag := 14 }
  | .MemStats train => { tag := 15, n1 := if train then 1 else 0 }
  | .QuarterInc => { tag := 16 }
  | .DWt => { tag := 17 }
  | .TstCycPlotUpdate => { tag := 18 }
  | .TrialStats accum => { tag := 19, n1 := if accum then 1 else 0 }
  | .LogTrnEpc => { tag := 20 }
  | .TrainTrial => { tag := 21 }
  | .TestTrial => { tag := 22 }
  | .TestAll => { tag := 23 }
  | .TestItem idx => { tag := 24, z := idx }
  | .EnvInit train => { tag := 25, n1 := if train then 1 else 0 }
  | .ApplyInputs train => { tag := 26, n1 := if train then 1 else 0 }
  | .InitExt => { tag := 27 }
  | .ApplyExt ly => { tag := 28, n1 := ly.index }
  | .AlphaCyc train trial => { tag := 29, n1 := if train then 1 else 0, z := trial }
  | .LogTrnTrl => { tag := 30 }
  | .LogTstTrl => { tag := 31 }
  | .LogTstEpc => { tag := 32 }
  | .LogRun => { tag := 33 }
  | .RunEnd => { tag := 34 }
  | .SaveWtsJSON => { tag := 35 }
  | .NewRun => { tag := 36 }
  | .RandSeed seed => { tag := 37, z := seed }
  | .PrjnSeed recv send seed => { tag := 38, n1 := recv.index, n2 := send.index, z := seed }
  | .InitWts => { tag := 39 }
  | .ConfigLayers seed => { tag := 40, z := seed }
  | .Defaults => { tag := 41 }
  | .ApplyParams => { tag := 42 }
  | .Build => { tag := 43 }
  | .LogPrintln msg => { tag := 44, s := msg }
  | .OpenPats => { tag := 45 }
  | .ConfigEnv => { tag := 46 }
  | .ConfigNet => { tag := 47 }
  | .ConfigLog name => { tag := 48, s := name }
  | .Init => { tag := 49 }
  | .Train => { tag := 50 }
  | .Stopped => { tag := 51 }
  | .ConfigGui => { tag := 52 }
  | .StartEventLoop => { tag := 53 }

/-- The operation with given data. -/
def Op.ofKey (k : OpKey) : Op :=
  match k.tag with
  | 0 => .WtFmDWt
  | 1 => .SetType (LayerType.atIndex k.n1)
  | 2 => .UpdateExtFlags
  | 3 => .SetECinAbs k.q
  | 4 => .SetCa3Abs k.q
  | 5 => .AlphaCycInit
  | 6 => .AlphaCycStart
  | 7 => .Cycle
  | 8 => .LogTstCyc
  | 9 => .CycleInc
  | 10 => .UpdateView (decide (k.n1 = 1))
  | 11 => .GScaleFmAvgAct
  | 12 => .InitGInc
  | 13 => .ApplyExt1D32
  | 14 => .QuarterFinal
  | 15 => .MemStats (decide (k.n1 = 1))
  | 16 => .QuarterInc
  | 17 => .DWt
  | 18 => .TstCycPlotUpdate
  | 19 => .TrialStats (decide (k.n1 = 1))
  | 20 => .LogTrnEpc
  | 21 => .TrainTrial
  | 22 => .TestTrial
  | 23 => .TestAll
  | 24 => .TestItem k.z
  | 25 => .EnvInit (decide (k.n1 = 1))
  | 26 => .ApplyInputs (decide (k.n1 = 1))
  | 27 => .InitExt
  | 28 => .ApplyExt (LayerName.atIndex k.n1)
  | 29 => .AlphaCyc (decide (k.n1 = 1)) k.z
  | 30 => .LogTrnTrl
  | 31 => .LogTstTrl
  | 32 => .LogTstEpc
  | 33 => .LogRun
  | 34 => .RunEnd
  | 35 => .SaveWtsJSON
  | 36 => .NewRun
  | 37 => .RandSeed k.z
  | 38 => .PrjnSeed (LayerName.atIndex k.n1) (LayerName.atIndex k.n2) k.z
  | 39 => .InitWts
  | 40 => .ConfigLayers k.z
  | 41 => .Defaults
  | 42 => .ApplyParams
  | 43 => .Build
  | 44 => .LogPrintln k.s
  | 45 => .OpenPats
  | 46 => .ConfigEnv
  | 47 => .ConfigNet
  | 48 => .ConfigLog k.s
  | 49 => .Init
  | 50 => .Train
  | 51 => .Stopped
  | 52 => .ConfigGui
  | _ => .StartEventLoop

/-- Operations are equal when their data are. -/
instance : DecidableEq Op := fun a b =>
  decidable_of_iff (a.toKey = b.toKey)
    ⟨fun h => by
      have e : ∀ o : Op, Op.ofKey o.toKey = o := by
        intro o
        cases o <;>
          first
          | rfl
          | (rename_i x; cases x <;> rfl)
          | (rename_i x y; cases x <;> rfl)
          | (rename_i x y z; cases x <;> cases y <;> rfl)
      rw [← e a, ← e b, h],
    fun h => by rw [h]⟩

/-- A logged operation with the gain pair (direct, recurrent) in force once
it has run. -/
structure Event where
  op : Op
  direct : ℚ
  recurrent : ℚ
  deriving DecidableEq

/-- An `env.Ctr` counter: current and previous value, change flag and
maximum. -/
structure Ctr where
  Cur : ℤ := 0
  Prv : ℤ := -1
  Chg : Bool := false
  Max : ℤ := 0
  deriving DecidableEq, Repr

/-- The part of an `env.FixedTable` environment that the simulation reads:
the three nested counters, the number of rows of the table in view
(`Table.Len()`), the name of the current trial and the name column of the
table, in the order of presentation. -/
structure FixedTable where
  Run : Ctr := {}
  Epoch : Ctr := {}
  Trial : Ctr := {}
  TableLen : ℕ := 0
  TrialName : String := ""
  Names : List String := []
  deriving DecidableEq, Repr

/-- A row of `TrnEpcLog` as far as it is filled from the epoch statistics
(the columns aggregated from `TrnTrlLog` and the layer statistics are left
out). -/
structure TrnEpcRow where
  Run : F64
  Epoch : F64
  SSE : F64
  AvgSSE : F64
  PctErr : F64
  PctCor : F64
  CosDiff : F64
  deriving DecidableEq

/-- A row of `TrnTrlLog`. -/
structure TrnTrlRow where
  Run : F64
  Epoch : F64
  Trial : F64
  TrialName : String
  SSE : F64
  AvgSSE : F64
  CosDiff : F64
  Mem : F64
  TrgOnWasOff : F64
  TrgOffWasOn : F64
  deriving DecidableEq

/-- A row of `TstTrlLog` (the columns of the layer statistics are left
out). -/
structure TstTrlRow where
  Run : F64
  Epoch : F64
  TestNm : String
  Trial : F64
  TrialName : String
  SSE : F64
  AvgSSE : F64
  CosDiff : F64
  Mem : F64
  TrgOnWasOff : F64
  TrgOffWasOn : F64
  deriving DecidableEq

/-- A row of `TstEpcLog`. -/
structure TstEpcRow where
  Run : F64
  Epoch : F64
  SSE : F64
  AvgSSE : F64
  PctErr : F64
  PctCor : F64
  CosDiff : F64
  ABMemPct : F64
  ABTrgOnWasOff : F64
  ABTrgOffWasOn : F64
  deriving DecidableEq

/-- A row of `RunLog` (the `Params` column, the name of the run, is left
out). -/
structure RunRow where
  Run : F64
  FirstZero : F64
  SSE : F64
  AvgSSE : F64
  PctErr : F64
  PctCor : F64
  CosDiff : F64
  ABMemPct : F64
  ABTrgOnWasOff : F64
  ABTrgOffWasOn : F64
  deriving DecidableEq

/-- What stops a computation: a Go run-time panic (an integer division by
zero, a slice bound out of range) or a loop that did not end within the
given number of iterations. -/
inductive Fault where
  | outOfFuel
  | divideByZero
  | sliceBounds
  deriving DecidableEq, Repr

/-- The fields of `Sim` used by the alpha cycle, the recall scorer, the
trial and epoch statistics and the trial scheduling.  The defaults are the
values that `Sim.New` assigns.  `TrainSL` and `TestSL` are the pattern tables
as far as the environments read them: the names of their rows.
`ParamsMaxEpcs` is the `Sim` sheet of the parameter set: the value it assigns
to `MaxEpcs`, if any. -/
structure Sim (σ : Type) where
  Net : Network σ
  Time : Time := {}
  ViewOn : Bool := true
  TrainUpdt : TimeScales := .AlphaCycle
  TestUpdt : TimeScales := .AlphaCycle
  MemThr : F64 := .fin (34 / 100)
  Mem : F64 := .fin 0
  TrgOnWasOffAll : F64 := .fin 0
  TrgOnWasOffCmp : F64 := .fin 0
  TrgOffWasOn : F64 := .fin 0
  TmpVals : List ℚ := []
  StopNow : Bool := false
  log : List Event := []
  TrainEnv : FixedTable := {}
  TrlSSE : F64 := .fin 0
  TrlAvgSSE : F64 := .fin 0
  TrlCosDiff : F64 := .fin 0
  EpcSSE : F64 := .fin 0
  EpcAvgSSE : F64 := .fin 0
  EpcPctErr : F64 := .fin 0
  EpcPctCor : F64 := .fin 0
  EpcCosDiff : F64 := .fin 0
  FirstZero : ℤ := 0
  SumSSE : F64 := .fin 0
  SumAvgSSE : F64 := .fin 0
  SumCosDiff : F64 := .fin 0
  CntErr : ℤ := 0
  TrnEpcLog : List TrnEpcRow := []
  TestEnv : FixedTable := {}
  TestNm : String := ""
  TrainSL : List String := []
  TestSL : List String := []
  MaxRuns : ℤ := 0
  MaxEpcs : ℤ := 0
  TrialperEpc : ℤ := 80
  TestInterval : ℤ := 1
  RndSeed : ℤ := 0
  SaveWts : Bool := false
  ParamsMaxEpcs : Option ℤ := none
  TrnTrlLog : List TrnTrlRow := []
  TstTrlLog : List TstTrlRow := []
  TstEpcLog : List TstEpcRow := []
  RunLog : List RunRow := []

variable {σ : Type}

/-- Append an operation to the ghost log, with the current gains. -/
def Sim.emit (o : Op) (ss : Sim σ) : Sim σ :=
  { ss with log := ss.log ++ [⟨o, ss.Net.ca1FmECinAbs, ss.Net.ca1FmCa3Abs⟩] }

/-! ## MemStats -/

/-- The six local counters of `MemStats`. -/
structure MemCounts where
  trgOnWasOffAll : ℕ := 0
  trgOnWasOffCmp : ℕ := 0
  trgOffWasOn : ℕ := 0
  cmpN : ℕ := 0
  trgOnN : ℕ := 0
  trgOffN : ℕ := 0
  deriving DecidableEq, Repr

/-- One iteration of the unit loop of `MemStats`. -/
def memStatsUnit (actm trg inact : ℚ) (c : MemCounts) : MemCounts :=
  if trg < 1 / 2 then
    let c := { c with trgOffN := c.trgOffN + 1 }
    if actm > 1 / 2 then { c with trgOffWasOn := c.trgOffWasOn + 1 } else c
  else
    let c := { c with trgOnN := c.trgOnN + 1 }
    if inact < 1 / 2 then
      let c := { c with cmpN := c.cmpN + 1 }
      if actm < 1 / 2 then
        { c with trgOnWasOffAll := c.trgOnWasOffAll + 1,
                 trgOnWasOffCmp := c.trgOnWasOffCmp + 1 }
      else c
    else
      if actm < 1 / 2 then { c with trgOnWasOffAll := c.trgOnWasOffAll + 1 } else c

/-- The unit loop of `MemStats` over `ni = 0 .. nn-1`. -/
def memStatsLoop (actm trg inact : ℕ → ℚ) (nn : ℕ) : MemCounts :=
  (List.range nn).foldl (fun c ni => memStatsUnit (actm ni) (trg ni) (inact ni) c) {}

/-- The counters `MemStats` obtains from the current network state. -/
def memStatsCounts (L : Leabra σ) (ss : Sim σ) : MemCounts :=
  memStatsLoop (L.UnitVal1D ss.Net.core .ECout .ActM) (L.UnitVal1D ss.Net.core .ECout .Targ)
    (L.UnitVal1D ss.Net.core .ECin .ActQ1) (L.ShapeLen ss.Net.core .ECout)

/-- `Sim.MemStats`.  The branch on `train` yields the state with the new
`Mem` and the final value of the local `trgOnWasOffCmp`, which is divided by
`cmpN` only in the test branch; the three statistics are stored afterwards. -/
def MemStats (L : Leabra σ) (train : Bool) (ss : Sim σ) : Sim σ :=
  let c := memStatsCounts L ss
  let trgOnWasOffAll := F64.div (F64.ofNat c.trgOnWasOffAll) (F64.ofNat c.trgOnN)
  let trgOffWasOn := F64.div (F64.ofNat c.trgOffWasOn) (F64.ofNat c.trgOffN)
  let ss := ss.emit (.MemStats train)
  let r : Sim σ × F64 :=
    if train then
      (if F64.lt trgOnWasOffAll ss.MemThr && F64.lt trgOffWasOn ss.MemThr then
          { ss with Mem := .fin 1 }
        else
          { ss with Mem := .fin 0 },
        F64.ofNat c.trgOnWasOffCmp)
    else
      if 0 < c.cmpN then
        let trgOnWasOffCmp := F64.div (F64.ofNat c.trgOnWasOffCmp) (F64.ofNat c.cmpN)
        (if F64.lt trgOnWasOffCmp ss.MemThr && F64.lt trgOffWasOn ss.MemThr then
            { ss with Mem := .fin 1 }
          else
            { ss with Mem := .fin 0 },
          trgOnWasOffCmp)
      else
        (ss, F64.ofNat c.trgOnWasOffCmp)
  { r.1 with TrgOnWasOffAll := trgOnWasOffAll,
             TrgOnWasOffCmp := r.2,
             TrgOffWasOn := trgOffWasOn }

/-! ## AlphaCyc -/

/-- A network call `ss.Net.f(...)`: the leabra state is replaced and the call
is logged. -/
def Sim.netOp (f : Network σ → σ) (o : Op) (ss : Sim σ) : Sim σ :=
  ({ ss with Net := { ss.Net with core := f ss.Net } }).emit o

/-- The assignment `ca1FmECin.WtScale.Abs = v`. -/
def Sim.setECinAbs (v : ℚ) (ss : Sim σ) : Sim σ :=
  ({ ss with Net := { ss.Net with ca1FmECinAbs := v } }).emit (.SetECinAbs v)

/-- The assignment `ca1FmCa3.WtScale.Abs = v`. -/
def Sim.setCa3Abs (v : ℚ) (ss : Sim σ) : Sim σ :=
  ({ ss with Net := { ss.Net with ca1FmCa3Abs := v } }).emit (.SetCa3Abs v)

/-- The call `ecout.SetType(t)`. -/
def Sim.SetType (t : LayerType) (ss : Sim σ) : Sim σ :=
  ({ ss with Net := { ss.Net with ecoutTyp := t } }).emit (.SetType t)

/-- The call `ss.Time.AlphaCycStart()`. -/
def Sim.AlphaCycStart (ss : Sim σ) : Sim σ :=
  ({ ss with Time := ss.Time.AlphaCycStart }).emit .AlphaCycStart

/-- The call `ss.Time.CycleInc()`. -/
def Sim.CycleInc (ss : Sim σ) : Sim σ :=
  ({ ss with Time := ss.Time.CycleInc }).emit .CycleInc

/-- The call `ss.Time.QuarterInc()`. -/
def Sim.QuarterInc (ss : Sim σ) : Sim σ :=
  ({ ss with Time := ss.Time.QuarterInc }).emit .QuarterInc

/-- The call `ss.UpdateView(train)`: an update of the display, which leaves
the simulation state alone. -/
def Sim.UpdateView (train : Bool) (ss : Sim σ) : Sim σ :=
  ss.emit (.UpdateView train)

/-- The call `ss.LogTstCyc(ss.TstCycLog, ss.Time.Cycle)`. -/
def Sim.LogTstCyc (ss : Sim σ) : Sim σ :=
  ss.emit .LogTstCyc

/-- The call `ss.TstCycPlot.GoUpdate()`. -/
def Sim.TstCycPlotUpdate (ss : Sim σ) : Sim σ :=
  ss.emit .TstCycPlotUpdate

/-- The clamp of `ECout` from `ECin`: `ecin.UnitVals(&ss.TmpVals, "Act")`
followed by `ecout.ApplyExt1D32(ss.TmpVals)`. -/
def Sim.clampECoutFmECin (L : Leabra σ) (ss : Sim σ) : Sim σ :=
  let ss := { ss with TmpVals := L.UnitVals ss.Net.core .ECin .Act }
  ss.netOp (fun n => L.ApplyExt1D32 n .ECout ss.TmpVals) .ApplyExt1D32

/-- The local `viewUpdt` of `AlphaCyc`. -/
def Sim.viewUpdt (train : Bool) (ss : Sim σ) : TimeScales :=
  if !train then ss.TestUpdt else ss.TrainUpdt

/-- The body of the inner loop of `AlphaCyc`, for cycle `cyc` of a quarter.
The copies of the layer activations that the loop collects for the CSV
output are reads without effect on the state and are left out. -/
def cycleStep (L : Leabra σ) (train : Bool) (viewUpdt : TimeScales) (cyc : ℕ)
    (ss : Sim σ) : Sim σ :=
  let ss := ss.netOp (fun n => L.Cycle n ss.Time) .Cycle
  let ss := if !train then ss.LogTstCyc else ss
  let ss := ss.CycleInc
  if ss.ViewOn then
    match viewUpdt with
    | .Cycle => ss.UpdateView train
    | .FastSpike => if (cyc + 1) % 10 = 0 then ss.UpdateView train else ss
    | _ => ss
  else ss

/-- The `switch qtr + 1` of `AlphaCyc`, executed after the cycles of a
quarter. -/
def quarterSwitch (L : Leabra σ) (train : Bool) (qtr : ℕ) (ss : Sim σ) : Sim σ :=
  match qtr + 1 with
  | 1 =>
    if train then
      let ss := ss.setECinAbs 0
      let ss := ss.setCa3Abs 1
      let ss := ss.netOp L.GScaleFmAvgAct .GScaleFmAvgAct
      ss.netOp L.InitGInc .InitGInc
    else ss
  | 3 =>
    let ss :=
      if train then
        let ss := ss.setECinAbs 1
        let ss := ss.setCa3Abs 0
        let ss := ss.netOp L.GScaleFmAvgAct .GScaleFmAvgAct
        ss.netOp L.InitGInc .InitGInc
      else ss
    if train then ss.clampECoutFmECin L else ss
  | _ => ss

/-- The body of the outer loop of `AlphaCyc`, for quarter `qtr`. -/
def quarterStep (L : Leabra σ) (train : Bool) (viewUpdt : TimeScales) (qtr : ℕ)
    (ss : Sim σ) : Sim σ :=
  let ss := (List.range 25).foldl (fun s cyc => cycleStep L train viewUpdt cyc s) ss
  let ss := quarterSwitch L train qtr ss
  let ss := ss.netOp (fun n => L.QuarterFinal n ss.Time) .QuarterFinal
  let ss := if qtr + 1 = 3 then MemStats L train ss else ss
  let ss := ss.QuarterInc
  if ss.ViewOn then
    if viewUpdt.toNat ≤ TimeScales.Quarter.toNat then ss.UpdateView train
    else if viewUpdt = .Phase then (if qtr ≥ 2 then ss.UpdateView train else ss)
    else ss
  else ss

/-- `Sim.AlphaCyc`, up to and including `ss.TstCycPlot.GoUpdate()`; the
writing of CSV files that follows reads the state and is left out. -/
def AlphaCyc (L : Leabra σ) (train : Bool) (ss : Sim σ) : Sim σ :=
  let viewUpdt := ss.viewUpdt train
  let ss := if train then ss.netOp L.WtFmDWt .WtFmDWt else ss
  let ss := if train then ss.SetType .Target else ss.SetType .Compare
  let ss := ss.netOp L.UpdateExtFlags .UpdateExtFlags
  let ss :=
    if train then
      let ss := ss.setECinAbs 1
      ss.setCa3Abs 0
    else ss
  let ss := ss.netOp L.AlphaCycInit .AlphaCycInit
  let ss := ss.AlphaCycStart
  let ss := (List.range 4).foldl (fun s qtr => quarterStep L train viewUpdt qtr s) ss
  let ss := if train then ss.netOp L.DWt .DWt else ss
  let ss := if ss.ViewOn && viewUpdt = .AlphaCycle then ss.UpdateView train else ss
  if !train then ss.TstCycPlotUpdate else ss

/-- The events that one call of `AlphaCyc` logs: the log of the call when it
is entered with an empty log.  (`AlphaCyc_log`: entered with any log, the
call appends exactly these events.) -/
def AlphaCycTrace (L : Leabra σ) (train : Bool) (ss : Sim σ) : List Event :=
  (AlphaCyc L train { ss with log := [] }).log

/-- Operations that only observe the simulation: display updates and the
test-cycle log. -/
def Op.isObserver : Op → Bool
  | .UpdateView _ => true
  | .LogTstCyc => true
  | .TstCycPlotUpdate => true
  | _ => false

/-- The logged operations that act on the simulation: a trace without its
observer events. -/
def simOps (t : List Event) : List Event :=
  t.filter (fun e => !e.op.isObserver)

/-- The trace of one call of `AlphaCyc` without observer events. -/
def AlphaCycOps (L : Leabra σ) (train : Bool) (ss : Sim σ) : List Event :=
  simOps (AlphaCycTrace L train ss)

/-- The 25 cycles of a quarter run under the gain pair `(a, b)`. -/
def cycles25 (a b : ℚ) : List Event :=
  (List.replicate 25 [Event.mk .Cycle a b, Event.mk .CycleInc a b]).flatten

/-- The operations of `AlphaCyc(true)` entered with gains `(a, b)`. -/
def trainOps (a b : ℚ) : List Event :=
  [⟨.WtFmDWt, a, b⟩, ⟨.SetType .Target, a, b⟩, ⟨.UpdateExtFlags, a, b⟩,
    ⟨.SetECinAbs 1, 1, b⟩, ⟨.SetCa3Abs 0, 1, 0⟩, ⟨.AlphaCycInit, 1, 0⟩,
    ⟨.AlphaCycStart, 1, 0⟩]
  ++ cycles25 1 0 ++
  [⟨.SetECinAbs 0, 0, 0⟩, ⟨.SetCa3Abs 1, 0, 1⟩, ⟨.GScaleFmAvgAct, 0, 1⟩, ⟨.InitGInc, 0, 1⟩,
    ⟨.QuarterFinal, 0, 1⟩, ⟨.QuarterInc, 0, 1⟩]
  ++ cycles25 0 1 ++
  [⟨.QuarterFinal, 0, 1⟩, ⟨.QuarterInc, 0, 1⟩]
  ++ cycles25 0 1 ++
  [⟨.SetECinAbs 1, 1, 1⟩, ⟨.SetCa3Abs 0, 1, 0⟩, ⟨.GScaleFmAvgAct, 1, 0⟩, ⟨.InitGInc, 1, 0⟩,
    ⟨.ApplyExt1D32, 1, 0⟩, ⟨.QuarterFinal, 1, 0⟩, ⟨.MemStats true, 1, 0⟩,
    ⟨.QuarterInc, 1, 0⟩]
  ++ cycles25 1 0 ++
  [⟨.QuarterFinal, 1, 0⟩, ⟨.QuarterInc, 1, 0⟩, ⟨.DWt, 1, 0⟩]

/-- The operations of `AlphaCyc(false)` entered with gains `(a, b)`. -/
def testOps (a b : ℚ) : List Event :=
  [⟨.SetType .Compare, a, b⟩, ⟨.UpdateExtFlags, a, b⟩, ⟨.AlphaCycInit, a, b⟩,
    ⟨.AlphaCycStart, a, b⟩]
  ++ cycles25 a b ++
  [⟨.QuarterFinal, a, b⟩, ⟨.QuarterInc, a, b⟩]
  ++ cycles25 a b ++
  [⟨.QuarterFinal, a, b⟩, ⟨.QuarterInc, a, b⟩]
  ++ cycles25 a b ++
  [⟨.QuarterFinal, a, b⟩, ⟨.MemStats false, a, b⟩, ⟨.QuarterInc, a, b⟩]
  ++ cycles25 a b ++
  [⟨.QuarterFinal, a, b⟩, ⟨.QuarterInc, a, b⟩]

/-- The state `ss` with the events `pre` put before its log. -/
def Sim.withPrefix (pre : List Event) (ss : Sim σ) : Sim σ :=
  { ss with log := pre ++ ss.log }

/-! ## Cohorts of the recall scorer -/

/-- Units of `ECout` whose target is on (`Targ ≥ 0.5`). -/
def onTargetUnits (L : Leabra σ) (c : σ) : Finset ℕ :=
  (Finset.range (L.ShapeLen c .ECout)).filter
    (fun i => 1 / 2 ≤ L.UnitVal1D c .ECout .Targ i)

/-- Units of `ECout` whose target is off (`Targ < 0.5`). -/
def offTargetUnits (L : Leabra σ) (c : σ) : Finset ℕ :=
  (Finset.range (L.ShapeLen c .ECout)).filter
    (fun i => L.UnitVal1D c .ECout .Targ i < 1 / 2)

/-- On-target units that were missed (`ActM < 0.5`). -/
def onTargetMisses (L : Leabra σ) (c : σ) : Finset ℕ :=
  (Finset.range (L.ShapeLen c .ECout)).filter
    (fun i => 1 / 2 ≤ L.UnitVal1D c .ECout .Targ i ∧ L.UnitVal1D c .ECout .ActM i < 1 / 2)

/-- Off-target units that were active (`ActM > 0.5`). -/
def offTargetFalsePositives (L : Leabra σ) (c : σ) : Finset ℕ :=
  (Finset.range (L.ShapeLen c .ECout)).filter
    (fun i => L.UnitVal1D c .ECout .Targ i < 1 / 2 ∧ 1 / 2 < L.UnitVal1D c .ECout .ActM i)

/-- Completion units: on-target and absent from the cue (`ECin` `ActQ1 < 0.5`). -/
def completionUnits (L : Leabra σ) (c : σ) : Finset ℕ :=
  (Finset.range (L.ShapeLen c .ECout)).filter
    (fun i => 1 / 2 ≤ L.UnitVal1D c .ECout .Targ i ∧ L.UnitVal1D c .ECin .ActQ1 i < 1 / 2)

/-- Completion units that were missed. -/
def completionMisses (L : Leabra σ) (c : σ) : Finset ℕ :=
  (Finset.range (L.ShapeLen c .ECout)).filter
    (fun i => 1 / 2 ≤ L.UnitVal1D c .ECout .Targ i ∧ L.UnitVal1D c .ECin .ActQ1 i < 1 / 2 ∧
      L.UnitVal1D c .ECout .ActM i < 1 / 2)

/-! ## A fixed layer snapshot, for concrete scenarios -/

/-- Unit values of one readout layer and its cue: `ECout` `ActM`, `ECout`
`Targ` and `ECin` `ActQ1`. -/
structure Units where
  actM : List ℚ
  targ : List ℚ
  actQ1 : List ℚ

/-- A network whose operations leave the unit values as they are. -/
def unitsLeabra : Leabra Units where
  ShapeLen := fun c _ => c.targ.length
  UnitVal1D := fun c ly v i =>
    match ly, v with
    | .ECout, .ActM => c.actM.getD i 0
    | .ECout, .Targ => c.targ.getD i 0
    | .ECin, .ActQ1 => c.actQ1.getD i 0
    | _, _ => 0
  WtFmDWt := fun n => n.core
  UpdateExtFlags := fun n => n.core
  AlphaCycInit := fun n => n.core
  Cycle := fun n _ => n.core
  GScaleFmAvgAct := fun n => n.core
  InitGInc := fun n => n.core
  ApplyExt1D32 := fun n _ _ => n.core
  QuarterFinal := fun n _ => n.core
  DWt := fun n => n.core
  CosDiffCos := fun _ _ => .fin 0
  MSE := fun _ _ _ => (.fin 0, .fin 0)
  InitExt := fun n => n.core
  ApplyExt := fun n _ _ _ => n.core
  InitWts := fun n => n.core
  ConfigLayers := fun n _ => n.core
  Defaults := fun n => n.core
  ApplyParams := fun n => n
  Build := fun n => (n.core, none)
  PrjnBuild := fun n _ _ _ => n.core

/-- The threshold that `Sim.New` assigns: `ss.MemThr = 0.34`. -/
def defaultMemThr : F64 := .fin (34 / 100)

/-- A simulation over a fixed layer snapshot, with given threshold and
previous `Mem`. -/
def unitsSim (u : Units) (thr mem : F64) : Sim Units :=
  { Net := { ca1FmECinAbs := 1, ca1FmCa3Abs := 1, ecoutTyp := .Target, core := u },
    MemThr := thr, Mem := mem }

/-- The 8-unit scenario of the specification. -/
def scenario8 : Units where
  actM := [9 / 10, 2 / 10, 1 / 10, 5 / 100, 8 / 10, 1 / 10, 5 / 100, 85 / 100]
  targ := [1, 1, 0, 0, 1, 0, 0, 1]
  actQ1 := [1, 0, 0, 0, 1, 0, 0, 1]

/-! ## Auxiliary definitions for the statements -/

/-- Three units, two of them completion units that are both missed. -/
def twoMissedCompletions : Units where
  actM := [0, 0, 0]
  targ := [1, 1, 0]
  actQ1 := [0, 0, 0]

/-- Two units, none of them on-target, none of them active: a perfect recall
of an empty pattern. -/
def allOffTarget : Units where
  actM := [0, 0]
  targ := [0, 0]
  actQ1 := [0, 0]

/-- Two units, both on-target, both present in the cue and both recalled. -/
def allOnTarget : Units where
  actM := [1, 1]
  targ := [1, 1]
  actQ1 := [1, 1]

/-- The operations that follow the cycles of quarter `qtr` (counted from 0)
in training mode, when the quarter was entered with gains `(a, b)`. -/
def trainQuarterEnd (qtr : ℕ) (a b : ℚ) : List Event :=
  match qtr + 1 with
  | 1 => [⟨.SetECinAbs 0, 0, b⟩, ⟨.SetCa3Abs 1, 0, 1⟩, ⟨.GScaleFmAvgAct, 0, 1⟩,
      ⟨.InitGInc, 0, 1⟩, ⟨.QuarterFinal, 0, 1⟩, ⟨.QuarterInc, 0, 1⟩]
  | 3 => [⟨.SetECinAbs 1, 1, b⟩, ⟨.SetCa3Abs 0, 1, 0⟩, ⟨.GScaleFmAvgAct, 1, 0⟩,
      ⟨.InitGInc, 1, 0⟩, ⟨.ApplyExt1D32, 1, 0⟩, ⟨.QuarterFinal, 1, 0⟩,
      ⟨.MemStats true, 1, 0⟩, ⟨.QuarterInc, 1, 0⟩]
  | _ => [⟨.QuarterFinal, a, b⟩, ⟨.QuarterInc, a, b⟩]

/-- The gain pair after quarter `qtr` in training mode. -/
def trainQuarterGains (qtr : ℕ) (a b : ℚ) : ℚ × ℚ :=
  match qtr + 1 with
  | 1 => (0, 1)
  | 3 => (1, 0)
  | _ => (a, b)

/-- The operations of a trace, without the gain pairs. -/
def opsOf (t : List Event) : List Op := t.map Event.op

/-- The four step operations: a network cycle, the cycle counter, the end of
a quarter and the quarter counter. -/
def Op.isStep : Op → Bool
  | .Cycle => true
  | .CycleInc => true
  | .QuarterFinal => true
  | .QuarterInc => true
  | _ => false

/-- The operations of the gain schedule: the gain writes, the rescaling
calls, the network cycles and the ends of the quarters. -/
def Op.isGainSchedule : Op → Bool
  | .SetECinAbs _ => true
  | .SetCa3Abs _ => true
  | .GScaleFmAvgAct => true
  | .InitGInc => true
  | .Cycle => true
  | .QuarterFinal => true
  | _ => false

/-- The gain pairs in force at the `Net.Cycle` calls of a trace. -/
def cycleGains (t : List Event) : List (ℚ × ℚ) :=
  (t.filter (fun e => e.op == Op.Cycle)).map (fun e => (e.direct, e.recurrent))

/-! ## Trial and epoch statistics -/

/-- `Sim.InitStats`. -/
def InitStats (ss : Sim σ) : Sim σ :=
  { ss with
    SumSSE := .fin 0
    SumAvgSSE := .fin 0
    SumCosDiff := .fin 0
    CntErr := 0
    FirstZero := -1
    Mem := .fin 0
    TrgOnWasOffAll := .fin 0
    TrgOnWasOffCmp := .fin 0
    TrgOffWasOn := .fin 0
    TrlSSE := .fin 0
    TrlAvgSSE := .fin 0
    EpcSSE := .fin 0
    EpcAvgSSE := .fin 0
    EpcPctErr := .fin 0
    EpcCosDiff := .fin 0 }

/-- `Sim.TrialStats`: the new state and the three named results, which the
function never assigns. -/
def TrialStats (L : Leabra σ) (accum : Bool) (ss : Sim σ) : Sim σ × (F64 × F64 × F64) :=
  let ss := { ss with TrlCosDiff := L.CosDiffCos ss.Net.core .ECout }
  let m := L.MSE ss.Net.core .ECout (1 / 2)
  let ss := { ss with TrlSSE := m.1, TrlAvgSSE := m.2 }
  let ss :=
    if accum then
      let ss := { ss with SumSSE := F64.add ss.SumSSE ss.TrlSSE }
      let ss := { ss with SumAvgSSE := F64.add ss.SumAvgSSE ss.TrlAvgSSE }
      let ss := { ss with SumCosDiff := F64.add ss.SumCosDiff ss.TrlCosDiff }
      if F64.ne ss.TrlSSE (.fin 0) then { ss with CntErr := ss.CntErr + 1 } else ss
    else ss
  (ss.emit (.TrialStats accum), (.fin 0, .fin 0, .fin 0))

/-- `Sim.LogTrnEpc`: the epoch statistics, the reset of the accumulators, the
first-zero epoch and the new row of `TrnEpcLog`.  The output to the plot and
to the log file is left out. -/
def LogTrnEpc (ss : Sim σ) : Sim σ :=
  let epc := ss.TrainEnv.Epoch.Prv
  let nt := F64.ofNat ss.TrainEnv.TableLen
  let ss := { ss with EpcSSE := F64.div ss.SumSSE nt }
  let ss := { ss with SumSSE := .fin 0 }
  let ss := { ss with EpcAvgSSE := F64.div ss.SumAvgSSE nt }
  let ss := { ss with SumAvgSSE := .fin 0 }
  let ss := { ss with EpcPctErr := F64.div (F64.ofInt ss.CntErr) nt }
  let ss := { ss with CntErr := 0 }
  let ss := { ss with EpcPctCor := F64.sub (.fin 1) ss.EpcPctErr }
  let ss := { ss with EpcCosDiff := F64.div ss.SumCosDiff nt }
  let ss := { ss with SumCosDiff := .fin 0 }
  let ss :=
    if ss.FirstZero < 0 && F64.eq ss.EpcPctErr (.fin 0) then { ss with FirstZero := epc }
    else ss
  let ss := { ss with TrnEpcLog := ss.TrnEpcLog ++
    [TrnEpcRow.mk (F64.ofInt ss.TrainEnv.Run.Cur) (F64.ofInt epc) ss.EpcSSE ss.EpcAvgSSE
      ss.EpcPctErr ss.EpcPctCor ss.EpcCosDiff] }
  ss.emit .LogTrnEpc

/-- What `LogTrnEpc` finds at the end of an epoch: the previous epoch index,
the error count, the accumulated sums and the length of the training table. -/
structure EpochEnd where
  epc : ℤ
  cntErr : ℤ
  tableLen : ℕ
  sumSSE : F64 := .fin 0
  sumAvgSSE : F64 := .fin 0
  sumCosDiff : F64 := .fin 0
  deriving DecidableEq

/-- The state `ss` with the counters and accumulators of an epoch end. -/
def Sim.atEpochEnd (e : EpochEnd) (ss : Sim σ) : Sim σ :=
  { ss with
    TrainEnv := { ss.TrainEnv with
      Epoch := { ss.TrainEnv.Epoch with Prv := e.epc }
      TableLen := e.tableLen }
    CntErr := e.cntErr
    SumSSE := e.sumSSE
    SumAvgSSE := e.sumAvgSSE
    SumCosDiff := e.sumCosDiff }

/-- A run of epochs as far as `FirstZero` is concerned: `LogTrnEpc` is called
at each epoch end; between the calls everything that `LogTrnEpc` reads except
`FirstZero` may have changed. -/
def finalizeEpochs (es : List EpochEnd) (ss : Sim σ) : Sim σ :=
  es.foldl (fun s e => LogTrnEpc (s.atEpochEnd e)) ss

/-- A network state that is the statistics of the trial just run: sum
squared error, average sum squared error and cosine difference of `ECout`. -/
structure TrialErr where
  sse : F64
  avgSSE : F64
  cosDiff : F64

/-- A network over `TrialErr` whose operations leave the state as it is. -/
def trialErrLeabra : Leabra TrialErr where
  ShapeLen := fun _ _ => 0
  UnitVal1D := fun _ _ _ _ => 0
  WtFmDWt := fun n => n.core
  UpdateExtFlags := fun n => n.core
  AlphaCycInit := fun n => n.core
  Cycle := fun n _ => n.core
  GScaleFmAvgAct := fun n => n.core
  InitGInc := fun n => n.core
  ApplyExt1D32 := fun n _ _ => n.core
  QuarterFinal := fun n _ => n.core
  DWt := fun n => n.core
  CosDiffCos := fun c _ => c.cosDiff
  MSE := fun c _ _ => (c.sse, c.avgSSE)
  InitExt := fun n => n.core
  ApplyExt := fun n _ _ _ => n.core
  InitWts := fun n => n.core
  ConfigLayers := fun n _ => n.core
  Defaults := fun n => n.core
  ApplyParams := fun n => n
  Build := fun n => (n.core, none)
  PrjnBuild := fun n _ _ _ => n.core

/-- The training trials of an epoch as far as the statistics are concerned:
for each trial the network reaches the state `t` and `TrialStats(true)` is
called. -/
def accumTrials (L : Leabra σ) (ts : List σ) (ss : Sim σ) : Sim σ :=
  ts.foldl (fun s t => (TrialStats L true { s with Net := { s.Net with core := t } }).1) ss

/-! ## Further definitions for the alpha cycle statements -/

/-- The writes of a pathway gain. -/
def Op.isGainWrite : Op → Bool
  | .SetECinAbs _ => true
  | .SetCa3Abs _ => true
  | _ => false

/-- The changes of the type of `ECout`. -/
def Op.isSetType : Op → Bool
  | .SetType _ => true
  | _ => false

/-- The operations of `AlphaCyc` that set or clear external input of a
layer. -/
def Op.isExtInput : Op → Bool
  | .ApplyExt1D32 => true
  | .SetType _ => true
  | .UpdateExtFlags => true
  | _ => false

/-- `AlphaCyc(true)` up to the point just before the clamp of `ECout`: the
start of the call, quarters 1 and 2, the 25 cycles of quarter 3 and the gain
switch that follows them. -/
def AlphaCycToClamp (L : Leabra σ) (ss : Sim σ) : Sim σ :=
  let viewUpdt := ss.viewUpdt true
  let ss := ss.netOp L.WtFmDWt .WtFmDWt
  let ss := ss.SetType .Target
  let ss := ss.netOp L.UpdateExtFlags .UpdateExtFlags
  let ss := ss.setECinAbs 1
  let ss := ss.setCa3Abs 0
  let ss := ss.netOp L.AlphaCycInit .AlphaCycInit
  let ss := ss.AlphaCycStart
  let ss := quarterStep L true viewUpdt 0 ss
  let ss := quarterStep L true viewUpdt 1 ss
  let ss := (List.range 25).foldl (fun s cyc => cycleStep L true viewUpdt cyc s) ss
  let ss := ss.setECinAbs 1
  let ss := ss.setCa3Abs 0
  let ss := ss.netOp L.GScaleFmAvgAct .GScaleFmAvgAct
  ss.netOp L.InitGInc .InitGInc

/-- `AlphaCyc(true)` from the point just after the clamp of `ECout`: the end
of quarter 3, quarter 4 and the end of the call. -/
def AlphaCycFromClamp (L : Leabra σ) (viewUpdt : TimeScales) (ss : Sim σ) : Sim σ :=
  let ss := ss.netOp (fun n => L.QuarterFinal n ss.Time) .QuarterFinal
  let ss := MemStats L true ss
  let ss := ss.QuarterInc
  let ss :=
    if ss.ViewOn then
      if viewUpdt.toNat ≤ TimeScales.Quarter.toNat then ss.UpdateView true
      else if viewUpdt = .Phase then ss.UpdateView true
      else ss
    else ss
  let ss := quarterStep L true viewUpdt 3 ss
  let ss := ss.netOp L.DWt .DWt
  if ss.ViewOn && viewUpdt = .AlphaCycle then ss.UpdateView true else ss

/-- The state without what only concerns observation and control: the view
settings, the stop flag and the observer events of the log. -/
def Sim.eraseObs (ss : Sim σ) : Sim σ :=
  { ss with
    ViewOn := false
    TrainUpdt := .Cycle
    TestUpdt := .Cycle
    StopNow := false
    log := simOps ss.log }

/-- The operations of `AlphaCyc(true)` before the clamp, when the call is
entered with gains `(a, b)`. -/
def trainOpsToClamp (a b : ℚ) : List Event :=
  [⟨.WtFmDWt, a, b⟩, ⟨.SetType .Target, a, b⟩, ⟨.UpdateExtFlags, a, b⟩,
    ⟨.SetECinAbs 1, 1, b⟩, ⟨.SetCa3Abs 0, 1, 0⟩, ⟨.AlphaCycInit, 1, 0⟩,
    ⟨.AlphaCycStart, 1, 0⟩]
  ++ cycles25 1 0 ++
  [⟨.SetECinAbs 0, 0, 0⟩, ⟨.SetCa3Abs 1, 0, 1⟩, ⟨.GScaleFmAvgAct, 0, 1⟩, ⟨.InitGInc, 0, 1⟩,
    ⟨.QuarterFinal, 0, 1⟩, ⟨.QuarterInc, 0, 1⟩]
  ++ cycles25 0 1 ++
  [⟨.QuarterFinal, 0, 1⟩, ⟨.QuarterInc, 0, 1⟩]
  ++ cycles25 0 1 ++
  [⟨.SetECinAbs 1, 1, 1⟩, ⟨.SetCa3Abs 0, 1, 0⟩, ⟨.GScaleFmAvgAct, 1, 0⟩, ⟨.InitGInc, 1, 0⟩]

/-- The operations of `AlphaCyc(true)` after the clamp. -/
def trainOpsFromClamp : List Event :=
  [⟨.QuarterFinal, 1, 0⟩, ⟨.MemStats true, 1, 0⟩, ⟨.QuarterInc, 1, 0⟩]
  ++ cycles25 1 0 ++
  [⟨.QuarterFinal, 1, 0⟩, ⟨.QuarterInc, 1, 0⟩, ⟨.DWt, 1, 0⟩]

/-- The 8-unit scenario watched at every cycle, with a stop requested. -/
def watchedSim : Sim Units :=
  { unitsSim scenario8 defaultMemThr (.fin 0) with
    ViewOn := true, TrainUpdt := .Cycle, TestUpdt := .FastSpike, StopNow := true }

/-- The 8-unit scenario without display. -/
def unwatchedSim : Sim Units :=
  { unitsSim scenario8 defaultMemThr (.fin 0) with
    ViewOn := false, TrainUpdt := .Epoch, TestUpdt := .Epoch, StopNow := false }

/-- A simulation with a training table of three rows, statistics initialised. -/
def threeRowSim : Sim TrialErr :=
  InitStats
    { Net := { ca1FmECinAbs := 1, ca1FmCa3Abs := 0, ecoutTyp := .Target,
               core := ⟨.fin 0, .fin 0, .fin 0⟩ },
      TrainEnv := { TableLen := 3 } }

/-- An epoch of two training trials with sum squared errors 1 and 2. -/
def twoTrials : List TrialErr :=
  [⟨.fin 1, .fin (1 / 8), .fin 1⟩, ⟨.fin 2, .fin (1 / 4), .fin 1⟩]

/-- Four epoch ends: error counts 3, 0, 1, 0 at epochs 0, 1, 2, 3. -/
def fourEpochs : List EpochEnd :=
  [{ epc := 0, cntErr := 3, tableLen := 8 }, { epc := 1, cntErr := 0, tableLen := 8 },
    { epc := 2, cntErr := 1, tableLen := 8 }, { epc := 3, cntErr := 0, tableLen := 8 }]

/-! ## Environments, logs, trial scheduling and configuration -/

/-- `Ctr.Init` of the env library: `Prv = -1`, `Cur = 0`, `Chg = false`; the
maximum stays. -/
def Ctr.Init (c : Ctr) : Ctr := { c with Prv := -1, Cur := 0, Chg := false }

/-- `Ctr.Same`: the counter did not change at this step. -/
def Ctr.Same (c : Ctr) : Ctr := { c with Chg := false }

/-- `Ctr.Incr`: the counter changes, keeps its old value in `Prv` and is
incremented; when `Max > 0` and the new value reaches `Max` it is reset to 0
and the result is `true`. -/
def Ctr.Incr (c : Ctr) : Ctr × Bool :=
  let c := { c with Chg := true, Prv := c.Cur, Cur := c.Cur + 1 }
  if 0 < c.Max ∧ c.Max ≤ c.Cur then ({ c with Cur := 0 }, true) else (c, false)

/-- `FixedTable.SetTrialName`: the name of the row of the current trial, when
the table has such a row. -/
def FixedTable.SetTrialName (ft : FixedTable) : FixedTable :=
  if 0 ≤ ft.Trial.Cur ∧ ft.Trial.Cur < ft.Names.length then
    { ft with TrialName := ft.Names.getD ft.Trial.Cur.toNat ft.TrialName }
  else ft

/-- The assignment `Table = etable.NewIdxView(t)` for a pattern table with
the rows `rows`. -/
def FixedTable.setTable (rows : List String) (ft : FixedTable) : FixedTable :=
  { ft with TableLen := rows.length, Names := rows }

/-- `FixedTable.Init(run)`: the three counters are initialised, the run
counter is set to `run`, a new order is made (`Trial.Max = Table.Len()`) and
the trial counter is put before the first trial. -/
def FixedTable.Init (run : ℤ) (ft : FixedTable) : FixedTable :=
  let ft := { ft with Run := ft.Run.Init, Epoch := ft.Epoch.Init, Trial := ft.Trial.Init }
  let ft := { ft with Run := { ft.Run with Cur := run } }
  let ft := { ft with Trial := { ft.Trial with Max := ft.TableLen } }
  { ft with Trial := { ft.Trial with Cur := -1 } }

/-- `FixedTable.Step`: the epoch counter is marked unchanged, the trial
counter is incremented and, when it wrapped, the epoch counter too; then the
trial name is looked up. -/
def FixedTable.Step (ft : FixedTable) : FixedTable :=
  let ft := { ft with Epoch := ft.Epoch.Same }
  let r := ft.Trial.Incr
  let ft := { ft with Trial := r.1 }
  let ft := if r.2 then { ft with Epoch := ft.Epoch.Incr.1 } else ft
  ft.SetTrialName

/-- `Time.Reset`. -/
def Time.Reset (_t : Time) : Time := { Cycle := 0, Quarter := 0 }

/-- `math.IsNaN`. -/
def F64.isNaN : F64 → Bool
  | .nan => true
  | _ => false

/-- The values of a column that the `agg` functions of etable take into
account: those that are not NaN. -/
def aggVals (col : List F64) : List F64 := col.filter (fun v => !v.isNaN)

/-- `agg.Sum` over a column. -/
def aggSum (col : List F64) : F64 := (aggVals col).foldl F64.add (.fin 0)

/-- `agg.Mean` over a column: the sum divided by the count, when that is
positive. -/
def aggMean (col : List F64) : F64 :=
  if 0 < (aggVals col).length then F64.div (aggSum col) (F64.ofNat (aggVals col).length)
  else aggSum col

/-- `agg.PropIf` over a column: the number of values that satisfy `p` divided
by the count, when that is positive. -/
def aggPropIf (p : F64 → Bool) (col : List F64) : F64 :=
  if 0 < (aggVals col).length then
    F64.div (F64.ofNat ((aggVals col).filter p).length) (F64.ofNat (aggVals col).length)
  else F64.ofNat ((aggVals col).filter p).length

/-- `Sim.NewRndSeed`: `ss.RndSeed = time.Now().UnixNano()`. -/
def NewRndSeed (now : ℤ) (ss : Sim σ) : Sim σ := { ss with RndSeed := now }

/-- `Sim.LogTrnTrl`.  The update of the plot is left out. -/
def LogTrnTrl (ss : Sim σ) : Sim σ :=
  let epc := ss.TrainEnv.Epoch.Cur
  let trl := ss.TrainEnv.Trial.Cur
  let row := if trl = 0 then 0 else ss.TrnTrlLog.length
  let ss := { ss with TrnTrlLog := ss.TrnTrlLog.take row ++
    [TrnTrlRow.mk (F64.ofInt ss.TrainEnv.Run.Cur) (F64.ofInt epc) (F64.ofInt trl)
      ss.TestEnv.TrialName ss.TrlSSE ss.TrlAvgSSE ss.TrlCosDiff ss.Mem ss.TrgOnWasOffAll
      ss.TrgOffWasOn] }
  ss.emit .LogTrnTrl

/-- `Sim.LogTstTrl`.  The columns of the layer statistics and the update of
the plot are left out. -/
def LogTstTrl (ss : Sim σ) : Sim σ :=
  let epc := ss.TrainEnv.Epoch.Prv
  let trl := ss.TestEnv.Trial.Cur
  let row := if ss.TestNm = "AB" ∧ trl = 0 then 0 else ss.TstTrlLog.length
  let ss := { ss with TstTrlLog := ss.TstTrlLog.take row ++
    [TstTrlRow.mk (F64.ofInt ss.TrainEnv.Run.Cur) (F64.ofInt epc) ss.TestNm (F64.ofNat row)
      ss.TestEnv.TrialName ss.TrlSSE ss.TrlAvgSSE ss.TrlCosDiff ss.Mem ss.TrgOnWasOffCmp
      ss.TrgOffWasOn] }
  ss.emit .LogTstTrl

/-- `Sim.LogTstEpc`: one new row of `TstEpcLog`, aggregated from `TstTrlLog`.
The update of the plot is left out. -/
def LogTstEpc (ss : Sim σ) : Sim σ :=
  let trl := ss.TstTrlLog
  let epc := ss.TrainEnv.Epoch.Prv
  let trlab := trl.filter (fun r => r.TestNm == "AB")
  let ss := { ss with TstEpcLog := ss.TstEpcLog ++
    [TstEpcRow.mk (F64.ofInt ss.TrainEnv.Run.Cur) (F64.ofInt epc)
      (aggSum (trl.map TstTrlRow.SSE))
      (aggMean (trl.map TstTrlRow.AvgSSE))
      (aggPropIf (fun val => F64.lt (.fin 0) val) (trl.map TstTrlRow.SSE))
      (aggPropIf (fun val => F64.eq val (.fin 0)) (trl.map TstTrlRow.SSE))
      (aggMean (trl.map TstTrlRow.CosDiff))
      (aggMean (trlab.map TstTrlRow.Mem))
      (aggMean (trlab.map TstTrlRow.TrgOnWasOff))
      (aggMean (trlab.map TstTrlRow.TrgOffWasOn))] }
  ss.emit .LogTstEpc

/-- `Sim.LogRun`: one new row of `RunLog` with the means over the rows of
`TstEpcLog` from index `Len() - nlast - 1` on, `nlast = 1`; the slice
expression panics when that index is negative.  The `Params` column, the
table `RunStats`, the plot and the file output are left out. -/
def LogRun (ss : Sim σ) : Except Fault (Sim σ) :=
  let run := ss.TrainEnv.Run.Cur
  let epclog := ss.TstEpcLog
  let nlast : ℤ := 1
  let lo : ℤ := epclog.length - nlast - 1
  if lo < 0 then .error .sliceBounds
  else
    let epcix := epclog.drop lo.toNat
    let ss := { ss with RunLog := ss.RunLog ++
      [RunRow.mk (F64.ofInt run) (F64.ofInt ss.FirstZero)
        (aggMean (epcix.map TstEpcRow.SSE))
        (aggMean (epcix.map TstEpcRow.AvgSSE))
        (aggMean (epcix.map TstEpcRow.PctErr))
        (aggMean (epcix.map TstEpcRow.PctCor))
        (aggMean (epcix.map TstEpcRow.CosDiff))
        (aggMean (epcix.map TstEpcRow.ABMemPct))
        (aggMean (epcix.map TstEpcRow.ABTrgOnWasOff))
        (aggMean (epcix.map TstEpcRow.ABTrgOffWasOn))] }
    .ok (ss.emit .LogRun)

/-- `Sim.ApplyInputs(en)`, with `en` the training environment when `train`
and the test environment otherwise: the external inputs are cleared and the
patterns of the current trial of `en` are applied to `Input` and `ECout`. -/
def ApplyInputs (L : Leabra σ) (train : Bool) (ss : Sim σ) : Sim σ :=
  let trl := if train then ss.TrainEnv.Trial.Cur else ss.TestEnv.Trial.Cur
  let ss := ss.emit (.ApplyInputs train)
  let ss := ss.netOp L.InitExt .InitExt
  let ss := ss.netOp (fun n => L.ApplyExt n .Input trl train) (.ApplyExt .Input)
  ss.netOp (fun n => L.ApplyExt n .ECout trl train) (.ApplyExt .ECout)

/-- The call `ss.AlphaCyc(train)` of a trial: the call is logged with the
index of the current trial of the environment in use, then `AlphaCyc`
runs. -/
def callAlphaCyc (L : Leabra σ) (train : Bool) (ss : Sim σ) : Sim σ :=
  AlphaCyc L train
    (ss.emit (.AlphaCyc train (if train then ss.TrainEnv.Trial.Cur else ss.TestEnv.Trial.Cur)))

/-- `Sim.TestTrial`. -/
def TestTrial (L : Leabra σ) (ss : Sim σ) : Sim σ :=
  let ss := ss.emit .TestTrial
  let ss := { ss with TestEnv := ss.TestEnv.Step }
  if ss.TestEnv.Epoch.Chg then
    if ss.ViewOn && decide (TimeScales.AlphaCycle.toNat < ss.TestUpdt.toNat) then
      ss.UpdateView false
    else ss
  else
    let ss := ApplyInputs L false ss
    let ss := callAlphaCyc L false ss
    let ss := (TrialStats L false ss).1
    LogTstTrl ss

/-- `Sim.TestItem(idx)`, for an index `idx` of a row of the test table.  For
another index the row lookup of the environment decides what happens, in code
of the library; that case is not modelled. -/
def TestItem (L : Leabra σ) (idx : ℤ) (ss : Sim σ) : Sim σ :=
  let ss := ss.emit (.TestItem idx)
  let cur := ss.TestEnv.Trial.Cur
  let ss := { ss with TestEnv := { ss.TestEnv with Trial := { ss.TestEnv.Trial with Cur := idx } } }
  let ss := { ss with TestEnv := ss.TestEnv.SetTrialName }
  let ss := ApplyInputs L false ss
  let ss := callAlphaCyc L false ss
  let ss := (TrialStats L false ss).1
  { ss with TestEnv := { ss.TestEnv with Trial := { ss.TestEnv.Trial with Cur := cur } } }

/-- The loop of `TestAll`, entered for its iteration `i` with `fuel`
iterations left to spend.  `StopNow` is written by `Sim.Stop`, which the user
interface calls while the loop runs: `stop i` tells whether that happened
during iteration `i`. -/
def testLoop (L : Leabra σ) (stop : ℕ → Bool) : ℕ → ℕ → Sim σ → Except Fault (Sim σ)
  | 0, _, _ => .error .outOfFuel
  | fuel + 1, i, ss =>
    let ss := TestTrial L ss
    let ss := if stop i then { ss with StopNow := true } else ss
    if ss.TestEnv.Epoch.Chg || ss.StopNow then .ok ss
    else testLoop L stop fuel (i + 1) ss

/-- `Sim.TestAll`, with at most `fuel` iterations of its loop. -/
def TestAll (L : Leabra σ) (stop : ℕ → Bool) (fuel : ℕ) (ss : Sim σ) : Except Fault (Sim σ) :=
  let ss := ss.emit .TestAll
  let ss := { ss with TestNm := "AB" }
  let ss := { ss with TestEnv := ss.TestEnv.setTable ss.TestSL }
  let ss := ({ ss with TestEnv := ss.TestEnv.Init ss.TrainEnv.Run.Cur }).emit (.EnvInit false)
  match testLoop L stop fuel 0 ss with
  | .error f => .error f
  | .ok ss => .ok (LogTstEpc ss)

/-- `Sim.RunEnd`.  The name of the weights file is not modelled. -/
def RunEnd (ss : Sim σ) : Except Fault (Sim σ) :=
  let ss := ss.emit .RunEnd
  match LogRun ss with
  | .error f => .error f
  | .ok ss => .ok (if ss.SaveWts then ss.emit .SaveWtsJSON else ss)

/-- `Sim.NewRun`, with `now` the reading of the clock in `NewRndSeed`. -/
def NewRun (L : Leabra σ) (now : ℤ) (ss : Sim σ) : Sim σ :=
  let ss := ss.emit .NewRun
  let ss := NewRndSeed now ss
  let run := ss.TrainEnv.Run.Cur
  let ss := ({ ss with TrainEnv := ss.TrainEnv.Init run }).emit (.EnvInit true)
  let ss := ({ ss with TestEnv := ss.TestEnv.Init run }).emit (.EnvInit false)
  let ss := { ss with Time := ss.Time.Reset }
  let ss := ss.netOp L.InitWts .InitWts
  let ss := InitStats ss
  let ss := { ss with TrnTrlLog := [] }
  let ss := { ss with TrnEpcLog := [] }
  let ss := { ss with TstEpcLog := [] }
  let ss := ss.netOp (fun n => L.PrjnBuild n .CA3 .ECin ss.RndSeed) (.PrjnSeed .CA3 .ECin ss.RndSeed)
  let ss := ss.netOp (fun n => L.PrjnBuild n .DG .ECin ss.RndSeed) (.PrjnSeed .DG .ECin ss.RndSeed)
  let ss := ss.netOp (fun n => L.PrjnBuild n .CA3 .DG ss.RndSeed) (.PrjnSeed .CA3 .DG ss.RndSeed)
  let ss := ss.netOp L.InitWts .InitWts
  { ss with TrainEnv := { ss.TrainEnv with Trial := { ss.TrainEnv.Trial with Max := ss.TrialperEpc } } }

/-- The end of `TrainTrial`: the inputs of the training trial, the alpha
cycle, the trial statistics and the trial log. -/
def trainStep (L : Leabra σ) (ss : Sim σ) : Sim σ :=
  let ss := ApplyInputs L true ss
  let ss := callAlphaCyc L true ss
  let ss := (TrialStats L true ss).1
  LogTrnTrl ss

/-- The part of `TrainTrial` that follows the query of the epoch counter,
with `now` the reading of the clock should a new run begin.  The remainder
`epc % TestInterval` panics for `TestInterval = 0`. -/
def trainTrialRest (L : Leabra σ) (now : ℤ) (stop : ℕ → Bool) (fuel : ℕ) (ss : Sim σ) :
    Except Fault (Sim σ) :=
  let epc := ss.TrainEnv.Epoch.Cur
  if ss.TrainEnv.Epoch.Chg then
    let ss := LogTrnEpc ss
    let ss :=
      if ss.ViewOn && decide (TimeScales.AlphaCycle.toNat < ss.TrainUpdt.toNat) then
        ss.UpdateView true
      else ss
    if ss.TestInterval = 0 then .error .divideByZero
    else
      match (if Int.tmod epc ss.TestInterval = 0 then TestAll L stop fuel ss else .ok ss) with
      | .error f => .error f
      | .ok ss =>
        if ss.MaxEpcs ≤ epc then
          match RunEnd ss with
          | .error f => .error f
          | .ok ss =>
            let r := ss.TrainEnv.Run.Incr
            let ss := { ss with TrainEnv := { ss.TrainEnv with Run := r.1 } }
            if r.2 then .ok { ss with StopNow := true }
            else .ok (NewRun L now ss)
        else .ok (trainStep L ss)
  else .ok (trainStep L ss)

/-- `Sim.TrainTrial`, with at most `fuel` iterations for each loop of
`TestAll`. -/
def TrainTrial (L : Leabra σ) (now : ℤ) (stop : ℕ → Bool) (fuel : ℕ) (ss : Sim σ) :
    Except Fault (Sim σ) :=
  let ss := ss.emit .TrainTrial
  let ss := { ss with TrainEnv := ss.TrainEnv.Step }
  match (if ss.TrainEnv.Epoch.Cur = 0 ∧ ss.TrainEnv.Trial.Cur = 0 then TestAll L stop fuel ss
    else .ok ss) with
  | .error f => .error f
  | .ok ss => trainTrialRest L now stop fuel ss

/-- `Sim.ConfigEnv`.  The validation of the environments is left out. -/
def ConfigEnv (ss : Sim σ) : Sim σ :=
  let ss := if ss.MaxRuns = 0 then { ss with MaxRuns := 10 } else ss
  let ss := if ss.MaxEpcs = 0 then { ss with MaxEpcs := 50 } else ss
  let ss := { ss with TrainEnv := ss.TrainEnv.setTable ss.TrainSL }
  let ss := { ss with TrainEnv := { ss.TrainEnv with Run := { ss.TrainEnv.Run with Max := ss.MaxRuns } } }
  let ss := { ss with TrainEnv :=
    { ss.TrainEnv with Trial := { ss.TrainEnv.Trial with Max := ss.TrialperEpc } } }
  let ss := { ss with TestEnv := ss.TestEnv.setTable ss.TestSL }
  let ss := ({ ss with TrainEnv := ss.TrainEnv.Init 0 }).emit (.EnvInit true)
  ({ ss with TestEnv := ss.TestEnv.Init 0 }).emit (.EnvInit false)

/-- `Sim.SetParams(sheet, setMsg)` for the parameter set `Base`: the network
sheet is applied to the network, the `Sim` sheet to the simulation.  The
error result, which no caller reads, is left out. -/
def SetParams (L : Leabra σ) (sheet : String) (ss : Sim σ) : Sim σ :=
  let ss :=
    if sheet = "" ∨ sheet = "Network" then
      ({ ss with Net := L.ApplyParams ss.Net }).emit .ApplyParams
    else ss
  if sheet = "" ∨ sheet = "Sim" then
    match ss.ParamsMaxEpcs with
    | some v => { ss with MaxEpcs := v }
    | none => ss
  else ss

/-- `Sim.ConfigNet`, with `now` the reading of the clock in `NewRndSeed`.
The function has no result: when `net.Build()` fails the error is printed
with `log.Println` and the function returns. -/
def ConfigNet (L : Leabra σ) (now : ℤ) (ss : Sim σ) : Sim σ :=
  let ss := ss.emit .ConfigNet
  let ss := NewRndSeed now ss
  let ss := ss.netOp (fun n => L.ConfigLayers n ss.RndSeed) (.ConfigLayers ss.RndSeed)
  let ss := ss.netOp L.Defaults .Defaults
  let ss := SetParams L "Network" ss
  let r := L.Build ss.Net
  let ss := ss.netOp (fun _ => r.1) .Build
  match r.2 with
  | some err => ss.emit (.LogPrintln err)
  | none => ss.netOp L.InitWts .InitWts

/-- `Sim.OpenPats`: the pattern tables are read; `trainSL` and `testSL` are
the tables found in the files. -/
def OpenPats (trainSL testSL : List String) (ss : Sim σ) : Sim σ :=
  ({ ss with TrainSL := trainSL, TestSL := testSL }).emit .OpenPats

/-- `Sim.Config`.  The configuration of a log table is logged only. -/
def Config (L : Leabra σ) (trainSL testSL : List String) (now : ℤ) (ss : Sim σ) : Sim σ :=
  let ss := OpenPats trainSL testSL ss
  let ss := (ConfigEnv ss).emit .ConfigEnv
  let ss := ConfigNet L now ss
  let ss := ss.emit (.ConfigLog "TrnTrlLog")
  let ss := ss.emit (.ConfigLog "TrnEpcLog")
  let ss := ss.emit (.ConfigLog "TstEpcLog")
  let ss := ss.emit (.ConfigLog "TstTrlLog")
  let ss := ss.emit (.ConfigLog "TstCycLog")
  ss.emit (.ConfigLog "RunLog")

/-- `Sim.Init`, with `now` the reading of the clock in the `NewRndSeed` of
`NewRun`. -/
def Init (L : Leabra σ) (now : ℤ) (ss : Sim σ) : Sim σ :=
  let ss := ss.emit .Init
  let ss := ss.emit (.RandSeed ss.RndSeed)
  let ss := (ConfigEnv ss).emit .ConfigEnv
  let ss := { ss with StopNow := false }
  let ss := SetParams L "" ss
  let ss := NewRun L now ss
  ss.UpdateView true

/-- The loop of `Sim.Train`, entered for trial `i` with `n` trials left to
spend; `now i` is the reading of the clock during trial `i`. -/
def trainLoop (L : Leabra σ) (now : ℕ → ℤ) (stop : ℕ → Bool) (fuel : ℕ) :
    ℕ → ℕ → Sim σ → Except Fault (Sim σ)
  | 0, _, _ => .error .outOfFuel
  | n + 1, i, ss =>
    match TrainTrial L (now i) stop fuel ss with
    | .error f => .error f
    | .ok ss => if ss.StopNow then .ok ss else trainLoop L now stop fuel n (i + 1) ss

/-- `Sim.Train`, with at most `n` trials. -/
def Train (L : Leabra σ) (now : ℕ → ℤ) (stop : ℕ → Bool) (fuel n : ℕ) (ss : Sim σ) :
    Except Fault (Sim σ) :=
  let ss := ({ ss with StopNow := false }).emit .Train
  match trainLoop L now stop fuel n 0 ss with
  | .error f => .error f
  | .ok ss => .ok (ss.emit .Stopped)

/-- `Sim.New` for a blank network `net`: the defaults of the fields. -/
def New (net : Network σ) : Sim σ := { Net := net }

/-- `Sim.CmdArgs`: the flags `runs` and `wts` are stored, then `Init` and
`Train` run.  The other flags and the log files are left out. -/
def CmdArgs (L : Leabra σ) (runs : ℤ) (wts : Bool) (t1 : ℤ) (now : ℕ → ℤ) (stop : ℕ → Bool)
    (fuel n : ℕ) (ss : Sim σ) : Except Fault (Sim σ) :=
  let ss := { ss with MaxRuns := runs, SaveWts := wts }
  let ss := Init L t1 ss
  Train L now stop fuel n ss

/-- The function `mainrun`: `New`, `Config` and then, with command-line
arguments (`args`), `CmdArgs`, without them `Init` and the user interface.
`t0` and `t1` are the readings of the clock in `ConfigNet` and in `Init`. -/
def mainrun (L : Leabra σ) (net : Network σ) (trainSL testSL : List String) (args : Bool)
    (runs : ℤ) (wts : Bool) (t0 t1 : ℤ) (now : ℕ → ℤ) (stop : ℕ → Bool) (fuel n : ℕ) :
    Except Fault (Sim σ) :=
  let ss : Sim σ := New net
  let ss := Config L trainSL testSL t0 ss
  if args then CmdArgs L runs wts t1 now stop fuel n ss
  else
    let ss := Init L t1 ss
    let ss := ss.emit .ConfigGui
    .ok (ss.emit .StartEventLoop)

/-- The calls of the run control: the methods of `Sim` that schedule trials
and write logs, and the initialisation of an environment. -/
def Op.isCall : Op → Bool
  | .TrainTrial => true
  | .TestTrial => true
  | .TestAll => true
  | .EnvInit _ => true
  | .ApplyInputs _ => true
  | .AlphaCyc _ _ => true
  | .TrialStats _ => true
  | .LogTrnTrl => true
  | .LogTstTrl => true
  | .LogTstEpc => true
  | .LogTrnEpc => true
  | .RunEnd => true
  | .LogRun => true
  | .NewRun => true
  | _ => false

/-- The calls of the run control in a trace, in order. -/
def calls (t : List Event) : List Op := (opsOf t).filter Op.isCall

/-- The calls of a test trial that presents trial `trl`. -/
def testTrialCalls (trl : ℤ) : List Op :=
  [.TestTrial, .ApplyInputs false, .AlphaCyc false trl, .TrialStats false, .LogTstTrl]

/-- The calls of an evaluation pass that presents the trials `0 .. k-1` and
ends, when `wrapped`, with a test trial in which the epoch changes. -/
def testAllCalls (k : ℕ) (wrapped : Bool) : List Op :=
  [.TestAll, .EnvInit false] ++
    ((List.range k).map (fun i : ℕ => testTrialCalls (i : ℤ))).flatten ++
    (if wrapped then [.TestTrial] else []) ++ [.LogTstEpc]

/-- The calls of the training trial `trl`. -/
def trainCalls (trl : ℤ) : List Op :=
  [.ApplyInputs true, .AlphaCyc true trl, .TrialStats true, .LogTrnTrl]

/-- The state `s0` with the fields that an evaluation pass writes taken from
`s`: those that `AlphaCyc` writes, the test environment, the name of the test,
the stop flag, the trial statistics and the two test logs. -/
def Sim.keepTest (s0 s : Sim σ) : Sim σ :=
  { s0 with
    Net := s.Net, Time := s.Time, log := s.log, TmpVals := s.TmpVals, Mem := s.Mem,
    TrgOnWasOffAll := s.TrgOnWasOffAll, TrgOnWasOffCmp := s.TrgOnWasOffCmp,
    TrgOffWasOn := s.TrgOffWasOn, TestEnv := s.TestEnv, TestNm := s.TestNm,
    StopNow := s.StopNow, TrlSSE := s.TrlSSE, TrlAvgSSE := s.TrlAvgSSE,
    TrlCosDiff := s.TrlCosDiff, TstTrlLog := s.TstTrlLog, TstEpcLog := s.TstEpcLog }

/-- The state `s0` with the fields that `AlphaCyc` writes (the network, the
time, the log, the scratch values and the recall statistics) taken from
`s`. -/
def Sim.keepOuter (s0 s : Sim σ) : Sim σ :=
  { s0 with
    Net := s.Net, Time := s.Time, log := s.log, TmpVals := s.TmpVals, Mem := s.Mem,
    TrgOnWasOffAll := s.TrgOnWasOffAll, TrgOnWasOffCmp := s.TrgOnWasOffCmp,
    TrgOffWasOn := s.TrgOffWasOn }

/-- The four calls of the training trial proper: the training inputs, the
alpha cycle with training, the trial statistics with accumulation and the
training trial log. -/
def Op.isTrainStep : Op → Bool
  | .ApplyInputs true => true
  | .AlphaCyc true _ => true
  | .TrialStats true => true
  | .LogTrnTrl => true
  | _ => false

/-- A row of `TstEpcLog` with the given sum squared error; `Mem` is 1 when
the error is 0. -/
def tstEpcRow (epc : ℤ) (sse : ℚ) : TstEpcRow :=
  { Run := .fin 0, Epoch := F64.ofInt epc, SSE := .fin sse, AvgSSE := .fin (sse / 8),
    PctErr := .fin (if sse = 0 then 0 else 1), PctCor := .fin (if sse = 0 then 1 else 0),
    CosDiff := .fin 1, ABMemPct := .fin (if sse = 0 then 1 else 0), ABTrgOnWasOff := .fin 0,
    ABTrgOffWasOn := .fin 0 }

/-- A simulation over the 8-unit scenario in the course of a run: a training
table of three rows, a test table of two rows, epochs of three trials, runs of
two epochs, two runs; the training environment is at run `run`, epoch `epc`
and trial `trl`, and `TstEpcLog` holds the rows `rows`. -/
def trialSim (run epc trl : ℤ) (rows : List TstEpcRow) : Sim Units :=
  { unitsSim scenario8 defaultMemThr (.fin 0) with
    TrainSL := ["a", "b", "c"], TestSL := ["a", "b"], MaxRuns := 2, MaxEpcs := 2,
    TrialperEpc := 3, TestInterval := 1,
    TrainEnv := { Run := { Cur := run, Max := 2 }, Epoch := { Cur := epc }, Trial := { Cur := trl, Max := 3 },
                  TableLen := 3, Names := ["a", "b", "c"] },
    TstEpcLog := rows }

/-- A network like `unitsLeabra` whose `Build` fails. -/
def failingLeabra : Leabra Units :=
  { unitsLeabra with Build := fun n => (n.core, some "build failed") }

/-- A blank network over layer snapshots. -/
def blankNet : Network Units :=
  { ca1FmECinAbs := 1, ca1FmCa3Abs := 1, ecoutTyp := .Target, core := ⟨[], [], []⟩ }

/-- The operations of `Config` up to the build of the network, in a
configuration in which `ConfigNet` reads the clock at `t0`. -/
def configOps (t0 : ℤ) : List Op :=
  [.OpenPats, .EnvInit true, .EnvInit false, .ConfigEnv, .ConfigNet, .ConfigLayers t0, .Defaults,
    .ApplyParams, .Build]

/-- The operations of `Config` after `ConfigNet`: the configuration of the
six log tables. -/
def configLogOps : List Op :=
  [.ConfigLog "TrnTrlLog", .ConfigLog "TrnEpcLog", .ConfigLog "TstEpcLog", .ConfigLog "TstTrlLog",
    .ConfigLog "TstCycLog", .ConfigLog "RunLog"]

/-- The operations of `Init` called with `RndSeed = seed` when the clock
reads `now`: the global generator is seeded with `seed`, the three random
projections with `now`. -/
def initOps (seed now : ℤ) : List Op :=
  [.Init, .RandSeed seed, .EnvInit true, .EnvInit false, .ConfigEnv, .ApplyParams, .NewRun,
    .EnvInit true, .EnvInit false, .InitWts, .PrjnSeed .CA3 .ECin now, .PrjnSeed .DG .ECin now,
    .PrjnSeed .CA3 .DG now, .InitWts, .UpdateView true]

/-- A simulation in which the training environment presents the trial named
`a` and the test environment holds the name `b`, with `n` rows in
`TrnTrlLog` and the training trial counter at `trl`. -/
def namedSim (trl : ℤ) (n : ℕ) : Sim Units :=
  { unitsSim scenario8 defaultMemThr (.fin 0) with
    TrainEnv := { Run := { Cur := 1 }, Epoch := { Cur := 2 }, Trial := { Cur := trl },
                  TrialName := "a" },
    TestEnv := { TrialName := "b" },
    TrnTrlLog := List.replicate n
      (TrnTrlRow.mk (.fin 1) (.fin 2) (.fin 0) "old" (.fin 0) (.fin 0) (.fin 0) (.fin 0) (.fin 0)
        (.fin 0)) }

/-- The operations that seed a random generator: `rand.Seed` for the global
one, and the assignment of `RndSeed` to the pattern of a projection. -/
def Op.isSeed : Op → Bool
  | .RandSeed _ => true
  | .PrjnSeed _ _ _ => true
  | _ => false

/-- A call of a leabra operation as the recording network keeps it: the
operation with its arguments, the time for a step operation, and the two
afferent gains of the network at a `Cycle` or `GScaleFmAvgAct` call. -/
inductive NetCall where
  | wtFmDWt
  | updateExtFlags (ecout : LayerType)
  | alphaCycInit
  | cycle (t : Time) (a b : ℚ)
  | gScaleFmAvgAct (a b : ℚ)
  | initGInc
  | applyExt1D32 (ly : LayerName) (vals : List ℚ)
  | quarterFinal (t : Time)
  | dWt
  | initExt
  | applyExt (ly : LayerName) (trl : ℤ) (train : Bool)
  deriving DecidableEq, Repr

/-- The records of `Cycle` calls. -/
def NetCall.isCycle : NetCall → Bool
  | .cycle _ _ _ => true
  | _ => false

/-- The records of `QuarterFinal` calls. -/
def NetCall.isQuarterFinal : NetCall → Bool
  | .quarterFinal _ => true
  | _ => false

/-- The time argument of the record of a step operation (`Cycle`,
`QuarterFinal`). -/
def NetCall.stepTime : NetCall → Option Time
  | .cycle t _ _ => some t
  | .quarterFinal t => some t
  | _ => none

/-- The gains kept in the record of a `Cycle` call. -/
def NetCall.cycleGains : NetCall → Option (ℚ × ℚ)
  | .cycle _ a b => some (a, b)
  | _ => none

/-- A network that records the calls of the trial loop: its state is the
list of the calls made so far, each operation appends its record.  Its `ECout`
layer has two units, both off target; the first is active in the minus phase
once three `QuarterFinal` calls are recorded, the second once 76 `Cycle` calls
are recorded, so that the recall statistics tell when they were computed.
The operations of the configuration are not recorded. -/
def recLeabra : Leabra (List NetCall) where
  ShapeLen := fun _ ly =>
    match ly with
    | .ECout => 2
    | _ => 0
  UnitVal1D := fun c ly v i =>
    match ly, v with
    | .ECout, .ActM =>
      if i = 0 then (if 3 ≤ (c.filter NetCall.isQuarterFinal).length then 1 else 0)
      else (if 76 ≤ (c.filter NetCall.isCycle).length then 1 else 0)
    | _, _ => 0
  WtFmDWt := fun n => n.core ++ [.wtFmDWt]
  UpdateExtFlags := fun n => n.core ++ [.updateExtFlags n.ecoutTyp]
  AlphaCycInit := fun n => n.core ++ [.alphaCycInit]
  Cycle := fun n t => n.core ++ [.cycle t n.ca1FmECinAbs n.ca1FmCa3Abs]
  GScaleFmAvgAct := fun n => n.core ++ [.gScaleFmAvgAct n.ca1FmECinAbs n.ca1FmCa3Abs]
  InitGInc := fun n => n.core ++ [.initGInc]
  ApplyExt1D32 := fun n ly vals => n.core ++ [.applyExt1D32 ly vals]
  QuarterFinal := fun n t => n.core ++ [.quarterFinal t]
  DWt := fun n => n.core ++ [.dWt]
  CosDiffCos := fun _ _ => .fin 0
  MSE := fun _ _ _ => (.fin 0, .fin 0)
  InitExt := fun n => n.core ++ [.initExt]
  ApplyExt := fun n ly trl train => n.core ++ [.applyExt ly trl train]
  InitWts := fun n => n.core
  ConfigLayers := fun n _ => n.core
  Defaults := fun n => n.core
  ApplyParams := fun n => n
  Build := fun n => (n.core, none)
  PrjnBuild := fun n _ _ _ => n.core

/-- The records of `n` successive `Cycle` calls that start at time `t`, with
gains `(a, b)`. -/
def recCycles (t : Time) (n : ℕ) (a b : ℚ) : List NetCall :=
  (List.range n).map (fun c : ℕ => NetCall.cycle { Cycle := t.Cycle + c, Quarter := t.Quarter } a b)

/-- The recording network after one quarter of `AlphaCyc` that starts at time
`t` with network `n`: 25 `Cycle` records, the records of the switch of the
quarter, and the `QuarterFinal` record. -/
def recQuarter (train : Bool) (qtr : ℕ) (t : Time) (n : Network (List NetCall)) :
    Network (List NetCall) :=
  match train, qtr with
  | true, 0 =>
    { n with
      ca1FmECinAbs := 0, ca1FmCa3Abs := 1,
      core := n.core ++ recCycles t 25 n.ca1FmECinAbs n.ca1FmCa3Abs ++
        [.gScaleFmAvgAct 0 1, .initGInc,
          .quarterFinal { Cycle := t.Cycle + 25, Quarter := t.Quarter }] }
  | true, 2 =>
    { n with
      ca1FmECinAbs := 1, ca1FmCa3Abs := 0,
      core := n.core ++ recCycles t 25 n.ca1FmECinAbs n.ca1FmCa3Abs ++
        [.gScaleFmAvgAct 1 0, .initGInc, .applyExt1D32 .ECout [],
          .quarterFinal { Cycle := t.Cycle + 25, Quarter := t.Quarter }] }
  | _, _ =>
    { n with
      core := n.core ++ recCycles t 25 n.ca1FmECinAbs n.ca1FmCa3Abs ++
        [.quarterFinal { Cycle := t.Cycle + 25, Quarter := t.Quarter }] }

/-- The calls that one `AlphaCyc(true)` makes on the network, as the
recording network keeps them. -/
def recTrain : List NetCall :=
  [.wtFmDWt, .updateExtFlags .Target, .alphaCycInit] ++
    recCycles { Cycle := 0, Quarter := 0 } 25 1 0 ++
    [.gScaleFmAvgAct 0 1, .initGInc, .quarterFinal { Cycle := 25, Quarter := 0 }] ++
    recCycles { Cycle := 25, Quarter := 1 } 25 0 1 ++
    [.quarterFinal { Cycle := 50, Quarter := 1 }] ++
    recCycles { Cycle := 50, Quarter := 2 } 25 0 1 ++
    [.gScaleFmAvgAct 1 0, .initGInc, .applyExt1D32 .ECout [],
      .quarterFinal { Cycle := 75, Quarter := 2 }] ++
    recCycles { Cycle := 75, Quarter := 3 } 25 1 0 ++
    [.quarterFinal { Cycle := 100, Quarter := 3 }, .dWt]

/-- The calls that one `AlphaCyc(false)` makes on the network, entered with
gains `(a, b)`, as the recording network keeps them. -/
def recTest (a b : ℚ) : List NetCall :=
  [.updateExtFlags .Compare, .alphaCycInit] ++
    recCycles { Cycle := 0, Quarter := 0 } 25 a b ++
    [.quarterFinal { Cycle := 25, Quarter := 0 }] ++
    recCycles { Cycle := 25, Quarter := 1 } 25 a b ++
    [.quarterFinal { Cycle := 50, Quarter := 1 }] ++
    recCycles { Cycle := 50, Quarter := 2 } 25 a b ++
    [.quarterFinal { Cycle := 75, Quarter := 2 }] ++
    recCycles { Cycle := 75, Quarter := 3 } 25 a b ++
    [.quarterFinal { Cycle := 100, Quarter := 3 }]

/-- The calls of one `AlphaCyc` on the recording network. -/
def recTrace (train : Bool) (a b : ℚ) : List NetCall :=
  if train then recTrain else recTest a b

/-- A simulation over the recording network with a test table of the two rows
`a` and `b` and the trial counter of the test environment at `trl`. -/
def recSim (trl : ℤ) : Sim (List NetCall) :=
  { Net := { ca1FmECinAbs := 1, ca1FmCa3Abs := 1, ecoutTyp := .Target, core := [] },
    TestEnv := { Trial := { Cur := trl, Max := 2 }, TableLen := 2, Names := ["a", "b"] } }

/-- The weight-update records of the recording network. -/
def NetCall.isWeight : NetCall → Bool
  | .wtFmDWt => true
  | .dWt => true
  | _ => false

/-! ## Lemmas on the unit loop -/

theorem memStatsLoop_succ (actm trg inact : ℕ → ℚ) (n : ℕ) :
    memStatsLoop actm trg inact (n + 1) =
      memStatsUnit (actm n) (trg n) (inact n) (memStatsLoop actm trg inact n) := by
  simp [memStatsLoop, List.range_succ, List.foldl_append]

theorem card_filter_range_succ (p : ℕ → Prop) [DecidablePred p] (n : ℕ) :
    ((Finset.range (n + 1)).filter p).card =
      ((Finset.range n).filter p).card + (if p n then 1 else 0) := by
  rw [Finset.range_succ, Finset.filter_insert]
  by_cases h : p n
  · rw [if_pos h, if_pos h, Finset.card_insert_of_not_mem]
    intro hm
    exact absurd (Finset.mem_filter.mp hm).1 Finset.not_mem_range_self
  · rw [if_neg h, if_neg h, Nat.add_zero]

theorem memStatsUnit_fields (actm trg inact : ℚ) (c : MemCounts) :
    (memStatsUnit actm trg inact c).trgOnN = c.trgOnN + (if 1 / 2 ≤ trg then 1 else 0) ∧
    (memStatsUnit actm trg inact c).trgOffN = c.trgOffN + (if trg < 1 / 2 then 1 else 0) ∧
    (memStatsUnit actm trg inact c).trgOnWasOffAll =
      c.trgOnWasOffAll + (if 1 / 2 ≤ trg ∧ actm < 1 / 2 then 1 else 0) ∧
    (memStatsUnit actm trg inact c).trgOffWasOn =
      c.trgOffWasOn + (if trg < 1 / 2 ∧ 1 / 2 < actm then 1 else 0) ∧
    (memStatsUnit actm trg inact c).cmpN =
      c.cmpN + (if 1 / 2 ≤ trg ∧ inact < 1 / 2 then 1 else 0) ∧
    (memStatsUnit actm trg inact c).trgOnWasOffCmp =
      c.trgOnWasOffCmp + (if 1 / 2 ≤ trg ∧ inact < 1 / 2 ∧ actm < 1 / 2 then 1 else 0) := by
  unfold memStatsUnit
  by_cases ht : trg < 1 / 2
  · have ht2 : ¬ (1 / 2 ≤ trg) := not_le.mpr ht
    by_cases ha : actm > 1 / 2
    · have ha2 : 1 / 2 < actm := ha
      simp only [if_pos ht, if_pos ha, if_pos ha2, ht, ht2, ha2, and_self, true_and,
        false_and, if_false, if_true, Nat.add_zero, and_true]
    · have ha2 : ¬ (1 / 2 < actm) := ha
      simp only [if_pos ht, if_neg ha, ht, ht2, ha2, and_self, true_and,
        false_and, if_false, if_true, Nat.add_zero, and_true, and_false]
  · have ht2 : 1 / 2 ≤ trg := not_lt.mp ht
    by_cases hi : inact < 1 / 2 <;> by_cases ha : actm < 1 / 2 <;>
      simp only [ht, ht2, hi, ha, if_false, if_true,
        and_self, true_and, false_and, Nat.add_zero, and_true, and_false]

theorem memStatsLoop_counts (actm trg inact : ℕ → ℚ) (n : ℕ) :
    (memStatsLoop actm trg inact n).trgOnN =
        ((Finset.range n).filter (fun i => 1 / 2 ≤ trg i)).card ∧
    (memStatsLoop actm trg inact n).trgOffN =
        ((Finset.range n).filter (fun i => trg i < 1 / 2)).card ∧
    (memStatsLoop actm trg inact n).trgOnWasOffAll =
        ((Finset.range n).filter (fun i => 1 / 2 ≤ trg i ∧ actm i < 1 / 2)).card ∧
    (memStatsLoop actm trg inact n).trgOffWasOn =
        ((Finset.range n).filter (fun i => trg i < 1 / 2 ∧ 1 / 2 < actm i)).card ∧
    (memStatsLoop actm trg inact n).cmpN =
        ((Finset.range n).filter (fun i => 1 / 2 ≤ trg i ∧ inact i < 1 / 2)).card ∧
    (memStatsLoop actm trg inact n).trgOnWasOffCmp =
        ((Finset.range n).filter
          (fun i => 1 / 2 ≤ trg i ∧ inact i < 1 / 2 ∧ actm i < 1 / 2)).card := by
  induction n with
  | zero => exact ⟨rfl, rfl, rfl, rfl, rfl, rfl⟩
  | succ n ih =>
    obtain ⟨h1, h2, h3, h4, h5, h6⟩ := ih
    obtain ⟨u1, u2, u3, u4, u5, u6⟩ :=
      memStatsUnit_fields (actm n) (trg n) (inact n) (memStatsLoop actm trg inact n)
    rw [memStatsLoop_succ]
    refine ⟨?_, ?_, ?_, ?_, ?_, ?_⟩
    · rw [u1, h1, card_filter_range_succ]
    · rw [u2, h2, card_filter_range_succ]
    · rw [u3, h3, card_filter_range_succ]
    · rw [u4, h4, card_filter_range_succ]
    · rw [u5, h5, card_filter_range_succ]
    · rw [u6, h6, card_filter_range_succ]

theorem memStatsCounts_eq (L : Leabra σ) (ss : Sim σ) :
    (memStatsCounts L ss).trgOnN = (onTargetUnits L ss.Net.core).card ∧
    (memStatsCounts L ss).trgOffN = (offTargetUnits L ss.Net.core).card ∧
    (memStatsCounts L ss).trgOnWasOffAll = (onTargetMisses L ss.Net.core).card ∧
    (memStatsCounts L ss).trgOffWasOn = (offTargetFalsePositives L ss.Net.core).card ∧
    (memStatsCounts L ss).cmpN = (completionUnits L ss.Net.core).card ∧
    (memStatsCounts L ss).trgOnWasOffCmp = (completionMisses L ss.Net.core).card :=
  memStatsLoop_counts _ _ _ _

/-! ## Lemmas on MemStats -/

theorem F64.div_ofNat_pos (a b : ℕ) (hb : 0 < b) :
    F64.div (F64.ofNat a) (F64.ofNat b) = F64.fin ((a : ℚ) / (b : ℚ)) := by
  have h : ((b : ℕ) : ℚ) ≠ 0 := Nat.cast_ne_zero.mpr (Nat.pos_iff_ne_zero.mp hb)
  simp [F64.div, F64.ofNat, h]

theorem F64.div_ofNat_zero_zero : F64.div (F64.ofNat 0) (F64.ofNat 0) = F64.nan := by
  simp [F64.div, F64.ofNat]

theorem F64.lt_nan_left (x : F64) : F64.lt F64.nan x = false := by
  cases x <;> rfl

theorem MemStats_TrgOnWasOffAll (L : Leabra σ) (train : Bool) (ss : Sim σ) :
    (MemStats L train ss).TrgOnWasOffAll =
      F64.div (F64.ofNat (onTargetMisses L ss.Net.core).card)
        (F64.ofNat (onTargetUnits L ss.Net.core).card) := by
  obtain ⟨h1, -, h3, -, -, -⟩ := memStatsCounts_eq L ss
  simp only [MemStats, h1, h3]

theorem MemStats_TrgOffWasOn (L : Leabra σ) (train : Bool) (ss : Sim σ) :
    (MemStats L train ss).TrgOffWasOn =
      F64.div (F64.ofNat (offTargetFalsePositives L ss.Net.core).card)
        (F64.ofNat (offTargetUnits L ss.Net.core).card) := by
  obtain ⟨-, h2, -, h4, -, -⟩ := memStatsCounts_eq L ss
  simp only [MemStats, h2, h4]

theorem MemStats_TrgOnWasOffCmp (L : Leabra σ) (train : Bool) (ss : Sim σ) :
    (MemStats L train ss).TrgOnWasOffCmp =
      if train = false ∧ 0 < (completionUnits L ss.Net.core).card then
        F64.div (F64.ofNat (completionMisses L ss.Net.core).card)
          (F64.ofNat (completionUnits L ss.Net.core).card)
      else F64.ofNat (completionMisses L ss.Net.core).card := by
  obtain ⟨-, -, -, -, h5, h6⟩ := memStatsCounts_eq L ss
  simp only [MemStats, h5, h6]
  cases train
  · by_cases hc : 0 < (completionUnits L ss.Net.core).card <;> simp [hc]
  · simp

theorem MemStats_Mem (L : Leabra σ) (train : Bool) (ss : Sim σ) :
    (MemStats L train ss).Mem =
      if train = true then
        (if F64.lt (MemStats L train ss).TrgOnWasOffAll ss.MemThr &&
            F64.lt (MemStats L train ss).TrgOffWasOn ss.MemThr then F64.fin 1 else F64.fin 0)
      else if 0 < (completionUnits L ss.Net.core).card then
        (if F64.lt (MemStats L train ss).TrgOnWasOffCmp ss.MemThr &&
            F64.lt (MemStats L train ss).TrgOffWasOn ss.MemThr then F64.fin 1 else F64.fin 0)
      else ss.Mem := by
  obtain ⟨-, -, -, -, h5, -⟩ := memStatsCounts_eq L ss
  cases train
  · by_cases hc : 0 < (completionUnits L ss.Net.core).card
    · simp only [MemStats, h5, hc, Sim.emit]
      split_ifs <;> simp_all
    · simp [MemStats, h5, hc, Sim.emit]
  · simp only [MemStats, Sim.emit]
    split_ifs <;> simp_all

theorem onTargetUnits_card_pos (L : Leabra σ) (c : σ)
    (h : ∃ i, i < L.ShapeLen c .ECout ∧ 1 / 2 ≤ L.UnitVal1D c .ECout .Targ i) :
    0 < (onTargetUnits L c).card := by
  obtain ⟨i, hi, ht⟩ := h
  exact Finset.card_pos.mpr ⟨i, Finset.mem_filter.mpr ⟨Finset.mem_range.mpr hi, ht⟩⟩

theorem offTargetUnits_card_pos (L : Leabra σ) (c : σ)
    (h : ∃ i, i < L.ShapeLen c .ECout ∧ L.UnitVal1D c .ECout .Targ i < 1 / 2) :
    0 < (offTargetUnits L c).card := by
  obtain ⟨i, hi, ht⟩ := h
  exact Finset.card_pos.mpr ⟨i, Finset.mem_filter.mpr ⟨Finset.mem_range.mpr hi, ht⟩⟩

theorem completionUnits_card_pos (L : Leabra σ) (c : σ)
    (h : ∃ i, i < L.ShapeLen c .ECout ∧ 1 / 2 ≤ L.UnitVal1D c .ECout .Targ i ∧
      L.UnitVal1D c .ECin .ActQ1 i < 1 / 2) :
    0 < (completionUnits L c).card := by
  obtain ⟨i, hi, ht⟩ := h
  exact Finset.card_pos.mpr ⟨i, Finset.mem_filter.mpr ⟨Finset.mem_range.mpr hi, ht⟩⟩

/-! ## Concrete scenarios: lemmas -/

theorem scenario8_counts (thr mem : F64) :
    memStatsCounts unitsLeabra (unitsSim scenario8 thr mem) =
      { trgOnWasOffAll := 1, trgOnWasOffCmp := 1, trgOffWasOn := 0, cmpN := 1,
        trgOnN := 4, trgOffN := 4 } := by
  have hr : List.range 8 = [0, 1, 2, 3, 4, 5, 6, 7] := rfl
  norm_num [memStatsCounts, memStatsLoop, unitsLeabra, unitsSim, scenario8, hr, memStatsUnit]

theorem scenario8_cards :
    (onTargetUnits unitsLeabra scenario8).card = 4 ∧
    (offTargetUnits unitsLeabra scenario8).card = 4 ∧
    (onTargetMisses unitsLeabra scenario8).card = 1 ∧
    (offTargetFalsePositives unitsLeabra scenario8).card = 0 ∧
    (completionUnits unitsLeabra scenario8).card = 1 ∧
    (completionMisses unitsLeabra scenario8).card = 1 := by
  have h := memStatsCounts_eq unitsLeabra (unitsSim scenario8 (.fin 0) (.fin 0))
  rw [scenario8_counts] at h
  obtain ⟨h1, h2, h3, h4, h5, h6⟩ := h
  exact ⟨h1.symm, h2.symm, h3.symm, h4.symm, h5.symm, h6.symm⟩

theorem twoMissedCompletions_counts (thr mem : F64) :
    memStatsCounts unitsLeabra (unitsSim twoMissedCompletions thr mem) =
      { trgOnWasOffAll := 2, trgOnWasOffCmp := 2, trgOffWasOn := 0, cmpN := 2,
        trgOnN := 2, trgOffN := 1 } := by
  have hr : List.range 3 = [0, 1, 2] := rfl
  norm_num [memStatsCounts, memStatsLoop, unitsLeabra, unitsSim, twoMissedCompletions, hr,
    memStatsUnit]

theorem allOffTarget_counts (thr mem : F64) :
    memStatsCounts unitsLeabra (unitsSim allOffTarget thr mem) =
      { trgOnWasOffAll := 0, trgOnWasOffCmp := 0, trgOffWasOn := 0, cmpN := 0,
        trgOnN := 0, trgOffN := 2 } := by
  have hr : List.range 2 = [0, 1] := rfl
  norm_num [memStatsCounts, memStatsLoop, unitsLeabra, unitsSim, allOffTarget, hr, memStatsUnit]

theorem allOnTarget_counts (thr mem : F64) :
    memStatsCounts unitsLeabra (unitsSim allOnTarget thr mem) =
      { trgOnWasOffAll := 0, trgOnWasOffCmp := 0, trgOffWasOn := 0, cmpN := 0,
        trgOnN := 2, trgOffN := 0 } := by
  have hr : List.range 2 = [0, 1] := rfl
  norm_num [memStatsCounts, memStatsLoop, unitsLeabra, unitsSim, allOnTarget, hr, memStatsUnit]

/-! ## The recall scorer: claims -/

/-- C3: when the `ECout` layer has an on-target unit (`Targ ≥ 0.5`) and an
off-target unit (`Targ < 0.5`), `MemStats` stores, in training and in test
mode alike, `TrgOnWasOffAll` = (number of units with `Targ ≥ 0.5` and
`ActM < 0.5`) / (number of units with `Targ ≥ 0.5`) and `TrgOffWasOn` =
(number of units with `Targ < 0.5` and `ActM > 0.5`) / (number of units with
`Targ < 0.5`).  The comparisons are those of the cohort definitions: a target
of exactly 0.5 is on-target, an `ActM` of exactly 0.5 is neither a miss nor a
false positive. -/
theorem MemStats_hitAll_falsePositive (L : Leabra σ) (train : Bool) (ss : Sim σ)
    (hOn : ∃ i, i < L.ShapeLen ss.Net.core .ECout ∧
      1 / 2 ≤ L.UnitVal1D ss.Net.core .ECout .Targ i)
    (hOff : ∃ i, i < L.ShapeLen ss.Net.core .ECout ∧
      L.UnitVal1D ss.Net.core .ECout .Targ i < 1 / 2) :
    (MemStats L train ss).TrgOnWasOffAll =
        F64.fin (((onTargetMisses L ss.Net.core).card : ℚ) /
          ((onTargetUnits L ss.Net.core).card : ℚ)) ∧
    (MemStats L train ss).TrgOffWasOn =
        F64.fin (((offTargetFalsePositives L ss.Net.core).card : ℚ) /
          ((offTargetUnits L ss.Net.core).card : ℚ)) := by
  rw [MemStats_TrgOnWasOffAll, MemStats_TrgOffWasOn]
  exact ⟨F64.div_ofNat_pos _ _ (onTargetUnits_card_pos L _ hOn),
    F64.div_ofNat_pos _ _ (offTargetUnits_card_pos L _ hOff)⟩

/-- Witness for C3: in the 8-unit scenario of the specification the two
cohorts are non-empty (4 on-target units with 1 miss, 4 off-target units with
no false positive) and the stored ratios are 0.25 and 0. -/
theorem MemStats_hitAll_falsePositive_witness :
    (MemStats unitsLeabra true (unitsSim scenario8 defaultMemThr (.fin 0))).TrgOnWasOffAll
        = F64.fin (1 / 4) ∧
    (MemStats unitsLeabra true (unitsSim scenario8 defaultMemThr (.fin 0))).TrgOffWasOn
        = F64.fin 0 := by
  have h := MemStats_hitAll_falsePositive unitsLeabra true
    (unitsSim scenario8 defaultMemThr (.fin 0))
    ⟨0, by decide, by norm_num [unitsLeabra, unitsSim, scenario8]⟩
    ⟨2, by decide, by norm_num [unitsLeabra, unitsSim, scenario8]⟩
  obtain ⟨c1, c2, c3, c4, -, -⟩ := scenario8_cards
  have e : (unitsSim scenario8 defaultMemThr (.fin 0)).Net.core = scenario8 := rfl
  rw [e, c1, c2, c3, c4] at h
  norm_num at h
  exact h

/-- C4: in test mode (`train = false`), when a completion unit exists (an
`ECout` unit with `Targ ≥ 0.5` whose `ECin` `ActQ1` is below 0.5), `MemStats`
stores `TrgOnWasOffCmp` = (number of completion units with `ActM < 0.5`) /
(number of completion units). -/
theorem MemStats_test_hitCompletion (L : Leabra σ) (ss : Sim σ)
    (hCmp : ∃ i, i < L.ShapeLen ss.Net.core .ECout ∧
      1 / 2 ≤ L.UnitVal1D ss.Net.core .ECout .Targ i ∧
      L.UnitVal1D ss.Net.core .ECin .ActQ1 i < 1 / 2) :
    (MemStats L false ss).TrgOnWasOffCmp =
      F64.fin (((completionMisses L ss.Net.core).card : ℚ) /
        ((completionUnits L ss.Net.core).card : ℚ)) := by
  have hc := completionUnits_card_pos L _ hCmp
  rw [MemStats_TrgOnWasOffCmp, if_pos ⟨rfl, hc⟩]
  exact F64.div_ofNat_pos _ _ hc

/-- Witness for C4: in the 8-unit scenario unit 1 is the only completion unit
and it is missed, so the stored completion ratio is 1. -/
theorem MemStats_test_hitCompletion_witness :
    (MemStats unitsLeabra false
      (unitsSim scenario8 defaultMemThr (.fin 0))).TrgOnWasOffCmp = F64.fin 1 := by
  have h := MemStats_test_hitCompletion unitsLeabra
    (unitsSim scenario8 defaultMemThr (.fin 0))
    ⟨1, by decide, by norm_num [unitsLeabra, unitsSim, scenario8],
      by norm_num [unitsLeabra, unitsSim, scenario8]⟩
  obtain ⟨-, -, -, -, c5, c6⟩ := scenario8_cards
  have e : (unitsSim scenario8 defaultMemThr (.fin 0)).Net.core = scenario8 := rfl
  rw [e, c5, c6] at h
  norm_num at h
  exact h

/-- C5 (fails in training mode): with two completion units that are both
missed, `MemStats(train = true)` leaves in `TrgOnWasOffCmp` the miss count 2,
which is not in [0,1], although the completion cohort is non-empty; the test
branch divides the same count by `cmpN` and stores 1. -/
theorem MemStats_train_hitCompletion_is_count :
    (∃ i, i < unitsLeabra.ShapeLen twoMissedCompletions .ECout ∧
      1 / 2 ≤ unitsLeabra.UnitVal1D twoMissedCompletions .ECout .Targ i ∧
      unitsLeabra.UnitVal1D twoMissedCompletions .ECin .ActQ1 i < 1 / 2) ∧
    (MemStats unitsLeabra true
      (unitsSim twoMissedCompletions defaultMemThr (.fin 0))).TrgOnWasOffCmp = F64.fin 2 ∧
    ¬ ((2 : ℚ) ≤ 1) ∧
    (MemStats unitsLeabra false
      (unitsSim twoMissedCompletions defaultMemThr (.fin 0))).TrgOnWasOffCmp = F64.fin 1 := by
  have h := memStatsCounts_eq unitsLeabra
    (unitsSim twoMissedCompletions defaultMemThr (.fin 0))
  rw [twoMissedCompletions_counts] at h
  obtain ⟨-, -, -, -, h5, h6⟩ := h
  refine ⟨⟨0, by decide, by norm_num [unitsLeabra, twoMissedCompletions],
    by norm_num [unitsLeabra, twoMissedCompletions]⟩, ?_, by norm_num, ?_⟩
  · rw [MemStats_TrgOnWasOffCmp, ← h5, ← h6]
    norm_num [F64.ofNat]
  · rw [MemStats_TrgOnWasOffCmp, ← h5, ← h6]
    norm_num [F64.ofNat, F64.div]

/-- C6: in training mode, with a non-empty on-target and a non-empty
off-target cohort, `MemStats` sets `Mem` to 1 exactly when the ratio
`TrgOnWasOffAll` it has just stored and the ratio `TrgOffWasOn` it has just
stored are both below `MemThr`, and to 0 otherwise; both ratios are the
quotients of the `ECout` cohort counts, so the completion cohort, which
depends on `ECin`, takes no part. -/
theorem MemStats_train_Mem (L : Leabra σ) (ss : Sim σ)
    (hOn : ∃ i, i < L.ShapeLen ss.Net.core .ECout ∧
      1 / 2 ≤ L.UnitVal1D ss.Net.core .ECout .Targ i)
    (hOff : ∃ i, i < L.ShapeLen ss.Net.core .ECout ∧
      L.UnitVal1D ss.Net.core .ECout .Targ i < 1 / 2) :
    ((MemStats L true ss).Mem = F64.fin 1 ↔
      (F64.lt (MemStats L true ss).TrgOnWasOffAll ss.MemThr = true ∧
        F64.lt (MemStats L true ss).TrgOffWasOn ss.MemThr = true)) ∧
    (¬ (F64.lt (MemStats L true ss).TrgOnWasOffAll ss.MemThr = true ∧
        F64.lt (MemStats L true ss).TrgOffWasOn ss.MemThr = true) →
      (MemStats L true ss).Mem = F64.fin 0) ∧
    (MemStats L true ss).TrgOnWasOffAll =
        F64.fin (((onTargetMisses L ss.Net.core).card : ℚ) /
          ((onTargetUnits L ss.Net.core).card : ℚ)) ∧
    (MemStats L true ss).TrgOffWasOn =
        F64.fin (((offTargetFalsePositives L ss.Net.core).card : ℚ) /
          ((offTargetUnits L ss.Net.core).card : ℚ)) := by
  have hM := MemStats_Mem L true ss
  rw [if_pos rfl] at hM
  refine ⟨?_, ?_, ?_, ?_⟩
  · rw [hM]
    by_cases hc : (F64.lt (MemStats L true ss).TrgOnWasOffAll ss.MemThr &&
        F64.lt (MemStats L true ss).TrgOffWasOn ss.MemThr) = true
    · rw [if_pos hc]
      simpa using hc
    · rw [if_neg hc]
      constructor
      · intro h
        exact absurd h (by decide)
      · intro h
        exact absurd (by simpa using h) hc
  · intro h
    rw [hM, if_neg]
    simpa using h
  · rw [MemStats_TrgOnWasOffAll]
    exact F64.div_ofNat_pos _ _ (onTargetUnits_card_pos L _ hOn)
  · rw [MemStats_TrgOffWasOn]
    exact F64.div_ofNat_pos _ _ (offTargetUnits_card_pos L _ hOff)

/-- Witness for C6: in the 8-unit scenario with threshold 0.34, training mode
finds `hitAll` = 0.25 and `falsePositive` = 0, both below the threshold, and
sets `Mem` to 1 although the completion ratio is 1. -/
theorem MemStats_train_Mem_witness :
    (MemStats unitsLeabra true (unitsSim scenario8 defaultMemThr (.fin 0))).Mem = F64.fin 1 := by
  obtain ⟨hiff, -, hA, hO⟩ := MemStats_train_Mem unitsLeabra
    (unitsSim scenario8 defaultMemThr (.fin 0))
    ⟨0, by decide, by norm_num [unitsLeabra, unitsSim, scenario8]⟩
    ⟨2, by decide, by norm_num [unitsLeabra, unitsSim, scenario8]⟩
  obtain ⟨c1, c2, c3, c4, -, -⟩ := scenario8_cards
  have e : (unitsSim scenario8 defaultMemThr (.fin 0)).Net.core = scenario8 := rfl
  rw [e, c1, c3] at hA
  rw [e, c2, c4] at hO
  apply hiff.mpr
  rw [hA, hO]
  constructor <;> norm_num [F64.lt, unitsSim, defaultMemThr]

/-- C7: in test mode, with a non-empty off-target cohort, `Mem` after
`MemStats` is: when a completion unit exists, 1 if the stored completion ratio
and the stored false-positive ratio are both below `MemThr` and 0 otherwise;
when no completion unit exists, the value `Mem` had before the call. -/
theorem MemStats_test_Mem (L : Leabra σ) (ss : Sim σ)
    (hOff : ∃ i, i < L.ShapeLen ss.Net.core .ECout ∧
      L.UnitVal1D ss.Net.core .ECout .Targ i < 1 / 2) :
    (MemStats L false ss).Mem =
      (if 0 < (completionUnits L ss.Net.core).card then
        (if F64.lt (F64.fin (((completionMisses L ss.Net.core).card : ℚ) /
                ((completionUnits L ss.Net.core).card : ℚ))) ss.MemThr = true ∧
            F64.lt (F64.fin (((offTargetFalsePositives L ss.Net.core).card : ℚ) /
                ((offTargetUnits L ss.Net.core).card : ℚ))) ss.MemThr = true
          then F64.fin 1 else F64.fin 0)
      else ss.Mem) := by
  have hM := MemStats_Mem L false ss
  rw [if_neg (by decide)] at hM
  rw [hM]
  by_cases hc : 0 < (completionUnits L ss.Net.core).card
  · have e1 : (MemStats L false ss).TrgOnWasOffCmp =
        F64.fin (((completionMisses L ss.Net.core).card : ℚ) /
          ((completionUnits L ss.Net.core).card : ℚ)) := by
      rw [MemStats_TrgOnWasOffCmp, if_pos ⟨rfl, hc⟩]
      exact F64.div_ofNat_pos _ _ hc
    have e2 : (MemStats L false ss).TrgOffWasOn =
        F64.fin (((offTargetFalsePositives L ss.Net.core).card : ℚ) /
          ((offTargetUnits L ss.Net.core).card : ℚ)) := by
      rw [MemStats_TrgOffWasOn]
      exact F64.div_ofNat_pos _ _ (offTargetUnits_card_pos L _ hOff)
    rw [if_pos hc, if_pos hc, e1, e2]
    simp only [Bool.and_eq_true]
  · rw [if_neg hc, if_neg hc]

/-- Witness for C7: in the 8-unit scenario with threshold 0.34 and `Mem` = 1
before the call, test mode finds `hitCompletion` = 1 and `falsePositive` = 0
and sets `Mem` to 0. -/
theorem MemStats_test_Mem_witness :
    (MemStats unitsLeabra false (unitsSim scenario8 defaultMemThr (.fin 1))).Mem = F64.fin 0 := by
  have h := MemStats_test_Mem unitsLeabra (unitsSim scenario8 defaultMemThr (.fin 1))
    ⟨2, by decide, by norm_num [unitsLeabra, unitsSim, scenario8]⟩
  obtain ⟨-, c2, -, c4, c5, c6⟩ := scenario8_cards
  have e : (unitsSim scenario8 defaultMemThr (.fin 1)).Net.core = scenario8 := rfl
  rw [e, c2, c4, c5, c6] at h
  rw [h]
  norm_num [F64.lt, unitsSim, defaultMemThr]

/-- C8 (fails): with an empty on-target cohort the stored `TrgOnWasOffAll` is
the NaN of `0/0`, and with an empty off-target cohort the stored `TrgOffWasOn`
is that NaN; in both scenarios nothing was missed and nothing was falsely
active, yet training mode compares the NaN with the threshold and sets `Mem`
to 0. -/
theorem MemStats_empty_cohort_stores_nan :
    (onTargetUnits unitsLeabra allOffTarget = ∅ ∧
      (MemStats unitsLeabra true (unitsSim allOffTarget defaultMemThr (.fin 1))).TrgOnWasOffAll
        = F64.div (F64.ofNat 0) (F64.ofNat 0) ∧
      (MemStats unitsLeabra true (unitsSim allOffTarget defaultMemThr (.fin 1))).TrgOnWasOffAll
        = F64.nan ∧
      (MemStats unitsLeabra true (unitsSim allOffTarget defaultMemThr (.fin 1))).Mem
        = F64.fin 0) ∧
    (offTargetUnits unitsLeabra allOnTarget = ∅ ∧
      (MemStats unitsLeabra true (unitsSim allOnTarget defaultMemThr (.fin 1))).TrgOffWasOn
        = F64.nan ∧
      (MemStats unitsLeabra true (unitsSim allOnTarget defaultMemThr (.fin 1))).Mem
        = F64.fin 0) := by
  have h := memStatsCounts_eq unitsLeabra (unitsSim allOffTarget defaultMemThr (.fin 1))
  rw [allOffTarget_counts] at h
  obtain ⟨h1, h2, h3, h4, -, -⟩ := h
  have k := memStatsCounts_eq unitsLeabra (unitsSim allOnTarget defaultMemThr (.fin 1))
  rw [allOnTarget_counts] at k
  obtain ⟨k1, k2, k3, k4, -, -⟩ := k
  have hA : (MemStats unitsLeabra true
      (unitsSim allOffTarget defaultMemThr (.fin 1))).TrgOnWasOffAll = F64.nan := by
    rw [MemStats_TrgOnWasOffAll, ← h1, ← h3]
    exact F64.div_ofNat_zero_zero
  have kO : (MemStats unitsLeabra true
      (unitsSim allOnTarget defaultMemThr (.fin 1))).TrgOffWasOn = F64.nan := by
    rw [MemStats_TrgOffWasOn, ← k2, ← k4]
    exact F64.div_ofNat_zero_zero
  refine ⟨⟨Finset.card_eq_zero.mp h1.symm, ?_, hA, ?_⟩,
    ⟨Finset.card_eq_zero.mp k2.symm, kO, ?_⟩⟩
  · rw [hA, F64.div_ofNat_zero_zero]
  · rw [MemStats_Mem, if_pos rfl, hA, F64.lt_nan_left]
    rfl
  · rw [MemStats_Mem, if_pos rfl, kO, F64.lt_nan_left, Bool.and_false]
    rfl

/-- C8 (amended): when the on-target cohort is empty `MemStats` stores the NaN
of `0/0` in `TrgOnWasOffAll`, when the off-target cohort is empty it stores
that NaN in `TrgOffWasOn`, and in training mode the comparison with the NaN
is false, so that `Mem` is set to 0. -/
theorem MemStats_empty_cohort (L : Leabra σ) (train : Bool) (ss : Sim σ)
    (hE : onTargetUnits L ss.Net.core = ∅ ∨ offTargetUnits L ss.Net.core = ∅) :
    (onTargetUnits L ss.Net.core = ∅ → (MemStats L train ss).TrgOnWasOffAll = F64.nan) ∧
    (offTargetUnits L ss.Net.core = ∅ → (MemStats L train ss).TrgOffWasOn = F64.nan) ∧
    (train = true → (MemStats L train ss).Mem = F64.fin 0) := by
  have hA : onTargetUnits L ss.Net.core = ∅ →
      (MemStats L train ss).TrgOnWasOffAll = F64.nan := by
    intro h
    have hm : onTargetMisses L ss.Net.core = ∅ := by
      apply Finset.eq_empty_of_forall_not_mem
      intro i hi
      have hi2 : i ∈ onTargetUnits L ss.Net.core :=
        Finset.mem_filter.mpr ⟨(Finset.mem_filter.mp hi).1, (Finset.mem_filter.mp hi).2.1⟩
      rw [h] at hi2
      exact absurd hi2 (Finset.not_mem_empty i)
    rw [MemStats_TrgOnWasOffAll, h, hm, Finset.card_empty]
    exact F64.div_ofNat_zero_zero
  have hO : offTargetUnits L ss.Net.core = ∅ →
      (MemStats L train ss).TrgOffWasOn = F64.nan := by
    intro h
    have hm : offTargetFalsePositives L ss.Net.core = ∅ := by
      apply Finset.eq_empty_of_forall_not_mem
      intro i hi
      have hi2 : i ∈ offTargetUnits L ss.Net.core :=
        Finset.mem_filter.mpr ⟨(Finset.mem_filter.mp hi).1, (Finset.mem_filter.mp hi).2.1⟩
      rw [h] at hi2
      exact absurd hi2 (Finset.not_mem_empty i)
    rw [MemStats_TrgOffWasOn, h, hm, Finset.card_empty]
    exact F64.div_ofNat_zero_zero
  refine ⟨hA, hO, ?_⟩
  intro ht
  rw [MemStats_Mem, if_pos ht]
  rcases hE with h | h
  · rw [hA h, F64.lt_nan_left]
    rfl
  · rw [hO h, F64.lt_nan_left, Bool.and_false]
    rfl

/-- Witness for C8 (amended): the layer with no on-target unit. -/
theorem MemStats_empty_cohort_witness :
    onTargetUnits unitsLeabra allOffTarget = ∅ ∧
    (MemStats unitsLeabra true (unitsSim allOffTarget defaultMemThr (.fin 1))).TrgOnWasOffAll
      = F64.nan ∧
    (MemStats unitsLeabra true (unitsSim allOffTarget defaultMemThr (.fin 1))).Mem
      = F64.fin 0 := by
  have h := memStatsCounts_eq unitsLeabra (unitsSim allOffTarget defaultMemThr (.fin 1))
  rw [allOffTarget_counts] at h
  have hE : onTargetUnits unitsLeabra (unitsSim allOffTarget defaultMemThr (.fin 1)).Net.core
      = ∅ := Finset.card_eq_zero.mp h.1.symm
  obtain ⟨w1, -, w3⟩ := MemStats_empty_cohort unitsLeabra true
    (unitsSim allOffTarget defaultMemThr (.fin 1)) (Or.inl hE)
  exact ⟨hE, w1 hE, w3 rfl⟩

/-! ## Lemmas on the alpha cycle -/

theorem simOps_append (s t : List Event) : simOps (s ++ t) = simOps s ++ simOps t := by
  simp [simOps]

theorem MemStats_log (L : Leabra σ) (train : Bool) (ss : Sim σ) :
    (MemStats L train ss).log =
      ss.log ++ [⟨.MemStats train, ss.Net.ca1FmECinAbs, ss.Net.ca1FmCa3Abs⟩] := by
  simp only [MemStats, Sim.emit]
  split_ifs <;> rfl

theorem MemStats_Net (L : Leabra σ) (train : Bool) (ss : Sim σ) :
    (MemStats L train ss).Net = ss.Net := by
  simp only [MemStats, Sim.emit]
  split_ifs <;> rfl

theorem MemStats_ViewOn (L : Leabra σ) (train : Bool) (ss : Sim σ) :
    (MemStats L train ss).ViewOn = ss.ViewOn := by
  simp only [MemStats, Sim.emit]
  split_ifs <;> rfl

theorem cycleStep_spec (L : Leabra σ) (train : Bool) (vu : TimeScales) (cyc : ℕ)
    (ss : Sim σ) :
    simOps (cycleStep L train vu cyc ss).log =
        simOps ss.log ++ [⟨.Cycle, ss.Net.ca1FmECinAbs, ss.Net.ca1FmCa3Abs⟩,
          ⟨.CycleInc, ss.Net.ca1FmECinAbs, ss.Net.ca1FmCa3Abs⟩] ∧
    (cycleStep L train vu cyc ss).Net.ca1FmECinAbs = ss.Net.ca1FmECinAbs ∧
    (cycleStep L train vu cyc ss).Net.ca1FmCa3Abs = ss.Net.ca1FmCa3Abs ∧
    (cycleStep L train vu cyc ss).ViewOn = ss.ViewOn := by
  cases train <;> cases hv : ss.ViewOn <;> cases vu <;>
    by_cases hc : (cyc + 1) % 10 = 0 <;>
    simp [cycleStep, Sim.netOp, Sim.emit, Sim.CycleInc, Sim.LogTstCyc, Sim.UpdateView, simOps,
      Op.isObserver, hv, hc]

theorem cycleLoop_spec (L : Leabra σ) (train : Bool) (vu : TimeScales) (l : List ℕ) :
    ∀ ss : Sim σ,
    simOps (l.foldl (fun s cyc => cycleStep L train vu cyc s) ss).log =
        simOps ss.log ++ (List.replicate l.length
          [Event.mk .Cycle ss.Net.ca1FmECinAbs ss.Net.ca1FmCa3Abs,
            Event.mk .CycleInc ss.Net.ca1FmECinAbs ss.Net.ca1FmCa3Abs]).flatten ∧
    (l.foldl (fun s cyc => cycleStep L train vu cyc s) ss).Net.ca1FmECinAbs
        = ss.Net.ca1FmECinAbs ∧
    (l.foldl (fun s cyc => cycleStep L train vu cyc s) ss).Net.ca1FmCa3Abs
        = ss.Net.ca1FmCa3Abs ∧
    (l.foldl (fun s cyc => cycleStep L train vu cyc s) ss).ViewOn = ss.ViewOn := by
  induction l with
  | nil => intro ss; simp
  | cons c l ih =>
    intro ss
    obtain ⟨h1, h2, h3, h4⟩ := cycleStep_spec L train vu c ss
    obtain ⟨k1, k2, k3, k4⟩ := ih (cycleStep L train vu c ss)
    rw [List.foldl_cons]
    refine ⟨?_, by rw [k2, h2], by rw [k3, h3], by rw [k4, h4]⟩
    rw [k1, h1, h2, h3]
    simp [List.replicate_succ]

theorem quarterCycles_spec (L : Leabra σ) (train : Bool) (vu : TimeScales) (ss : Sim σ) :
    simOps ((List.range 25).foldl (fun s cyc => cycleStep L train vu cyc s) ss).log =
        simOps ss.log ++ cycles25 ss.Net.ca1FmECinAbs ss.Net.ca1FmCa3Abs ∧
    ((List.range 25).foldl (fun s cyc => cycleStep L train vu cyc s) ss).Net.ca1FmECinAbs
        = ss.Net.ca1FmECinAbs ∧
    ((List.range 25).foldl (fun s cyc => cycleStep L train vu cyc s) ss).Net.ca1FmCa3Abs
        = ss.Net.ca1FmCa3Abs ∧
    ((List.range 25).foldl (fun s cyc => cycleStep L train vu cyc s) ss).ViewOn = ss.ViewOn := by
  have h := cycleLoop_spec L train vu (List.range 25) ss
  rw [List.length_range] at h
  exact h

set_option maxHeartbeats 4000000 in
theorem quarterStep_train_spec (L : Leabra σ) (vu : TimeScales) (qtr : ℕ) (ss : Sim σ) :
    simOps (quarterStep L true vu qtr ss).log =
        simOps ss.log ++ cycles25 ss.Net.ca1FmECinAbs ss.Net.ca1FmCa3Abs ++
          trainQuarterEnd qtr ss.Net.ca1FmECinAbs ss.Net.ca1FmCa3Abs ∧
    (quarterStep L true vu qtr ss).Net.ca1FmECinAbs =
        (trainQuarterGains qtr ss.Net.ca1FmECinAbs ss.Net.ca1FmCa3Abs).1 ∧
    (quarterStep L true vu qtr ss).Net.ca1FmCa3Abs =
        (trainQuarterGains qtr ss.Net.ca1FmECinAbs ss.Net.ca1FmCa3Abs).2 ∧
    (quarterStep L true vu qtr ss).ViewOn = ss.ViewOn := by
  obtain ⟨h1, h2, h3, h4⟩ := quarterCycles_spec L true vu ss
  rcases qtr with _ | _ | _ | q <;> cases hv : ss.ViewOn <;> cases vu <;>
    simp [quarterStep, quarterSwitch, trainQuarterEnd, trainQuarterGains, Sim.netOp, Sim.emit,
      Sim.setECinAbs, Sim.setCa3Abs, Sim.clampECoutFmECin, Sim.QuarterInc, Sim.UpdateView,
      MemStats_log, MemStats_Net, MemStats_ViewOn, simOps_append, TimeScales.toNat,
      h1, h2, h3, h4, hv] <;>
    simp [simOps, Op.isObserver]

theorem quarterStep_test_spec (L : Leabra σ) (vu : TimeScales) (qtr : ℕ) (ss : Sim σ) :
    simOps (quarterStep L false vu qtr ss).log =
        simOps ss.log ++ cycles25 ss.Net.ca1FmECinAbs ss.Net.ca1FmCa3Abs ++
          (if qtr + 1 = 3 then
            [Event.mk .QuarterFinal ss.Net.ca1FmECinAbs ss.Net.ca1FmCa3Abs,
              Event.mk (.MemStats false) ss.Net.ca1FmECinAbs ss.Net.ca1FmCa3Abs,
              Event.mk .QuarterInc ss.Net.ca1FmECinAbs ss.Net.ca1FmCa3Abs]
          else
            [Event.mk .QuarterFinal ss.Net.ca1FmECinAbs ss.Net.ca1FmCa3Abs,
              Event.mk .QuarterInc ss.Net.ca1FmECinAbs ss.Net.ca1FmCa3Abs]) ∧
    (quarterStep L false vu qtr ss).Net.ca1FmECinAbs = ss.Net.ca1FmECinAbs ∧
    (quarterStep L false vu qtr ss).Net.ca1FmCa3Abs = ss.Net.ca1FmCa3Abs ∧
    (quarterStep L false vu qtr ss).ViewOn = ss.ViewOn := by
  obtain ⟨h1, h2, h3, h4⟩ := quarterCycles_spec L false vu ss
  rcases qtr with _ | _ | _ | q <;> cases hv : ss.ViewOn <;> cases vu <;>
    simp [quarterStep, quarterSwitch, Sim.netOp, Sim.emit,
      Sim.QuarterInc, Sim.UpdateView,
      MemStats_log, MemStats_Net, MemStats_ViewOn, simOps_append, TimeScales.toNat,
      h1, h2, h3, h4, hv] <;>
    simp [simOps, Op.isObserver]

theorem quarters_train_spec (L : Leabra σ) (vu : TimeScales) (ss : Sim σ) :
    simOps ((List.range 4).foldl (fun s qtr => quarterStep L true vu qtr s) ss).log =
        simOps ss.log ++ cycles25 ss.Net.ca1FmECinAbs ss.Net.ca1FmCa3Abs ++
          trainQuarterEnd 0 ss.Net.ca1FmECinAbs ss.Net.ca1FmCa3Abs ++
          cycles25 0 1 ++ trainQuarterEnd 1 0 1 ++
          cycles25 0 1 ++ trainQuarterEnd 2 0 1 ++
          cycles25 1 0 ++ trainQuarterEnd 3 1 0 ∧
    ((List.range 4).foldl (fun s qtr => quarterStep L true vu qtr s) ss).Net.ca1FmECinAbs = 1 ∧
    ((List.range 4).foldl (fun s qtr => quarterStep L true vu qtr s) ss).Net.ca1FmCa3Abs = 0 ∧
    ((List.range 4).foldl (fun s qtr => quarterStep L true vu qtr s) ss).ViewOn = ss.ViewOn := by
  have hr : List.range 4 = [0, 1, 2, 3] := rfl
  rw [hr]
  simp only [List.foldl_cons, List.foldl_nil]
  obtain ⟨a1, a2, a3, a4⟩ := quarterStep_train_spec L vu 0 ss
  obtain ⟨b1, b2, b3, b4⟩ := quarterStep_train_spec L vu 1 (quarterStep L true vu 0 ss)
  obtain ⟨c1, c2, c3, c4⟩ := quarterStep_train_spec L vu 2
    (quarterStep L true vu 1 (quarterStep L true vu 0 ss))
  obtain ⟨d1, d2, d3, d4⟩ := quarterStep_train_spec L vu 3
    (quarterStep L true vu 2 (quarterStep L true vu 1 (quarterStep L true vu 0 ss)))
  rw [a2, a3] at b1 b2 b3
  rw [b2, b3] at c1 c2 c3
  rw [c2, c3] at d1 d2 d3
  refine ⟨?_, ?_, ?_, ?_⟩
  · rw [d1, c1, b1, a1]
    simp [trainQuarterGains]
  · rw [d2]; simp [trainQuarterGains]
  · rw [d3]; simp [trainQuarterGains]
  · rw [d4, c4, b4, a4]

theorem quarters_test_spec (L : Leabra σ) (vu : TimeScales) (ss : Sim σ) :
    simOps ((List.range 4).foldl (fun s qtr => quarterStep L false vu qtr s) ss).log =
        simOps ss.log ++ cycles25 ss.Net.ca1FmECinAbs ss.Net.ca1FmCa3Abs ++
          [Event.mk .QuarterFinal ss.Net.ca1FmECinAbs ss.Net.ca1FmCa3Abs,
            Event.mk .QuarterInc ss.Net.ca1FmECinAbs ss.Net.ca1FmCa3Abs] ++
          cycles25 ss.Net.ca1FmECinAbs ss.Net.ca1FmCa3Abs ++
          [Event.mk .QuarterFinal ss.Net.ca1FmECinAbs ss.Net.ca1FmCa3Abs,
            Event.mk .QuarterInc ss.Net.ca1FmECinAbs ss.Net.ca1FmCa3Abs] ++
          cycles25 ss.Net.ca1FmECinAbs ss.Net.ca1FmCa3Abs ++
          [Event.mk .QuarterFinal ss.Net.ca1FmECinAbs ss.Net.ca1FmCa3Abs,
            Event.mk (.MemStats false) ss.Net.ca1FmECinAbs ss.Net.ca1FmCa3Abs,
            Event.mk .QuarterInc ss.Net.ca1FmECinAbs ss.Net.ca1FmCa3Abs] ++
          cycles25 ss.Net.ca1FmECinAbs ss.Net.ca1FmCa3Abs ++
          [Event.mk .QuarterFinal ss.Net.ca1FmECinAbs ss.Net.ca1FmCa3Abs,
            Event.mk .QuarterInc ss.Net.ca1FmECinAbs ss.Net.ca1FmCa3Abs] ∧
    ((List.range 4).foldl (fun s qtr => quarterStep L false vu qtr s) ss).Net.ca1FmECinAbs
        = ss.Net.ca1FmECinAbs ∧
    ((List.range 4).foldl (fun s qtr => quarterStep L false vu qtr s) ss).Net.ca1FmCa3Abs
        = ss.Net.ca1FmCa3Abs ∧
    ((List.range 4).foldl (fun s qtr => quarterStep L false vu qtr s) ss).ViewOn = ss.ViewOn := by
  have hr : List.range 4 = [0, 1, 2, 3] := rfl
  rw [hr]
  simp only [List.foldl_cons, List.foldl_nil]
  obtain ⟨a1, a2, a3, a4⟩ := quarterStep_test_spec L vu 0 ss
  obtain ⟨b1, b2, b3, b4⟩ := quarterStep_test_spec L vu 1 (quarterStep L false vu 0 ss)
  obtain ⟨c1, c2, c3, c4⟩ := quarterStep_test_spec L vu 2
    (quarterStep L false vu 1 (quarterStep L false vu 0 ss))
  obtain ⟨d1, d2, d3, d4⟩ := quarterStep_test_spec L vu 3
    (quarterStep L false vu 2 (quarterStep L false vu 1 (quarterStep L false vu 0 ss)))
  refine ⟨?_, ?_, ?_, ?_⟩
  · rw [d1, c1, b1, a1, c2, c3, b2, b3, a2, a3]
    simp
  · rw [d2, c2, b2, a2]
  · rw [d3, c3, b3, a3]
  · rw [d4, c4, b4, a4]

/-- In training mode the operations of one `AlphaCyc` call are `trainOps`. -/
theorem AlphaCycOps_train (L : Leabra σ) (ss : Sim σ) :
    AlphaCycOps L true ss = trainOps ss.Net.ca1FmECinAbs ss.Net.ca1FmCa3Abs := by
  unfold AlphaCycOps AlphaCycTrace AlphaCyc
  simp only [if_true, Bool.not_true, Bool.false_eq_true, if_false]
  generalize Sim.viewUpdt true _ = vu
  generalize hs : Sim.AlphaCycStart _ = s0
  have e1 : s0.Net.ca1FmECinAbs = 1 := by rw [← hs]; rfl
  have e2 : s0.Net.ca1FmCa3Abs = 0 := by rw [← hs]; rfl
  have e3 : simOps s0.log = [⟨.WtFmDWt, ss.Net.ca1FmECinAbs, ss.Net.ca1FmCa3Abs⟩,
      ⟨.SetType .Target, ss.Net.ca1FmECinAbs, ss.Net.ca1FmCa3Abs⟩,
      ⟨.UpdateExtFlags, ss.Net.ca1FmECinAbs, ss.Net.ca1FmCa3Abs⟩,
      ⟨.SetECinAbs 1, 1, ss.Net.ca1FmCa3Abs⟩, ⟨.SetCa3Abs 0, 1, 0⟩, ⟨.AlphaCycInit, 1, 0⟩,
      ⟨.AlphaCycStart, 1, 0⟩] := by
    rw [← hs]
    simp [Sim.netOp, Sim.emit, Sim.SetType, Sim.setECinAbs, Sim.setCa3Abs, Sim.AlphaCycStart,
      simOps, Op.isObserver]
  obtain ⟨q1, q2, q3, q4⟩ := quarters_train_spec L vu s0
  rw [e1, e2, e3] at q1
  cases hv : s0.ViewOn <;> cases vu <;>
    simp [Sim.netOp, Sim.emit, Sim.UpdateView, simOps_append, q1, q2, q3, q4, hv, trainOps,
      trainQuarterEnd] <;>
    simp [simOps, Op.isObserver]

/-- In test mode the operations of one `AlphaCyc` call are `testOps`. -/
theorem AlphaCycOps_test (L : Leabra σ) (ss : Sim σ) :
    AlphaCycOps L false ss = testOps ss.Net.ca1FmECinAbs ss.Net.ca1FmCa3Abs := by
  unfold AlphaCycOps AlphaCycTrace AlphaCyc
  simp only [Bool.false_eq_true, if_false, Bool.not_false, if_true]
  generalize Sim.viewUpdt false _ = vu
  generalize hs : Sim.AlphaCycStart _ = s0
  have e1 : s0.Net.ca1FmECinAbs = ss.Net.ca1FmECinAbs := by rw [← hs]; rfl
  have e2 : s0.Net.ca1FmCa3Abs = ss.Net.ca1FmCa3Abs := by rw [← hs]; rfl
  have e3 : simOps s0.log = [⟨.SetType .Compare, ss.Net.ca1FmECinAbs, ss.Net.ca1FmCa3Abs⟩,
      ⟨.UpdateExtFlags, ss.Net.ca1FmECinAbs, ss.Net.ca1FmCa3Abs⟩,
      ⟨.AlphaCycInit, ss.Net.ca1FmECinAbs, ss.Net.ca1FmCa3Abs⟩,
      ⟨.AlphaCycStart, ss.Net.ca1FmECinAbs, ss.Net.ca1FmCa3Abs⟩] := by
    rw [← hs]
    simp [Sim.netOp, Sim.emit, Sim.SetType, Sim.AlphaCycStart, simOps, Op.isObserver]
  obtain ⟨q1, q2, q3, q4⟩ := quarters_test_spec L vu s0
  rw [e1, e2, e3] at q1
  cases hv : s0.ViewOn <;> cases vu <;>
    simp [Sim.emit, Sim.UpdateView, Sim.TstCycPlotUpdate, simOps_append, q1, q2, q3, q4, hv,
      testOps] <;>
    simp [simOps, Op.isObserver]

/-! ### Every operation only appends to the log -/

theorem emit_withPrefix (pre : List Event) (o : Op) (ss : Sim σ) :
    (ss.withPrefix pre).emit o = (ss.emit o).withPrefix pre := by
  simp [Sim.emit, Sim.withPrefix]

theorem netOp_withPrefix (pre : List Event) (f : Network σ → σ) (o : Op) (ss : Sim σ) :
    (ss.withPrefix pre).netOp f o = (ss.netOp f o).withPrefix pre := by
  simp [Sim.netOp, Sim.emit, Sim.withPrefix]

theorem MemStats_withPrefix (L : Leabra σ) (train : Bool) (pre : List Event) (ss : Sim σ) :
    MemStats L train (ss.withPrefix pre) = (MemStats L train ss).withPrefix pre := by
  have hc : memStatsCounts L (ss.withPrefix pre) = memStatsCounts L ss := rfl
  unfold MemStats
  rw [hc]
  generalize memStatsCounts L ss = c
  simp only [Sim.emit, Sim.withPrefix]
  split_ifs <;> simp

set_option maxHeartbeats 4000000 in
theorem cycleStep_withPrefix (L : Leabra σ) (train : Bool) (vu : TimeScales) (cyc : ℕ)
    (pre : List Event) (ss : Sim σ) :
    cycleStep L train vu cyc (ss.withPrefix pre) =
      (cycleStep L train vu cyc ss).withPrefix pre := by
  cases train <;> cases hv : ss.ViewOn <;> cases vu <;>
    by_cases hc : (cyc + 1) % 10 = 0 <;>
    simp [cycleStep, Sim.netOp, Sim.emit, Sim.CycleInc, Sim.LogTstCyc, Sim.UpdateView,
      Sim.withPrefix, hv, hc]

theorem cycleLoop_withPrefix (L : Leabra σ) (train : Bool) (vu : TimeScales)
    (pre : List Event) (l : List ℕ) :
    ∀ ss : Sim σ,
    l.foldl (fun s cyc => cycleStep L train vu cyc s) (ss.withPrefix pre) =
      (l.foldl (fun s cyc => cycleStep L train vu cyc s) ss).withPrefix pre := by
  induction l with
  | nil => intro ss; rfl
  | cons c l ih =>
    intro ss
    rw [List.foldl_cons, List.foldl_cons, cycleStep_withPrefix, ih]

theorem quarterSwitch_withPrefix (L : Leabra σ) (train : Bool) (qtr : ℕ)
    (pre : List Event) (ss : Sim σ) :
    quarterSwitch L train qtr (ss.withPrefix pre) =
      (quarterSwitch L train qtr ss).withPrefix pre := by
  rcases qtr with _ | _ | _ | q <;> cases train <;>
    simp [quarterSwitch, Sim.netOp, Sim.emit, Sim.setECinAbs, Sim.setCa3Abs,
      Sim.clampECoutFmECin, Sim.withPrefix]

theorem quarterStep_withPrefix (L : Leabra σ) (train : Bool) (vu : TimeScales) (qtr : ℕ)
    (pre : List Event) (ss : Sim σ) :
    quarterStep L train vu qtr (ss.withPrefix pre) =
      (quarterStep L train vu qtr ss).withPrefix pre := by
  unfold quarterStep
  simp only [cycleLoop_withPrefix, quarterSwitch_withPrefix]
  generalize quarterSwitch L train qtr _ = s1
  have hq : ∀ s : Sim σ, (s.withPrefix pre).QuarterInc = (s.QuarterInc).withPrefix pre := by
    intro s; simp [Sim.QuarterInc, Sim.emit, Sim.withPrefix]
  have hu : ∀ s : Sim σ, (s.withPrefix pre).UpdateView train =
      (s.UpdateView train).withPrefix pre := by
    intro s; simp [Sim.UpdateView, Sim.emit, Sim.withPrefix]
  have hvw : ∀ s : Sim σ, (s.withPrefix pre).ViewOn = s.ViewOn := fun _ => rfl
  have ht : ∀ s : Sim σ, (s.withPrefix pre).Time = s.Time := fun _ => rfl
  by_cases h3 : qtr + 1 = 3
  · simp only [h3, if_true, ht, netOp_withPrefix, MemStats_withPrefix, hq, hvw]
    split_ifs <;> first | rfl | rw [hu]
  · simp only [h3, if_false, ht, netOp_withPrefix, hq, hvw]
    split_ifs <;> first | rfl | rw [hu]

theorem quartersLoop_withPrefix (L : Leabra σ) (train : Bool) (vu : TimeScales)
    (pre : List Event) (l : List ℕ) :
    ∀ ss : Sim σ,
    l.foldl (fun s qtr => quarterStep L train vu qtr s) (ss.withPrefix pre) =
      (l.foldl (fun s qtr => quarterStep L train vu qtr s) ss).withPrefix pre := by
  induction l with
  | nil => intro ss; rfl
  | cons c l ih =>
    intro ss
    rw [List.foldl_cons, List.foldl_cons, quarterStep_withPrefix, ih]

theorem AlphaCyc_withPrefix (L : Leabra σ) (train : Bool) (pre : List Event) (ss : Sim σ) :
    AlphaCyc L train (ss.withPrefix pre) = (AlphaCyc L train ss).withPrefix pre := by
  unfold AlphaCyc
  have hvu : (ss.withPrefix pre).viewUpdt train = ss.viewUpdt train := rfl
  have hvw : ∀ s : Sim σ, (s.withPrefix pre).ViewOn = s.ViewOn := fun _ => rfl
  have hu : ∀ s : Sim σ, (s.withPrefix pre).UpdateView train =
      (s.UpdateView train).withPrefix pre := by
    intro s; simp [Sim.UpdateView, Sim.emit, Sim.withPrefix]
  have h1 : ∀ (t : LayerType) (s : Sim σ), (s.withPrefix pre).SetType t =
      (s.SetType t).withPrefix pre := by
    intro t s; simp [Sim.SetType, Sim.emit, Sim.withPrefix]
  have h2 : ∀ (v : ℚ) (s : Sim σ), (s.withPrefix pre).setECinAbs v =
      (s.setECinAbs v).withPrefix pre := by
    intro v s; simp [Sim.setECinAbs, Sim.emit, Sim.withPrefix]
  have h3 : ∀ (v : ℚ) (s : Sim σ), (s.withPrefix pre).setCa3Abs v =
      (s.setCa3Abs v).withPrefix pre := by
    intro v s; simp [Sim.setCa3Abs, Sim.emit, Sim.withPrefix]
  have h4 : ∀ s : Sim σ, (s.withPrefix pre).AlphaCycStart = (s.AlphaCycStart).withPrefix pre := by
    intro s; simp [Sim.AlphaCycStart, Sim.emit, Sim.withPrefix]
  have h5 : ∀ s : Sim σ, (s.withPrefix pre).TstCycPlotUpdate =
      (s.TstCycPlotUpdate).withPrefix pre := by
    intro s; simp [Sim.TstCycPlotUpdate, Sim.emit, Sim.withPrefix]
  rw [hvu]
  cases train
  · simp only [Bool.false_eq_true, if_false, Bool.not_false, if_true, h1, netOp_withPrefix, h4,
      quartersLoop_withPrefix, hvw]
    split_ifs <;> simp only [hu, h5]
  · simp only [if_true, Bool.not_true, Bool.false_eq_true, if_false, h1, h2, h3,
      netOp_withPrefix, h4, quartersLoop_withPrefix, hvw]
    split_ifs <;> simp only [hu]

/-- The log after a call of `AlphaCyc` is the log before it followed by the
trace of the call. -/
theorem AlphaCyc_log (L : Leabra σ) (train : Bool) (ss : Sim σ) :
    (AlphaCyc L train ss).log = ss.log ++ AlphaCycTrace L train ss := by
  have h := AlphaCyc_withPrefix L train ss.log { ss with log := [] }
  have e : ({ ss with log := [] } : Sim σ).withPrefix ss.log = ss := by
    simp [Sim.withPrefix]
  rw [e] at h
  rw [h]
  rfl

theorem opsOf_simOps (t : List Event) :
    opsOf (simOps t) = (opsOf t).filter (fun o => !o.isObserver) := by
  simp [opsOf, simOps, List.filter_map, Function.comp_def]

theorem count_opsOf_simOps (t : List Event) (o : Op) (h : o.isObserver = false) :
    (opsOf (simOps t)).count o = (opsOf t).count o := by
  rw [opsOf_simOps]
  exact List.count_filter (by simp [h])

theorem filter_opsOf_simOps (t : List Event) (p : Op → Bool)
    (h : ∀ o, p o = true → o.isObserver = false) :
    (opsOf (simOps t)).filter p = (opsOf t).filter p := by
  rw [opsOf_simOps, List.filter_filter]
  congr 1
  funext o
  cases hp : p o
  · simp
  · simp [h o hp]

theorem opsOf_cycles25 (a b : ℚ) : opsOf (cycles25 a b) = opsOf (cycles25 0 0) := by
  simp only [opsOf, cycles25, List.map_flatten, List.map_replicate, List.map_cons, List.map_nil]

theorem opsOf_append (s t : List Event) : opsOf (s ++ t) = opsOf s ++ opsOf t := by
  simp only [opsOf, List.map_append]

theorem opsOf_trainOps (a b : ℚ) : opsOf (trainOps a b) = opsOf (trainOps 0 0) := by
  simp only [trainOps, opsOf_append]
  rfl

theorem opsOf_testOps (a b : ℚ) : opsOf (testOps a b) = opsOf (testOps 0 0) := by
  simp only [testOps, opsOf_append, opsOf_cycles25 a b]
  rfl

theorem opsOf_AlphaCycOps (L : Leabra σ) (train : Bool) (ss : Sim σ) :
    opsOf (AlphaCycOps L train ss) =
      if train then opsOf (trainOps 0 0) else opsOf (testOps 0 0) := by
  cases train
  · rw [AlphaCycOps_test, opsOf_testOps]; rfl
  · rw [AlphaCycOps_train, opsOf_trainOps]; rfl

set_option maxRecDepth 100000 in
theorem trainOps_step_counts :
    (opsOf (trainOps 0 0)).count .Cycle = 100 ∧
    (opsOf (trainOps 0 0)).count .CycleInc = 100 ∧
    (opsOf (trainOps 0 0)).count .QuarterFinal = 4 ∧
    (opsOf (trainOps 0 0)).count .QuarterInc = 4 ∧
    (opsOf (trainOps 0 0)).filter Op.isStep =
      (List.replicate 4 ((List.replicate 25 [Op.Cycle, Op.CycleInc]).flatten ++
        [Op.QuarterFinal, Op.QuarterInc])).flatten := by
  decide

set_option maxRecDepth 100000 in
theorem testOps_step_counts :
    (opsOf (testOps 0 0)).count .Cycle = 100 ∧
    (opsOf (testOps 0 0)).count .CycleInc = 100 ∧
    (opsOf (testOps 0 0)).count .QuarterFinal = 4 ∧
    (opsOf (testOps 0 0)).count .QuarterInc = 4 ∧
    (opsOf (testOps 0 0)).filter Op.isStep =
      (List.replicate 4 ((List.replicate 25 [Op.Cycle, Op.CycleInc]).flatten ++
        [Op.QuarterFinal, Op.QuarterInc])).flatten := by
  decide

theorem cycleGains_simOps (t : List Event) : cycleGains (simOps t) = cycleGains t := by
  unfold cycleGains simOps
  rw [List.filter_filter]
  congr 2
  funext e
  cases h : e.op <;> simp [Op.isObserver]

set_option maxRecDepth 100000 in
theorem trainOps_cycleGains :
    cycleGains (trainOps 0 0) =
      List.replicate 25 ((1 : ℚ), (0 : ℚ)) ++ List.replicate 50 ((0 : ℚ), (1 : ℚ)) ++
        List.replicate 25 ((1 : ℚ), (0 : ℚ)) := by
  decide

theorem cycleGains_trainOps (a b : ℚ) : cycleGains (trainOps a b) = cycleGains (trainOps 0 0) := by
  rfl

set_option maxRecDepth 100000 in
theorem trainOps_gainSchedule :
    (opsOf (trainOps 0 0)).filter Op.isGainSchedule =
      [Op.SetECinAbs 1, Op.SetCa3Abs 0] ++ List.replicate 25 Op.Cycle ++
      [Op.SetECinAbs 0, Op.SetCa3Abs 1, Op.GScaleFmAvgAct, Op.InitGInc, Op.QuarterFinal] ++
      List.replicate 25 Op.Cycle ++ [Op.QuarterFinal] ++
      List.replicate 25 Op.Cycle ++
      [Op.SetECinAbs 1, Op.SetCa3Abs 0, Op.GScaleFmAvgAct, Op.InitGInc, Op.QuarterFinal] ++
      List.replicate 25 Op.Cycle ++ [Op.QuarterFinal] := by
  decide

set_option maxRecDepth 100000 in
theorem trainOps_MemStats :
    (opsOf (trainOps 0 0)).count (.MemStats true) = 1 ∧
    (opsOf (trainOps 0 0)).count (.MemStats false) = 0 ∧
    opsOf (trainOps 0 0) = (opsOf (trainOps 0 0)).take 170 ++
      [Op.QuarterFinal, Op.MemStats true, Op.QuarterInc] ++ (opsOf (trainOps 0 0)).drop 173 ∧
    ((opsOf (trainOps 0 0)).take 170).count .Cycle = 75 ∧
    ((opsOf (trainOps 0 0)).take 170).count .QuarterFinal = 2 ∧
    ((opsOf (trainOps 0 0)).take 170).count .QuarterInc = 2 := by
  decide

set_option maxRecDepth 100000 in
theorem testOps_MemStats :
    (opsOf (testOps 0 0)).count (.MemStats false) = 1 ∧
    (opsOf (testOps 0 0)).count (.MemStats true) = 0 ∧
    opsOf (testOps 0 0) = (opsOf (testOps 0 0)).take 158 ++
      [Op.QuarterFinal, Op.MemStats false, Op.QuarterInc] ++ (opsOf (testOps 0 0)).drop 161 ∧
    ((opsOf (testOps 0 0)).take 158).count .Cycle = 75 ∧
    ((opsOf (testOps 0 0)).take 158).count .QuarterFinal = 2 ∧
    ((opsOf (testOps 0 0)).take 158).count .QuarterInc = 2 := by
  decide

set_option maxRecDepth 100000 in
theorem trainOps_clamp :
    opsOf (trainOps 0 0) = (opsOf (trainOps 0 0)).take 169 ++
      [Op.ApplyExt1D32, Op.QuarterFinal, Op.MemStats true] ++ (opsOf (trainOps 0 0)).drop 172 ∧
    ((opsOf (trainOps 0 0)).take 169).count (.MemStats true) = 0 ∧
    ((opsOf (trainOps 0 0)).take 169).count .Cycle = 75 ∧
    (opsOf (trainOps 0 0)).count .ApplyExt1D32 = 1 := by
  decide

set_option maxRecDepth 100000 in
theorem testOps_clamp : (opsOf (testOps 0 0)).count .ApplyExt1D32 = 0 := by
  decide

/-! ## The alpha cycle: claims -/

/-- The step operations in the log of one call of `AlphaCyc`, in training and
in test mode alike: 100 `Net.Cycle`, 100 `Time.CycleInc`, 4 `QuarterFinal` and
4 `QuarterInc`, as 4 quarters of 25 (`Cycle`, `CycleInc`) pairs, each quarter
closed by `QuarterFinal` and `QuarterInc`. -/
theorem AlphaCyc_step_log (L : Leabra σ) (train : Bool) (ss : Sim σ) :
    (opsOf (AlphaCycTrace L train ss)).count .Cycle = 100 ∧
    (opsOf (AlphaCycTrace L train ss)).count .CycleInc = 100 ∧
    (opsOf (AlphaCycTrace L train ss)).count .QuarterFinal = 4 ∧
    (opsOf (AlphaCycTrace L train ss)).count .QuarterInc = 4 ∧
    (opsOf (AlphaCycTrace L train ss)).filter Op.isStep =
      (List.replicate 4 ((List.replicate 25 [Op.Cycle, Op.CycleInc]).flatten ++
        [Op.QuarterFinal, Op.QuarterInc])).flatten := by
  have h := opsOf_AlphaCycOps L train ss
  unfold AlphaCycOps at h
  rw [← count_opsOf_simOps _ _ (by rfl), ← count_opsOf_simOps _ .CycleInc (by rfl),
    ← count_opsOf_simOps _ .QuarterFinal (by rfl), ← count_opsOf_simOps _ .QuarterInc (by rfl),
    ← filter_opsOf_simOps _ Op.isStep (by intro o ho; cases o <;> simp_all [Op.isStep, Op.isObserver]),
    h]
  cases train
  · exact testOps_step_counts
  · exact trainOps_step_counts

/-- C2: in `AlphaCyc(true)` the gain pair (direct `ca1FmECin.WtScale.Abs`,
recurrent `ca1FmCa3.WtScale.Abs`) is (1,0) at the 25 `Cycle` calls of quarter
1, (0,1) at the 50 `Cycle` calls of quarters 2 and 3 and (1,0) at the 25
`Cycle` calls of quarter 4, whatever the gains were on entry.  The sequence
of simulation operations is `trainOps`: each of the two switches, after the
25th and after the 75th cycle, is directly followed by `GScaleFmAvgAct` and
`InitGInc`, and between the cycles of quarter 2 and after those of quarter 4
only `QuarterFinal` occurs among the gain-schedule operations. -/
theorem AlphaCyc_train_gain_schedule (L : Leabra σ) (ss : Sim σ) :
    cycleGains (AlphaCycTrace L true ss) =
      List.replicate 25 ((1 : ℚ), (0 : ℚ)) ++ List.replicate 50 ((0 : ℚ), (1 : ℚ)) ++
        List.replicate 25 ((1 : ℚ), (0 : ℚ)) ∧
    AlphaCycOps L true ss = trainOps ss.Net.ca1FmECinAbs ss.Net.ca1FmCa3Abs ∧
    (opsOf (AlphaCycTrace L true ss)).filter Op.isGainSchedule =
      [Op.SetECinAbs 1, Op.SetCa3Abs 0] ++ List.replicate 25 Op.Cycle ++
      [Op.SetECinAbs 0, Op.SetCa3Abs 1, Op.GScaleFmAvgAct, Op.InitGInc, Op.QuarterFinal] ++
      List.replicate 25 Op.Cycle ++ [Op.QuarterFinal] ++
      List.replicate 25 Op.Cycle ++
      [Op.SetECinAbs 1, Op.SetCa3Abs 0, Op.GScaleFmAvgAct, Op.InitGInc, Op.QuarterFinal] ++
      List.replicate 25 Op.Cycle ++ [Op.QuarterFinal] := by
  have h := AlphaCycOps_train L ss
  refine ⟨?_, h, ?_⟩
  · rw [← cycleGains_simOps]
    unfold AlphaCycOps at h
    rw [h, cycleGains_trainOps]
    exact trainOps_cycleGains
  · rw [← filter_opsOf_simOps _ Op.isGainSchedule
      (by intro o ho; cases o <;> simp_all [Op.isGainSchedule, Op.isObserver])]
    unfold AlphaCycOps at h
    rw [h, opsOf_trainOps]
    exact trainOps_gainSchedule

/-- The place of `MemStats` in the log of one `AlphaCyc` call, training or
test: `MemStats(train)` occurs once, among the simulation operations directly
after the third `QuarterFinal` (75 cycles, two `QuarterFinal` and two
`QuarterInc` before that one) and directly before the third `QuarterInc`. -/
theorem AlphaCyc_MemStats_log (L : Leabra σ) (train : Bool) (ss : Sim σ) :
    (opsOf (AlphaCycTrace L train ss)).count (.MemStats train) = 1 ∧
    (opsOf (AlphaCycTrace L train ss)).count (.MemStats (!train)) = 0 ∧
    ∃ pre post : List Op,
      opsOf (AlphaCycOps L train ss) =
        pre ++ [Op.QuarterFinal, Op.MemStats train, Op.QuarterInc] ++ post ∧
      pre.count .Cycle = 75 ∧ pre.count .QuarterFinal = 2 ∧ pre.count .QuarterInc = 2 := by
  have h := opsOf_AlphaCycOps L train ss
  rw [← count_opsOf_simOps _ (.MemStats train) (by rfl),
    ← count_opsOf_simOps _ (.MemStats (!train)) (by rfl)]
  change (opsOf (AlphaCycOps L train ss)).count _ = 1 ∧
    (opsOf (AlphaCycOps L train ss)).count _ = 0 ∧ _
  rw [h]
  cases train
  · obtain ⟨t1, t2, t3, t4, t5, t6⟩ := testOps_MemStats
    exact ⟨t1, t2, _, _, t3, t4, t5, t6⟩
  · obtain ⟨t1, t2, t3, t4, t5, t6⟩ := trainOps_MemStats
    exact ⟨t1, t2, _, _, t3, t4, t5, t6⟩

/-- C10 (fails in training mode): in `AlphaCyc(true)` the clamp of `ECout`
from the `ECin` activations (`ApplyExt1D32`) is performed after the 75th
cycle, directly before the third `QuarterFinal`, which `MemStats(true)`
directly follows: the clamp precedes the only `MemStats` call.  In
`AlphaCyc(false)` no clamp is performed. -/
theorem AlphaCyc_train_clamp_precedes_MemStats (L : Leabra σ) (ss : Sim σ) :
    (∃ pre post : List Op,
      opsOf (AlphaCycOps L true ss) =
        pre ++ [Op.ApplyExt1D32, Op.QuarterFinal, Op.MemStats true] ++ post ∧
      pre.count (.MemStats true) = 0 ∧ pre.count .Cycle = 75) ∧
    (opsOf (AlphaCycTrace L true ss)).count .ApplyExt1D32 = 1 ∧
    (opsOf (AlphaCycTrace L false ss)).count .ApplyExt1D32 = 0 := by
  have h := opsOf_AlphaCycOps L true ss
  have k := opsOf_AlphaCycOps L false ss
  rw [← count_opsOf_simOps (AlphaCycTrace L true ss) .ApplyExt1D32 (by rfl),
    ← count_opsOf_simOps (AlphaCycTrace L false ss) .ApplyExt1D32 (by rfl)]
  change _ ∧ (opsOf (AlphaCycOps L true ss)).count _ = 1 ∧
    (opsOf (AlphaCycOps L false ss)).count _ = 0
  rw [h, k]
  obtain ⟨t1, t2, t3, t4⟩ := trainOps_clamp
  exact ⟨⟨_, _, t1, t2, t3⟩, t4, testOps_clamp⟩

/-! ## Further lemmas on the alpha cycle -/

theorem length_trainOps (a b : ℚ) : (trainOps a b).length = 226 := by
  rfl

theorem length_testOps (a b : ℚ) : (testOps a b).length = 213 := by
  rfl

theorem AlphaCycOps_two_train (L : Leabra σ) (ss : Sim σ) :
    opsOf (simOps (AlphaCyc L true (AlphaCyc L true { ss with log := [] })).log) =
      opsOf (trainOps 0 0) ++ opsOf (trainOps 0 0) := by
  rw [AlphaCyc_log, simOps_append, opsOf_append]
  have h1 := opsOf_AlphaCycOps L true ss
  have h2 := opsOf_AlphaCycOps L true (AlphaCyc L true { ss with log := [] })
  unfold AlphaCycOps at h1 h2
  unfold AlphaCycTrace at h1
  rw [h1, h2]
  rfl

set_option maxRecDepth 100000 in
theorem trainOps_weights :
    opsOf (trainOps 0 0) = [Op.WtFmDWt] ++ (opsOf (trainOps 0 0)).tail.dropLast ++ [Op.DWt] ∧
    (opsOf (trainOps 0 0)).tail.dropLast.count .WtFmDWt = 0 ∧
    (opsOf (trainOps 0 0)).tail.dropLast.count .DWt = 0 ∧
    (opsOf (trainOps 0 0)).tail.dropLast.count .AlphaCycInit = 1 ∧
    (opsOf (trainOps 0 0)).tail.dropLast.count .Cycle = 100 ∧
    (opsOf (trainOps 0 0)).tail.dropLast.count .QuarterFinal = 4 ∧
    (opsOf (trainOps 0 0)).count .WtFmDWt = 1 ∧
    (opsOf (trainOps 0 0)).count .DWt = 1 := by
  decide

set_option maxRecDepth 100000 in
theorem testOps_weights :
    (opsOf (testOps 0 0)).count .WtFmDWt = 0 ∧ (opsOf (testOps 0 0)).count .DWt = 0 := by
  decide

theorem trainOps_take5 (a b : ℚ) :
    (trainOps a b).take 5 =
      [⟨.WtFmDWt, a, b⟩, ⟨.SetType .Target, a, b⟩, ⟨.UpdateExtFlags, a, b⟩,
        ⟨.SetECinAbs 1, 1, b⟩, ⟨.SetCa3Abs 0, 1, 0⟩] := by
  rfl

theorem trainOps_drop5 (a b : ℚ) : (trainOps a b).drop 5 = (trainOps 0 0).drop 5 := by
  rfl

set_option maxRecDepth 100000 in
theorem trainOps_gain_pairs :
    (∀ e ∈ (trainOps 0 0).drop 5, e.op.isGainWrite = false →
      (((e.direct, e.recurrent) = ((1 : ℚ), (0 : ℚ)) ∨
          (e.direct, e.recurrent) = ((0 : ℚ), (1 : ℚ))) ∧
        e.direct ≠ e.recurrent ∧ ¬ (e.direct = 1 ∧ e.recurrent = 1))) ∧
    (opsOf ((trainOps 0 0).drop 5)).count .AlphaCycInit = 1 ∧
    (opsOf ((trainOps 0 0).drop 5)).count .Cycle = 100 ∧
    (opsOf ((trainOps 0 0).drop 5)).count .GScaleFmAvgAct = 2 ∧
    (opsOf ((trainOps 0 0).drop 5)).count .InitGInc = 2 ∧
    (opsOf ((trainOps 0 0).drop 5)).count .ApplyExt1D32 = 1 ∧
    (opsOf ((trainOps 0 0).drop 5)).count .QuarterFinal = 4 ∧
    (opsOf ((trainOps 0 0).drop 5)).count (.MemStats true) = 1 ∧
    (opsOf ((trainOps 0 0).drop 5)).count .DWt = 1 := by
  decide

set_option maxRecDepth 100000 in
theorem testOps_snapshots (a b : ℚ) :
    (testOps a b).map (fun e => (e.direct, e.recurrent)) = List.replicate 213 (a, b) := by
  rfl

set_option maxRecDepth 100000 in
theorem cycleGains_testOps (a b : ℚ) : cycleGains (testOps a b) = List.replicate 100 (a, b) := by
  rfl

set_option maxRecDepth 100000 in
theorem testOps_no_gain_ops :
    (opsOf (testOps 0 0)).filter Op.isGainWrite = [] ∧
    (opsOf (testOps 0 0)).count .GScaleFmAvgAct = 0 ∧
    (opsOf (testOps 0 0)).count .InitGInc = 0 := by
  decide

theorem cycleStep_ecoutTyp (L : Leabra σ) (train : Bool) (vu : TimeScales) (cyc : ℕ)
    (ss : Sim σ) : (cycleStep L train vu cyc ss).Net.ecoutTyp = ss.Net.ecoutTyp := by
  cases train <;> cases hv : ss.ViewOn <;> cases vu <;>
    by_cases hc : (cyc + 1) % 10 = 0 <;>
    simp [cycleStep, Sim.netOp, Sim.emit, Sim.CycleInc, Sim.LogTstCyc, Sim.UpdateView, hv, hc]

theorem cycleLoop_ecoutTyp (L : Leabra σ) (train : Bool) (vu : TimeScales) (l : List ℕ) :
    ∀ ss : Sim σ,
    (l.foldl (fun s cyc => cycleStep L train vu cyc s) ss).Net.ecoutTyp = ss.Net.ecoutTyp := by
  induction l with
  | nil => intro ss; rfl
  | cons c l ih =>
    intro ss
    rw [List.foldl_cons, ih, cycleStep_ecoutTyp]

theorem quarterStep_ecoutTyp (L : Leabra σ) (train : Bool) (vu : TimeScales) (qtr : ℕ)
    (ss : Sim σ) : (quarterStep L train vu qtr ss).Net.ecoutTyp = ss.Net.ecoutTyp := by
  have h := cycleLoop_ecoutTyp L train vu (List.range 25) ss
  have hv := (quarterCycles_spec L train vu ss).2.2.2
  rcases qtr with _ | _ | _ | q <;> cases train <;> cases hw : ss.ViewOn <;> cases vu <;>
    simp [quarterStep, quarterSwitch, Sim.netOp, Sim.emit, Sim.setECinAbs, Sim.setCa3Abs,
      Sim.clampECoutFmECin, Sim.QuarterInc, Sim.UpdateView, MemStats_Net, MemStats_ViewOn,
      TimeScales.toNat, h, hv, hw]

theorem quartersLoop_ecoutTyp (L : Leabra σ) (train : Bool) (vu : TimeScales) (l : List ℕ) :
    ∀ ss : Sim σ,
    (l.foldl (fun s qtr => quarterStep L train vu qtr s) ss).Net.ecoutTyp = ss.Net.ecoutTyp := by
  induction l with
  | nil => intro ss; rfl
  | cons c l ih =>
    intro ss
    rw [List.foldl_cons, ih, quarterStep_ecoutTyp]

theorem AlphaCyc_ecoutTyp (L : Leabra σ) (train : Bool) (ss : Sim σ) :
    (AlphaCyc L train ss).Net.ecoutTyp = if train then LayerType.Target else LayerType.Compare := by
  unfold AlphaCyc
  generalize Sim.viewUpdt train _ = vu
  cases train
  · simp only [Bool.false_eq_true, if_false, Bool.not_false, if_true]
    generalize hs : Sim.AlphaCycStart _ = s0
    have e : s0.Net.ecoutTyp = .Compare := by rw [← hs]; rfl
    have q := quartersLoop_ecoutTyp L false vu (List.range 4) s0
    rw [e] at q
    split_ifs <;> simpa [Sim.TstCycPlotUpdate, Sim.UpdateView, Sim.emit] using q
  · simp only [if_true, Bool.not_true, Bool.false_eq_true, if_false]
    generalize hs : Sim.AlphaCycStart _ = s0
    have e : s0.Net.ecoutTyp = .Target := by rw [← hs]; rfl
    have q := quartersLoop_ecoutTyp L true vu (List.range 4) s0
    rw [e] at q
    split_ifs <;> simpa [Sim.netOp, Sim.UpdateView, Sim.emit] using q

theorem AlphaCyc_test_gains (L : Leabra σ) (ss : Sim σ) :
    (AlphaCyc L false ss).Net.ca1FmECinAbs = ss.Net.ca1FmECinAbs ∧
    (AlphaCyc L false ss).Net.ca1FmCa3Abs = ss.Net.ca1FmCa3Abs := by
  unfold AlphaCyc
  generalize Sim.viewUpdt false _ = vu
  simp only [Bool.false_eq_true, if_false, Bool.not_false, if_true]
  generalize hs : Sim.AlphaCycStart _ = s0
  have e1 : s0.Net.ca1FmECinAbs = ss.Net.ca1FmECinAbs := by rw [← hs]; rfl
  have e2 : s0.Net.ca1FmCa3Abs = ss.Net.ca1FmCa3Abs := by rw [← hs]; rfl
  obtain ⟨-, q2, q3, -⟩ := quarters_test_spec L vu s0
  rw [e1] at q2
  rw [e2] at q3
  constructor <;> split_ifs <;>
    simp [Sim.TstCycPlotUpdate, Sim.UpdateView, Sim.emit, q2, q3]

/-- The weight operations in the log of `AlphaCyc`: with training `WtFmDWt`
occurs once, as the first operation, before `AlphaCycInit` and all 100
cycles, and `DWt` once, as the last simulation operation, after the fourth
`QuarterFinal`; in the log of two training calls in a row `DWt` is directly
followed by `WtFmDWt`; without training neither occurs. -/
theorem AlphaCyc_weights_log (L : Leabra σ) (ss : Sim σ) :
    (∃ mid : List Op,
      opsOf (AlphaCycOps L true ss) = [Op.WtFmDWt] ++ mid ++ [Op.DWt] ∧
      mid.count .WtFmDWt = 0 ∧ mid.count .DWt = 0 ∧ mid.count .AlphaCycInit = 1 ∧
      mid.count .Cycle = 100 ∧ mid.count .QuarterFinal = 4 ∧
      opsOf (simOps (AlphaCyc L true (AlphaCyc L true { ss with log := [] })).log) =
        ([Op.WtFmDWt] ++ mid ++ [Op.DWt]) ++ ([Op.WtFmDWt] ++ mid ++ [Op.DWt])) ∧
    (opsOf (AlphaCycTrace L true ss)).count .WtFmDWt = 1 ∧
    (opsOf (AlphaCycTrace L true ss)).count .DWt = 1 ∧
    (opsOf (AlphaCycTrace L false ss)).count .WtFmDWt = 0 ∧
    (opsOf (AlphaCycTrace L false ss)).count .DWt = 0 := by
  have h := opsOf_AlphaCycOps L true ss
  have k := opsOf_AlphaCycOps L false ss
  have h2 := AlphaCycOps_two_train L ss
  rw [← count_opsOf_simOps (AlphaCycTrace L true ss) .WtFmDWt (by rfl),
    ← count_opsOf_simOps (AlphaCycTrace L true ss) .DWt (by rfl),
    ← count_opsOf_simOps (AlphaCycTrace L false ss) .WtFmDWt (by rfl),
    ← count_opsOf_simOps (AlphaCycTrace L false ss) .DWt (by rfl)]
  change _ ∧ (opsOf (AlphaCycOps L true ss)).count _ = 1 ∧
    (opsOf (AlphaCycOps L true ss)).count _ = 1 ∧
    (opsOf (AlphaCycOps L false ss)).count _ = 0 ∧
    (opsOf (AlphaCycOps L false ss)).count _ = 0
  rw [h, k, h2]
  obtain ⟨t1, t2, t3, t4, t5, t6, t7, t8⟩ := trainOps_weights
  refine ⟨⟨_, t1, t2, t3, t4, t5, t6, ?_⟩, t7, t8, testOps_weights.1, testOps_weights.2⟩
  rw [← t1]

/-- C13: in `AlphaCyc(true)`, after the initial gain assignment (the first
five operations `WtFmDWt`, `SetType`, `UpdateExtFlags` and the two gain
writes), every operation that is not itself a gain write (`AlphaCycInit`,
the 100 cycles, `GScaleFmAvgAct`, `InitGInc`, the clamp, the four
`QuarterFinal`, `MemStats`, `DWt`, ...) runs under the gain pair (1,0) or
(0,1): the gains are never equal and never both 1, whatever their values
were on entry. -/
theorem AlphaCyc_train_gain_invariant (L : Leabra σ) (ss : Sim σ) :
    ∃ rest : List Event,
      AlphaCycOps L true ss =
        [⟨.WtFmDWt, ss.Net.ca1FmECinAbs, ss.Net.ca1FmCa3Abs⟩,
          ⟨.SetType .Target, ss.Net.ca1FmECinAbs, ss.Net.ca1FmCa3Abs⟩,
          ⟨.UpdateExtFlags, ss.Net.ca1FmECinAbs, ss.Net.ca1FmCa3Abs⟩,
          ⟨.SetECinAbs 1, 1, ss.Net.ca1FmCa3Abs⟩, ⟨.SetCa3Abs 0, 1, 0⟩] ++ rest ∧
      (∀ e ∈ rest, e.op.isGainWrite = false →
        (((e.direct, e.recurrent) = ((1 : ℚ), (0 : ℚ)) ∨
            (e.direct, e.recurrent) = ((0 : ℚ), (1 : ℚ))) ∧
          e.direct ≠ e.recurrent ∧ ¬ (e.direct = 1 ∧ e.recurrent = 1))) ∧
      (opsOf rest).count .AlphaCycInit = 1 ∧ (opsOf rest).count .Cycle = 100 ∧
      (opsOf rest).count .GScaleFmAvgAct = 2 ∧ (opsOf rest).count .InitGInc = 2 ∧
      (opsOf rest).count .ApplyExt1D32 = 1 ∧ (opsOf rest).count .QuarterFinal = 4 ∧
      (opsOf rest).count (.MemStats true) = 1 ∧ (opsOf rest).count .DWt = 1 := by
  refine ⟨(trainOps 0 0).drop 5, ?_, trainOps_gain_pairs⟩
  rw [AlphaCycOps_train, ← trainOps_take5, ← trainOps_drop5 ss.Net.ca1FmECinAbs
    ss.Net.ca1FmCa3Abs, List.take_append_drop]

/-- C14: `AlphaCyc(false)` leaves both pathway gains as they were on entry,
for every pair of entry values: they are in force at each of the 100 `Cycle`
calls and at every other simulation operation, and they are the gains on
return; no gain write, no `GScaleFmAvgAct` and no `InitGInc` is performed. -/
theorem AlphaCyc_test_gains_untouched (L : Leabra σ) (ss : Sim σ) :
    cycleGains (AlphaCycTrace L false ss) =
      List.replicate 100 (ss.Net.ca1FmECinAbs, ss.Net.ca1FmCa3Abs) ∧
    (∀ e ∈ AlphaCycOps L false ss,
      e.direct = ss.Net.ca1FmECinAbs ∧ e.recurrent = ss.Net.ca1FmCa3Abs) ∧
    (AlphaCyc L false ss).Net.ca1FmECinAbs = ss.Net.ca1FmECinAbs ∧
    (AlphaCyc L false ss).Net.ca1FmCa3Abs = ss.Net.ca1FmCa3Abs ∧
    (opsOf (AlphaCycTrace L false ss)).filter Op.isGainWrite = [] ∧
    (opsOf (AlphaCycTrace L false ss)).count .GScaleFmAvgAct = 0 ∧
    (opsOf (AlphaCycTrace L false ss)).count .InitGInc = 0 := by
  have h := AlphaCycOps_test L ss
  have k := opsOf_AlphaCycOps L false ss
  obtain ⟨g1, g2⟩ := AlphaCyc_test_gains L ss
  obtain ⟨n1, n2, n3⟩ := testOps_no_gain_ops
  refine ⟨?_, ?_, g1, g2, ?_, ?_, ?_⟩
  · rw [← cycleGains_simOps]
    unfold AlphaCycOps at h
    rw [h]
    exact cycleGains_testOps _ _
  · intro e he
    rw [h] at he
    have hm : (e.direct, e.recurrent) ∈
        (testOps ss.Net.ca1FmECinAbs ss.Net.ca1FmCa3Abs).map
          (fun e => (e.direct, e.recurrent)) := List.mem_map_of_mem _ he
    rw [testOps_snapshots] at hm
    have := List.eq_of_mem_replicate hm
    exact ⟨congrArg Prod.fst this, congrArg Prod.snd this⟩
  · rw [← filter_opsOf_simOps _ Op.isGainWrite
      (by intro o ho; cases o <;> simp_all [Op.isGainWrite, Op.isObserver])]
    change (opsOf (AlphaCycOps L false ss)).filter _ = []
    rw [k]
    exact n1
  · rw [← count_opsOf_simOps _ .GScaleFmAvgAct (by rfl)]
    change (opsOf (AlphaCycOps L false ss)).count _ = 0
    rw [k]
    exact n2
  · rw [← count_opsOf_simOps _ .InitGInc (by rfl)]
    change (opsOf (AlphaCycOps L false ss)).count _ = 0
    rw [k]
    exact n3

set_option maxRecDepth 100000 in
theorem trainOps_setType :
    (opsOf (trainOps 0 0)).filter Op.isSetType = [Op.SetType .Target] ∧
    (opsOf (trainOps 0 0)).count .UpdateExtFlags = 1 ∧
    opsOf (trainOps 0 0) = [Op.WtFmDWt] ++ [Op.SetType .Target, Op.UpdateExtFlags] ++
      (opsOf (trainOps 0 0)).drop 3 ∧
    ((opsOf (trainOps 0 0)).drop 3).count .AlphaCycInit = 1 ∧
    ((opsOf (trainOps 0 0)).drop 3).count .Cycle = 100 := by
  decide

set_option maxRecDepth 100000 in
theorem testOps_setType :
    (opsOf (testOps 0 0)).filter Op.isSetType = [Op.SetType .Compare] ∧
    (opsOf (testOps 0 0)).count .UpdateExtFlags = 1 ∧
    opsOf (testOps 0 0) = [] ++ [Op.SetType .Compare, Op.UpdateExtFlags] ++
      (opsOf (testOps 0 0)).drop 2 ∧
    ((opsOf (testOps 0 0)).drop 2).count .AlphaCycInit = 1 ∧
    ((opsOf (testOps 0 0)).drop 2).count .Cycle = 100 := by
  decide

/-- C15: `AlphaCyc` sets the type of `ECout` to `Target` when `train` is true
and to `Compare` when it is false and then calls `UpdateExtFlags`; both come
before `AlphaCycInit` and before the first of the 100 cycles; this is the
only change of the layer type in the call, and the type on return is the one
set. -/
theorem AlphaCyc_ecout_type (L : Leabra σ) (train : Bool) (ss : Sim σ) :
    (opsOf (AlphaCycTrace L train ss)).filter Op.isSetType =
      [Op.SetType (if train then LayerType.Target else LayerType.Compare)] ∧
    (opsOf (AlphaCycTrace L train ss)).count .UpdateExtFlags = 1 ∧
    (∃ pre post : List Op,
      opsOf (AlphaCycOps L train ss) =
        pre ++ [Op.SetType (if train then LayerType.Target else LayerType.Compare),
          Op.UpdateExtFlags] ++ post ∧
      pre.count .AlphaCycInit = 0 ∧ pre.count .Cycle = 0 ∧
      post.count .AlphaCycInit = 1 ∧ post.count .Cycle = 100) ∧
    (AlphaCyc L train ss).Net.ecoutTyp =
      (if train then LayerType.Target else LayerType.Compare) := by
  have h := opsOf_AlphaCycOps L train ss
  rw [← filter_opsOf_simOps _ Op.isSetType
      (by intro o ho; cases o <;> simp_all [Op.isSetType, Op.isObserver]),
    ← count_opsOf_simOps _ .UpdateExtFlags (by rfl)]
  change (opsOf (AlphaCycOps L train ss)).filter _ = _ ∧
    (opsOf (AlphaCycOps L train ss)).count _ = 1 ∧ _
  rw [h]
  refine ⟨?_, ?_, ?_, AlphaCyc_ecoutTyp L train ss⟩
  · cases train
    · exact testOps_setType.1
    · exact trainOps_setType.1
  · cases train
    · exact testOps_setType.2.1
    · exact trainOps_setType.2.1
  · cases train
    · obtain ⟨-, -, t3, t4, t5⟩ := testOps_setType
      exact ⟨_, _, t3, rfl, rfl, t4, t5⟩
    · obtain ⟨-, -, t3, t4, t5⟩ := trainOps_setType
      exact ⟨_, _, t3, rfl, rfl, t4, t5⟩

theorem AlphaCyc_split_at_clamp (L : Leabra σ) (ss : Sim σ) :
    AlphaCyc L true ss =
      AlphaCycFromClamp L (ss.viewUpdt true) (Sim.clampECoutFmECin L (AlphaCycToClamp L ss)) := by
  have hr : List.range 4 = [0, 1, 2, 3] := rfl
  simp only [AlphaCyc, AlphaCycFromClamp, AlphaCycToClamp, hr, List.foldl_cons, List.foldl_nil,
    if_true, Bool.not_true, Bool.false_eq_true, if_false]
  generalize Sim.viewUpdt true ss = vu
  generalize quarterStep L true vu 1 _ = s2
  generalize hq3 : quarterStep L true vu 3 = q3
  simp [quarterStep, quarterSwitch]

set_option maxRecDepth 100000 in
theorem trainOps_split (a b : ℚ) :
    trainOps a b = trainOpsToClamp a b ++ [⟨.ApplyExt1D32, 1, 0⟩] ++ trainOpsFromClamp := by
  simp only [trainOps, trainOpsToClamp, trainOpsFromClamp, List.append_assoc, List.cons_append,
    List.nil_append]

theorem AlphaCycToClamp_ops (L : Leabra σ) (ss : Sim σ) :
    simOps (AlphaCycToClamp L ss).log =
      simOps ss.log ++ trainOpsToClamp ss.Net.ca1FmECinAbs ss.Net.ca1FmCa3Abs := by
  unfold AlphaCycToClamp
  generalize Sim.viewUpdt true _ = vu
  simp only []
  generalize hs : Sim.AlphaCycStart _ = s0
  have e1 : s0.Net.ca1FmECinAbs = 1 := by rw [← hs]; rfl
  have e2 : s0.Net.ca1FmCa3Abs = 0 := by rw [← hs]; rfl
  have e3 : simOps s0.log = simOps ss.log ++
      [⟨.WtFmDWt, ss.Net.ca1FmECinAbs, ss.Net.ca1FmCa3Abs⟩,
      ⟨.SetType .Target, ss.Net.ca1FmECinAbs, ss.Net.ca1FmCa3Abs⟩,
      ⟨.UpdateExtFlags, ss.Net.ca1FmECinAbs, ss.Net.ca1FmCa3Abs⟩,
      ⟨.SetECinAbs 1, 1, ss.Net.ca1FmCa3Abs⟩, ⟨.SetCa3Abs 0, 1, 0⟩, ⟨.AlphaCycInit, 1, 0⟩,
      ⟨.AlphaCycStart, 1, 0⟩] := by
    rw [← hs]
    simp [Sim.netOp, Sim.emit, Sim.SetType, Sim.setECinAbs, Sim.setCa3Abs, Sim.AlphaCycStart,
      simOps, Op.isObserver]
  obtain ⟨a1, a2, a3, -⟩ := quarterStep_train_spec L vu 0 s0
  obtain ⟨b1, b2, b3, -⟩ := quarterStep_train_spec L vu 1 (quarterStep L true vu 0 s0)
  obtain ⟨c1, c2, c3, -⟩ := quarterCycles_spec L true vu
    (quarterStep L true vu 1 (quarterStep L true vu 0 s0))
  simp only [a2, a3, e1, e2, trainQuarterGains] at b1 b2 b3
  simp only [b2, b3] at c1 c2 c3
  rw [b1, a1, e1, e2, e3] at c1
  simp [Sim.netOp, Sim.emit, Sim.setECinAbs, Sim.setCa3Abs, simOps_append, c1, c2, c3,
    trainOpsToClamp, trainQuarterEnd]
  simp [simOps, Op.isObserver]

set_option maxRecDepth 100000 in
theorem trainOps_clamp_parts :
    (opsOf (trainOpsToClamp 0 0)).count .Cycle = 75 ∧
    (opsOf (trainOpsToClamp 0 0)).count .ApplyExt1D32 = 0 ∧
    (opsOf trainOpsFromClamp).count .Cycle = 25 ∧
    (opsOf trainOpsFromClamp).filter Op.isExtInput = [] := by
  decide

theorem opsOf_trainOpsToClamp (a b : ℚ) :
    opsOf (trainOpsToClamp a b) = opsOf (trainOpsToClamp 0 0) := by
  simp only [trainOpsToClamp, opsOf_append]
  rfl

/-- C11: `AlphaCyc(true)` clamps `ECout` from `ECin` exactly once.  The call
is the run up to the clamp (`AlphaCycToClamp`, 75 cycles and no clamp), the
clamp, and the run after it (`AlphaCycFromClamp`, with the 25 cycles of
quarter 4 and no further operation on the external input of `ECout`).  The
clamp copies the `Act` values that `ECin` has at that point into `TmpVals`
and applies them to `ECout` with `ApplyExt1D32`.  `AlphaCyc(false)` performs
no clamp. -/
theorem AlphaCyc_train_clamp (L : Leabra σ) (ss : Sim σ) :
    AlphaCyc L true ss =
      AlphaCycFromClamp L (ss.viewUpdt true)
        (Sim.clampECoutFmECin L (AlphaCycToClamp L ss)) ∧
    (Sim.clampECoutFmECin L (AlphaCycToClamp L ss)).TmpVals =
      L.UnitVals (AlphaCycToClamp L ss).Net.core .ECin .Act ∧
    (Sim.clampECoutFmECin L (AlphaCycToClamp L ss)).Net.core =
      L.ApplyExt1D32 (AlphaCycToClamp L ss).Net .ECout
        (L.UnitVals (AlphaCycToClamp L ss).Net.core .ECin .Act) ∧
    (∃ pre post : List Event,
      simOps (AlphaCycToClamp L ss).log = simOps ss.log ++ pre ∧
      AlphaCycOps L true ss = pre ++ [⟨.ApplyExt1D32, 1, 0⟩] ++ post ∧
      (opsOf pre).count .Cycle = 75 ∧ (opsOf pre).count .ApplyExt1D32 = 0 ∧
      (opsOf post).count .Cycle = 25 ∧ (opsOf post).filter Op.isExtInput = []) ∧
    (opsOf (AlphaCycTrace L true ss)).count .ApplyExt1D32 = 1 ∧
    (opsOf (AlphaCycTrace L false ss)).count .ApplyExt1D32 = 0 := by
  have h := opsOf_AlphaCycOps L true ss
  have k := opsOf_AlphaCycOps L false ss
  obtain ⟨p1, p2, p3, p4⟩ := trainOps_clamp_parts
  refine ⟨AlphaCyc_split_at_clamp L ss, rfl, rfl,
    ⟨_, _, AlphaCycToClamp_ops L ss, ?_, ?_, ?_, p3, p4⟩, ?_, ?_⟩
  · rw [AlphaCycOps_train, trainOps_split]
  · rw [opsOf_trainOpsToClamp]; exact p1
  · rw [opsOf_trainOpsToClamp]; exact p2
  · rw [← count_opsOf_simOps (AlphaCycTrace L true ss) .ApplyExt1D32 (by rfl)]
    change (opsOf (AlphaCycOps L true ss)).count _ = 1
    rw [h]
    exact trainOps_clamp.2.2.2
  · rw [← count_opsOf_simOps (AlphaCycTrace L false ss) .ApplyExt1D32 (by rfl)]
    change (opsOf (AlphaCycOps L false ss)).count _ = 0
    rw [k]
    exact testOps_clamp

/-! ## Independence of observation settings -/

theorem simOps_idem (t : List Event) : simOps (simOps t) = simOps t := by
  simp [simOps, List.filter_filter]

theorem eraseObs_idem (ss : Sim σ) : ss.eraseObs.eraseObs = ss.eraseObs := by
  simp [Sim.eraseObs, simOps_idem]

theorem eraseObs_emit (o : Op) (ss : Sim σ) :
    (ss.emit o).eraseObs = (ss.eraseObs.emit o).eraseObs := by
  simp [Sim.eraseObs, Sim.emit, simOps_append, simOps_idem]

theorem eraseObs_emit_observer (o : Op) (ss : Sim σ) (h : o.isObserver = true) :
    (ss.emit o).eraseObs = ss.eraseObs := by
  simp [Sim.eraseObs, Sim.emit, simOps, h]

theorem eraseObs_netOp (f : Network σ → σ) (o : Op) (ss : Sim σ) :
    (ss.netOp f o).eraseObs = (ss.eraseObs.netOp f o).eraseObs := by
  simp [Sim.eraseObs, Sim.netOp, Sim.emit, simOps_append, simOps_idem]

theorem eraseObs_netOp_time (f : Network σ → Time → σ) (o : Op) (ss : Sim σ) :
    (ss.netOp (fun n => f n ss.Time) o).eraseObs =
      (ss.eraseObs.netOp (fun n => f n ss.eraseObs.Time) o).eraseObs := by
  simp [Sim.eraseObs, Sim.netOp, Sim.emit, simOps_append, simOps_idem]

theorem eraseObs_prims (ss : Sim σ) :
    (∀ v, (ss.setECinAbs v).eraseObs = (ss.eraseObs.setECinAbs v).eraseObs) ∧
    (∀ v, (ss.setCa3Abs v).eraseObs = (ss.eraseObs.setCa3Abs v).eraseObs) ∧
    (∀ t, (ss.SetType t).eraseObs = (ss.eraseObs.SetType t).eraseObs) ∧
    ss.AlphaCycStart.eraseObs = ss.eraseObs.AlphaCycStart.eraseObs ∧
    ss.CycleInc.eraseObs = ss.eraseObs.CycleInc.eraseObs ∧
    ss.QuarterInc.eraseObs = ss.eraseObs.QuarterInc.eraseObs ∧
    (∀ t, (ss.UpdateView t).eraseObs = ss.eraseObs) ∧
    ss.LogTstCyc.eraseObs = ss.eraseObs ∧
    ss.TstCycPlotUpdate.eraseObs = ss.eraseObs := by
  refine ⟨?_, ?_, ?_, ?_, ?_, ?_, ?_, ?_, ?_⟩ <;>
    simp [Sim.eraseObs, Sim.setECinAbs, Sim.setCa3Abs, Sim.SetType, Sim.AlphaCycStart,
      Sim.CycleInc, Sim.QuarterInc, Sim.UpdateView, Sim.LogTstCyc, Sim.TstCycPlotUpdate,
      Sim.emit, simOps_append, simOps_idem] <;>
    simp [simOps, Op.isObserver]

theorem eraseObs_clamp (L : Leabra σ) (ss : Sim σ) :
    (Sim.clampECoutFmECin L ss).eraseObs = (Sim.clampECoutFmECin L ss.eraseObs).eraseObs := by
  simp [Sim.eraseObs, Sim.clampECoutFmECin, Sim.netOp, Sim.emit, simOps_append, simOps_idem]

theorem eraseObs_MemStats (L : Leabra σ) (train : Bool) (ss : Sim σ) :
    (MemStats L train ss).eraseObs = (MemStats L train ss.eraseObs).eraseObs := by
  have hc : memStatsCounts L ss.eraseObs = memStatsCounts L ss := rfl
  unfold MemStats
  rw [hc]
  generalize memStatsCounts L ss = c
  simp only [Sim.emit, Sim.eraseObs]
  split_ifs <;> simp [simOps_append, simOps_idem]

theorem eraseObs_cycleStep (L : Leabra σ) (train : Bool) (vu vu2 : TimeScales) (cyc : ℕ)
    (ss : Sim σ) :
    (cycleStep L train vu cyc ss).eraseObs =
      (cycleStep L train vu2 cyc ss.eraseObs).eraseObs := by
  cases train <;> cases hv : ss.ViewOn <;> cases vu <;>
    by_cases hc : (cyc + 1) % 10 = 0 <;>
    simp [cycleStep, Sim.netOp, Sim.emit, Sim.CycleInc, Sim.LogTstCyc, Sim.UpdateView,
      Sim.eraseObs, simOps_append, simOps_idem, hv, hc] <;>
    simp [simOps, Op.isObserver]

theorem eraseObs_cycleLoop (L : Leabra σ) (train : Bool) (l : List ℕ) :
    ∀ (vu vu2 : TimeScales) (ss : Sim σ),
    (l.foldl (fun s cyc => cycleStep L train vu cyc s) ss).eraseObs =
      (l.foldl (fun s cyc => cycleStep L train vu2 cyc s) ss.eraseObs).eraseObs := by
  induction l with
  | nil => intro vu vu2 ss; simp [eraseObs_idem]
  | cons c l ih =>
    intro vu vu2 ss
    rw [List.foldl_cons, List.foldl_cons, ih vu vu2 (cycleStep L train vu c ss),
      eraseObs_cycleStep L train vu vu2 c ss, ← ih vu2 vu2 (cycleStep L train vu2 c ss.eraseObs)]

theorem eraseObs_quarterSwitch (L : Leabra σ) (train : Bool) (qtr : ℕ) (ss : Sim σ) :
    (quarterSwitch L train qtr ss).eraseObs =
      (quarterSwitch L train qtr ss.eraseObs).eraseObs := by
  rcases qtr with _ | _ | _ | q <;> cases train <;>
    simp [quarterSwitch, Sim.netOp, Sim.emit, Sim.setECinAbs, Sim.setCa3Abs,
      Sim.clampECoutFmECin, Sim.eraseObs, simOps_append, simOps_idem]

/-- The part of `quarterStep` that follows the cycles and the switch. -/
theorem eraseObs_quarterEnd (L : Leabra σ) (train : Bool) (vu vu2 : TimeScales) (qtr : ℕ)
    (s1 : Sim σ) :
    (let ss := s1.netOp (fun n => L.QuarterFinal n s1.Time) .QuarterFinal
      let ss := if qtr + 1 = 3 then MemStats L train ss else ss
      let ss := ss.QuarterInc
      if ss.ViewOn then
        if vu.toNat ≤ TimeScales.Quarter.toNat then ss.UpdateView train
        else if vu = .Phase then (if qtr ≥ 2 then ss.UpdateView train else ss)
        else ss
      else ss).eraseObs =
    (let ss := s1.eraseObs.netOp (fun n => L.QuarterFinal n s1.eraseObs.Time) .QuarterFinal
      let ss := if qtr + 1 = 3 then MemStats L train ss else ss
      let ss := ss.QuarterInc
      if ss.ViewOn then
        if vu2.toNat ≤ TimeScales.Quarter.toNat then ss.UpdateView train
        else if vu2 = .Phase then (if qtr ≥ 2 then ss.UpdateView train else ss)
        else ss
      else ss).eraseObs := by
  have hu : ∀ s : Sim σ, (s.UpdateView train).eraseObs = s.eraseObs :=
    fun s => (eraseObs_prims s).2.2.2.2.2.2.1 train
  have hq : ∀ s : Sim σ, s.QuarterInc.eraseObs = s.eraseObs.QuarterInc.eraseObs :=
    fun s => (eraseObs_prims s).2.2.2.2.2.1
  have hvw : ∀ s : Sim σ, s.eraseObs.ViewOn = false := fun _ => rfl
  have hL : ∀ s : Sim σ,
      (if s.ViewOn then
        if vu.toNat ≤ TimeScales.Quarter.toNat then s.UpdateView train
        else if vu = .Phase then (if qtr ≥ 2 then s.UpdateView train else s)
        else s
      else s).eraseObs = s.eraseObs := by
    intro s
    split_ifs <;> first | rfl | exact hu s
  have hR : ∀ s : Sim σ,
      (if s.ViewOn then
        if vu2.toNat ≤ TimeScales.Quarter.toNat then s.UpdateView train
        else if vu2 = .Phase then (if qtr ≥ 2 then s.UpdateView train else s)
        else s
      else s).eraseObs = s.eraseObs := by
    intro s
    split_ifs <;> first | rfl | exact hu s
  simp only [hL, hR]
  rw [hq, hq (if qtr + 1 = 3 then _ else _)]
  congr 2
  by_cases h3 : qtr + 1 = 3
  · simp only [h3, if_true]
    rw [eraseObs_MemStats, eraseObs_netOp_time,
      eraseObs_MemStats L train (Sim.netOp _ _ s1.eraseObs)]
  · simp only [h3, if_false]
    rw [eraseObs_netOp_time]

theorem eraseObs_quarterStep (L : Leabra σ) (train : Bool) (vu vu2 : TimeScales) (qtr : ℕ)
    (ss : Sim σ) :
    (quarterStep L train vu qtr ss).eraseObs =
      (quarterStep L train vu2 qtr ss.eraseObs).eraseObs := by
  unfold quarterStep
  have h1 := eraseObs_quarterEnd L train vu vu2 qtr
    (quarterSwitch L train qtr ((List.range 25).foldl (fun s cyc => cycleStep L train vu cyc s) ss))
  have h2 := eraseObs_quarterEnd L train vu2 vu2 qtr
    (quarterSwitch L train qtr
      ((List.range 25).foldl (fun s cyc => cycleStep L train vu2 cyc s) ss.eraseObs))
  simp only [] at h1 h2 ⊢
  rw [h1, h2, eraseObs_quarterSwitch, eraseObs_cycleLoop L train (List.range 25) vu vu2 ss,
    ← eraseObs_quarterSwitch]

theorem eraseObs_quartersLoop (L : Leabra σ) (train : Bool) (l : List ℕ) :
    ∀ (vu vu2 : TimeScales) (ss : Sim σ),
    (l.foldl (fun s qtr => quarterStep L train vu qtr s) ss).eraseObs =
      (l.foldl (fun s qtr => quarterStep L train vu2 qtr s) ss.eraseObs).eraseObs := by
  induction l with
  | nil => intro vu vu2 ss; simp [eraseObs_idem]
  | cons c l ih =>
    intro vu vu2 ss
    rw [List.foldl_cons, List.foldl_cons, ih vu vu2 (quarterStep L train vu c ss),
      eraseObs_quarterStep L train vu vu2 c ss,
      ← ih vu2 vu2 (quarterStep L train vu2 c ss.eraseObs)]

theorem AlphaCyc_eraseObs (L : Leabra σ) (train : Bool) (ss : Sim σ) :
    (AlphaCyc L train ss).eraseObs = (AlphaCyc L train ss.eraseObs).eraseObs := by
  unfold AlphaCyc
  generalize Sim.viewUpdt train ss = vu
  generalize Sim.viewUpdt train ss.eraseObs = vu2
  have hu : ∀ s : Sim σ, (s.UpdateView train).eraseObs = s.eraseObs :=
    fun s => (eraseObs_prims s).2.2.2.2.2.2.1 train
  have ht : ∀ s : Sim σ, s.TstCycPlotUpdate.eraseObs = s.eraseObs :=
    fun s => (eraseObs_prims s).2.2.2.2.2.2.2.2
  have hv : ∀ (c : Bool) (s : Sim σ),
      (if c then s.UpdateView train else s).eraseObs = s.eraseObs := by
    intro c s
    cases c
    · rfl
    · exact hu s
  cases train
  · simp only [Bool.false_eq_true, if_false, Bool.not_false, if_true]
    have hpre : ((((ss.SetType .Compare).netOp L.UpdateExtFlags .UpdateExtFlags).netOp
        L.AlphaCycInit .AlphaCycInit).AlphaCycStart).eraseObs =
        ((((ss.eraseObs.SetType .Compare).netOp L.UpdateExtFlags .UpdateExtFlags).netOp
        L.AlphaCycInit .AlphaCycInit).AlphaCycStart).eraseObs := by
      simp [Sim.eraseObs, Sim.netOp, Sim.emit, Sim.SetType, Sim.AlphaCycStart, simOps_append,
        simOps_idem]
    rw [ht, ht, hv, hv, eraseObs_quartersLoop L false (List.range 4) vu vu2, hpre,
      ← eraseObs_quartersLoop L false (List.range 4) vu2 vu2]
  · simp only [if_true, Bool.not_true, Bool.false_eq_true, if_false]
    have hpre : (((((((ss.netOp L.WtFmDWt .WtFmDWt).SetType .Target).netOp L.UpdateExtFlags
        .UpdateExtFlags).setECinAbs 1).setCa3Abs 0).netOp
        L.AlphaCycInit .AlphaCycInit).AlphaCycStart).eraseObs =
        (((((((ss.eraseObs.netOp L.WtFmDWt .WtFmDWt).SetType .Target).netOp L.UpdateExtFlags
        .UpdateExtFlags).setECinAbs 1).setCa3Abs 0).netOp
        L.AlphaCycInit .AlphaCycInit).AlphaCycStart).eraseObs := by
      simp [Sim.eraseObs, Sim.netOp, Sim.emit, Sim.SetType, Sim.AlphaCycStart, Sim.setECinAbs,
        Sim.setCa3Abs, simOps_append, simOps_idem]
    rw [hv, hv, eraseObs_netOp, eraseObs_quartersLoop L true (List.range 4) vu vu2, hpre,
      ← eraseObs_quartersLoop L true (List.range 4) vu2 vu2, ← eraseObs_netOp]

theorem memStatsLoop_congr (a1 t1 i1 a2 t2 i2 : ℕ → ℚ) (n : ℕ)
    (h : ∀ i, i < n → a1 i = a2 i ∧ t1 i = t2 i ∧ i1 i = i2 i) :
    memStatsLoop a1 t1 i1 n = memStatsLoop a2 t2 i2 n := by
  induction n with
  | zero => rfl
  | succ n ih =>
    rw [memStatsLoop_succ, memStatsLoop_succ, ih (fun i hi => h i (Nat.lt_succ_of_lt hi)),
      (h n (Nat.lt_succ_self n)).1, (h n (Nat.lt_succ_self n)).2.1,
      (h n (Nat.lt_succ_self n)).2.2]

theorem MemStats_outcome_congr (L1 L2 : Leabra σ) (train : Bool) (s1 s2 : Sim σ)
    (hc : memStatsCounts L1 s1 = memStatsCounts L2 s2) (hthr : s1.MemThr = s2.MemThr)
    (hmem : s1.Mem = s2.Mem) :
    (MemStats L1 train s1).Mem = (MemStats L2 train s2).Mem ∧
    (MemStats L1 train s1).TrgOnWasOffAll = (MemStats L2 train s2).TrgOnWasOffAll ∧
    (MemStats L1 train s1).TrgOnWasOffCmp = (MemStats L2 train s2).TrgOnWasOffCmp ∧
    (MemStats L1 train s1).TrgOffWasOn = (MemStats L2 train s2).TrgOffWasOn := by
  unfold MemStats
  rw [hc]
  generalize memStatsCounts L2 s2 = c
  simp only [Sim.emit, hthr]
  split_ifs <;> simp [hmem]

/-! ## Trial and epoch statistics: lemmas -/

theorem F64.eq_div_zero (c : ℤ) (n : ℕ) (hn : 0 < n) :
    F64.eq (F64.div (F64.ofInt c) (F64.ofNat n)) (.fin 0) = decide (c = 0) := by
  have h : ((n : ℕ) : ℚ) ≠ 0 := Nat.cast_ne_zero.mpr (Nat.pos_iff_ne_zero.mp hn)
  simp [F64.div, F64.ofInt, F64.ofNat, F64.eq, h]

theorem LogTrnEpc_summary (ss : Sim σ) :
    (LogTrnEpc ss).EpcSSE = F64.div ss.SumSSE (F64.ofNat ss.TrainEnv.TableLen) ∧
    (LogTrnEpc ss).EpcAvgSSE = F64.div ss.SumAvgSSE (F64.ofNat ss.TrainEnv.TableLen) ∧
    (LogTrnEpc ss).EpcCosDiff = F64.div ss.SumCosDiff (F64.ofNat ss.TrainEnv.TableLen) ∧
    (LogTrnEpc ss).EpcPctErr =
      F64.div (F64.ofInt ss.CntErr) (F64.ofNat ss.TrainEnv.TableLen) ∧
    (LogTrnEpc ss).EpcPctCor =
      F64.sub (.fin 1) (F64.div (F64.ofInt ss.CntErr) (F64.ofNat ss.TrainEnv.TableLen)) := by
  simp only [LogTrnEpc, Sim.emit]
  split_ifs <;> simp

theorem LogTrnEpc_FirstZero (ss : Sim σ) (hn : 0 < ss.TrainEnv.TableLen) :
    (LogTrnEpc ss).FirstZero =
      if ss.FirstZero < 0 ∧ ss.CntErr = 0 then ss.TrainEnv.Epoch.Prv else ss.FirstZero := by
  have h := F64.eq_div_zero ss.CntErr ss.TrainEnv.TableLen hn
  simp only [LogTrnEpc, Sim.emit, h]
  by_cases h1 : ss.FirstZero < 0 <;> by_cases h2 : ss.CntErr = 0 <;> simp [h1, h2]

theorem finalizeEpochs_cons (e : EpochEnd) (es : List EpochEnd) (ss : Sim σ) :
    finalizeEpochs (e :: es) ss = finalizeEpochs es (LogTrnEpc (ss.atEpochEnd e)) := rfl

theorem finalizeEpochs_append (es1 es2 : List EpochEnd) (ss : Sim σ) :
    finalizeEpochs (es1 ++ es2) ss = finalizeEpochs es2 (finalizeEpochs es1 ss) := by
  simp [finalizeEpochs, List.foldl_append]

theorem LogTrnEpc_atEpochEnd_FirstZero (e : EpochEnd) (ss : Sim σ) (hn : 0 < e.tableLen) :
    (LogTrnEpc (ss.atEpochEnd e)).FirstZero =
      if ss.FirstZero < 0 ∧ e.cntErr = 0 then e.epc else ss.FirstZero :=
  LogTrnEpc_FirstZero (ss.atEpochEnd e) hn

/-- Once `FirstZero` is non-negative no epoch end changes it. -/
theorem finalizeEpochs_FirstZero_set (es : List EpochEnd) :
    ∀ ss : Sim σ, (∀ e ∈ es, 0 < e.tableLen) → 0 ≤ ss.FirstZero →
      (finalizeEpochs es ss).FirstZero = ss.FirstZero := by
  induction es with
  | nil => intro ss _ _; rfl
  | cons e es ih =>
    intro ss hpos h0
    have he := LogTrnEpc_atEpochEnd_FirstZero e ss (hpos e (List.mem_cons_self _ _))
    rw [if_neg (by intro h; exact absurd h.1 (not_lt.mpr h0))] at he
    rw [finalizeEpochs_cons, ih _ (fun x hx => hpos x (List.mem_cons_of_mem _ hx)) (by rw [he]; exact h0),
      he]

/-- While `FirstZero` is negative, epoch ends with a non-zero error count
leave it as it is. -/
theorem finalizeEpochs_FirstZero_unset (es : List EpochEnd) :
    ∀ ss : Sim σ, (∀ e ∈ es, 0 < e.tableLen) → (∀ e ∈ es, e.cntErr ≠ 0) →
      (finalizeEpochs es ss).FirstZero = ss.FirstZero := by
  induction es with
  | nil => intro ss _ _; rfl
  | cons e es ih =>
    intro ss hpos hne
    have he := LogTrnEpc_atEpochEnd_FirstZero e ss (hpos e (List.mem_cons_self _ _))
    rw [if_neg (by intro h; exact absurd h.2 (hne e (List.mem_cons_self _ _)))] at he
    rw [finalizeEpochs_cons, ih _ (fun x hx => hpos x (List.mem_cons_of_mem _ hx))
      (fun x hx => hne x (List.mem_cons_of_mem _ hx)), he]

/-- C16: the simulation operations of one `AlphaCyc` call are the same for
any two calls with the same `train` flag, whatever the network, the state,
`StopNow`, `ViewOn`, `TrainUpdt` and `TestUpdt`; two calls from states that
differ at most in these four settings (and in logged observer events) end in
states that differ at most in them, with the same network state, recall
outcome and gain snapshots; and the outcome of `MemStats` is determined by
`train`, the unit values it reads, `MemThr` and the previous `Mem`. -/
theorem AlphaCyc_observation_independent (L : Leabra σ) (train : Bool) (ss1 ss2 : Sim σ)
    (h : ss1.eraseObs = ss2.eraseObs) :
    (AlphaCyc L train ss1).eraseObs = (AlphaCyc L train ss2).eraseObs ∧
    AlphaCycOps L train ss1 = AlphaCycOps L train ss2 ∧
    (∀ (L2 : Leabra σ) (ss3 : Sim σ),
      opsOf (AlphaCycOps L train ss1) = opsOf (AlphaCycOps L2 train ss3)) ∧
    (∀ (L1 L2 : Leabra σ) (s1 s2 : Sim σ),
      L1.ShapeLen s1.Net.core .ECout = L2.ShapeLen s2.Net.core .ECout →
      (∀ i, i < L1.ShapeLen s1.Net.core .ECout →
        L1.UnitVal1D s1.Net.core .ECout .ActM i = L2.UnitVal1D s2.Net.core .ECout .ActM i ∧
        L1.UnitVal1D s1.Net.core .ECout .Targ i = L2.UnitVal1D s2.Net.core .ECout .Targ i ∧
        L1.UnitVal1D s1.Net.core .ECin .ActQ1 i = L2.UnitVal1D s2.Net.core .ECin .ActQ1 i) →
      s1.MemThr = s2.MemThr → s1.Mem = s2.Mem →
      (MemStats L1 train s1).Mem = (MemStats L2 train s2).Mem ∧
      (MemStats L1 train s1).TrgOnWasOffAll = (MemStats L2 train s2).TrgOnWasOffAll ∧
      (MemStats L1 train s1).TrgOnWasOffCmp = (MemStats L2 train s2).TrgOnWasOffCmp ∧
      (MemStats L1 train s1).TrgOffWasOn = (MemStats L2 train s2).TrgOffWasOn) := by
  refine ⟨?_, ?_, ?_, ?_⟩
  · rw [AlphaCyc_eraseObs L train ss1, AlphaCyc_eraseObs L train ss2, h]
  · have ha := congrArg (fun s : Sim σ => s.Net.ca1FmECinAbs) h
    have hb := congrArg (fun s : Sim σ => s.Net.ca1FmCa3Abs) h
    change ss1.Net.ca1FmECinAbs = ss2.Net.ca1FmECinAbs at ha
    change ss1.Net.ca1FmCa3Abs = ss2.Net.ca1FmCa3Abs at hb
    cases train
    · rw [AlphaCycOps_test, AlphaCycOps_test, ha, hb]
    · rw [AlphaCycOps_train, AlphaCycOps_train, ha, hb]
  · intro L2 ss3
    rw [opsOf_AlphaCycOps, opsOf_AlphaCycOps]
  · intro L1 L2 s1 s2 hlen hval hthr hmem
    apply MemStats_outcome_congr L1 L2 train s1 s2 _ hthr hmem
    unfold memStatsCounts
    rw [← hlen]
    exact memStatsLoop_congr _ _ _ _ _ _ _ hval

/-- Witness for C16: the 8-unit scenario run once watched at every cycle with
a stop requested and once without display ends in the same state up to these
settings. -/
theorem AlphaCyc_observation_independent_witness :
    watchedSim.eraseObs = unwatchedSim.eraseObs ∧
    (AlphaCyc unitsLeabra true watchedSim).eraseObs =
      (AlphaCyc unitsLeabra true unwatchedSim).eraseObs :=
  ⟨rfl, (AlphaCyc_observation_independent unitsLeabra true watchedSim unwatchedSim rfl).1⟩

/-- C17: `TrialStats(true)` stores the trial's statistics read from `ECout`,
adds `TrlSSE`, `TrlAvgSSE` and `TrlCosDiff` to `SumSSE`, `SumAvgSSE` and
`SumCosDiff`, and adds 1 to `CntErr` if `TrlSSE != 0` and nothing otherwise;
`TrialStats(false)` leaves the three sums and `CntErr` as they were. -/
theorem TrialStats_accumulates (L : Leabra σ) (ss : Sim σ) :
    (TrialStats L true ss).1.TrlSSE = (L.MSE ss.Net.core .ECout (1 / 2)).1 ∧
    (TrialStats L true ss).1.TrlAvgSSE = (L.MSE ss.Net.core .ECout (1 / 2)).2 ∧
    (TrialStats L true ss).1.TrlCosDiff = L.CosDiffCos ss.Net.core .ECout ∧
    (TrialStats L true ss).1.SumSSE = F64.add ss.SumSSE (TrialStats L true ss).1.TrlSSE ∧
    (TrialStats L true ss).1.SumAvgSSE =
      F64.add ss.SumAvgSSE (TrialStats L true ss).1.TrlAvgSSE ∧
    (TrialStats L true ss).1.SumCosDiff =
      F64.add ss.SumCosDiff (TrialStats L true ss).1.TrlCosDiff ∧
    (TrialStats L true ss).1.CntErr =
      ss.CntErr + (if F64.ne (TrialStats L true ss).1.TrlSSE (.fin 0) = true then 1 else 0) ∧
    (TrialStats L false ss).1.SumSSE = ss.SumSSE ∧
    (TrialStats L false ss).1.SumAvgSSE = ss.SumAvgSSE ∧
    (TrialStats L false ss).1.SumCosDiff = ss.SumCosDiff ∧
    (TrialStats L false ss).1.CntErr = ss.CntErr := by
  simp only [TrialStats, Sim.emit, if_true, Bool.false_eq_true, if_false]
  split_ifs <;> simp

/-- C18: after `LogTrnEpc`, whatever the state before, `SumSSE`, `SumAvgSSE`
and `SumCosDiff` are 0 and `CntErr` is 0. -/
theorem LogTrnEpc_resets_accumulators (ss : Sim σ) :
    (LogTrnEpc ss).SumSSE = F64.fin 0 ∧ (LogTrnEpc ss).SumAvgSSE = F64.fin 0 ∧
    (LogTrnEpc ss).SumCosDiff = F64.fin 0 ∧ (LogTrnEpc ss).CntErr = 0 := by
  simp only [LogTrnEpc, Sim.emit]
  split_ifs <;> simp

/-- C19 (fails): with a training table of 3 rows and an epoch of 2 training
trials (sum squared errors 1 and 2, both counted as errors), `LogTrnEpc`
divides by the table length 3 and not by the number of trials 2: `EpcSSE` is 1
and not the mean 3/2, `EpcAvgSSE` is 1/8 and not 3/16, `EpcCosDiff` is 2/3
and not 1, `EpcPctErr` is 2/3 and not 1, although both trials were errors. -/
theorem LogTrnEpc_divides_by_table_length :
    (accumTrials trialErrLeabra twoTrials threeRowSim).SumSSE = F64.fin 3 ∧
    (accumTrials trialErrLeabra twoTrials threeRowSim).CntErr = 2 ∧
    twoTrials.length = 2 ∧
    (LogTrnEpc (accumTrials trialErrLeabra twoTrials threeRowSim)).EpcSSE = F64.fin 1 ∧
    (LogTrnEpc (accumTrials trialErrLeabra twoTrials threeRowSim)).EpcAvgSSE
      = F64.fin (1 / 8) ∧
    (LogTrnEpc (accumTrials trialErrLeabra twoTrials threeRowSim)).EpcCosDiff
      = F64.fin (2 / 3) ∧
    (LogTrnEpc (accumTrials trialErrLeabra twoTrials threeRowSim)).EpcPctErr
      = F64.fin (2 / 3) ∧
    (LogTrnEpc (accumTrials trialErrLeabra twoTrials threeRowSim)).EpcPctCor
      = F64.fin (1 / 3) ∧
    F64.fin 1 ≠ F64.fin ((1 + 2) / 2) ∧ F64.fin (2 / 3) ≠ F64.fin (2 / 2) := by
  have hs : (accumTrials trialErrLeabra twoTrials threeRowSim).SumSSE = F64.fin 3 ∧
      (accumTrials trialErrLeabra twoTrials threeRowSim).SumAvgSSE = F64.fin (3 / 8) ∧
      (accumTrials trialErrLeabra twoTrials threeRowSim).SumCosDiff = F64.fin 2 ∧
      (accumTrials trialErrLeabra twoTrials threeRowSim).CntErr = 2 ∧
      (accumTrials trialErrLeabra twoTrials threeRowSim).TrainEnv.TableLen = 3 := by
    simp [accumTrials, twoTrials, threeRowSim, InitStats, TrialStats, trialErrLeabra, Sim.emit,
      F64.add, F64.ne, F64.eq]
    norm_num
  obtain ⟨s1, s2, s3, s4, s5⟩ := hs
  obtain ⟨e1, e2, e3, e4, e5⟩ :=
    LogTrnEpc_summary (accumTrials trialErrLeabra twoTrials threeRowSim)
  rw [s1, s5] at e1
  rw [s2, s5] at e2
  rw [s3, s5] at e3
  rw [s4, s5] at e4 e5
  refine ⟨s1, s4, rfl, ?_, ?_, ?_, ?_, ?_, ?_, ?_⟩
  · rw [e1]; norm_num [F64.div, F64.ofNat]
  · rw [e2]; norm_num [F64.div, F64.ofNat]
  · rw [e3]; norm_num [F64.div, F64.ofNat]
  · rw [e4]; norm_num [F64.div, F64.ofNat, F64.ofInt]
  · rw [e5]; norm_num [F64.div, F64.ofNat, F64.ofInt, F64.sub, F64.add, F64.neg]
  · intro h; injection h with h; norm_num at h
  · intro h; injection h with h; norm_num at h

theorem InitStats_FirstZero (ss : Sim σ) : (InitStats ss).FirstZero = -1 := rfl

/-- C20: `FirstZero` is write-once.  Start from `InitStats` (`FirstZero` =
-1) and let `LogTrnEpc` be called at the ends of the epochs `es`, each with a
non-empty training table and a non-negative previous-epoch index, the indices
strictly increasing.  Then `FirstZero` is still -1 if every epoch had a
non-zero error count; and if `e` is the first epoch end with error count 0,
`FirstZero` is the index of `e` right after that call and after every
sequence `es2` of later calls, and it is the lowest index of an epoch with
error count 0. -/
theorem FirstZero_write_once (es : List EpochEnd) (ss : Sim σ)
    (hpos : ∀ e ∈ es, 0 < e.tableLen) (hepc : ∀ e ∈ es, 0 ≤ e.epc)
    (hinc : es.Pairwise (fun a b => a.epc < b.epc)) :
    ((∀ e ∈ es, e.cntErr ≠ 0) → (finalizeEpochs es (InitStats ss)).FirstZero = -1) ∧
    (∀ (es1 : List EpochEnd) (e : EpochEnd) (es2 : List EpochEnd),
      es = es1 ++ e :: es2 → (∀ x ∈ es1, x.cntErr ≠ 0) → e.cntErr = 0 →
      (finalizeEpochs es1 (InitStats ss)).FirstZero = -1 ∧
      (finalizeEpochs (es1 ++ [e]) (InitStats ss)).FirstZero = e.epc ∧
      (finalizeEpochs es (InitStats ss)).FirstZero = e.epc ∧
      (∀ x ∈ es, x.cntErr = 0 → (finalizeEpochs es (InitStats ss)).FirstZero ≤ x.epc)) := by
  constructor
  · intro hne
    rw [finalizeEpochs_FirstZero_unset es _ hpos hne]
    rfl
  · intro es1 e es2 hes hne he0
    subst hes
    have hpos1 : ∀ x ∈ es1, 0 < x.tableLen :=
      fun x hx => hpos x (List.mem_append_left _ hx)
    have hpose : 0 < e.tableLen :=
      hpos e (List.mem_append_right _ (List.mem_cons_self _ _))
    have hpos2 : ∀ x ∈ es2, 0 < x.tableLen :=
      fun x hx => hpos x (List.mem_append_right _ (List.mem_cons_of_mem _ hx))
    have h1 : (finalizeEpochs es1 (InitStats ss)).FirstZero = -1 := by
      rw [finalizeEpochs_FirstZero_unset es1 _ hpos1 hne]
      rfl
    have h2 : (finalizeEpochs (es1 ++ [e]) (InitStats ss)).FirstZero = e.epc := by
      rw [finalizeEpochs_append, finalizeEpochs_cons]
      change (LogTrnEpc (Sim.atEpochEnd e (finalizeEpochs es1 (InitStats ss)))).FirstZero = e.epc
      rw [LogTrnEpc_atEpochEnd_FirstZero e _ hpose, h1, if_pos ⟨by decide, he0⟩]
    have h3 : (finalizeEpochs (es1 ++ e :: es2) (InitStats ss)).FirstZero = e.epc := by
      have hsplit : es1 ++ e :: es2 = (es1 ++ [e]) ++ es2 := by simp
      rw [hsplit, finalizeEpochs_append, finalizeEpochs_FirstZero_set es2 _ hpos2, h2]
      rw [h2]
      exact hepc e (List.mem_append_right _ (List.mem_cons_self _ _))
    refine ⟨h1, h2, h3, ?_⟩
    intro x hx hx0
    rw [h3]
    rcases List.mem_append.mp hx with hx1 | hx2
    · exact absurd hx0 (hne x hx1)
    · rcases List.mem_cons.mp hx2 with hxe | hx3
      · rw [hxe]
      · have hp := (List.pairwise_append.mp hinc).2.1
        exact le_of_lt (List.rel_of_pairwise_cons hp hx3)

/-- Witness for C20: with error counts 3, 0, 1, 0 at the epochs 0, 1, 2, 3,
`FirstZero` is -1 after epoch 0, 1 after epoch 1 and still 1 at the end. -/
theorem FirstZero_write_once_witness :
    (finalizeEpochs (fourEpochs.take 1) (InitStats threeRowSim)).FirstZero = -1 ∧
    (finalizeEpochs (fourEpochs.take 2) (InitStats threeRowSim)).FirstZero = 1 ∧
    (finalizeEpochs fourEpochs (InitStats threeRowSim)).FirstZero = 1 := by
  have h := (FirstZero_write_once fourEpochs threeRowSim
    (by intro e he; simp [fourEpochs] at he; rcases he with h | h | h | h <;> rw [h] <;> decide)
    (by intro e he; simp [fourEpochs] at he; rcases he with h | h | h | h <;> rw [h] <;> decide)
    (by simp [fourEpochs])).2
    (fourEpochs.take 1) { epc := 1, cntErr := 0, tableLen := 8 } (fourEpochs.drop 2) rfl
    (by intro x hx; simp [fourEpochs] at hx; rw [hx]; decide) rfl
  exact ⟨h.1, h.2.1, h.2.2.1⟩

theorem keepOuter_trans {a b c : Sim σ} (h1 : Sim.keepOuter a b = b)
    (h2 : Sim.keepOuter b c = c) : Sim.keepOuter a c = c := by
  rw [← h2, ← h1]
  rfl

theorem keepOuter_emit (o : Op) (ss : Sim σ) : Sim.keepOuter ss (ss.emit o) = ss.emit o := rfl

theorem keepOuter_netOp (f : Network σ → σ) (o : Op) (ss : Sim σ) :
    Sim.keepOuter ss (ss.netOp f o) = ss.netOp f o := rfl

theorem keepOuter_MemStats (L : Leabra σ) (train : Bool) (ss : Sim σ) :
    Sim.keepOuter ss (MemStats L train ss) = MemStats L train ss := by
  unfold MemStats
  generalize memStatsCounts L ss = c
  simp only []
  split_ifs <;> rfl

theorem keepOuter_cycleStep (L : Leabra σ) (train : Bool) (vu : TimeScales) (cyc : ℕ)
    (ss : Sim σ) :
    Sim.keepOuter ss (cycleStep L train vu cyc ss) = cycleStep L train vu cyc ss := by
  unfold cycleStep
  cases train <;> cases vu <;> simp only [Bool.not_true, Bool.not_false, Bool.false_eq_true, if_true, if_false] <;>
    split_ifs <;> rfl

theorem keepOuter_cycleLoop (L : Leabra σ) (train : Bool) (vu : TimeScales) (l : List ℕ) :
    ∀ s0 ss : Sim σ, Sim.keepOuter s0 ss = ss →
      Sim.keepOuter s0 (l.foldl (fun s cyc => cycleStep L train vu cyc s) ss) =
        l.foldl (fun s cyc => cycleStep L train vu cyc s) ss := by
  induction l with
  | nil => intro s0 ss h; exact h
  | cons c l ih =>
    intro s0 ss h
    rw [List.foldl_cons]
    exact ih s0 _ (keepOuter_trans h (keepOuter_cycleStep L train vu c ss))

theorem keepOuter_quarterSwitch (L : Leabra σ) (train : Bool) (qtr : ℕ) (ss : Sim σ) :
    Sim.keepOuter ss (quarterSwitch L train qtr ss) = quarterSwitch L train qtr ss := by
  rcases qtr with _ | _ | _ | q <;> cases train <;> rfl

theorem keepOuter_quarterStep (L : Leabra σ) (train : Bool) (vu : TimeScales) (qtr : ℕ)
    (ss : Sim σ) :
    Sim.keepOuter ss (quarterStep L train vu qtr ss) = quarterStep L train vu qtr ss := by
  unfold quarterStep
  dsimp only
  have h1 := keepOuter_cycleLoop L train vu (List.range 25) ss ss rfl
  generalize List.foldl _ ss (List.range 25) = s1 at h1 ⊢
  have h2 := keepOuter_trans h1 (keepOuter_quarterSwitch L train qtr s1)
  generalize quarterSwitch L train qtr s1 = s2 at h2 ⊢
  have h3 := keepOuter_trans h2 (keepOuter_netOp (fun n => L.QuarterFinal n s2.Time) .QuarterFinal s2)
  generalize Sim.netOp _ _ s2 = s3 at h3 ⊢
  have h4 : Sim.keepOuter ss (if qtr + 1 = 3 then MemStats L train s3 else s3) =
      (if qtr + 1 = 3 then MemStats L train s3 else s3) := by
    split_ifs
    · exact keepOuter_trans h3 (keepOuter_MemStats L train s3)
    · exact h3
  generalize (if qtr + 1 = 3 then MemStats L train s3 else s3) = s4 at h4 ⊢
  have h5 : Sim.keepOuter ss s4.QuarterInc = s4.QuarterInc :=
    keepOuter_trans h4 (keepOuter_emit _ _)
  generalize s4.QuarterInc = s5 at h5 ⊢
  have h6 : Sim.keepOuter ss (s5.UpdateView train) = s5.UpdateView train :=
    keepOuter_trans h5 (keepOuter_emit _ _)
  split_ifs <;> assumption

theorem keepOuter_quartersLoop (L : Leabra σ) (train : Bool) (vu : TimeScales) (l : List ℕ) :
    ∀ s0 ss : Sim σ, Sim.keepOuter s0 ss = ss →
      Sim.keepOuter s0 (l.foldl (fun s qtr => quarterStep L train vu qtr s) ss) =
        l.foldl (fun s qtr => quarterStep L train vu qtr s) ss := by
  induction l with
  | nil => intro s0 ss h; exact h
  | cons c l ih =>
    intro s0 ss h
    rw [List.foldl_cons]
    exact ih s0 _ (keepOuter_trans h (keepOuter_quarterStep L train vu c ss))

/-- `AlphaCyc` writes only the network, the time, the log, the scratch values
and the recall statistics. -/
theorem AlphaCyc_keepOuter (L : Leabra σ) (train : Bool) (ss : Sim σ) :
    Sim.keepOuter ss (AlphaCyc L train ss) = AlphaCyc L train ss := by
  unfold AlphaCyc
  generalize Sim.viewUpdt train ss = vu
  have h0 : ∀ s : Sim σ, Sim.keepOuter ss s = s →
      Sim.keepOuter ss (List.foldl (fun s qtr => quarterStep L train vu qtr s) s (List.range 4)) =
      List.foldl (fun s qtr => quarterStep L train vu qtr s) s (List.range 4) :=
    fun s h => keepOuter_quartersLoop L train vu (List.range 4) ss s h
  cases train
  · simp only [Bool.false_eq_true, if_false, Bool.not_false, if_true]
    have h1 := h0 (Sim.AlphaCycStart (Sim.netOp L.AlphaCycInit Op.AlphaCycInit
      (Sim.netOp L.UpdateExtFlags Op.UpdateExtFlags (Sim.SetType LayerType.Compare ss)))) rfl
    generalize List.foldl _ _ (List.range 4) = s1 at h1 ⊢
    have h2 : Sim.keepOuter ss (s1.UpdateView false) = s1.UpdateView false :=
      keepOuter_trans h1 (keepOuter_emit _ _)
    split_ifs
    · exact keepOuter_trans h2 (keepOuter_emit _ _)
    · exact keepOuter_trans h1 (keepOuter_emit _ _)
  · simp only [if_true, Bool.not_true, Bool.false_eq_true, if_false]
    have h1 := h0 (Sim.AlphaCycStart (Sim.netOp L.AlphaCycInit Op.AlphaCycInit
      (Sim.setCa3Abs 0 (Sim.setECinAbs 1 (Sim.netOp L.UpdateExtFlags Op.UpdateExtFlags
        (Sim.SetType LayerType.Target (Sim.netOp L.WtFmDWt Op.WtFmDWt ss))))))) rfl
    generalize List.foldl _ _ (List.range 4) = s1 at h1 ⊢
    have h2 : Sim.keepOuter ss (Sim.netOp L.DWt Op.DWt s1) = Sim.netOp L.DWt Op.DWt s1 :=
      keepOuter_trans h1 (keepOuter_netOp _ _ _)
    generalize Sim.netOp L.DWt Op.DWt s1 = s2 at h2 ⊢
    split_ifs
    · exact keepOuter_trans h2 (keepOuter_emit _ _)
    · exact h2

/-! ## Lemmas on the calls of a trial -/

theorem calls_append (s t : List Event) : calls (s ++ t) = calls s ++ calls t := by
  simp only [calls, opsOf_append, List.filter_append]

theorem calls_simOps (t : List Event) : calls (simOps t) = calls t := by
  unfold calls
  apply filter_opsOf_simOps
  intro o h
  cases o <;> simp_all [Op.isCall, Op.isObserver]

set_option maxRecDepth 100000 in
theorem calls_trainOps : (opsOf (trainOps 0 0)).filter Op.isCall = [] := by
  decide

set_option maxRecDepth 100000 in
theorem calls_testOps : (opsOf (testOps 0 0)).filter Op.isCall = [] := by
  decide

/-- No operation inside `AlphaCyc` is a call of the run control. -/
theorem calls_AlphaCycTrace (L : Leabra σ) (train : Bool) (ss : Sim σ) :
    calls (AlphaCycTrace L train ss) = [] := by
  rw [← calls_simOps]
  have h := opsOf_AlphaCycOps L train ss
  unfold AlphaCycOps at h
  unfold calls
  rw [h]
  cases train
  · exact calls_testOps
  · exact calls_trainOps

theorem calls_emit (o : Op) (ss : Sim σ) :
    calls (ss.emit o).log = calls ss.log ++ (if o.isCall then [o] else []) := by
  simp only [Sim.emit, calls_append]
  congr 1
  cases h : o.isCall <;> simp [calls, opsOf, h]

theorem calls_netOp (f : Network σ → σ) (o : Op) (ss : Sim σ) :
    calls (ss.netOp f o).log = calls ss.log ++ (if o.isCall then [o] else []) := by
  simp only [Sim.netOp, Sim.emit, calls_append]
  congr 1
  cases h : o.isCall <;> simp [calls, opsOf, h]

theorem keepTest_trans {a b c : Sim σ} (h1 : Sim.keepTest a b = b)
    (h2 : Sim.keepTest b c = c) : Sim.keepTest a c = c := by
  rw [← h2, ← h1]
  rfl

theorem keepTest_of_keepOuter {a b : Sim σ} (h : Sim.keepOuter a b = b) :
    Sim.keepTest a b = b := by
  rw [← h]
  rfl

theorem callAlphaCyc_keepOuter (L : Leabra σ) (train : Bool) (ss : Sim σ) :
    Sim.keepOuter ss (callAlphaCyc L train ss) = callAlphaCyc L train ss :=
  keepOuter_trans (keepOuter_emit _ ss) (AlphaCyc_keepOuter L train _)

theorem callAlphaCyc_calls (L : Leabra σ) (train : Bool) (ss : Sim σ) :
    calls (callAlphaCyc L train ss).log = calls ss.log ++
      [.AlphaCyc train (if train then ss.TrainEnv.Trial.Cur else ss.TestEnv.Trial.Cur)] := by
  unfold callAlphaCyc
  rw [AlphaCyc_log, calls_append, calls_AlphaCycTrace, calls_emit]
  simp [Op.isCall]

theorem ApplyInputs_keepOuter (L : Leabra σ) (train : Bool) (ss : Sim σ) :
    Sim.keepOuter ss (ApplyInputs L train ss) = ApplyInputs L train ss := rfl

theorem ApplyInputs_calls (L : Leabra σ) (train : Bool) (ss : Sim σ) :
    calls (ApplyInputs L train ss).log = calls ss.log ++ [.ApplyInputs train] := by
  unfold ApplyInputs
  simp [calls_netOp, calls_emit, Op.isCall]

theorem TrialStats_calls (L : Leabra σ) (accum : Bool) (ss : Sim σ) :
    calls (TrialStats L accum ss).1.log = calls ss.log ++ [.TrialStats accum] := by
  unfold TrialStats
  dsimp only
  rw [calls_emit]
  cases accum
  · simp [Op.isCall]
  · simp only [if_true, Op.isCall]
    split_ifs <;> rfl

theorem TrialStats_false_keepTest (L : Leabra σ) (ss : Sim σ) :
    Sim.keepTest ss (TrialStats L false ss).1 = (TrialStats L false ss).1 := rfl

theorem LogTstTrl_keepTest (ss : Sim σ) : Sim.keepTest ss (LogTstTrl ss) = LogTstTrl ss := rfl

theorem LogTstTrl_calls (ss : Sim σ) : calls (LogTstTrl ss).log = calls ss.log ++ [.LogTstTrl] := by
  unfold LogTstTrl
  dsimp only
  rw [calls_emit]
  simp [Op.isCall]

theorem LogTstEpc_keepTest (ss : Sim σ) : Sim.keepTest ss (LogTstEpc ss) = LogTstEpc ss := rfl

theorem LogTstEpc_calls (ss : Sim σ) : calls (LogTstEpc ss).log = calls ss.log ++ [.LogTstEpc] := by
  unfold LogTstEpc
  dsimp only
  rw [calls_emit]
  simp [Op.isCall]

theorem LogTrnTrl_calls (ss : Sim σ) : calls (LogTrnTrl ss).log = calls ss.log ++ [.LogTrnTrl] := by
  unfold LogTrnTrl
  dsimp only
  rw [calls_emit]
  simp [Op.isCall]

theorem LogTrnEpc_calls (ss : Sim σ) : calls (LogTrnEpc ss).log = calls ss.log ++ [.LogTrnEpc] := by
  unfold LogTrnEpc
  dsimp only
  rw [calls_emit]
  simp only [Op.isCall, if_true]
  split_ifs <;> rfl

/-! ## Lemmas on the environment counters -/

theorem SetTrialName_counters (ft : FixedTable) :
    ft.SetTrialName.Trial = ft.Trial ∧ ft.SetTrialName.Epoch = ft.Epoch ∧
      ft.SetTrialName.Run = ft.Run := by
  unfold FixedTable.SetTrialName
  split_ifs <;> exact ⟨rfl, rfl, rfl⟩

theorem Step_Run (ft : FixedTable) : ft.Step.Run = ft.Run := by
  unfold FixedTable.Step
  dsimp only
  rw [(SetTrialName_counters _).2.2]
  split_ifs <;> rfl

/-- A step that does not reach the maximum of the trial counter: the trial
counter advances and the epoch counter reports no change. -/
theorem Step_noWrap (ft : FixedTable)
    (h : ¬ (0 < ft.Trial.Max ∧ ft.Trial.Max ≤ ft.Trial.Cur + 1)) :
    ft.Step.Trial.Cur = ft.Trial.Cur + 1 ∧ ft.Step.Trial.Max = ft.Trial.Max ∧
      ft.Step.Epoch.Chg = false ∧ ft.Step.Epoch.Cur = ft.Epoch.Cur := by
  unfold FixedTable.Step
  dsimp only
  rw [(SetTrialName_counters _).1, (SetTrialName_counters _).2.1]
  simp [Ctr.Incr, Ctr.Same, h]

/-- A step that reaches the maximum of the trial counter: the trial counter
is back at 0 and the epoch counter reports a change. -/
theorem Step_wrap (ft : FixedTable)
    (h : 0 < ft.Trial.Max ∧ ft.Trial.Max ≤ ft.Trial.Cur + 1) :
    ft.Step.Trial.Cur = 0 ∧ ft.Step.Trial.Max = ft.Trial.Max ∧ ft.Step.Epoch.Chg = true := by
  unfold FixedTable.Step
  dsimp only
  rw [(SetTrialName_counters _).1, (SetTrialName_counters _).2.1]
  simp only [Ctr.Incr, Ctr.Same, h, and_self, if_true]
  split_ifs <;> simp

/-- With no maximum set for the epoch counter and a non-negative epoch, the
epoch counter is at 0 after a step only when it did not change. -/
theorem Step_epoch_zero (ft : FixedTable) (hmax : ft.Epoch.Max = 0) (hcur : 0 ≤ ft.Epoch.Cur)
    (h0 : ft.Step.Epoch.Cur = 0) : ft.Step.Epoch.Chg = false := by
  unfold FixedTable.Step at h0 ⊢
  dsimp only at h0 ⊢
  rw [(SetTrialName_counters _).2.1] at h0 ⊢
  split_ifs at h0 ⊢ with hw
  · simp [Ctr.Incr, Ctr.Same, hmax] at h0
    omega
  · rfl

/-- The program never assigns `Epoch.Max`: `Init` and `Step` keep it, and
keep the epoch from becoming negative. -/
theorem epoch_counter_invariant (run : ℤ) (ft : FixedTable) :
    (ft.Init run).Epoch.Max = ft.Epoch.Max ∧ (ft.Init run).Epoch.Cur = 0 ∧
    ft.Step.Epoch.Max = ft.Epoch.Max ∧
    (ft.Epoch.Max = 0 → 0 ≤ ft.Epoch.Cur → 0 ≤ ft.Step.Epoch.Cur) := by
  refine ⟨rfl, rfl, ?_, ?_⟩
  · unfold FixedTable.Step
    dsimp only
    rw [(SetTrialName_counters _).2.1]
    split_ifs
    · simp only [Ctr.Incr, Ctr.Same]
      split_ifs <;> rfl
    · rfl
  · intro hmax hcur
    unfold FixedTable.Step
    dsimp only
    rw [(SetTrialName_counters _).2.1]
    split_ifs
    · simp only [Ctr.Incr, Ctr.Same, hmax, lt_self_iff_false, false_and, if_false]
      omega
    · exact hcur

theorem Init_counters (run : ℤ) (ft : FixedTable) :
    (ft.Init run).Trial.Cur = -1 ∧ (ft.Init run).Trial.Max = ft.TableLen ∧
      (ft.Init run).Epoch.Cur = 0 ∧ (ft.Init run).Epoch.Chg = false ∧
      (ft.Init run).Run.Cur = run := ⟨rfl, rfl, rfl, rfl, rfl⟩

/-! ## Lemmas on the evaluation pass -/

/-- A test trial in which the epoch counter of the test environment reports
a change: the environment is stepped and nothing else is called. -/
theorem TestTrial_wrap (L : Leabra σ) (ss : Sim σ) (h : ss.TestEnv.Step.Epoch.Chg = true) :
    calls (TestTrial L ss).log = calls ss.log ++ [.TestTrial] ∧
    (TestTrial L ss).TestEnv = ss.TestEnv.Step ∧
    (TestTrial L ss).StopNow = ss.StopNow ∧
    (TestTrial L ss).TstEpcLog = ss.TstEpcLog ∧
    Sim.keepTest ss (TestTrial L ss) = TestTrial L ss := by
  have hun : TestTrial L ss =
      if ss.ViewOn && decide (TimeScales.AlphaCycle.toNat < ss.TestUpdt.toNat) then
        Sim.UpdateView false { ss.emit .TestTrial with TestEnv := ss.TestEnv.Step }
      else { ss.emit .TestTrial with TestEnv := ss.TestEnv.Step } := by
    unfold TestTrial
    exact if_pos h
  rw [hun]
  have c := calls_emit .TestTrial ss
  simp only [Op.isCall, if_true] at c
  split_ifs
  · refine ⟨?_, rfl, rfl, rfl, rfl⟩
    have c2 := calls_emit (.UpdateView false)
      ({ ss.emit .TestTrial with TestEnv := ss.TestEnv.Step } : Sim σ)
    simp only [Op.isCall, Bool.false_eq_true, if_false, List.append_nil] at c2
    exact c2.trans c
  · exact ⟨c, rfl, rfl, rfl, rfl⟩

/-- A test trial in which the epoch counter reports no change: the inputs of
the trial are applied, one alpha cycle runs without training, the trial
statistics are computed without accumulation and the trial is logged. -/
theorem TestTrial_normal (L : Leabra σ) (ss : Sim σ) (h : ss.TestEnv.Step.Epoch.Chg = false) :
    calls (TestTrial L ss).log = calls ss.log ++ testTrialCalls ss.TestEnv.Step.Trial.Cur ∧
    (TestTrial L ss).TestEnv = ss.TestEnv.Step ∧
    (TestTrial L ss).StopNow = ss.StopNow ∧
    (TestTrial L ss).TstEpcLog = ss.TstEpcLog ∧
    Sim.keepTest ss (TestTrial L ss) = TestTrial L ss := by
  obtain ⟨s1, hs1⟩ : ∃ s1 : Sim σ, s1 = { ss.emit .TestTrial with TestEnv := ss.TestEnv.Step } :=
    ⟨_, rfl⟩
  have hun : TestTrial L ss =
      LogTstTrl (TrialStats L false (callAlphaCyc L false (ApplyInputs L false s1))).1 := by
    rw [hs1]
    unfold TestTrial
    exact if_neg (by show ¬ (ss.TestEnv.Step.Epoch.Chg = true); rw [h]; simp)
  rw [hun]
  have k1 : Sim.keepTest ss s1 = s1 := by rw [hs1]; rfl
  have c1 : calls s1.log = calls ss.log ++ [.TestTrial] := by
    rw [hs1]
    have := calls_emit .TestTrial ss
    simpa [Op.isCall] using this
  have e1 : s1.TestEnv = ss.TestEnv.Step := by rw [hs1]
  have t1 : s1.StopNow = ss.StopNow ∧ s1.TstEpcLog = ss.TstEpcLog := by rw [hs1]; exact ⟨rfl, rfl⟩
  clear hs1 hun
  have k2 := keepOuter_trans (ApplyInputs_keepOuter L false s1) (callAlphaCyc_keepOuter L false _)
  have c2 := callAlphaCyc_calls L false (ApplyInputs L false s1)
  rw [ApplyInputs_calls] at c2
  have e2 : (ApplyInputs L false s1).TestEnv = s1.TestEnv := rfl
  generalize callAlphaCyc L false (ApplyInputs L false s1) = s2 at k2 c2 ⊢
  have f2 : s2.TestEnv = s1.TestEnv ∧ s2.StopNow = s1.StopNow ∧ s2.TstEpcLog = s1.TstEpcLog := by
    rw [← k2]; exact ⟨rfl, rfl, rfl⟩
  have c3 := TrialStats_calls L false s2
  have c4 := LogTstTrl_calls (TrialStats L false s2).1
  refine ⟨?_, ?_, ?_, ?_, ?_⟩
  · rw [c4, c3, c2, c1, e2, e1]
    simp [testTrialCalls]
  · exact f2.1.trans e1
  · exact f2.2.1.trans t1.1
  · exact f2.2.2.trans t1.2
  · exact keepTest_trans k1 (keepTest_trans (keepTest_of_keepOuter k2)
      (keepTest_trans (TrialStats_false_keepTest L s2) (LogTstTrl_keepTest _)))

theorem range_succ_map_flatten (f : ℤ → List Op) (i : ℤ) (k : ℕ) :
    ((List.range (k + 1)).map (fun j : ℕ => f (i + (j : ℤ)))).flatten =
      f i ++ ((List.range k).map (fun j : ℕ => f (i + 1 + (j : ℤ)))).flatten := by
  rw [List.range_succ_eq_map]
  simp only [List.map_cons, List.flatten_cons, List.map_map, Nat.cast_zero, add_zero]
  congr 2
  apply List.map_congr_left
  intro j _
  simp only [Function.comp, Nat.cast_succ]
  congr 1
  ring

/-- The loop of `TestAll`, entered for iteration `i` with the trial counter
at `i - 1` and `d` trials left in the table: it ends within `d + 1`
iterations, after `k` trials and, when not stopped, the test trial in which
the counter wraps. -/
theorem testLoop_spec (L : Leabra σ) (stop : ℕ → Bool) (n : ℕ) (hn : 0 < n) :
    ∀ (d i fuel : ℕ) (ss : Sim σ), i + d = n → d < fuel →
      ss.TestEnv.Trial.Cur = (i : ℤ) - 1 → ss.TestEnv.Trial.Max = n →
      ∃ (k : ℕ) (w : Bool) (s1 : Sim σ),
        testLoop L stop fuel i ss = .ok s1 ∧
        calls s1.log = calls ss.log ++
          ((List.range k).map (fun j : ℕ => testTrialCalls ((i : ℤ) + (j : ℤ)))).flatten ++
          (if w then [.TestTrial] else []) ∧
        Sim.keepTest ss s1 = s1 ∧
        s1.TstEpcLog = ss.TstEpcLog ∧
        (w = true → k = d) ∧
        (w = false → s1.StopNow = true ∧ 1 ≤ k ∧ k ≤ d) ∧
        (∀ j : ℕ, j + 1 < k + (if w then 1 else 0) → stop (i + j) = false) ∧
        (1 < k + (if w then 1 else 0) → ss.StopNow = false) := by
  intro d
  induction d with
  | zero =>
    intro i fuel ss hi hf hc hm
    obtain ⟨f, rfl⟩ : ∃ f, fuel = f + 1 := ⟨fuel - 1, by omega⟩
    have hw : 0 < ss.TestEnv.Trial.Max ∧ ss.TestEnv.Trial.Max ≤ ss.TestEnv.Trial.Cur + 1 := by
      rw [hm, hc]; constructor <;> omega
    have hchg := (Step_wrap _ hw).2.2
    obtain ⟨c1, e1, t1, l1, k1⟩ := TestTrial_wrap L ss hchg
    have hE : (TestTrial L ss).TestEnv.Epoch.Chg = true := by rw [e1]; exact hchg
    refine ⟨0, true, if stop i then { TestTrial L ss with StopNow := true } else TestTrial L ss,
      ?_, ?_, ?_, ?_, ?_, ?_, ?_, ?_⟩
    · unfold testLoop
      dsimp only
      split_ifs <;> simp_all
    · simp only [List.range_zero, List.map_nil, List.flatten_nil, List.append_nil, if_true]
      split_ifs
      · exact c1
      · exact c1
    · split_ifs
      · exact keepTest_trans k1 rfl
      · exact k1
    · split_ifs <;> exact l1
    · intro _; rfl
    · intro h; cases h
    · intro j hj; simp at hj
    · intro hj; simp at hj
  | succ d ih =>
    intro i fuel ss hi hf hc hm
    obtain ⟨f, rfl⟩ : ∃ f, fuel = f + 1 := ⟨fuel - 1, by omega⟩
    have hw : ¬ (0 < ss.TestEnv.Trial.Max ∧ ss.TestEnv.Trial.Max ≤ ss.TestEnv.Trial.Cur + 1) := by
      rw [hm, hc]; omega
    obtain ⟨sc, sm, schg, -⟩ := Step_noWrap _ hw
    obtain ⟨c1, e1, t1, l1, k1⟩ := TestTrial_normal L ss schg
    have hcur : ss.TestEnv.Step.Trial.Cur = (i : ℤ) := by rw [sc, hc]; ring
    rw [hcur] at c1
    generalize hs2 : (if stop i then { TestTrial L ss with StopNow := true } else TestTrial L ss) = s2
    have c2 : calls s2.log = calls ss.log ++ testTrialCalls (i : ℤ) := by
      rw [← hs2]; split_ifs <;> exact c1
    have e2 : s2.TestEnv = ss.TestEnv.Step := by rw [← hs2]; split_ifs <;> exact e1
    have l2 : s2.TstEpcLog = ss.TstEpcLog := by rw [← hs2]; split_ifs <;> exact l1
    have k2 : Sim.keepTest ss s2 = s2 := by
      rw [← hs2]; split_ifs
      · exact keepTest_trans k1 rfl
      · exact k1
    have hE : s2.TestEnv.Epoch.Chg = false := by rw [e2]; exact schg
    have hun : testLoop L stop (f + 1) i ss =
        if s2.StopNow then .ok s2 else testLoop L stop f (i + 1) s2 := by
      conv_lhs => unfold testLoop
      dsimp only
      rw [hs2, hE]
      simp
    by_cases hst : s2.StopNow = true
    · refine ⟨1, false, s2, ?_, ?_, k2, l2, ?_, ?_, ?_, ?_⟩
      · rw [hun, hst]; rfl
      · rw [c2]; simp [List.range_succ]
      · intro h; cases h
      · intro _; exact ⟨hst, le_refl _, by omega⟩
      · intro j hj; simp at hj
      · intro hj; simp at hj
    · have hst2 : s2.StopNow = false := by simpa using hst
      obtain ⟨k, w, s3, r3, c3, k3, l3, w3, v3, u3, -⟩ :=
        ih (i + 1) f s2 (by omega) (by omega)
          (by rw [e2, hcur]; push_cast; ring) (by rw [e2, sm, hm])
      have hstop : stop i = false := by
        cases hsi : stop i
        · rfl
        · rw [hsi] at hs2
          rw [← hs2] at hst2
          cases hst2
      have hss : ss.StopNow = false := by
        rw [hstop] at hs2
        rw [← hs2] at hst2
        exact t1.symm.trans hst2
      refine ⟨k + 1, w, s3, ?_, ?_, keepTest_trans k2 k3, l3.trans l2, ?_, ?_, ?_, ?_⟩
      · rw [hun, hst2]; simpa using r3
      · rw [c3, c2, range_succ_map_flatten]
        push_cast
        simp only [List.append_assoc]
      · intro h; rw [w3 h]
      · intro h; obtain ⟨a, b, c⟩ := v3 h; exact ⟨a, by omega, by omega⟩
      · intro j hj
        cases j with
        | zero => exact hstop
        | succ j =>
          have := u3 j (by omega)
          rw [show i + (j + 1) = i + 1 + j by omega]
          exact this
      · intro _
        exact hss

/-- An evaluation pass over a test table with at least one row, given more
fuel than the table has rows: it ends, and its calls are those of
`testAllCalls k w` for the number `k` of trials presented. -/
theorem TestAll_spec (L : Leabra σ) (stop : ℕ → Bool) (fuel : ℕ) (ss : Sim σ)
    (hlen : 0 < ss.TestSL.length) (hfuel : ss.TestSL.length < fuel) :
    ∃ (k : ℕ) (w : Bool) (s1 : Sim σ) (row : TstEpcRow),
      TestAll L stop fuel ss = .ok s1 ∧
      calls s1.log = calls ss.log ++ testAllCalls k w ∧
      Sim.keepTest ss s1 = s1 ∧
      s1.TstEpcLog = ss.TstEpcLog ++ [row] ∧
      (w = true → k = ss.TestSL.length) ∧
      (w = false → s1.StopNow = true ∧ 1 ≤ k ∧ k ≤ ss.TestSL.length) ∧
      (∀ j : ℕ, j + 1 < k + (if w then 1 else 0) → stop j = false) ∧
      (1 < k + (if w then 1 else 0) → ss.StopNow = false) := by
  obtain ⟨s0, hs0⟩ : ∃ s0 : Sim σ, s0 = (({ ({ ({ ss.emit .TestAll with TestNm := "AB" } : Sim σ) with
      TestEnv := ss.TestEnv.setTable ss.TestSL } : Sim σ) with
      TestEnv := (ss.TestEnv.setTable ss.TestSL).Init ss.TrainEnv.Run.Cur } : Sim σ).emit
        (.EnvInit false)) := ⟨_, rfl⟩
  have hun0 : TestAll L stop fuel ss =
      match testLoop L stop fuel 0 s0 with
      | .error f => .error f
      | .ok s => .ok (LogTstEpc s) := by
    rw [hs0]; rfl
  have k0 : Sim.keepTest ss s0 = s0 := by rw [hs0]; rfl
  have c0 : calls s0.log = calls ss.log ++ [.TestAll, .EnvInit false] := by
    rw [hs0, calls_emit]
    have := calls_emit .TestAll ss
    simp only [Op.isCall, if_true] at this ⊢
    show calls (ss.emit .TestAll).log ++ _ = _
    rw [this]
    simp
  have l0 : s0.TstEpcLog = ss.TstEpcLog := by rw [hs0]; rfl
  have t0 : s0.StopNow = ss.StopNow := by rw [hs0]; rfl
  have e0 : s0.TestEnv.Trial.Cur = ((0 : ℕ) : ℤ) - 1 ∧ s0.TestEnv.Trial.Max = ss.TestSL.length := by
    rw [hs0]; exact ⟨rfl, rfl⟩
  clear hs0
  obtain ⟨k, w, s1, r1, c1, k1, l1, w1, v1, u1, x1⟩ :=
    testLoop_spec L stop ss.TestSL.length hlen ss.TestSL.length 0 fuel s0 (by omega) hfuel
      e0.1 e0.2
  have hun : TestAll L stop fuel ss = .ok (LogTstEpc s1) := by
    rw [hun0, r1]
  have hrow : ∃ row, (LogTstEpc s1).TstEpcLog = s1.TstEpcLog ++ [row] := ⟨_, rfl⟩
  obtain ⟨row, hrow⟩ := hrow
  refine ⟨k, w, LogTstEpc s1, row, hun, ?_, ?_, ?_, w1, ?_, ?_, ?_⟩
  · rw [LogTstEpc_calls, c1, c0]
    simp [testAllCalls]
  · exact keepTest_trans k0 (keepTest_trans k1 (LogTstEpc_keepTest s1))
  · rw [hrow, l1, l0]
  · intro h
    exact v1 h
  · intro j hj
    have := u1 j hj
    rwa [Nat.zero_add] at this
  · intro h
    exact t0.symm.trans (x1 h)

/-! ## Lemmas on the training trial -/

/-- The end of a training trial: the four calls, in order. -/
theorem trainStep_calls (L : Leabra σ) (ss : Sim σ) :
    calls (trainStep L ss).log = calls ss.log ++ trainCalls ss.TrainEnv.Trial.Cur := by
  unfold trainStep
  dsimp only
  have k2 := keepOuter_trans (ApplyInputs_keepOuter L true ss) (callAlphaCyc_keepOuter L true _)
  have c2 := callAlphaCyc_calls L true (ApplyInputs L true ss)
  rw [ApplyInputs_calls] at c2
  have e2 : (ApplyInputs L true ss).TrainEnv = ss.TrainEnv := rfl
  rw [LogTrnTrl_calls, TrialStats_calls, c2, e2]
  simp [trainCalls]

theorem LogTrnEpc_frame (ss : Sim σ) :
    (LogTrnEpc ss).TrainEnv = ss.TrainEnv ∧ (LogTrnEpc ss).TestInterval = ss.TestInterval ∧
    (LogTrnEpc ss).MaxEpcs = ss.MaxEpcs ∧ (LogTrnEpc ss).TestSL = ss.TestSL ∧
    (LogTrnEpc ss).TstEpcLog = ss.TstEpcLog := by
  unfold LogTrnEpc
  dsimp only
  split_ifs <;> exact ⟨rfl, rfl, rfl, rfl, rfl⟩

/-- `RunEnd` with at least two rows in `TstEpcLog`: the run is logged. -/
theorem RunEnd_spec (ss : Sim σ) (h : 2 ≤ ss.TstEpcLog.length) :
    ∃ s1 : Sim σ, RunEnd ss = .ok s1 ∧ calls s1.log = calls ss.log ++ [.RunEnd, .LogRun] ∧
      s1.TrainEnv = ss.TrainEnv ∧ s1.StopNow = ss.StopNow := by
  have hlo : ¬ (((ss.emit .RunEnd).TstEpcLog.length : ℤ) - 1 - 1 < 0) := by
    show ¬ ((ss.TstEpcLog.length : ℤ) - 1 - 1 < 0)
    omega
  obtain ⟨s0, hs0, c0, e0, t0⟩ : ∃ s0 : Sim σ, LogRun (ss.emit .RunEnd) = .ok s0 ∧
      calls s0.log = calls ss.log ++ [.RunEnd, .LogRun] ∧ s0.TrainEnv = ss.TrainEnv ∧
      s0.StopNow = ss.StopNow := by
    refine ⟨_, if_neg hlo, ?_, rfl, rfl⟩
    rw [calls_emit]
    have := calls_emit .RunEnd ss
    simp only [Op.isCall, if_true] at this ⊢
    show calls (ss.emit .RunEnd).log ++ _ = _
    rw [this]
    simp
  have hun : RunEnd ss = .ok (if s0.SaveWts then s0.emit .SaveWtsJSON else s0) := by
    unfold RunEnd
    dsimp only
    rw [hs0]
  refine ⟨_, hun, ?_, ?_, ?_⟩
  · split_ifs
    · rw [calls_emit]; simpa [Op.isCall] using c0
    · exact c0
  · split_ifs
    · exact e0
    · exact e0
  · split_ifs
    · exact t0
    · exact t0

/-- The operations of `NewRun`: the three projections are seeded with the
reading of the clock. -/
theorem NewRun_ops (L : Leabra σ) (now : ℤ) (ss : Sim σ) :
    opsOf (NewRun L now ss).log = opsOf ss.log ++
      [.NewRun, .EnvInit true, .EnvInit false, .InitWts, .PrjnSeed .CA3 .ECin now,
        .PrjnSeed .DG .ECin now, .PrjnSeed .CA3 .DG now, .InitWts] := by
  simp [NewRun, Sim.netOp, Sim.emit, InitStats, NewRndSeed, opsOf]

theorem NewRun_calls (L : Leabra σ) (now : ℤ) (ss : Sim σ) :
    calls (NewRun L now ss).log = calls ss.log ++ [.NewRun, .EnvInit true, .EnvInit false] ∧
    (NewRun L now ss).TrainEnv.Run.Cur = ss.TrainEnv.Run.Cur ∧
    (NewRun L now ss).StopNow = ss.StopNow := by
  refine ⟨?_, rfl, rfl⟩
  unfold calls
  rw [NewRun_ops]
  simp [Op.isCall]

theorem keepTest_frame {a b : Sim σ} (h : Sim.keepTest a b = b) :
    b.TrainEnv = a.TrainEnv ∧ b.TestInterval = a.TestInterval ∧ b.MaxEpcs = a.MaxEpcs ∧
    b.TestSL = a.TestSL ∧ b.ViewOn = a.ViewOn ∧ b.TrainUpdt = a.TrainUpdt ∧
    b.SumSSE = a.SumSSE ∧ b.SumAvgSSE = a.SumAvgSSE ∧ b.SumCosDiff = a.SumCosDiff ∧
    b.CntErr = a.CntErr := by
  rw [← h]
  exact ⟨rfl, rfl, rfl, rfl, rfl, rfl, rfl, rfl, rfl, rfl⟩

/-- An evaluation pass that runs when `b` holds: it ends, its calls are those
of an evaluation pass or none, and `TstEpcLog` has one row more or the same
rows. -/
theorem optional_TestAll (L : Leabra σ) (stop : ℕ → Bool) (fuel : ℕ) (ss : Sim σ) (b : Prop)
    [Decidable b] (hlen : 0 < ss.TestSL.length) (hfuel : ss.TestSL.length < fuel) :
    ∃ (p : List Op) (s1 : Sim σ),
      (if b then TestAll L stop fuel ss else .ok ss) = .ok s1 ∧
      (if b then ∃ k w, p = testAllCalls k w ∧ (w = true → k = ss.TestSL.length) ∧
          (w = false → s1.StopNow = true ∧ 1 ≤ k ∧ k ≤ ss.TestSL.length)
        else p = []) ∧
      calls s1.log = calls ss.log ++ p ∧
      Sim.keepTest ss s1 = s1 ∧
      s1.TstEpcLog.length = ss.TstEpcLog.length + (if b then 1 else 0) := by
  by_cases hb : b
  · obtain ⟨k, w, s1, row, r1, c1, k1, l1, w1, v1, -, -⟩ := TestAll_spec L stop fuel ss hlen hfuel
    refine ⟨testAllCalls k w, s1, ?_, ?_, c1, k1, ?_⟩
    · rw [if_pos hb, r1]
    · rw [if_pos hb]; exact ⟨k, w, rfl, w1, v1⟩
    · rw [if_pos hb, l1]; simp
  · refine ⟨[], ss, ?_, ?_, ?_, rfl, ?_⟩
    · rw [if_neg hb]
    · rw [if_neg hb]
    · simp
    · rw [if_neg hb]; rfl

/-- The part of a training trial after the query of the epoch counter, when
the epoch did not change: the training trial proper. -/
theorem trainTrialRest_same (L : Leabra σ) (now : ℤ) (stop : ℕ → Bool) (fuel : ℕ) (ss : Sim σ)
    (h : ss.TrainEnv.Epoch.Chg = false) :
    trainTrialRest L now stop fuel ss = .ok (trainStep L ss) := by
  unfold trainTrialRest
  exact if_neg (by rw [h]; simp)

/-- The part of a training trial after the query of the epoch counter, when
the epoch changed: `LogTrnEpc`, the evaluation pass if the new epoch is a
multiple of `TestInterval`, and then either the end of the run or the
training trial proper. -/
theorem trainTrialRest_changed (L : Leabra σ) (now : ℤ) (stop : ℕ → Bool) (fuel : ℕ)
    (ss : Sim σ) (h : ss.TrainEnv.Epoch.Chg = true) (hTI : ss.TestInterval ≠ 0)
    (hlen : 0 < ss.TestSL.length) (hfuel : ss.TestSL.length < fuel)
    (hrows : ss.MaxEpcs ≤ ss.TrainEnv.Epoch.Cur →
      2 ≤ ss.TstEpcLog.length +
        (if Int.tmod ss.TrainEnv.Epoch.Cur ss.TestInterval = 0 then 1 else 0)) :
    ∃ (p : List Op) (s1 : Sim σ),
      trainTrialRest L now stop fuel ss = .ok s1 ∧
      (if Int.tmod ss.TrainEnv.Epoch.Cur ss.TestInterval = 0 then
          ∃ k w, p = testAllCalls k w ∧ (w = true → k = ss.TestSL.length) ∧
            (w = false → 1 ≤ k ∧ k ≤ ss.TestSL.length)
        else p = []) ∧
      calls s1.log = calls ss.log ++ [.LogTrnEpc] ++ p ++
        (if ss.MaxEpcs ≤ ss.TrainEnv.Epoch.Cur then
          [.RunEnd, .LogRun] ++
            (if ss.TrainEnv.Run.Incr.2 then [] else [.NewRun, .EnvInit true, .EnvInit false])
        else trainCalls ss.TrainEnv.Trial.Cur) ∧
      (ss.MaxEpcs ≤ ss.TrainEnv.Epoch.Cur →
        s1.TrainEnv.Run.Cur = ss.TrainEnv.Run.Incr.1.Cur ∧
        (ss.TrainEnv.Run.Incr.2 = true → s1.StopNow = true)) := by
  obtain ⟨s3, hs3⟩ : ∃ s3 : Sim σ, s3 =
      (if (LogTrnEpc ss).ViewOn &&
          decide (TimeScales.AlphaCycle.toNat < (LogTrnEpc ss).TrainUpdt.toNat) then
        (LogTrnEpc ss).UpdateView true
      else LogTrnEpc ss) := ⟨_, rfl⟩
  have hun : trainTrialRest L now stop fuel ss =
      if s3.TestInterval = 0 then .error .divideByZero
      else
        match (if Int.tmod ss.TrainEnv.Epoch.Cur s3.TestInterval = 0 then TestAll L stop fuel s3
          else .ok s3) with
        | .error f => .error f
        | .ok s =>
          if s.MaxEpcs ≤ ss.TrainEnv.Epoch.Cur then
            match RunEnd s with
            | .error f => .error f
            | .ok s =>
              if s.TrainEnv.Run.Incr.2 then
                .ok { ({ s with TrainEnv := { s.TrainEnv with Run := s.TrainEnv.Run.Incr.1 } } :
                  Sim σ) with StopNow := true }
              else
                .ok (NewRun L now
                  { s with TrainEnv := { s.TrainEnv with Run := s.TrainEnv.Run.Incr.1 } })
          else .ok (trainStep L s) := by
    rw [hs3]
    unfold trainTrialRest
    exact if_pos h
  obtain ⟨fe, fi, fm, fl, fr⟩ := LogTrnEpc_frame ss
  have f3 : s3.TrainEnv = ss.TrainEnv ∧ s3.TestInterval = ss.TestInterval ∧
      s3.MaxEpcs = ss.MaxEpcs ∧ s3.TestSL = ss.TestSL ∧ s3.TstEpcLog = ss.TstEpcLog := by
    rw [hs3]
    split_ifs
    · exact ⟨fe, fi, fm, fl, fr⟩
    · exact ⟨fe, fi, fm, fl, fr⟩
  have c3 : calls s3.log = calls ss.log ++ [.LogTrnEpc] := by
    rw [hs3]
    split_ifs
    · have := calls_emit (.UpdateView true) (LogTrnEpc ss)
      simp only [Op.isCall, Bool.false_eq_true, if_false, List.append_nil] at this
      exact this.trans (LogTrnEpc_calls ss)
    · exact LogTrnEpc_calls ss
  clear hs3
  obtain ⟨e3, i3, m3, l3, r3⟩ := f3
  obtain ⟨p, s4, r4, P4, c4, k4, n4⟩ := optional_TestAll L stop fuel s3
    (Int.tmod ss.TrainEnv.Epoch.Cur s3.TestInterval = 0) (by rw [l3]; exact hlen)
    (by rw [l3]; exact hfuel)
  obtain ⟨e4, -, m4, -⟩ := keepTest_frame k4
  rw [hun, if_neg (by rw [i3]; exact hTI), r4]
  dsimp only
  rw [i3, l3] at P4
  rw [i3, r3] at n4
  have P4' : (if Int.tmod ss.TrainEnv.Epoch.Cur ss.TestInterval = 0 then
          ∃ k w, p = testAllCalls k w ∧ (w = true → k = ss.TestSL.length) ∧
            (w = false → 1 ≤ k ∧ k ≤ ss.TestSL.length)
        else p = []) := by
    split_ifs at P4 ⊢
    · obtain ⟨k, w, a, b, c⟩ := P4
      exact ⟨k, w, a, b, fun hw => (c hw).2⟩
    · exact P4
  by_cases hle : ss.MaxEpcs ≤ ss.TrainEnv.Epoch.Cur
  · have h2 : 2 ≤ s4.TstEpcLog.length := by rw [n4]; exact hrows hle
    obtain ⟨s5, r5, c5, e5, t5⟩ := RunEnd_spec s4 h2
    rw [if_pos (by rw [m4, m3]; exact hle), r5]
    dsimp only
    have eR : s5.TrainEnv.Run = ss.TrainEnv.Run := by rw [e5, e4, e3]
    rw [eR]
    by_cases hi : ss.TrainEnv.Run.Incr.2 = true
    · rw [if_pos hi]
      refine ⟨p, _, rfl, P4', ?_, ?_⟩
      · show calls s5.log = _
        rw [c5, c4, c3, if_pos hle, if_pos hi]
        simp
      · intro _
        exact ⟨rfl, fun _ => rfl⟩
    · rw [if_neg hi]
      refine ⟨p, _, rfl, P4', ?_, ?_⟩
      · rw [(NewRun_calls L now _).1]
        show calls s5.log ++ _ = _
        rw [c5, c4, c3, if_pos hle, if_neg hi]
        simp
      · intro _
        exact ⟨(NewRun_calls L now _).2.1, fun hh => absurd hh hi⟩
  · rw [if_neg (by rw [m4, m3]; exact hle)]
    refine ⟨p, _, rfl, P4', ?_, ?_⟩
    · rw [trainStep_calls, c4, c3, if_neg hle, e4, e3]
    · intro hh
      exact absurd hh hle

/-- The calls of a training trial.  After the step of the training
environment: an evaluation pass if epoch and trial are both 0; if the epoch
changed, `LogTrnEpc`, an evaluation pass if the epoch is a multiple of
`TestInterval`, and the end of the run if the epoch reached `MaxEpcs`; in all
other cases the training trial proper. -/
theorem TrainTrial_spec (L : Leabra σ) (now : ℤ) (stop : ℕ → Bool) (fuel : ℕ) (ss : Sim σ)
    (hlen : 0 < ss.TestSL.length) (hfuel : ss.TestSL.length < fuel)
    (hTI : ss.TrainEnv.Step.Epoch.Chg = true → ss.TestInterval ≠ 0)
    (hrows : ss.TrainEnv.Step.Epoch.Chg = true → ss.MaxEpcs ≤ ss.TrainEnv.Step.Epoch.Cur →
      2 ≤ ss.TstEpcLog.length +
        (if ss.TrainEnv.Step.Epoch.Cur = 0 ∧ ss.TrainEnv.Step.Trial.Cur = 0 then 1 else 0) +
        (if Int.tmod ss.TrainEnv.Step.Epoch.Cur ss.TestInterval = 0 then 1 else 0)) :
    ∃ (p1 p2 : List Op) (s1 : Sim σ),
      TrainTrial L now stop fuel ss = .ok s1 ∧
      (if ss.TrainEnv.Step.Epoch.Cur = 0 ∧ ss.TrainEnv.Step.Trial.Cur = 0 then
          ∃ k w, p1 = testAllCalls k w ∧ (w = true → k = ss.TestSL.length) ∧
            (w = false → 1 ≤ k ∧ k ≤ ss.TestSL.length)
        else p1 = []) ∧
      (if ss.TrainEnv.Step.Epoch.Chg = true ∧
            Int.tmod ss.TrainEnv.Step.Epoch.Cur ss.TestInterval = 0 then
          ∃ k w, p2 = testAllCalls k w ∧ (w = true → k = ss.TestSL.length) ∧
            (w = false → 1 ≤ k ∧ k ≤ ss.TestSL.length)
        else p2 = []) ∧
      calls s1.log = calls ss.log ++ [.TrainTrial] ++ p1 ++
        (if ss.TrainEnv.Step.Epoch.Chg then
          [.LogTrnEpc] ++ p2 ++
            (if ss.MaxEpcs ≤ ss.TrainEnv.Step.Epoch.Cur then
              [.RunEnd, .LogRun] ++
                (if ss.TrainEnv.Run.Incr.2 then [] else [.NewRun, .EnvInit true, .EnvInit false])
            else trainCalls ss.TrainEnv.Step.Trial.Cur)
        else trainCalls ss.TrainEnv.Step.Trial.Cur) ∧
      (ss.TrainEnv.Step.Epoch.Chg = true → ss.MaxEpcs ≤ ss.TrainEnv.Step.Epoch.Cur →
        s1.TrainEnv.Run.Cur = ss.TrainEnv.Run.Incr.1.Cur ∧
        (ss.TrainEnv.Run.Incr.2 = true → s1.StopNow = true)) := by
  obtain ⟨s0, hs0⟩ : ∃ s0 : Sim σ, s0 = { ss.emit .TrainTrial with TrainEnv := ss.TrainEnv.Step } :=
    ⟨_, rfl⟩
  have hun : TrainTrial L now stop fuel ss =
      match (if s0.TrainEnv.Epoch.Cur = 0 ∧ s0.TrainEnv.Trial.Cur = 0 then TestAll L stop fuel s0
        else .ok s0) with
      | .error f => .error f
      | .ok s => trainTrialRest L now stop fuel s := by
    rw [hs0]; rfl
  have e0 : s0.TrainEnv = ss.TrainEnv.Step := by rw [hs0]
  have f0 : s0.TestSL = ss.TestSL ∧ s0.TestInterval = ss.TestInterval ∧ s0.MaxEpcs = ss.MaxEpcs ∧
      s0.TstEpcLog = ss.TstEpcLog := by rw [hs0]; exact ⟨rfl, rfl, rfl, rfl⟩
  have c0 : calls s0.log = calls ss.log ++ [.TrainTrial] := by
    rw [hs0]
    have := calls_emit .TrainTrial ss
    simpa [Op.isCall] using this
  clear hs0
  obtain ⟨l0, i0, m0, r0⟩ := f0
  obtain ⟨p1, s1, r1, P1, c1, k1, n1⟩ := optional_TestAll L stop fuel s0
    (s0.TrainEnv.Epoch.Cur = 0 ∧ s0.TrainEnv.Trial.Cur = 0) (by rw [l0]; exact hlen)
    (by rw [l0]; exact hfuel)
  obtain ⟨e1, i1, m1, l1, -⟩ := keepTest_frame k1
  rw [hun, r1]
  dsimp only
  rw [e0, l0] at P1
  rw [e0, r0] at n1
  have eT : s1.TrainEnv = ss.TrainEnv.Step := e1.trans e0
  have P1' : (if ss.TrainEnv.Step.Epoch.Cur = 0 ∧ ss.TrainEnv.Step.Trial.Cur = 0 then
          ∃ k w, p1 = testAllCalls k w ∧ (w = true → k = ss.TestSL.length) ∧
            (w = false → 1 ≤ k ∧ k ≤ ss.TestSL.length)
        else p1 = []) := by
    split_ifs at P1 ⊢
    · obtain ⟨k, w, a, b, c⟩ := P1
      exact ⟨k, w, a, b, fun hw => (c hw).2⟩
    · exact P1
  cases hchg : ss.TrainEnv.Step.Epoch.Chg
  · rw [trainTrialRest_same L now stop fuel s1 (by rw [eT]; exact hchg)]
    refine ⟨p1, [], _, rfl, P1', ?_, ?_, ?_⟩
    · simp
    · rw [trainStep_calls, c1, c0, eT]
      simp
    · intro h; cases h
  · obtain ⟨p2, s2, r2, P2, c2, v2⟩ := trainTrialRest_changed L now stop fuel s1
      (by rw [eT]; exact hchg) (by rw [i1, i0]; exact hTI hchg) (by rw [l1, l0]; exact hlen)
      (by rw [l1, l0]; exact hfuel)
      (by
        rw [m1, m0, eT, i1, i0, n1]
        intro hle
        have := hrows hchg hle
        omega)
    rw [eT, i1, i0, l1, l0] at P2
    rw [eT, m1, m0, Step_Run] at c2 v2
    refine ⟨p1, p2, s2, r2, P1', ?_, ?_, ?_⟩
    · simpa using P2
    · rw [c2, c1, c0]
      simp
    · intro _ hle
      exact v2 hle

/-! ## Lemmas on the calls of an evaluation pass -/

theorem mem_testTrials (k : ℕ) (i : ℤ → ℤ) (o : Op)
    (h : o ∈ ((List.range k).map (fun j : ℕ => testTrialCalls (i j))).flatten) :
    o = .TestTrial ∨ o = .ApplyInputs false ∨ (∃ t, o = .AlphaCyc false t) ∨
      o = .TrialStats false ∨ o = .LogTstTrl := by
  simp only [List.mem_flatten, List.mem_map, List.mem_range] at h
  obtain ⟨l, ⟨j, -, rfl⟩, ho⟩ := h
  simp only [testTrialCalls, List.mem_cons, List.mem_singleton, List.not_mem_nil, or_false] at ho
  rcases ho with h | h | h | h | h
  · exact Or.inl h
  · exact Or.inr (Or.inl h)
  · exact Or.inr (Or.inr (Or.inl ⟨_, h⟩))
  · exact Or.inr (Or.inr (Or.inr (Or.inl h)))
  · exact Or.inr (Or.inr (Or.inr (Or.inr h)))

theorem mem_testAllCalls (k : ℕ) (w : Bool) (o : Op) (h : o ∈ testAllCalls k w) :
    o = .TestAll ∨ o = .EnvInit false ∨ o = .LogTstEpc ∨ o = .TestTrial ∨
      o = .ApplyInputs false ∨ (∃ t, o = .AlphaCyc false t) ∨ o = .TrialStats false ∨
      o = .LogTstTrl := by
  unfold testAllCalls at h
  simp only [List.mem_append, List.mem_cons, List.mem_singleton, List.not_mem_nil, or_false]
    at h
  rcases h with ((h | h) | h) | h
  · rcases h with h | h
    · exact Or.inl h
    · exact Or.inr (Or.inl h)
  · have := mem_testTrials k (fun j => j) o h
    exact Or.inr (Or.inr (Or.inr this))
  · cases w
    · simp at h
    · simp only [if_true, List.mem_singleton] at h
      exact Or.inr (Or.inr (Or.inr (Or.inl h)))
  · exact Or.inr (Or.inr (Or.inl h))

theorem count_testTrials (k : ℕ) (o : Op) (c : ℕ)
    (h : ∀ t : ℤ, (testTrialCalls t).count o = c) :
    (((List.range k).map (fun j : ℕ => testTrialCalls (j : ℤ))).flatten).count o = k * c := by
  induction k with
  | zero => simp
  | succ k ih =>
    rw [List.range_succ, List.map_append, List.flatten_append, List.count_append, ih]
    simp only [List.map_cons, List.map_nil, List.flatten_cons, List.flatten_nil,
      List.append_nil, h]
    ring

/-- An evaluation pass calls `TestAll` once, at its start, and `LogTstEpc`
once, at its end, and `TestTrial` once for each trial presented and once more
when the epoch changes. -/
theorem count_testAllCalls (k : ℕ) (w : Bool) :
    (testAllCalls k w).count .TestAll = 1 ∧ (testAllCalls k w).count .LogTstEpc = 1 ∧
      (testAllCalls k w).count .TestTrial = k + (if w then 1 else 0) := by
  unfold testAllCalls
  simp only [List.count_append]
  rw [count_testTrials k .TestAll 0 (fun t => by simp [testTrialCalls]),
    count_testTrials k .LogTstEpc 0 (fun t => by simp [testTrialCalls]),
    count_testTrials k .TestTrial 1 (fun t => by simp [testTrialCalls])]
  cases w <;> simp

theorem filter_isTrainStep_testAllCalls (k : ℕ) (w : Bool) :
    (testAllCalls k w).filter Op.isTrainStep = [] := by
  rw [List.filter_eq_nil_iff]
  intro o ho
  rcases mem_testAllCalls k w o ho with h | h | h | h | h | ⟨t, h⟩ | h | h <;>
    simp [h, Op.isTrainStep]

theorem Incr_Cur (c : Ctr) :
    c.Incr.1.Cur = (if c.Incr.2 then 0 else c.Cur + 1) ∧
      (c.Incr.2 = true ↔ (0 < c.Max ∧ c.Max ≤ c.Cur + 1)) := by
  unfold Ctr.Incr
  dsimp only
  by_cases h : 0 < c.Max ∧ c.Max ≤ c.Cur + 1
  · rw [if_pos h]; simp [h]
  · rw [if_neg h]; simp [h]

set_option maxRecDepth 100000 in
theorem count_AlphaCycStart_testOps : (opsOf (testOps 0 0)).count .AlphaCycStart = 1 := by
  decide

/-! ## The trial scheduling: claims -/

/-- The calls of a `TrainTrial` call in which, after the step of the training
environment, `Epoch.Cur = 0` and `Trial.Cur = 0`: `TrainTrial`, those of one
evaluation pass, then `ApplyInputs`, `AlphaCyc(true)` for trial 0,
`TrialStats(true)`, `LogTrnTrl`.  In a call in which the epoch did not change
and `Epoch.Cur` or `Trial.Cur` is not 0, `TestAll` is not among the calls. -/
theorem TrainTrial_baseline_calls (L : Leabra σ) (now : ℤ) (stop : ℕ → Bool) (fuel : ℕ)
    (ss : Sim σ) (hlen : 0 < ss.TestSL.length) (hfuel : ss.TestSL.length < fuel)
    (hmax : ss.TrainEnv.Epoch.Max = 0) (hcur : 0 ≤ ss.TrainEnv.Epoch.Cur) :
    (ss.TrainEnv.Step.Epoch.Cur = 0 ∧ ss.TrainEnv.Step.Trial.Cur = 0 →
      ∃ (k : ℕ) (w : Bool) (s1 : Sim σ),
        TrainTrial L now stop fuel ss = .ok s1 ∧
        calls s1.log = calls ss.log ++ [.TrainTrial] ++ testAllCalls k w ++ trainCalls 0 ∧
        ([Op.TrainTrial] ++ testAllCalls k w ++ trainCalls 0).count .TestAll = 1 ∧
        (∀ o ∈ [Op.TrainTrial] ++ testAllCalls k w, o.isTrainStep = false)) ∧
    (ss.TrainEnv.Step.Epoch.Chg = false →
      (ss.TrainEnv.Step.Epoch.Cur ≠ 0 ∨ ss.TrainEnv.Step.Trial.Cur ≠ 0) →
      ∃ s1 : Sim σ,
        TrainTrial L now stop fuel ss = .ok s1 ∧
        calls s1.log = calls ss.log ++ [.TrainTrial] ++ trainCalls ss.TrainEnv.Step.Trial.Cur ∧
        ([Op.TrainTrial] ++ trainCalls ss.TrainEnv.Step.Trial.Cur).count .TestAll = 0) := by
  constructor
  · intro h0
    have hchg := Step_epoch_zero ss.TrainEnv hmax hcur h0.1
    obtain ⟨p1, p2, s1, r1, P1, -, c1, -⟩ := TrainTrial_spec L now stop fuel ss hlen hfuel
      (by rw [hchg]; intro h; cases h) (by rw [hchg]; intro h; cases h)
    rw [if_pos h0] at P1
    obtain ⟨k, w, rfl, -, -⟩ := P1
    rw [hchg] at c1
    simp only [Bool.false_eq_true, if_false] at c1
    rw [h0.2] at c1
    refine ⟨k, w, s1, r1, c1, ?_, ?_⟩
    · simp only [List.count_append, (count_testAllCalls k w).1]
      simp [trainCalls]
    · intro o ho
      rw [List.mem_append] at ho
      rcases ho with ho | ho
      · simp only [List.mem_singleton] at ho
        rw [ho]; rfl
      · have := filter_isTrainStep_testAllCalls k w
        rw [List.filter_eq_nil_iff] at this
        simpa using this o ho
  · intro hchg hne
    obtain ⟨p1, p2, s1, r1, P1, -, c1, -⟩ := TrainTrial_spec L now stop fuel ss hlen hfuel
      (by rw [hchg]; intro h; cases h) (by rw [hchg]; intro h; cases h)
    rw [if_neg (by tauto)] at P1
    subst P1
    rw [hchg] at c1
    simp only [Bool.false_eq_true, if_false, List.append_nil] at c1
    refine ⟨s1, r1, c1, ?_⟩
    simp [trainCalls]

/-- The calls of a `TrainTrial` call in which the epoch counter reports a
change to an epoch `epc ≥ 1`: `TrainTrial`, `LogTrnEpc`, then those of one
evaluation pass if `epc % TestInterval = 0` and none otherwise, and then
either the end of the run or the training trial proper. -/
theorem TrainTrial_epoch_calls (L : Leabra σ) (now : ℤ) (stop : ℕ → Bool) (fuel : ℕ)
    (ss : Sim σ) (hlen : 0 < ss.TestSL.length) (hfuel : ss.TestSL.length < fuel)
    (hchg : ss.TrainEnv.Step.Epoch.Chg = true) (hepc : 1 ≤ ss.TrainEnv.Step.Epoch.Cur)
    (hTI : ss.TestInterval ≠ 0)
    (hrows : ss.MaxEpcs ≤ ss.TrainEnv.Step.Epoch.Cur →
      2 ≤ ss.TstEpcLog.length +
        (if Int.tmod ss.TrainEnv.Step.Epoch.Cur ss.TestInterval = 0 then 1 else 0)) :
    ∃ (p rest : List Op) (s1 : Sim σ),
      TrainTrial L now stop fuel ss = .ok s1 ∧
      calls s1.log = calls ss.log ++ [.TrainTrial, .LogTrnEpc] ++ p ++ rest ∧
      (if Int.tmod ss.TrainEnv.Step.Epoch.Cur ss.TestInterval = 0 then
          ∃ k w, p = testAllCalls k w
        else p = []) ∧
      rest =
        (if ss.MaxEpcs ≤ ss.TrainEnv.Step.Epoch.Cur then
          [.RunEnd, .LogRun] ++
            (if ss.TrainEnv.Run.Incr.2 then [] else [.NewRun, .EnvInit true, .EnvInit false])
        else trainCalls ss.TrainEnv.Step.Trial.Cur) ∧
      ([Op.TrainTrial, .LogTrnEpc] ++ p ++ rest).count .TestAll =
        (if Int.tmod ss.TrainEnv.Step.Epoch.Cur ss.TestInterval = 0 then 1 else 0) ∧
      (∀ o ∈ [Op.TrainTrial, .LogTrnEpc] ++ p, o.isTrainStep = false) ∧
      (ss.TestInterval = 1 → ([Op.TrainTrial, .LogTrnEpc] ++ p ++ rest).count .TestAll = 1) := by
  obtain ⟨p1, p2, s1, r1, P1, P2, c1, -⟩ := TrainTrial_spec L now stop fuel ss hlen hfuel
    (fun _ => hTI)
    (by
      intro _ hle
      have := hrows hle
      omega)
  rw [if_neg (by omega)] at P1
  subst P1
  rw [hchg] at c1
  simp only [true_and, hchg] at P2
  simp only [if_true, List.append_nil] at c1
  have hcount : ([Op.TrainTrial, .LogTrnEpc] ++ p2 ++
      (if ss.MaxEpcs ≤ ss.TrainEnv.Step.Epoch.Cur then
          [Op.RunEnd, .LogRun] ++
            (if ss.TrainEnv.Run.Incr.2 then [] else [.NewRun, .EnvInit true, .EnvInit false])
        else trainCalls ss.TrainEnv.Step.Trial.Cur)).count .TestAll =
        (if Int.tmod ss.TrainEnv.Step.Epoch.Cur ss.TestInterval = 0 then 1 else 0) := by
    have hrest : (if ss.MaxEpcs ≤ ss.TrainEnv.Step.Epoch.Cur then
          [Op.RunEnd, .LogRun] ++
            (if ss.TrainEnv.Run.Incr.2 then [] else [.NewRun, .EnvInit true, .EnvInit false])
        else trainCalls ss.TrainEnv.Step.Trial.Cur).count .TestAll = 0 := by
      split_ifs <;> simp [trainCalls]
    rw [List.count_append, hrest, List.count_append]
    split_ifs at P2 ⊢
    · obtain ⟨k, w, rfl, -, -⟩ := P2
      rw [(count_testAllCalls k w).1]
      simp
    · subst P2
      simp
  refine ⟨p2, _, s1, r1, ?_, ?_, rfl, hcount, ?_, ?_⟩
  · rw [c1]
    simp
  · split_ifs at P2 ⊢
    · obtain ⟨k, w, h, -, -⟩ := P2
      exact ⟨k, w, h⟩
    · exact P2
  · intro o ho
    rw [List.mem_append] at ho
    rcases ho with ho | ho
    · simp only [List.mem_cons, List.mem_singleton, List.not_mem_nil, or_false] at ho
      rcases ho with ho | ho <;> rw [ho] <;> rfl
    · split_ifs at P2
      · obtain ⟨k, w, rfl, -, -⟩ := P2
        have := filter_isTrainStep_testAllCalls k w
        rw [List.filter_eq_nil_iff] at this
        simpa using this o ho
      · subst P2
        simp at ho
  · intro h1
    rw [hcount, h1, Int.tmod_one]
    simp

/-- C23: in a `TrainTrial` call in which the epoch changed to an epoch
`epc ≥ MaxEpcs`, `RunEnd` is called and the run counter is incremented; when
the counter reports that it reached its maximum, `StopNow` is set and `NewRun`
is not called, otherwise `NewRun` is called; in both cases none of
`ApplyInputs` for the training environment, `AlphaCyc(true)`,
`TrialStats(true)` and `LogTrnTrl` is called.  In every other `TrainTrial`
call these four are called once each, in this order, as the last calls of the
trial.  `TestInterval` is not 0 when the epoch changed, the test table has at
least one row, the loop of `TestAll` has the fuel for its rows, and at the end
of a run `TstEpcLog` has the two rows that `LogRun` reads. -/
theorem TrainTrial_run_end (L : Leabra σ) (now : ℤ) (stop : ℕ → Bool) (fuel : ℕ)
    (ss : Sim σ) (hlen : 0 < ss.TestSL.length) (hfuel : ss.TestSL.length < fuel)
    (hTI : ss.TrainEnv.Step.Epoch.Chg = true → ss.TestInterval ≠ 0)
    (hrows : ss.TrainEnv.Step.Epoch.Chg = true → ss.MaxEpcs ≤ ss.TrainEnv.Step.Epoch.Cur →
      2 ≤ ss.TstEpcLog.length +
        (if ss.TrainEnv.Step.Epoch.Cur = 0 ∧ ss.TrainEnv.Step.Trial.Cur = 0 then 1 else 0) +
        (if Int.tmod ss.TrainEnv.Step.Epoch.Cur ss.TestInterval = 0 then 1 else 0)) :
    (ss.TrainEnv.Step.Epoch.Chg = true ∧ ss.MaxEpcs ≤ ss.TrainEnv.Step.Epoch.Cur →
      ∃ (pre : List Op) (s1 : Sim σ),
        TrainTrial L now stop fuel ss = .ok s1 ∧
        calls s1.log = calls ss.log ++ pre ++ [.RunEnd, .LogRun] ++
          (if ss.TrainEnv.Run.Incr.2 then [] else [.NewRun, .EnvInit true, .EnvInit false]) ∧
        (pre ++ [Op.RunEnd, Op.LogRun] ++
          (if ss.TrainEnv.Run.Incr.2 then []
            else [Op.NewRun, Op.EnvInit true, Op.EnvInit false])).filter Op.isTrainStep = [] ∧
        (pre ++ [Op.RunEnd, .LogRun]).count .NewRun = 0 ∧
        s1.TrainEnv.Run.Cur = (if ss.TrainEnv.Run.Incr.2 then 0 else ss.TrainEnv.Run.Cur + 1) ∧
        (ss.TrainEnv.Run.Incr.2 = true ↔
          (0 < ss.TrainEnv.Run.Max ∧ ss.TrainEnv.Run.Max ≤ ss.TrainEnv.Run.Cur + 1)) ∧
        (ss.TrainEnv.Run.Incr.2 = true → s1.StopNow = true)) ∧
    (¬ (ss.TrainEnv.Step.Epoch.Chg = true ∧ ss.MaxEpcs ≤ ss.TrainEnv.Step.Epoch.Cur) →
      ∃ (pre : List Op) (s1 : Sim σ),
        TrainTrial L now stop fuel ss = .ok s1 ∧
        calls s1.log = calls ss.log ++ pre ++
          [.ApplyInputs true, .AlphaCyc true ss.TrainEnv.Step.Trial.Cur, .TrialStats true,
            .LogTrnTrl] ∧
        pre.filter Op.isTrainStep = []) := by
  obtain ⟨p1, p2, s1, r1, P1, P2, c1, v1⟩ := TrainTrial_spec L now stop fuel ss hlen hfuel hTI hrows
  have h1 : p1.filter Op.isTrainStep = [] := by
    split_ifs at P1
    · obtain ⟨k, w, rfl, -, -⟩ := P1
      exact filter_isTrainStep_testAllCalls k w
    · subst P1; rfl
  have h2 : p2.filter Op.isTrainStep = [] := by
    split_ifs at P2
    · obtain ⟨k, w, rfl, -, -⟩ := P2
      exact filter_isTrainStep_testAllCalls k w
    · subst P2; rfl
  have n1 : p1.count .NewRun = 0 := by
    split_ifs at P1
    · obtain ⟨k, w, rfl, -, -⟩ := P1
      rw [List.count_eq_zero]
      intro hm
      rcases mem_testAllCalls k w _ hm with h | h | h | h | h | ⟨t, h⟩ | h | h <;> cases h
    · subst P1; rfl
  have n2 : p2.count .NewRun = 0 := by
    split_ifs at P2
    · obtain ⟨k, w, rfl, -, -⟩ := P2
      rw [List.count_eq_zero]
      intro hm
      rcases mem_testAllCalls k w _ hm with h | h | h | h | h | ⟨t, h⟩ | h | h <;> cases h
    · subst P2; rfl
  constructor
  · rintro ⟨hchg, hle⟩
    rw [hchg, if_pos rfl, if_pos hle] at c1
    obtain ⟨hr, hs⟩ := v1 hchg hle
    refine ⟨[.TrainTrial] ++ p1 ++ [.LogTrnEpc] ++ p2, s1, r1, ?_, ?_, ?_, ?_,
      (Incr_Cur _).2, hs⟩
    · rw [c1]
      simp
    · simp only [List.filter_append, h1, h2]
      split_ifs <;> simp [Op.isTrainStep]
    · simp only [List.count_append, n1, n2]
      simp
    · rw [hr, (Incr_Cur _).1]
  · intro hn
    have c2 : calls s1.log = calls ss.log ++ [.TrainTrial] ++ p1 ++
        ((if ss.TrainEnv.Step.Epoch.Chg = true then [.LogTrnEpc] ++ p2 else []) ++
          trainCalls ss.TrainEnv.Step.Trial.Cur) := by
      rw [c1]
      congr 1
      by_cases hchg : ss.TrainEnv.Step.Epoch.Chg = true
      · rw [if_pos hchg, if_pos hchg, if_neg (fun hle => hn ⟨hchg, hle⟩)]
      · rw [if_neg hchg, if_neg hchg]
        rfl
    refine ⟨[.TrainTrial] ++ p1 ++
      (if ss.TrainEnv.Step.Epoch.Chg = true then [.LogTrnEpc] ++ p2 else []), s1, r1, ?_, ?_⟩
    · rw [c2]
      simp [trainCalls]
    · simp only [List.filter_append, h1]
      split_ifs
      · simp only [List.filter_append, h2]
        simp [Op.isTrainStep]
      · simp [Op.isTrainStep]

/-- C24: an evaluation pass over a test table with at least one row, with the
fuel for its rows.  `TestAll` initialises the test environment, calls
`TestTrial` at least once, goes on while neither the epoch of the test
environment has changed nor `StopNow` is set, and then calls `LogTstEpc` once,
which appends one row to `TstEpcLog`, also when the pass was stopped: the
calls are those of `testAllCalls k w`, where `k` trials were presented and `w`
tells that the pass ended with the test trial in which the epoch changed; if
not, `StopNow` is set at the end.  The accumulators `SumSSE`, `SumAvgSSE`,
`SumCosDiff` and `CntErr` are as before the pass.  A `TestTrial` call in which
the epoch of the test environment changes performs no operation besides the
step of the environment and possibly an update of the view. -/
theorem TestAll_pass (L : Leabra σ) (stop : ℕ → Bool) (fuel : ℕ) (ss : Sim σ)
    (hlen : 0 < ss.TestSL.length) (hfuel : ss.TestSL.length < fuel) :
    (∃ (k : ℕ) (w : Bool) (s1 : Sim σ) (row : TstEpcRow),
      TestAll L stop fuel ss = .ok s1 ∧
      calls s1.log = calls ss.log ++ testAllCalls k w ∧
      (testAllCalls k w).take 2 = [.TestAll, .EnvInit false] ∧
      (testAllCalls k w).count .TestTrial = k + (if w then 1 else 0) ∧
      1 ≤ k + (if w then 1 else 0) ∧
      (w = true → k = ss.TestSL.length) ∧
      (w = false → s1.StopNow = true ∧ k ≤ ss.TestSL.length) ∧
      (∀ j : ℕ, j + 1 < k + (if w then 1 else 0) → stop j = false) ∧
      (1 < k + (if w then 1 else 0) → ss.StopNow = false) ∧
      (testAllCalls k w).count .LogTstEpc = 1 ∧
      (testAllCalls k w).getLast? = some .LogTstEpc ∧
      s1.TstEpcLog = ss.TstEpcLog ++ [row] ∧
      s1.SumSSE = ss.SumSSE ∧ s1.SumAvgSSE = ss.SumAvgSSE ∧ s1.SumCosDiff = ss.SumCosDiff ∧
      s1.CntErr = ss.CntErr) ∧
    (∀ s : Sim σ, s.TestEnv.Step.Epoch.Chg = true →
      opsOf (TestTrial L s).log = opsOf s.log ++ [.TestTrial] ++
        (if s.ViewOn && decide (TimeScales.AlphaCycle.toNat < s.TestUpdt.toNat) then
          [.UpdateView false] else [])) := by
  constructor
  · obtain ⟨k, w, s1, row, r1, c1, k1, l1, w1, v1, u1, x1⟩ := TestAll_spec L stop fuel ss hlen hfuel
    obtain ⟨-, -, -, -, -, -, a1, a2, a3, a4⟩ := keepTest_frame k1
    refine ⟨k, w, s1, row, r1, c1, rfl, (count_testAllCalls k w).2.2, ?_, w1, ?_, u1, x1,
      (count_testAllCalls k w).2.1, ?_, l1, a1, a2, a3, a4⟩
    · cases w
      · have := (v1 rfl).2.1
        simpa using this
      · simp
    · intro h
      exact ⟨(v1 h).1, (v1 h).2.2⟩
    · unfold testAllCalls
      rw [List.getLast?_append]
      rfl
  · intro s h
    have hun : TestTrial L s =
        if s.ViewOn && decide (TimeScales.AlphaCycle.toNat < s.TestUpdt.toNat) then
          Sim.UpdateView false { s.emit .TestTrial with TestEnv := s.TestEnv.Step }
        else { s.emit .TestTrial with TestEnv := s.TestEnv.Step } := by
      unfold TestTrial
      exact if_pos h
    rw [hun]
    split_ifs <;> simp [Sim.UpdateView, Sim.emit, opsOf]

/-- The calls of `TestItem(idx)` and what it leaves alone: `ApplyInputs` for
the test environment, `AlphaCyc(false)` once, with the trial counter of the
test environment at `idx`, and `TrialStats(false)`; one alpha cycle starts; on
return the trial counter of the test environment has the value it had before
the call, and the training environment and the accumulators `SumSSE`,
`SumAvgSSE`, `SumCosDiff` and `CntErr` are as before the call. -/
theorem TestItem_calls_frame (L : Leabra σ) (idx : ℤ) (ss : Sim σ) :
    calls (TestItem L idx ss).log =
      calls ss.log ++ [.ApplyInputs false, .AlphaCyc false idx, .TrialStats false] ∧
    (opsOf (TestItem L idx ss).log).count .AlphaCycStart =
      (opsOf ss.log).count .AlphaCycStart + 1 ∧
    (TestItem L idx ss).TestEnv.Trial.Cur = ss.TestEnv.Trial.Cur ∧
    (TestItem L idx ss).TrainEnv = ss.TrainEnv ∧
    (TestItem L idx ss).SumSSE = ss.SumSSE ∧
    (TestItem L idx ss).SumAvgSSE = ss.SumAvgSSE ∧
    (TestItem L idx ss).SumCosDiff = ss.SumCosDiff ∧
    (TestItem L idx ss).CntErr = ss.CntErr := by
  obtain ⟨s1, hs1⟩ : ∃ s1 : Sim σ, s1 = { ss.emit (.TestItem idx) with
      TestEnv := ({ ss.TestEnv with Trial := { ss.TestEnv.Trial with Cur := idx } } :
        FixedTable).SetTrialName } := ⟨_, rfl⟩
  obtain ⟨s4, hs4⟩ : ∃ s4 : Sim σ,
      s4 = (TrialStats L false (callAlphaCyc L false (ApplyInputs L false s1))).1 := ⟨_, rfl⟩
  have hun : TestItem L idx ss =
      { s4 with TestEnv := { s4.TestEnv with
        Trial := { s4.TestEnv.Trial with Cur := ss.TestEnv.Trial.Cur } } } := by
    rw [hs4, hs1]; rfl
  have k1 : Sim.keepTest ss s1 = s1 := by rw [hs1]; rfl
  have c1 : calls s1.log = calls ss.log := by
    rw [hs1]
    have := calls_emit (.TestItem idx) ss
    simpa [Op.isCall] using this
  have o1 : opsOf s1.log = opsOf ss.log ++ [.TestItem idx] := by
    rw [hs1]; simp [Sim.emit, opsOf]
  have e1 : s1.TestEnv.Trial.Cur = idx := by
    rw [hs1]
    exact congrArg Ctr.Cur (SetTrialName_counters _).1
  clear hs1
  have k3 := keepOuter_trans (ApplyInputs_keepOuter L false s1) (callAlphaCyc_keepOuter L false _)
  have c3 := callAlphaCyc_calls L false (ApplyInputs L false s1)
  rw [ApplyInputs_calls] at c3
  have e3 : (ApplyInputs L false s1).TestEnv = s1.TestEnv := rfl
  have o2 : opsOf (ApplyInputs L false s1).log = opsOf s1.log ++
      [.ApplyInputs false, .InitExt, .ApplyExt .Input, .ApplyExt .ECout] := by
    simp [ApplyInputs, Sim.netOp, Sim.emit, opsOf]
  have o3 : (opsOf (callAlphaCyc L false (ApplyInputs L false s1)).log).count .AlphaCycStart =
      (opsOf ss.log).count .AlphaCycStart + 1 := by
    unfold callAlphaCyc
    rw [AlphaCyc_log, opsOf_append, List.count_append,
      ← count_opsOf_simOps (AlphaCycTrace L false _) .AlphaCycStart rfl]
    have h := opsOf_AlphaCycOps L false
      ((ApplyInputs L false s1).emit (.AlphaCyc false (if false = true then
        (ApplyInputs L false s1).TrainEnv.Trial.Cur else (ApplyInputs L false s1).TestEnv.Trial.Cur)))
    unfold AlphaCycOps at h
    rw [h]
    have h5 : (opsOf ((ApplyInputs L false s1).emit (.AlphaCyc false (if false = true then
        (ApplyInputs L false s1).TrainEnv.Trial.Cur
          else (ApplyInputs L false s1).TestEnv.Trial.Cur))).log).count .AlphaCycStart =
        (opsOf ss.log).count .AlphaCycStart := by
      have : opsOf ((ApplyInputs L false s1).emit (.AlphaCyc false (if false = true then
        (ApplyInputs L false s1).TrainEnv.Trial.Cur
          else (ApplyInputs L false s1).TestEnv.Trial.Cur))).log =
          opsOf (ApplyInputs L false s1).log ++ [.AlphaCyc false s1.TestEnv.Trial.Cur] := by
        simp [Sim.emit, opsOf, e3]
      rw [this, o2, o1]
      simp
    rw [h5]
    simp only [Bool.false_eq_true, if_false]
    exact congrArg _ count_AlphaCycStart_testOps
  generalize callAlphaCyc L false (ApplyInputs L false s1) = s3 at k3 c3 o3 hs4
  have c4 := TrialStats_calls L false s3
  have o4 : opsOf (TrialStats L false s3).1.log = opsOf s3.log ++ [.TrialStats false] := by
    simp [TrialStats, Sim.emit, opsOf]
  have k4 : Sim.keepTest ss s4 = s4 := by
    rw [hs4]
    exact keepTest_trans k1 (keepTest_trans (keepTest_of_keepOuter k3)
      (TrialStats_false_keepTest L s3))
  rw [← hs4] at c4 o4
  have k5 : Sim.keepTest ss (TestItem L idx ss) = TestItem L idx ss := by
    rw [hun]
    exact keepTest_trans k4 rfl
  obtain ⟨a0, -, -, -, -, -, a1, a2, a3, a4⟩ := keepTest_frame k5
  refine ⟨?_, ?_, ?_, a0, a1, a2, a3, a4⟩
  · rw [hun]
    show calls s4.log = _
    rw [c4, c3, c1, e3, e1]
    simp
  · rw [hun]
    show (opsOf s4.log).count _ = _
    rw [o4, List.count_append, o3]
    simp
  · rw [hun]

/-- Witness for C23: with `MaxEpcs = 2` and two runs, the trial that follows
the last trial of epoch 1 ends the run: in run 0 a new run begins, in run 1
`StopNow` is set; the second trial of an epoch is a training trial. -/
theorem TrainTrial_run_end_witness :
    (∃ (pre : List Op) (s1 : Sim Units),
      TrainTrial unitsLeabra 7 (fun _ => false) 3 (trialSim 0 1 2 [tstEpcRow 0 4]) = .ok s1 ∧
      calls s1.log = pre ++ [.RunEnd, .LogRun] ++ [.NewRun, .EnvInit true, .EnvInit false] ∧
      s1.TrainEnv.Run.Cur = 1) ∧
    (∃ (pre : List Op) (s1 : Sim Units),
      TrainTrial unitsLeabra 7 (fun _ => false) 3 (trialSim 1 1 2 [tstEpcRow 0 4]) = .ok s1 ∧
      calls s1.log = pre ++ [.RunEnd, .LogRun] ++ [] ∧
      s1.TrainEnv.Run.Cur = 0 ∧ s1.StopNow = true) ∧
    (∃ (pre : List Op) (s1 : Sim Units),
      TrainTrial unitsLeabra 7 (fun _ => false) 3 (trialSim 0 0 0 []) = .ok s1 ∧
      calls s1.log = pre ++ [.ApplyInputs true, .AlphaCyc true 1, .TrialStats true, .LogTrnTrl] ∧
      pre.filter Op.isTrainStep = []) := by
  obtain ⟨pre1, s1, r1, c1, -, -, h1, -, -⟩ :=
    (TrainTrial_run_end unitsLeabra 7 (fun _ => false) 3 (trialSim 0 1 2 [tstEpcRow 0 4])
      (by decide) (by decide) (by decide) (by decide)).1 ⟨by decide, by decide⟩
  obtain ⟨pre2, s2, r2, c2, -, -, h2, -, t2⟩ :=
    (TrainTrial_run_end unitsLeabra 7 (fun _ => false) 3 (trialSim 1 1 2 [tstEpcRow 0 4])
      (by decide) (by decide) (by decide) (by decide)).1 ⟨by decide, by decide⟩
  obtain ⟨pre3, s3, r3, c3, f3⟩ :=
    (TrainTrial_run_end unitsLeabra 7 (fun _ => false) 3 (trialSim 0 0 0 [])
      (by decide) (by decide) (by decide) (by decide)).2 (by decide)
  exact ⟨⟨pre1, s1, r1, c1, h1⟩, ⟨pre2, s2, r2, c2, h2, t2 (by decide)⟩, ⟨pre3, s3, r3, c3, f3⟩⟩

/-- Witness for C24: an evaluation pass over the test table of two rows ends
and appends one row to `TstEpcLog`. -/
theorem TestAll_pass_witness :
    ∃ (k : ℕ) (w : Bool) (s1 : Sim Units) (row : TstEpcRow),
      TestAll unitsLeabra (fun _ => false) 3 (trialSim 0 0 0 []) = .ok s1 ∧
      calls s1.log = testAllCalls k w ∧
      1 ≤ k + (if w then 1 else 0) ∧
      s1.TstEpcLog = [row] ∧
      s1.CntErr = 0 := by
  obtain ⟨k, w, s1, row, r1, c1, -, -, h1, -, -, -, -, -, -, l1, -, -, -, a4⟩ :=
    (TestAll_pass unitsLeabra (fun _ => false) 3 (trialSim 0 0 0 []) (by decide) (by decide)).1
  exact ⟨k, w, s1, row, r1, c1, h1, l1, a4⟩

/-! ## Configuration, seeds and logs: lemmas -/

theorem opsOf_emit (o : Op) (ss : Sim σ) : opsOf (ss.emit o).log = opsOf ss.log ++ [o] := by
  simp [Sim.emit, opsOf]

theorem opsOf_netOp (f : Network σ → σ) (o : Op) (ss : Sim σ) :
    opsOf (ss.netOp f o).log = opsOf ss.log ++ [o] := by
  simp [Sim.netOp, Sim.emit, opsOf]

theorem ConfigEnv_ops (ss : Sim σ) :
    opsOf (ConfigEnv ss).log = opsOf ss.log ++ [.EnvInit true, .EnvInit false] ∧
    (ConfigEnv ss).RndSeed = ss.RndSeed := by
  unfold ConfigEnv
  dsimp only
  split_ifs <;> refine ⟨?_, rfl⟩ <;> simp [Sim.emit, opsOf]

theorem SetParams_ops (L : Leabra σ) (sheet : String) (ss : Sim σ) :
    opsOf (SetParams L sheet ss).log = opsOf ss.log ++
      (if sheet = "" ∨ sheet = "Network" then [.ApplyParams] else []) ∧
    (SetParams L sheet ss).RndSeed = ss.RndSeed := by
  unfold SetParams
  dsimp only
  split_ifs <;> (try split) <;> refine ⟨?_, rfl⟩ <;> simp [Sim.emit, opsOf]

/-- The operations of `Init`. -/
theorem Init_ops (L : Leabra σ) (now : ℤ) (ss : Sim σ) :
    opsOf (Init L now ss).log = opsOf ss.log ++ initOps ss.RndSeed now := by
  unfold Init
  dsimp only
  rw [Sim.UpdateView, opsOf_emit, NewRun_ops, (SetParams_ops L "" _).1]
  simp only [true_or, if_true]
  have h : ∀ s : Sim σ, opsOf ({ s with StopNow := false } : Sim σ).log = opsOf s.log :=
    fun _ => rfl
  rw [h, opsOf_emit, (ConfigEnv_ops _).1, opsOf_emit, opsOf_emit]
  simp [initOps, Sim.emit]

/-- The operations of `ConfigNet`: after a failed build the error is printed
and `InitWts` is not called. -/
theorem ConfigNet_ops (L : Leabra σ) (now : ℤ) (ss : Sim σ) :
    ∃ n : Network σ,
      opsOf (ConfigNet L now ss).log = opsOf ss.log ++
        [.ConfigNet, .ConfigLayers now, .Defaults, .ApplyParams, .Build] ++
        (match (L.Build n).2 with
          | some err => [.LogPrintln err]
          | none => [.InitWts]) ∧
      (ConfigNet L now ss).RndSeed = now := by
  obtain ⟨s1, hs1⟩ : ∃ s1 : Sim σ, s1 = SetParams L "Network"
      (Sim.netOp L.Defaults .Defaults
        (Sim.netOp (fun n => L.ConfigLayers n now) (.ConfigLayers now)
          (NewRndSeed now (ss.emit .ConfigNet)))) := ⟨_, rfl⟩
  have hun : ConfigNet L now ss =
      match (L.Build s1.Net).2 with
      | some err => (s1.netOp (fun _ => (L.Build s1.Net).1) .Build).emit (.LogPrintln err)
      | none => (s1.netOp (fun _ => (L.Build s1.Net).1) .Build).netOp L.InitWts .InitWts := by
    rw [hs1]; rfl
  have o1 : opsOf s1.log = opsOf ss.log ++
      [.ConfigNet, .ConfigLayers now, .Defaults, .ApplyParams] := by
    rw [hs1, (SetParams_ops L "Network" _).1, opsOf_netOp, opsOf_netOp]
    simp [NewRndSeed, Sim.emit, opsOf]
  have r1 : s1.RndSeed = now := by
    rw [hs1, (SetParams_ops L "Network" _).2]
    rfl
  refine ⟨s1.Net, ?_, ?_⟩
  · rw [hun]
    split
    · rw [opsOf_emit, opsOf_netOp, o1]
      simp
    · rw [opsOf_netOp, opsOf_netOp, o1]
      simp
  · rw [hun]
    split <;> exact r1

/-- The operations of `Config` when the build of the network fails. -/
theorem Config_ops_failed (L : Leabra σ) (trainSL testSL : List String) (t0 : ℤ) (ss : Sim σ)
    (err : String) (hB : ∀ n, (L.Build n).2 = some err) :
    opsOf (Config L trainSL testSL t0 ss).log =
      opsOf ss.log ++ configOps t0 ++ [.LogPrintln err] ++ configLogOps ∧
    (Config L trainSL testSL t0 ss).RndSeed = t0 := by
  obtain ⟨n, h1, h2⟩ := ConfigNet_ops L t0
    (Sim.emit .ConfigEnv (ConfigEnv (OpenPats trainSL testSL ss)))
  rw [hB n, (opsOf_emit _ _), (ConfigEnv_ops _).1] at h1
  have h0 : opsOf (OpenPats trainSL testSL ss).log = opsOf ss.log ++ [.OpenPats] := by
    simp [OpenPats, Sim.emit, opsOf]
  rw [h0] at h1
  have hun : Config L trainSL testSL t0 ss =
      Sim.emit (.ConfigLog "RunLog") (Sim.emit (.ConfigLog "TstCycLog")
        (Sim.emit (.ConfigLog "TstTrlLog") (Sim.emit (.ConfigLog "TstEpcLog")
          (Sim.emit (.ConfigLog "TrnEpcLog") (Sim.emit (.ConfigLog "TrnTrlLog")
            (ConfigNet L t0 (Sim.emit .ConfigEnv (ConfigEnv (OpenPats trainSL testSL ss))))))))) :=
    rfl
  rw [hun]
  generalize ConfigNet L t0 (Sim.emit .ConfigEnv (ConfigEnv (OpenPats trainSL testSL ss))) = s1
    at h1 h2
  have h3 : ∀ (o : Op) (s : Sim σ), (s.emit o).RndSeed = s.RndSeed := fun _ _ => rfl
  constructor
  · simp only [opsOf_emit, h1]
    simp [configOps, configLogOps]
  · simp only [h3]
    exact h2

/-! ## Configuration, seeds and logs: claims -/

/-- C26 (fails): `Init` does not keep `RndSeed`.  For every state and every
reading `now` of the clock, `Init` seeds the global generator with the old
`RndSeed`, then `NewRun` stores `now` in `RndSeed` and seeds the three random
projections with it; after `Init` the seed is `now`, so two calls of `Init`
from the same state leave the same seed only if the clock reads the same. -/
theorem Init_new_seed (L : Leabra σ) (now : ℤ) (ss : Sim σ) :
    (Init L now ss).RndSeed = now ∧
    opsOf (Init L now ss).log = opsOf ss.log ++ initOps ss.RndSeed now ∧
    (initOps ss.RndSeed now).filter Op.isSeed =
      [.RandSeed ss.RndSeed, .PrjnSeed .CA3 .ECin now, .PrjnSeed .DG .ECin now,
        .PrjnSeed .CA3 .DG now] ∧
    (∀ now2 : ℤ, (Init L now ss).RndSeed = (Init L now2 ss).RndSeed ↔ now = now2) := by
  have h : ∀ t : ℤ, (Init L t ss).RndSeed = t := fun _ => rfl
  refine ⟨h now, Init_ops L now ss, ?_, ?_⟩
  · simp [initOps, Op.isSeed]
  · intro now2
    rw [h, h]

/-- C27 (fails): with a network whose build fails, `mainrun`
without arguments ends normally; after the error was printed it went on to
configure the logs, to call `Init` (with `NewRun` and twice `InitWts`) and to
start the user interface; and a `TrainTrial` on the state after `Init` runs an
evaluation pass and the training trial 0. -/
theorem mainrun_after_failed_build :
    (mainrun failingLeabra blankNet ["a", "b", "c"] ["a", "b"] false 0 false 5 7 (fun _ => 9)
        (fun _ => false) 3 10).map (fun s => opsOf s.log) =
      .ok (configOps 5 ++ [.LogPrintln "build failed"] ++ configLogOps ++ initOps 5 7 ++
        [.ConfigGui, .StartEventLoop]) ∧
    ∃ (k : ℕ) (w : Bool) (s1 : Sim Units),
      TrainTrial failingLeabra 9 (fun _ => false) 3
        (Init failingLeabra 7 (Config failingLeabra ["a", "b", "c"] ["a", "b"] 5 (New blankNet))) =
          .ok s1 ∧
      calls s1.log =
        calls (Init failingLeabra 7
          (Config failingLeabra ["a", "b", "c"] ["a", "b"] 5 (New blankNet))).log ++
        [.TrainTrial] ++ testAllCalls k w ++ trainCalls 0 := by
  obtain ⟨o1, r1⟩ := Config_ops_failed failingLeabra ["a", "b", "c"] ["a", "b"] 5 (New blankNet)
    "build failed" (fun _ => rfl)
  have o2 := Init_ops failingLeabra 7
    (Config failingLeabra ["a", "b", "c"] ["a", "b"] 5 (New blankNet))
  rw [o1, r1] at o2
  constructor
  · have hun : mainrun failingLeabra blankNet ["a", "b", "c"] ["a", "b"] false 0 false 5 7
        (fun _ => 9) (fun _ => false) 3 10 =
        .ok (Sim.emit .StartEventLoop (Sim.emit .ConfigGui (Init failingLeabra 7
          (Config failingLeabra ["a", "b", "c"] ["a", "b"] 5 (New blankNet))))) := rfl
    rw [hun]
    show Except.ok (opsOf _) = _
    rw [opsOf_emit, opsOf_emit, o2]
    simp [New, opsOf]
  · obtain ⟨p1, p2, s1, q1, P1, -, c1, -⟩ := TrainTrial_spec failingLeabra 9 (fun _ => false) 3
      (Init failingLeabra 7 (Config failingLeabra ["a", "b", "c"] ["a", "b"] 5 (New blankNet)))
      (by decide) (by decide) (by decide) (by decide)
    rw [if_pos (by decide)] at P1
    obtain ⟨k, w, rfl, -, -⟩ := P1
    refine ⟨k, w, s1, q1, ?_⟩
    rw [c1, if_neg (by decide)]
    rfl

/-- C27 (amended): when `net.Build` fails, the error is printed and nothing
else: `ConfigNet` skips `InitWts` and returns, `Config` configures the six
logs, and `mainrun` goes on as after a successful build, without arguments to
`Init` and the user interface, and with arguments to `Init` and `Train`. -/
theorem mainrun_build_error_logged (L : Leabra σ) (net : Network σ)
    (trainSL testSL : List String) (runs : ℤ) (wts : Bool) (t0 t1 : ℤ) (now : ℕ → ℤ)
    (stop : ℕ → Bool) (fuel n : ℕ) (err : String) (hB : ∀ m, (L.Build m).2 = some err) :
    opsOf (Config L trainSL testSL t0 (New net)).log =
      configOps t0 ++ [.LogPrintln err] ++ configLogOps ∧
    (configOps t0 ++ [Op.LogPrintln err] ++ configLogOps).count Op.InitWts = 0 ∧
    (∃ s : Sim σ,
      mainrun L net trainSL testSL false runs wts t0 t1 now stop fuel n = .ok s ∧
      opsOf s.log = configOps t0 ++ [.LogPrintln err] ++ configLogOps ++ initOps t0 t1 ++
        [.ConfigGui, .StartEventLoop]) ∧
    (∃ s : Sim σ,
      mainrun L net trainSL testSL true runs wts t0 t1 now stop fuel n =
        Train L now stop fuel n s ∧
      opsOf s.log = configOps t0 ++ [.LogPrintln err] ++ configLogOps ++ initOps t0 t1) := by
  obtain ⟨o1, r1⟩ := Config_ops_failed L trainSL testSL t0 (New net) err hB
  have o0 : opsOf (New net).log = [] := rfl
  rw [o0, List.nil_append] at o1
  refine ⟨o1, ?_, ?_, ?_⟩
  · simp [configOps, configLogOps]
  · have o2 := Init_ops L t1 (Config L trainSL testSL t0 (New net))
    rw [o1, r1] at o2
    refine ⟨Sim.emit .StartEventLoop (Sim.emit .ConfigGui (Init L t1
      (Config L trainSL testSL t0 (New net)))), rfl, ?_⟩
    rw [opsOf_emit, opsOf_emit, o2]
    simp
  · have o2 := Init_ops L t1
      ({ Config L trainSL testSL t0 (New net) with MaxRuns := runs, SaveWts := wts } : Sim σ)
    have e1 : opsOf ({ Config L trainSL testSL t0 (New net) with
        MaxRuns := runs, SaveWts := wts } : Sim σ).log = opsOf (Config L trainSL testSL t0 (New net)).log :=
      rfl
    have e2 : ({ Config L trainSL testSL t0 (New net) with
        MaxRuns := runs, SaveWts := wts } : Sim σ).RndSeed = t0 := r1
    rw [e1, e2, o1] at o2
    exact ⟨_, rfl, o2⟩

/-- Witness for C27 (amended): the network `failingLeabra`, whose build always
fails. -/
theorem mainrun_build_error_logged_witness :
    opsOf (Config failingLeabra ["a", "b", "c"] ["a", "b"] 5 (New blankNet)).log =
      configOps 5 ++ [.LogPrintln "build failed"] ++ configLogOps ∧
    ∃ s : Sim Units,
      mainrun failingLeabra blankNet ["a", "b", "c"] ["a", "b"] false 0 false 5 7 (fun _ => 9)
        (fun _ => false) 3 10 = .ok s ∧
      opsOf s.log = configOps 5 ++ [.LogPrintln "build failed"] ++ configLogOps ++ initOps 5 7 ++
        [.ConfigGui, .StartEventLoop] := by
  have h := mainrun_build_error_logged failingLeabra blankNet ["a", "b", "c"] ["a", "b"] 0 false
    5 7 (fun _ => 9) (fun _ => false) 3 10 "build failed" (fun _ => rfl)
  exact ⟨h.1, h.2.2.1⟩

/-- `LogRun` on a `TstEpcLog` that ends with the rows `e1`, `e2`: the new row
of `RunLog` holds the means over these two rows. -/
theorem LogRun_two_rows (ss : Sim σ) (pre : List TstEpcRow) (e1 e2 : TstEpcRow) :
    ∃ s1 : Sim σ,
      LogRun { ss with TstEpcLog := pre ++ [e1, e2] } = .ok s1 ∧
      s1.RunLog = ss.RunLog ++
        [RunRow.mk (F64.ofInt ss.TrainEnv.Run.Cur) (F64.ofInt ss.FirstZero)
          (aggMean [e1.SSE, e2.SSE]) (aggMean [e1.AvgSSE, e2.AvgSSE])
          (aggMean [e1.PctErr, e2.PctErr]) (aggMean [e1.PctCor, e2.PctCor])
          (aggMean [e1.CosDiff, e2.CosDiff]) (aggMean [e1.ABMemPct, e2.ABMemPct])
          (aggMean [e1.ABTrgOnWasOff, e2.ABTrgOnWasOff])
          (aggMean [e1.ABTrgOffWasOn, e2.ABTrgOffWasOn])] := by
  have hlo : ¬ ((((pre ++ [e1, e2]).length : ℕ) : ℤ) - 1 - 1 < 0) := by
    simp only [List.length_append, List.length_cons, List.length_nil]
    omega
  have hd : (pre ++ [e1, e2]).drop ((((pre ++ [e1, e2]).length : ℕ) : ℤ) - 1 - 1).toNat =
      [e1, e2] := by
    have : ((((pre ++ [e1, e2]).length : ℕ) : ℤ) - 1 - 1).toNat = pre.length := by
      simp only [List.length_append, List.length_cons, List.length_nil]
      omega
    rw [this]
    simp
  refine ⟨_, if_neg hlo, ?_⟩
  show ss.RunLog ++ _ = _
  rw [hd]
  rfl

/-- C28 (fails): `LogRun` takes the rows of `TstEpcLog` from index
`Len() - 2` on.  With at least two rows the new row of `RunLog` holds the
means over the last two rows, not the values of the last row: for the sums of
squared error 8, 4 and 0 of three evaluation passes it holds 2.  With exactly
one row, and with none, the slice expression panics. -/
theorem LogRun_reads_last_two_rows :
    (∀ (ss : Sim σ) (pre : List TstEpcRow) (e1 e2 : TstEpcRow),
      ∃ s1 : Sim σ,
        LogRun { ss with TstEpcLog := pre ++ [e1, e2] } = .ok s1 ∧
        s1.RunLog = ss.RunLog ++
          [RunRow.mk (F64.ofInt ss.TrainEnv.Run.Cur) (F64.ofInt ss.FirstZero)
            (aggMean [e1.SSE, e2.SSE]) (aggMean [e1.AvgSSE, e2.AvgSSE])
            (aggMean [e1.PctErr, e2.PctErr]) (aggMean [e1.PctCor, e2.PctCor])
            (aggMean [e1.CosDiff, e2.CosDiff]) (aggMean [e1.ABMemPct, e2.ABMemPct])
            (aggMean [e1.ABTrgOnWasOff, e2.ABTrgOnWasOff])
            (aggMean [e1.ABTrgOffWasOn, e2.ABTrgOffWasOn])]) ∧
    (∀ (ss : Sim σ) (e : TstEpcRow),
      LogRun { ss with TstEpcLog := [e] } = .error .sliceBounds ∧
      LogRun { ss with TstEpcLog := [] } = .error .sliceBounds) ∧
    (∃ s1 : Sim Units,
      LogRun (trialSim 0 2 0 [tstEpcRow 0 8, tstEpcRow 1 4, tstEpcRow 2 0]) = .ok s1 ∧
      s1.RunLog.map RunRow.SSE = [.fin 2]) ∧
    (tstEpcRow 2 0).SSE = .fin 0 := by
  refine ⟨LogRun_two_rows, ?_, ?_, rfl⟩
  · intro ss e
    exact ⟨rfl, rfl⟩
  · obtain ⟨s1, h1, h2⟩ := LogRun_two_rows (trialSim 0 2 0 []) [tstEpcRow 0 8] (tstEpcRow 1 4)
      (tstEpcRow 2 0)
    refine ⟨s1, h1, ?_⟩
    rw [h2]
    norm_num [trialSim, unitsSim, tstEpcRow, aggMean, aggSum, aggVals, F64.isNaN, F64.add, F64.div,
      F64.ofNat]

/-- C29 (fails): the row that `LogTrnTrl` writes holds the run, epoch and
trial counters of the training environment, at index 0 when the trial is 0
and after the rows present otherwise, but in the column `TrialName` the trial
name of the test environment: with `a` the name of the training trial and `b`
the name left in the test environment, the column holds `b`. -/
theorem LogTrnTrl_writes_test_trial_name (ss : Sim σ) :
    (∃ row : TrnTrlRow,
      (LogTrnTrl ss).TrnTrlLog =
        ss.TrnTrlLog.take (if ss.TrainEnv.Trial.Cur = 0 then 0 else ss.TrnTrlLog.length) ++
          [row] ∧
      row.Run = F64.ofInt ss.TrainEnv.Run.Cur ∧
      row.Epoch = F64.ofInt ss.TrainEnv.Epoch.Cur ∧
      row.Trial = F64.ofInt ss.TrainEnv.Trial.Cur ∧
      row.TrialName = ss.TestEnv.TrialName) ∧
    (namedSim 0 3).TrainEnv.TrialName = "a" ∧
    (LogTrnTrl (namedSim 0 3)).TrnTrlLog.map TrnTrlRow.TrialName = ["b"] ∧
    (LogTrnTrl (namedSim 1 3)).TrnTrlLog.map TrnTrlRow.TrialName = ["old", "old", "old", "b"] := by
  refine ⟨⟨_, rfl, rfl, rfl, rfl, rfl⟩, rfl, ?_, ?_⟩
  · simp [LogTrnTrl, namedSim, Sim.emit]
  · simp [LogTrnTrl, namedSim, Sim.emit, List.replicate]

/-- C30: for every network, every state and both values of `accum`, the three
results of `TrialStats` are 0, whatever the statistics of the trial are: these
are stored in `TrlSSE`, `TrlAvgSSE` and `TrlCosDiff` only. -/
theorem TrialStats_results_zero (L : Leabra σ) (accum : Bool) (ss : Sim σ) :
    (TrialStats L accum ss).2 = (.fin 0, .fin 0, .fin 0) ∧
    (TrialStats L accum ss).1.TrlSSE = (L.MSE ss.Net.core .ECout (1 / 2)).1 ∧
    (TrialStats L accum ss).1.TrlAvgSSE = (L.MSE ss.Net.core .ECout (1 / 2)).2 ∧
    (TrialStats L accum ss).1.TrlCosDiff = L.CosDiffCos ss.Net.core .ECout := by
  unfold TrialStats
  dsimp only
  cases accum
  · exact ⟨rfl, rfl, rfl, rfl⟩
  · by_cases h : F64.ne (L.MSE ss.Net.core .ECout (1 / 2)).1 (.fin 0) = true
    · rw [if_pos rfl, if_pos h]
      exact ⟨rfl, rfl, rfl, rfl⟩
    · rw [if_pos rfl, if_neg h]
      exact ⟨rfl, rfl, rfl, rfl⟩

/-! ## The state after the steps of the alpha cycle -/

theorem cycleStep_state (L : Leabra σ) (train : Bool) (vu : TimeScales) (cyc : ℕ)
    (ss : Sim σ) :
    (cycleStep L train vu cyc ss).Net = { ss.Net with core := L.Cycle ss.Net ss.Time } ∧
    (cycleStep L train vu cyc ss).Time = ss.Time.CycleInc ∧
    (cycleStep L train vu cyc ss).TrgOffWasOn = ss.TrgOffWasOn := by
  unfold cycleStep
  cases train <;> cases vu <;>
    simp only [Bool.not_true, Bool.not_false, Bool.false_eq_true, if_true, if_false] <;>
    split_ifs <;> exact ⟨rfl, rfl, rfl⟩

theorem cycleLoop_Time (L : Leabra σ) (train : Bool) (vu : TimeScales) (l : List ℕ) :
    ∀ ss : Sim σ,
    (l.foldl (fun s cyc => cycleStep L train vu cyc s) ss).Time =
      { Cycle := ss.Time.Cycle + l.length, Quarter := ss.Time.Quarter } ∧
    (l.foldl (fun s cyc => cycleStep L train vu cyc s) ss).TrgOffWasOn = ss.TrgOffWasOn := by
  induction l with
  | nil => intro ss; exact ⟨rfl, rfl⟩
  | cons c l ih =>
    intro ss
    obtain ⟨-, h2, h3⟩ := cycleStep_state L train vu c ss
    obtain ⟨k1, k2⟩ := ih (cycleStep L train vu c ss)
    rw [List.foldl_cons]
    refine ⟨?_, by rw [k2, h3]⟩
    rw [k1, h2]
    simp only [Time.CycleInc, List.length_cons, Time.mk.injEq, and_true]
    omega

theorem quarterSwitch_Time (L : Leabra σ) (train : Bool) (qtr : ℕ) (ss : Sim σ) :
    (quarterSwitch L train qtr ss).Time = ss.Time ∧
    (quarterSwitch L train qtr ss).TrgOffWasOn = ss.TrgOffWasOn := by
  rcases qtr with _ | _ | _ | q <;> cases train <;> exact ⟨rfl, rfl⟩

theorem MemStats_Time (L : Leabra σ) (train : Bool) (ss : Sim σ) :
    (MemStats L train ss).Time = ss.Time := by
  simp only [MemStats, Sim.emit]
  split_ifs <;> rfl

/-- The false-positive proportion that `MemStats` stores for a network
state. -/
theorem MemStats_TrgOffWasOn_Net (L : Leabra σ) (train : Bool) (s1 s2 : Sim σ)
    (h : s1.Net = s2.Net) :
    (MemStats L train s1).TrgOffWasOn = (MemStats L train s2).TrgOffWasOn := by
  rw [MemStats_TrgOffWasOn, MemStats_TrgOffWasOn, h]

/-- The state after one quarter: the time, and the network and the recall
statistic in terms of the state reached by the cycles and the switch. -/
theorem quarterStep_state (L : Leabra σ) (train : Bool) (vu : TimeScales) (qtr : ℕ)
    (ss : Sim σ) :
    (quarterStep L train vu qtr ss).Time =
      { Cycle := ss.Time.Cycle + 25, Quarter := ss.Time.Quarter + 1 } ∧
    (quarterStep L train vu qtr ss).Net =
      { (quarterSwitch L train qtr
          ((List.range 25).foldl (fun s cyc => cycleStep L train vu cyc s) ss)).Net with
        core := L.QuarterFinal
          (quarterSwitch L train qtr
            ((List.range 25).foldl (fun s cyc => cycleStep L train vu cyc s) ss)).Net
          (Time.mk (ss.Time.Cycle + 25) ss.Time.Quarter) } ∧
    (quarterStep L train vu qtr ss).TrgOffWasOn =
      if qtr + 1 = 3 then
        (MemStats L train (quarterStep L train vu qtr ss)).TrgOffWasOn
      else ss.TrgOffWasOn := by
  unfold quarterStep
  dsimp only
  obtain ⟨h1, g1⟩ := cycleLoop_Time L train vu (List.range 25) ss
  rw [List.length_range] at h1
  generalize List.foldl _ ss (List.range 25) = s1 at h1 g1 ⊢
  obtain ⟨h2, g2⟩ := quarterSwitch_Time L train qtr s1
  rw [h1] at h2
  rw [g1] at g2
  generalize quarterSwitch L train qtr s1 = s2 at h2 g2 ⊢
  obtain ⟨s3, hs3⟩ : ∃ s3, s3 = s2.netOp (fun n => L.QuarterFinal n s2.Time) .QuarterFinal :=
    ⟨_, rfl⟩
  have h3 : s3.Time = { Cycle := ss.Time.Cycle + 25, Quarter := ss.Time.Quarter } := by
    rw [hs3]; exact h2
  have n3 : s3.Net =
      { s2.Net with
        core := L.QuarterFinal s2.Net (Time.mk (ss.Time.Cycle + 25) ss.Time.Quarter) } := by
    rw [hs3, ← h2]; rfl
  have g3 : s3.TrgOffWasOn = ss.TrgOffWasOn := by rw [hs3]; exact g2
  rw [← hs3]
  clear hs3
  obtain ⟨s4, hs4⟩ : ∃ s4, s4 = (if qtr + 1 = 3 then MemStats L train s3 else s3) := ⟨_, rfl⟩
  have h4 : s4.Time = { Cycle := ss.Time.Cycle + 25, Quarter := ss.Time.Quarter } := by
    rw [hs4]
    split_ifs
    · rw [MemStats_Time, h3]
    · exact h3
  have n4 : s4.Net = s3.Net := by
    rw [hs4]
    split_ifs
    · rw [MemStats_Net]
    · rfl
  have g4 : s4.TrgOffWasOn =
      if qtr + 1 = 3 then (MemStats L train s4).TrgOffWasOn else ss.TrgOffWasOn := by
    rw [MemStats_TrgOffWasOn_Net L train s4 s3 n4, hs4]
    split_ifs with hq
    · rfl
    · exact g3
  rw [← hs4]
  clear hs4
  have hfin : ∀ s : Sim σ, s.Time = s4.QuarterInc.Time → s.Net = s4.Net →
      s.TrgOffWasOn = s4.TrgOffWasOn →
      s.Time = { Cycle := ss.Time.Cycle + 25, Quarter := ss.Time.Quarter + 1 } ∧
      s.Net =
        { s2.Net with
          core := L.QuarterFinal s2.Net (Time.mk (ss.Time.Cycle + 25) ss.Time.Quarter) } ∧
      s.TrgOffWasOn =
        if qtr + 1 = 3 then (MemStats L train s).TrgOffWasOn else ss.TrgOffWasOn := by
    intro s e1 e2 e3
    refine ⟨?_, by rw [e2, n4, n3], ?_⟩
    · rw [e1]
      show s4.Time.QuarterInc = _
      rw [h4]
      rfl
    · rw [e3, g4, MemStats_TrgOffWasOn_Net L train s s4 e2]
  refine hfin _ ?_ ?_ ?_ <;> split_ifs <;> rfl

theorem quartersLoop_Time (L : Leabra σ) (train : Bool) (vu : TimeScales) (l : List ℕ) :
    ∀ ss : Sim σ,
    (l.foldl (fun s qtr => quarterStep L train vu qtr s) ss).Time =
      { Cycle := ss.Time.Cycle + 25 * l.length, Quarter := ss.Time.Quarter + l.length } := by
  induction l with
  | nil => intro ss; rfl
  | cons c l ih =>
    intro ss
    rw [List.foldl_cons, ih, (quarterStep_state L train vu c ss).1]
    simp only [List.length_cons, Time.mk.injEq]
    constructor <;> omega

/-- The state after `AlphaCyc(false)` in terms of the state after the four
quarters. -/
theorem AlphaCyc_test_state (L : Leabra σ) (ss : Sim σ) :
    (AlphaCyc L false ss).Net =
      ((List.range 4).foldl (fun s qtr => quarterStep L false (ss.viewUpdt false) qtr s)
        (((ss.SetType .Compare).netOp L.UpdateExtFlags .UpdateExtFlags).netOp
          L.AlphaCycInit .AlphaCycInit).AlphaCycStart).Net ∧
    (AlphaCyc L false ss).Time =
      ((List.range 4).foldl (fun s qtr => quarterStep L false (ss.viewUpdt false) qtr s)
        (((ss.SetType .Compare).netOp L.UpdateExtFlags .UpdateExtFlags).netOp
          L.AlphaCycInit .AlphaCycInit).AlphaCycStart).Time ∧
    (AlphaCyc L false ss).TrgOffWasOn =
      ((List.range 4).foldl (fun s qtr => quarterStep L false (ss.viewUpdt false) qtr s)
        (((ss.SetType .Compare).netOp L.UpdateExtFlags .UpdateExtFlags).netOp
          L.AlphaCycInit .AlphaCycInit).AlphaCycStart).TrgOffWasOn := by
  unfold AlphaCyc
  generalize Sim.viewUpdt false ss = vu
  simp only [Bool.false_eq_true, if_false, Bool.not_false, if_true]
  generalize List.foldl _ _ (List.range 4) = s1
  split_ifs <;> exact ⟨rfl, rfl, rfl⟩

/-- The state after `AlphaCyc(true)` in terms of the state after the four
quarters. -/
theorem AlphaCyc_train_state (L : Leabra σ) (ss : Sim σ) :
    (AlphaCyc L true ss).Net =
      (((List.range 4).foldl (fun s qtr => quarterStep L true (ss.viewUpdt true) qtr s)
        ((((((ss.netOp L.WtFmDWt .WtFmDWt).SetType .Target).netOp L.UpdateExtFlags
          .UpdateExtFlags).setECinAbs 1).setCa3Abs 0).netOp
          L.AlphaCycInit .AlphaCycInit).AlphaCycStart).netOp L.DWt .DWt).Net ∧
    (AlphaCyc L true ss).Time =
      ((List.range 4).foldl (fun s qtr => quarterStep L true (ss.viewUpdt true) qtr s)
        ((((((ss.netOp L.WtFmDWt .WtFmDWt).SetType .Target).netOp L.UpdateExtFlags
          .UpdateExtFlags).setECinAbs 1).setCa3Abs 0).netOp
          L.AlphaCycInit .AlphaCycInit).AlphaCycStart).Time ∧
    (AlphaCyc L true ss).TrgOffWasOn =
      ((List.range 4).foldl (fun s qtr => quarterStep L true (ss.viewUpdt true) qtr s)
        ((((((ss.netOp L.WtFmDWt .WtFmDWt).SetType .Target).netOp L.UpdateExtFlags
          .UpdateExtFlags).setECinAbs 1).setCa3Abs 0).netOp
          L.AlphaCycInit .AlphaCycInit).AlphaCycStart).TrgOffWasOn := by
  unfold AlphaCyc
  generalize Sim.viewUpdt true ss = vu
  simp only [if_true, Bool.not_true, Bool.false_eq_true, if_false]
  generalize List.foldl _ _ (List.range 4) = s1
  split_ifs <;> exact ⟨rfl, rfl, rfl⟩

/-- One call of `AlphaCyc` leaves the time at cycle 100 of quarter 4. -/
theorem AlphaCyc_Time (L : Leabra σ) (train : Bool) (ss : Sim σ) :
    (AlphaCyc L train ss).Time = { Cycle := 100, Quarter := 4 } := by
  cases train
  · rw [(AlphaCyc_test_state L ss).2.1, quartersLoop_Time]
    rfl
  · rw [(AlphaCyc_train_state L ss).2.1, quartersLoop_Time]
    rfl

/-! ## The recording network -/

theorem recCycles_succ (t : Time) (n : ℕ) (a b : ℚ) :
    recCycles t (n + 1) a b = NetCall.cycle t a b :: recCycles t.CycleInc n a b := by
  unfold recCycles
  rw [List.range_succ_eq_map, List.map_cons, List.map_map]
  refine congrArg₂ _ rfl (List.map_congr_left ?_)
  intro c _
  simp only [Function.comp, Time.CycleInc, NetCall.cycle.injEq, Time.mk.injEq, and_true]
  omega

theorem recCycleLoop_Net (train : Bool) (vu : TimeScales) (l : List ℕ) :
    ∀ ss : Sim (List NetCall),
    (l.foldl (fun s cyc => cycleStep recLeabra train vu cyc s) ss).Net =
      { ss.Net with
        core := ss.Net.core ++ recCycles ss.Time l.length ss.Net.ca1FmECinAbs ss.Net.ca1FmCa3Abs } := by
  induction l with
  | nil =>
    intro ss
    simp [recCycles]
  | cons c l ih =>
    intro ss
    obtain ⟨h1, h2, -⟩ := cycleStep_state recLeabra train vu c ss
    rw [List.foldl_cons, ih, h1, h2, List.length_cons, recCycles_succ]
    simp [recLeabra]

theorem quarterSwitch_rec (train : Bool) (qtr : ℕ) (s : Sim (List NetCall)) :
    (quarterSwitch recLeabra train qtr s).Net =
      match train, qtr with
      | true, 0 =>
        { s.Net with
          ca1FmECinAbs := 0, ca1FmCa3Abs := 1,
          core := s.Net.core ++ [.gScaleFmAvgAct 0 1, .initGInc] }
      | true, 2 =>
        { s.Net with
          ca1FmECinAbs := 1, ca1FmCa3Abs := 0,
          core := s.Net.core ++ [.gScaleFmAvgAct 1 0, .initGInc, .applyExt1D32 .ECout []] }
      | _, _ => s.Net := by
  rcases qtr with _ | _ | _ | q <;> cases train <;>
    simp [quarterSwitch, Sim.netOp, Sim.emit, Sim.setECinAbs, Sim.setCa3Abs,
      Sim.clampECoutFmECin, recLeabra, Leabra.UnitVals]

theorem quarterStep_rec (train : Bool) (vu : TimeScales) (qtr : ℕ) (ss : Sim (List NetCall)) :
    (quarterStep recLeabra train vu qtr ss).Net = recQuarter train qtr ss.Time ss.Net := by
  rw [(quarterStep_state recLeabra train vu qtr ss).2.1, quarterSwitch_rec,
    recCycleLoop_Net, List.length_range]
  rcases qtr with _ | _ | _ | q <;> cases train <;> simp [recQuarter, recLeabra]

/-- What `MemStats` stores as `TrgOffWasOn` on the recording network: of the
two off-target units, the first counts as a false positive once three
`QuarterFinal` calls are recorded, the second once 76 `Cycle` calls are. -/
theorem MemStats_rec (train : Bool) (s : Sim (List NetCall)) :
    (MemStats recLeabra train s).TrgOffWasOn =
      F64.fin ((((if 3 ≤ (s.Net.core.filter NetCall.isQuarterFinal).length then 1 else 0) +
        (if 76 ≤ (s.Net.core.filter NetCall.isCycle).length then 1 else 0) : ℕ) : ℚ) / 2) := by
  rw [MemStats_TrgOffWasOn]
  have h2 : (offTargetUnits recLeabra s.Net.core).card = 2 := by
    simp [offTargetUnits, recLeabra]
  have h1 : (offTargetFalsePositives recLeabra s.Net.core).card =
      (if 3 ≤ (s.Net.core.filter NetCall.isQuarterFinal).length then 1 else 0) +
        (if 76 ≤ (s.Net.core.filter NetCall.isCycle).length then 1 else 0) := by
    have hr : Finset.range 2 = {0, 1} := by decide
    unfold offTargetFalsePositives
    simp only [recLeabra, hr]
    by_cases c1 : 3 ≤ (s.Net.core.filter NetCall.isQuarterFinal).length <;>
      by_cases c2 : 76 ≤ (s.Net.core.filter NetCall.isCycle).length <;>
      simp [c1, c2, Finset.filter_insert, Finset.filter_singleton] <;> norm_num
  rw [h1, h2, F64.div_ofNat_pos _ 2 (by norm_num)]
  norm_num

theorem quarterStep_Time (L : Leabra σ) (train : Bool) (vu : TimeScales) (qtr : ℕ)
    (ss : Sim σ) :
    (quarterStep L train vu qtr ss).Time =
      { Cycle := ss.Time.Cycle + 25, Quarter := ss.Time.Quarter + 1 } :=
  (quarterStep_state L train vu qtr ss).1

theorem filter_isCycle_recCycles (t : Time) (n : ℕ) (a b : ℚ) :
    ((recCycles t n a b).filter NetCall.isCycle).length = n ∧
    ((recCycles t n a b).filter NetCall.isQuarterFinal).length = 0 := by
  unfold recCycles
  constructor
  · rw [List.filter_eq_self.mpr, List.length_map, List.length_range]
    intro x hx
    obtain ⟨c, -, rfl⟩ := List.mem_map.mp hx
    rfl
  · rw [List.filter_eq_nil_iff.mpr]
    · rfl
    · intro x hx
      obtain ⟨c, -, rfl⟩ := List.mem_map.mp hx
      simp [NetCall.isQuarterFinal]

/-- The network calls of one `AlphaCyc`, as the recording network keeps
them. -/
theorem AlphaCyc_rec (train : Bool) (ss : Sim (List NetCall)) :
    (AlphaCyc recLeabra train ss).Net.core =
      ss.Net.core ++ recTrace train ss.Net.ca1FmECinAbs ss.Net.ca1FmCa3Abs := by
  have hr : List.range 4 = [0, 1, 2, 3] := rfl
  cases train
  · rw [(AlphaCyc_test_state recLeabra ss).1, hr]
    simp only [List.foldl_cons, List.foldl_nil, quarterStep_rec, quarterStep_Time]
    simp [recQuarter, recTrace, recTest, Sim.AlphaCycStart, Sim.netOp, Sim.emit, Sim.SetType,
      Time.AlphaCycStart, recLeabra]
  · rw [(AlphaCyc_train_state recLeabra ss).1, hr]
    simp only [List.foldl_cons, List.foldl_nil]
    have h : ∀ s : Sim (List NetCall), (s.netOp recLeabra.DWt .DWt).Net =
        { s.Net with core := s.Net.core ++ [.dWt] } := fun _ => rfl
    rw [h]
    simp only [quarterStep_rec, quarterStep_Time]
    simp [recQuarter, recTrace, recTrain, Sim.AlphaCycStart, Sim.netOp, Sim.emit, Sim.SetType,
      Sim.setECinAbs, Sim.setCa3Abs, Time.AlphaCycStart, recLeabra]

/-- On the recording network, entered with an empty record, `AlphaCyc` leaves
`TrgOffWasOn` at 1/2: `MemStats` read the network when three `QuarterFinal`
calls and fewer than 76 `Cycle` calls had been made. -/
theorem AlphaCyc_rec_TrgOffWasOn (train : Bool) (ss : Sim (List NetCall)) :
    (AlphaCyc recLeabra train { ss with Net := { ss.Net with core := [] } }).TrgOffWasOn =
      F64.fin (1 / 2) := by
  have hr : List.range 4 = [0, 1, 2, 3] := rfl
  have h3 : ∀ (vu : TimeScales) (s : Sim (List NetCall)),
      (quarterStep recLeabra train vu 3 s).TrgOffWasOn = s.TrgOffWasOn := by
    intro vu s
    rw [(quarterStep_state recLeabra train vu 3 s).2.2]
    rfl
  have h2 : ∀ (vu : TimeScales) (s : Sim (List NetCall)),
      (quarterStep recLeabra train vu 2 s).TrgOffWasOn =
        (MemStats recLeabra train (quarterStep recLeabra train vu 2 s)).TrgOffWasOn := by
    intro vu s
    exact (quarterStep_state recLeabra train vu 2 s).2.2
  cases train
  · rw [(AlphaCyc_test_state recLeabra _).2.2, hr]
    simp only [List.foldl_cons, List.foldl_nil]
    rw [h3, h2, MemStats_rec]
    simp only [quarterStep_rec, quarterStep_Time]
    simp [recQuarter, Sim.AlphaCycStart, Sim.netOp, Sim.emit, Sim.SetType,
      Time.AlphaCycStart, recLeabra, List.filter_append, filter_isCycle_recCycles,
      NetCall.isCycle, NetCall.isQuarterFinal]
  · rw [(AlphaCyc_train_state recLeabra _).2.2, hr]
    simp only [List.foldl_cons, List.foldl_nil]
    rw [h3, h2, MemStats_rec]
    simp only [quarterStep_rec, quarterStep_Time]
    simp [recQuarter, Sim.AlphaCycStart, Sim.netOp, Sim.emit, Sim.SetType,
      Sim.setECinAbs, Sim.setCa3Abs, Time.AlphaCycStart, recLeabra, List.filter_append,
      filter_isCycle_recCycles, NetCall.isCycle, NetCall.isQuarterFinal]

/-! ## The network after an alpha cycle is determined by the network before -/

theorem cycleLoop_Net_congr (L : Leabra σ) (train : Bool) (vu vu2 : TimeScales) (l : List ℕ) :
    ∀ s1 s2 : Sim σ, s1.Net = s2.Net → s1.Time = s2.Time →
      (l.foldl (fun s cyc => cycleStep L train vu cyc s) s1).Net =
        (l.foldl (fun s cyc => cycleStep L train vu2 cyc s) s2).Net := by
  induction l with
  | nil => intro s1 s2 h _; exact h
  | cons c l ih =>
    intro s1 s2 hn ht
    rw [List.foldl_cons, List.foldl_cons]
    apply ih
    · rw [(cycleStep_state L train vu c s1).1, (cycleStep_state L train vu2 c s2).1, hn, ht]
    · rw [(cycleStep_state L train vu c s1).2.1, (cycleStep_state L train vu2 c s2).2.1, ht]

theorem quarterSwitch_Net_congr (L : Leabra σ) (train : Bool) (qtr : ℕ) (s1 s2 : Sim σ)
    (h : s1.Net = s2.Net) :
    (quarterSwitch L train qtr s1).Net = (quarterSwitch L train qtr s2).Net := by
  rcases qtr with _ | _ | _ | q <;> cases train <;>
    simp [quarterSwitch, Sim.netOp, Sim.emit, Sim.setECinAbs, Sim.setCa3Abs,
      Sim.clampECoutFmECin, h]

theorem quarterStep_Net_congr (L : Leabra σ) (train : Bool) (vu vu2 : TimeScales) (qtr : ℕ)
    (s1 s2 : Sim σ) (hn : s1.Net = s2.Net) (ht : s1.Time = s2.Time) :
    (quarterStep L train vu qtr s1).Net = (quarterStep L train vu2 qtr s2).Net := by
  rw [(quarterStep_state L train vu qtr s1).2.1, (quarterStep_state L train vu2 qtr s2).2.1,
    quarterSwitch_Net_congr L train qtr _ _
      (cycleLoop_Net_congr L train vu vu2 (List.range 25) s1 s2 hn ht), ht]

theorem quartersLoop_Net_congr (L : Leabra σ) (train : Bool) (vu vu2 : TimeScales)
    (l : List ℕ) :
    ∀ s1 s2 : Sim σ, s1.Net = s2.Net → s1.Time = s2.Time →
      (l.foldl (fun s qtr => quarterStep L train vu qtr s) s1).Net =
        (l.foldl (fun s qtr => quarterStep L train vu2 qtr s) s2).Net := by
  induction l with
  | nil => intro s1 s2 h _; exact h
  | cons c l ih =>
    intro s1 s2 hn ht
    rw [List.foldl_cons, List.foldl_cons]
    apply ih
    · exact quarterStep_Net_congr L train vu vu2 c s1 s2 hn ht
    · rw [(quarterStep_state L train vu c s1).1, (quarterStep_state L train vu2 c s2).1, ht]

/-- The network that `AlphaCyc` leaves depends on the state at entry through
the network only. -/
theorem AlphaCyc_Net_congr (L : Leabra σ) (train : Bool) (s1 s2 : Sim σ)
    (h : s1.Net = s2.Net) :
    (AlphaCyc L train s1).Net = (AlphaCyc L train s2).Net := by
  cases train
  · rw [(AlphaCyc_test_state L s1).1, (AlphaCyc_test_state L s2).1]
    apply quartersLoop_Net_congr
    · simp only [Sim.AlphaCycStart, Sim.netOp, Sim.emit, Sim.SetType, h]
    · rfl
  · rw [(AlphaCyc_train_state L s1).1, (AlphaCyc_train_state L s2).1]
    have k : ∀ a b : Sim σ, a.Net = b.Net →
        (a.netOp L.DWt .DWt).Net = (b.netOp L.DWt .DWt).Net := by
      intro a b hab
      simp only [Sim.netOp, Sim.emit, hab]
    apply k
    apply quartersLoop_Net_congr
    · simp only [Sim.AlphaCycStart, Sim.netOp, Sim.emit, Sim.SetType, Sim.setECinAbs,
        Sim.setCa3Abs, h]
    · rfl

/-! ## The state after `TestItem` -/

/-- The network after `TestItem(idx)` is the network of one alpha cycle
without training run on the inputs of trial `idx` of the test environment. -/
theorem TestItem_Net (L : Leabra σ) (idx : ℤ) (ss : Sim σ) :
    (TestItem L idx ss).Net =
      (AlphaCyc L false (ApplyInputs L false
        { ss with TestEnv := { ss.TestEnv with
          Trial := { ss.TestEnv.Trial with Cur := idx } } })).Net := by
  obtain ⟨s1, hs1⟩ : ∃ s1 : Sim σ, s1 = { ss.emit (.TestItem idx) with
      TestEnv := ({ ss.TestEnv with Trial := { ss.TestEnv.Trial with Cur := idx } } :
        FixedTable).SetTrialName } := ⟨_, rfl⟩
  obtain ⟨s3, hs3⟩ : ∃ s3 : Sim σ, s3 = callAlphaCyc L false (ApplyInputs L false s1) :=
    ⟨_, rfl⟩
  have hun : TestItem L idx ss =
      { (TrialStats L false s3).1 with TestEnv := { (TrialStats L false s3).1.TestEnv with
        Trial := { (TrialStats L false s3).1.TestEnv.Trial with Cur := ss.TestEnv.Trial.Cur } } } := by
    rw [hs3, hs1]; rfl
  have hN : (TestItem L idx ss).Net = s3.Net := by rw [hun]; rfl
  have e1 : s1.TestEnv.Trial.Cur = idx := by
    rw [hs1]
    exact congrArg Ctr.Cur (SetTrialName_counters _).1
  rw [hN, hs3]
  unfold callAlphaCyc
  apply AlphaCyc_Net_congr
  show (ApplyInputs L false s1).Net = _
  simp only [ApplyInputs, Sim.netOp, Sim.emit, Bool.false_eq_true, if_false, e1]
  rw [hs1]
  rfl

/-- The state that `TestItem(idx)` leaves, for an index of a row of the test
table: the name of that row, the network of one alpha cycle without training
run on the inputs of trial `idx` of the test environment, the time at the end
of an alpha cycle and the trial statistics of the network. -/
theorem TestItem_state (L : Leabra σ) (idx : ℤ) (ss : Sim σ)
    (hidx : 0 ≤ idx ∧ idx < ss.TestEnv.Names.length) :
    (TestItem L idx ss).TestEnv.TrialName = ss.TestEnv.Names.getD idx.toNat "" ∧
    (TestItem L idx ss).Net =
      (AlphaCyc L false (ApplyInputs L false
        { ss with TestEnv := { ss.TestEnv with
          Trial := { ss.TestEnv.Trial with Cur := idx } } })).Net ∧
    (TestItem L idx ss).Time = { Cycle := 100, Quarter := 4 } ∧
    (TestItem L idx ss).Net.ecoutTyp = .Compare ∧
    (TestItem L idx ss).TrlSSE = (L.MSE (TestItem L idx ss).Net.core .ECout (1 / 2)).1 ∧
    (TestItem L idx ss).TrlAvgSSE = (L.MSE (TestItem L idx ss).Net.core .ECout (1 / 2)).2 ∧
    (TestItem L idx ss).TrlCosDiff = L.CosDiffCos (TestItem L idx ss).Net.core .ECout := by
  obtain ⟨s1, hs1⟩ : ∃ s1 : Sim σ, s1 = { ss.emit (.TestItem idx) with
      TestEnv := ({ ss.TestEnv with Trial := { ss.TestEnv.Trial with Cur := idx } } :
        FixedTable).SetTrialName } := ⟨_, rfl⟩
  obtain ⟨s3, hs3⟩ : ∃ s3 : Sim σ, s3 = callAlphaCyc L false (ApplyInputs L false s1) :=
    ⟨_, rfl⟩
  have hun : TestItem L idx ss =
      { (TrialStats L false s3).1 with TestEnv := { (TrialStats L false s3).1.TestEnv with
        Trial := { (TrialStats L false s3).1.TestEnv.Trial with Cur := ss.TestEnv.Trial.Cur } } } := by
    rw [hs3, hs1]; rfl
  have hN : (TestItem L idx ss).Net = s3.Net := by rw [hun]; rfl
  have hT : (TestItem L idx ss).Time = s3.Time := by rw [hun]; rfl
  have e1 : s1.TestEnv.Trial.Cur = idx := by
    rw [hs1]
    exact congrArg Ctr.Cur (SetTrialName_counters _).1
  have n1 : s1.TestEnv.TrialName = ss.TestEnv.Names.getD idx.toNat "" := by
    rw [hs1]
    show (FixedTable.SetTrialName _).TrialName = _
    unfold FixedTable.SetTrialName
    rw [if_pos hidx]
    show ss.TestEnv.Names.getD idx.toNat ss.TestEnv.TrialName = _
    have hlt : idx.toNat < ss.TestEnv.Names.length := by
      have := hidx.1
      have := hidx.2
      omega
    rw [List.getD_eq_getElem _ _ hlt, List.getD_eq_getElem _ _ hlt]
  have k3 : Sim.keepOuter s1 s3 = s3 := by
    rw [hs3]
    exact keepOuter_trans (ApplyInputs_keepOuter L false s1) (callAlphaCyc_keepOuter L false _)
  have t3 : s3.TestEnv = s1.TestEnv := by rw [← k3]; rfl
  refine ⟨?_, ?_, ?_, ?_, ?_, ?_, ?_⟩
  · rw [hun]
    show s3.TestEnv.TrialName = _
    rw [t3, n1]
  · exact TestItem_Net L idx ss
  · rw [hT, hs3]
    exact AlphaCyc_Time L false _
  · rw [hN, hs3]
    exact AlphaCyc_ecoutTyp L false _
  · rw [hun]; rfl
  · rw [hun]; rfl
  · rw [hun]; rfl

/-- The network calls of `TestItem(idx)`, as the recording network keeps
them: the external inputs are cleared, the patterns of trial `idx` of the
test environment are applied to `Input` and `ECout`, and one alpha cycle
without training follows. -/
theorem TestItem_rec (idx : ℤ) (s : Sim (List NetCall)) :
    (TestItem recLeabra idx s).Net.core =
      s.Net.core ++ [.initExt, .applyExt .Input idx false, .applyExt .ECout idx false] ++
        recTest s.Net.ca1FmECinAbs s.Net.ca1FmCa3Abs := by
  rw [TestItem_Net, AlphaCyc_rec]
  simp [ApplyInputs, Sim.netOp, Sim.emit, recLeabra, recTrace]

/-! ## The state after a training trial -/

theorem TrialStats_true_state (L : Leabra σ) (ss : Sim σ) :
    (TrialStats L true ss).1.Net = ss.Net ∧ (TrialStats L true ss).1.Time = ss.Time ∧
    (TrialStats L true ss).1.SumSSE = F64.add ss.SumSSE (TrialStats L true ss).1.TrlSSE ∧
    (TrialStats L true ss).1.TrnTrlLog = ss.TrnTrlLog ∧
    (TrialStats L true ss).1.TrainEnv = ss.TrainEnv ∧
    (TrialStats L true ss).1.TstEpcLog = ss.TstEpcLog ∧
    (TrialStats L true ss).1.TstTrlLog = ss.TstTrlLog ∧
    (TrialStats L true ss).1.TrnEpcLog = ss.TrnEpcLog ∧
    (TrialStats L true ss).1.RunLog = ss.RunLog := by
  unfold TrialStats
  dsimp only
  simp only [if_true]
  split_ifs <;> exact ⟨rfl, rfl, rfl, rfl, rfl, rfl, rfl, rfl, rfl⟩

/-- The state after the training trial proper: the time at the end of an
alpha cycle, `ECout` a target layer, the trial's error added to `SumSSE`, the
row of the trial in `TrnTrlLog`, and the other logs and the training
environment as before. -/
theorem trainStep_state (L : Leabra σ) (ss : Sim σ) :
    (trainStep L ss).Time = { Cycle := 100, Quarter := 4 } ∧
    (trainStep L ss).Net.ecoutTyp = .Target ∧
    (trainStep L ss).SumSSE = F64.add ss.SumSSE (trainStep L ss).TrlSSE ∧
    (∃ row : TrnTrlRow,
      (trainStep L ss).TrnTrlLog =
        ss.TrnTrlLog.take (if ss.TrainEnv.Trial.Cur = 0 then 0 else ss.TrnTrlLog.length) ++
          [row] ∧
      row.Trial = F64.ofInt ss.TrainEnv.Trial.Cur) ∧
    (trainStep L ss).TrainEnv = ss.TrainEnv ∧
    (trainStep L ss).TstEpcLog = ss.TstEpcLog ∧
    (trainStep L ss).TstTrlLog = ss.TstTrlLog ∧
    (trainStep L ss).TrnEpcLog = ss.TrnEpcLog ∧
    (trainStep L ss).RunLog = ss.RunLog := by
  obtain ⟨s2, hs2⟩ : ∃ s2 : Sim σ, s2 = callAlphaCyc L true (ApplyInputs L true ss) := ⟨_, rfl⟩
  have hun : trainStep L ss = LogTrnTrl (TrialStats L true s2).1 := by rw [hs2]; rfl
  have k2 : Sim.keepOuter ss s2 = s2 := by
    rw [hs2]
    exact keepOuter_trans (ApplyInputs_keepOuter L true ss) (callAlphaCyc_keepOuter L true _)
  have t2 : s2.Time = { Cycle := 100, Quarter := 4 } := by
    rw [hs2]; exact AlphaCyc_Time L true _
  have n2 : s2.Net.ecoutTyp = .Target := by
    rw [hs2]; exact AlphaCyc_ecoutTyp L true _
  have f2 : s2.SumSSE = ss.SumSSE ∧ s2.TrnTrlLog = ss.TrnTrlLog ∧ s2.TrainEnv = ss.TrainEnv ∧
      s2.TstEpcLog = ss.TstEpcLog ∧ s2.TstTrlLog = ss.TstTrlLog ∧ s2.TrnEpcLog = ss.TrnEpcLog ∧
      s2.RunLog = ss.RunLog := by
    rw [← k2]
    exact ⟨rfl, rfl, rfl, rfl, rfl, rfl, rfl⟩
  clear hs2 k2
  obtain ⟨a1, a2, a3, a4, a5, a6, a7⟩ := f2
  obtain ⟨b1, b2, b3, b4, b5, b6, b7, b8, b9⟩ := TrialStats_true_state L s2
  generalize (TrialStats L true s2).1 = s3 at hun b1 b2 b3 b4 b5 b6 b7 b8 b9
  rw [hun]
  refine ⟨?_, ?_, ?_, ⟨TrnTrlRow.mk (F64.ofInt s3.TrainEnv.Run.Cur)
    (F64.ofInt s3.TrainEnv.Epoch.Cur) (F64.ofInt s3.TrainEnv.Trial.Cur) s3.TestEnv.TrialName
    s3.TrlSSE s3.TrlAvgSSE s3.TrlCosDiff s3.Mem s3.TrgOnWasOffAll s3.TrgOffWasOn, ?_, ?_⟩,
    ?_, ?_, ?_, ?_, ?_⟩
  · show s3.Time = _
    rw [b2, t2]
  · show s3.Net.ecoutTyp = _
    rw [b1, n2]
  · show s3.SumSSE = F64.add ss.SumSSE s3.TrlSSE
    rw [b3, a1]
  · show s3.TrnTrlLog.take (if s3.TrainEnv.Trial.Cur = 0 then 0 else s3.TrnTrlLog.length) ++
      [_] = _
    rw [b4, b5, a2, a3]
  · show F64.ofInt s3.TrainEnv.Trial.Cur = _
    rw [b5, a3]
  · show s3.TrainEnv = _
    rw [b5, a3]
  · show s3.TstEpcLog = _
    rw [b6, a4]
  · show s3.TstTrlLog = _
    rw [b7, a5]
  · show s3.TrnEpcLog = _
    rw [b8, a6]
  · show s3.RunLog = _
    rw [b9, a7]

theorem LogTrnEpc_state (ss : Sim σ) :
    (LogTrnEpc ss).TrnEpcLog.length = ss.TrnEpcLog.length + 1 ∧
    (LogTrnEpc ss).SumSSE = F64.fin 0 ∧
    (LogTrnEpc ss).TrnTrlLog = ss.TrnTrlLog ∧
    (LogTrnEpc ss).RunLog = ss.RunLog := by
  unfold LogTrnEpc
  dsimp only
  split_ifs <;> simp [Sim.emit]

/-- A run that `RunEnd` ends has one row more in `RunLog`. -/
theorem RunEnd_RunLog (ss s1 : Sim σ) (h : RunEnd ss = .ok s1) :
    s1.RunLog.length = ss.RunLog.length + 1 := by
  unfold RunEnd at h
  dsimp only at h
  cases hL : LogRun (ss.emit .RunEnd) with
  | error f =>
    rw [hL] at h
    cases h
  | ok s0 =>
    rw [hL] at h
    have h0 : s0.RunLog.length = ss.RunLog.length + 1 := by
      unfold LogRun at hL
      dsimp only at hL
      split_ifs at hL
      cases hL
      simp [Sim.emit]
    have h1 : (if s0.SaveWts then s0.emit .SaveWtsJSON else s0).RunLog = s0.RunLog := by
      split_ifs <;> rfl
    cases h
    rw [h1, h0]

theorem NewRun_RunLog (L : Leabra σ) (now : ℤ) (ss : Sim σ) :
    (NewRun L now ss).RunLog = ss.RunLog := rfl

theorem keepTest_frame_logs {a b : Sim σ} (h : Sim.keepTest a b = b) :
    b.TrnEpcLog = a.TrnEpcLog ∧ b.TrnTrlLog = a.TrnTrlLog ∧ b.RunLog = a.RunLog ∧
    b.SumSSE = a.SumSSE ∧ b.TrainEnv = a.TrainEnv ∧ b.MaxEpcs = a.MaxEpcs := by
  rw [← h]
  exact ⟨rfl, rfl, rfl, rfl, rfl, rfl⟩

/-- The state after the part of a training trial that follows a change of the
epoch: with the run going on, one row more in `TrnEpcLog`, one row more in
`TstEpcLog` if the epoch is a multiple of `TestInterval`, and the state of a
training trial proper that began with `SumSSE = 0`; at the end of the run, one
row more in `RunLog`. -/
theorem trainTrialRest_changed_state (L : Leabra σ) (now : ℤ) (stop : ℕ → Bool) (fuel : ℕ)
    (ss : Sim σ) (h : ss.TrainEnv.Epoch.Chg = true) (hTI : ss.TestInterval ≠ 0)
    (hlen : 0 < ss.TestSL.length) (hfuel : ss.TestSL.length < fuel)
    (hrows : ss.MaxEpcs ≤ ss.TrainEnv.Epoch.Cur →
      2 ≤ ss.TstEpcLog.length +
        (if Int.tmod ss.TrainEnv.Epoch.Cur ss.TestInterval = 0 then 1 else 0)) :
    ∃ s1 : Sim σ,
      trainTrialRest L now stop fuel ss = .ok s1 ∧
      (¬ ss.MaxEpcs ≤ ss.TrainEnv.Epoch.Cur →
        s1.TrnEpcLog.length = ss.TrnEpcLog.length + 1 ∧
        s1.TstEpcLog.length = ss.TstEpcLog.length +
          (if Int.tmod ss.TrainEnv.Epoch.Cur ss.TestInterval = 0 then 1 else 0) ∧
        s1.Time = { Cycle := 100, Quarter := 4 } ∧
        s1.Net.ecoutTyp = .Target ∧
        s1.SumSSE = F64.add (.fin 0) s1.TrlSSE ∧
        (∃ row : TrnTrlRow,
          s1.TrnTrlLog =
            ss.TrnTrlLog.take
              (if ss.TrainEnv.Trial.Cur = 0 then 0 else ss.TrnTrlLog.length) ++ [row] ∧
          row.Trial = F64.ofInt ss.TrainEnv.Trial.Cur) ∧
        s1.TrainEnv = ss.TrainEnv) ∧
      (ss.MaxEpcs ≤ ss.TrainEnv.Epoch.Cur → s1.RunLog.length = ss.RunLog.length + 1) := by
  obtain ⟨s3, hs3⟩ : ∃ s3 : Sim σ, s3 =
      (if (LogTrnEpc ss).ViewOn &&
          decide (TimeScales.AlphaCycle.toNat < (LogTrnEpc ss).TrainUpdt.toNat) then
        (LogTrnEpc ss).UpdateView true
      else LogTrnEpc ss) := ⟨_, rfl⟩
  have hun : trainTrialRest L now stop fuel ss =
      if s3.TestInterval = 0 then .error .divideByZero
      else
        match (if Int.tmod ss.TrainEnv.Epoch.Cur s3.TestInterval = 0 then TestAll L stop fuel s3
          else .ok s3) with
        | .error f => .error f
        | .ok s =>
          if s.MaxEpcs ≤ ss.TrainEnv.Epoch.Cur then
            match RunEnd s with
            | .error f => .error f
            | .ok s =>
              if s.TrainEnv.Run.Incr.2 then
                .ok { ({ s with TrainEnv := { s.TrainEnv with Run := s.TrainEnv.Run.Incr.1 } } :
                  Sim σ) with StopNow := true }
              else
                .ok (NewRun L now
                  { s with TrainEnv := { s.TrainEnv with Run := s.TrainEnv.Run.Incr.1 } })
          else .ok (trainStep L s) := by
    rw [hs3]
    unfold trainTrialRest
    exact if_pos h
  obtain ⟨fe, fi, fm, fl, fr⟩ := LogTrnEpc_frame ss
  obtain ⟨ge, gs, gt, gr⟩ := LogTrnEpc_state ss
  have f3 : s3.TrainEnv = ss.TrainEnv ∧ s3.TestInterval = ss.TestInterval ∧
      s3.MaxEpcs = ss.MaxEpcs ∧ s3.TestSL = ss.TestSL ∧ s3.TstEpcLog = ss.TstEpcLog ∧
      s3.TrnEpcLog.length = ss.TrnEpcLog.length + 1 ∧ s3.SumSSE = F64.fin 0 ∧
      s3.TrnTrlLog = ss.TrnTrlLog ∧ s3.RunLog = ss.RunLog := by
    rw [hs3]
    split_ifs
    · exact ⟨fe, fi, fm, fl, fr, ge, gs, gt, gr⟩
    · exact ⟨fe, fi, fm, fl, fr, ge, gs, gt, gr⟩
  clear hs3
  obtain ⟨e3, i3, m3, l3, r3, x3, y3, z3, w3⟩ := f3
  obtain ⟨p, s4, r4, -, -, k4, n4⟩ := optional_TestAll L stop fuel s3
    (Int.tmod ss.TrainEnv.Epoch.Cur s3.TestInterval = 0) (by rw [l3]; exact hlen)
    (by rw [l3]; exact hfuel)
  obtain ⟨a1, a2, a3, a4, e4, m4⟩ := keepTest_frame_logs k4
  rw [hun, if_neg (by rw [i3]; exact hTI), r4]
  dsimp only
  rw [i3, r3] at n4
  by_cases hle : ss.MaxEpcs ≤ ss.TrainEnv.Epoch.Cur
  · have h2 : 2 ≤ s4.TstEpcLog.length := by rw [n4]; exact hrows hle
    obtain ⟨s5, r5, -, e5, -⟩ := RunEnd_spec s4 h2
    have q5 := RunEnd_RunLog s4 s5 r5
    rw [if_pos (by rw [m4, m3]; exact hle), r5]
    dsimp only
    have hq : s5.RunLog.length = ss.RunLog.length + 1 := by rw [q5, a3, w3]
    by_cases hi : s5.TrainEnv.Run.Incr.2 = true
    · rw [if_pos hi]
      exact ⟨_, rfl, fun hh => absurd hle hh, fun _ => hq⟩
    · rw [if_neg hi]
      refine ⟨_, rfl, fun hh => absurd hle hh, fun _ => ?_⟩
      rw [NewRun_RunLog]
      exact hq
  · rw [if_neg (by rw [m4, m3]; exact hle)]
    obtain ⟨t1, t2, t3, t4, t5, t6, -, t8, -⟩ := trainStep_state L s4
    refine ⟨_, rfl, fun _ => ⟨?_, ?_, t1, t2, ?_, ?_, ?_⟩, fun hh => absurd hh hle⟩
    · rw [t8, a1, x3]
    · rw [t6, n4]
    · rw [t3, a4, y3]
    · rw [a2, z3, e4, e3] at t4
      exact t4
    · rw [t5, e4, e3]

/-- The state after a training trial.  When the epoch did not change: the
state of a training trial proper, after an evaluation pass (one row more in
`TstEpcLog`) if epoch and trial are both 0 and with the test logs untouched
otherwise.  When the epoch changed: as for the part that follows the
change. -/
theorem TrainTrial_state (L : Leabra σ) (now : ℤ) (stop : ℕ → Bool) (fuel : ℕ) (ss : Sim σ)
    (hlen : 0 < ss.TestSL.length) (hfuel : ss.TestSL.length < fuel)
    (hTI : ss.TrainEnv.Step.Epoch.Chg = true → ss.TestInterval ≠ 0)
    (hrows : ss.TrainEnv.Step.Epoch.Chg = true → ss.MaxEpcs ≤ ss.TrainEnv.Step.Epoch.Cur →
      2 ≤ ss.TstEpcLog.length +
        (if ss.TrainEnv.Step.Epoch.Cur = 0 ∧ ss.TrainEnv.Step.Trial.Cur = 0 then 1 else 0) +
        (if Int.tmod ss.TrainEnv.Step.Epoch.Cur ss.TestInterval = 0 then 1 else 0)) :
    ∃ s1 : Sim σ,
      TrainTrial L now stop fuel ss = .ok s1 ∧
      (ss.TrainEnv.Step.Epoch.Chg = false →
        s1.TstEpcLog.length = ss.TstEpcLog.length +
          (if ss.TrainEnv.Step.Epoch.Cur = 0 ∧ ss.TrainEnv.Step.Trial.Cur = 0 then 1 else 0) ∧
        (¬ (ss.TrainEnv.Step.Epoch.Cur = 0 ∧ ss.TrainEnv.Step.Trial.Cur = 0) →
          s1.TstEpcLog = ss.TstEpcLog ∧ s1.TstTrlLog = ss.TstTrlLog) ∧
        s1.Time = { Cycle := 100, Quarter := 4 } ∧
        s1.Net.ecoutTyp = .Target ∧
        s1.SumSSE = F64.add ss.SumSSE s1.TrlSSE ∧
        (∃ row : TrnTrlRow,
          s1.TrnTrlLog =
            ss.TrnTrlLog.take
              (if ss.TrainEnv.Step.Trial.Cur = 0 then 0 else ss.TrnTrlLog.length) ++ [row] ∧
          row.Trial = F64.ofInt ss.TrainEnv.Step.Trial.Cur) ∧
        s1.TrainEnv = ss.TrainEnv.Step ∧
        s1.TrnEpcLog = ss.TrnEpcLog ∧
        s1.RunLog = ss.RunLog) ∧
      (ss.TrainEnv.Step.Epoch.Chg = true → ¬ ss.MaxEpcs ≤ ss.TrainEnv.Step.Epoch.Cur →
        s1.TrnEpcLog.length = ss.TrnEpcLog.length + 1 ∧
        s1.TstEpcLog.length = ss.TstEpcLog.length +
          (if ss.TrainEnv.Step.Epoch.Cur = 0 ∧ ss.TrainEnv.Step.Trial.Cur = 0 then 1 else 0) +
          (if Int.tmod ss.TrainEnv.Step.Epoch.Cur ss.TestInterval = 0 then 1 else 0) ∧
        s1.Time = { Cycle := 100, Quarter := 4 } ∧
        s1.Net.ecoutTyp = .Target ∧
        s1.SumSSE = F64.add (.fin 0) s1.TrlSSE ∧
        (∃ row : TrnTrlRow,
          s1.TrnTrlLog =
            ss.TrnTrlLog.take
              (if ss.TrainEnv.Step.Trial.Cur = 0 then 0 else ss.TrnTrlLog.length) ++ [row] ∧
          row.Trial = F64.ofInt ss.TrainEnv.Step.Trial.Cur) ∧
        s1.TrainEnv = ss.TrainEnv.Step) ∧
      (ss.TrainEnv.Step.Epoch.Chg = true → ss.MaxEpcs ≤ ss.TrainEnv.Step.Epoch.Cur →
        s1.RunLog.length = ss.RunLog.length + 1) := by
  obtain ⟨s0, hs0⟩ : ∃ s0 : Sim σ, s0 = { ss.emit .TrainTrial with TrainEnv := ss.TrainEnv.Step } :=
    ⟨_, rfl⟩
  have hun : TrainTrial L now stop fuel ss =
      match (if s0.TrainEnv.Epoch.Cur = 0 ∧ s0.TrainEnv.Trial.Cur = 0 then TestAll L stop fuel s0
        else .ok s0) with
      | .error f => .error f
      | .ok s => trainTrialRest L now stop fuel s := by
    rw [hs0]; rfl
  have e0 : s0.TrainEnv = ss.TrainEnv.Step := by rw [hs0]
  have f0 : s0.TestSL = ss.TestSL ∧ s0.TestInterval = ss.TestInterval ∧ s0.MaxEpcs = ss.MaxEpcs ∧
      s0.TstEpcLog = ss.TstEpcLog ∧ s0.TstTrlLog = ss.TstTrlLog ∧ s0.TrnEpcLog = ss.TrnEpcLog ∧
      s0.TrnTrlLog = ss.TrnTrlLog ∧ s0.RunLog = ss.RunLog ∧ s0.SumSSE = ss.SumSSE := by
    rw [hs0]; exact ⟨rfl, rfl, rfl, rfl, rfl, rfl, rfl, rfl, rfl⟩
  clear hs0
  obtain ⟨l0, i0, m0, r0, u0, x0, z0, w0, y0⟩ := f0
  obtain ⟨p1, s1, r1, -, -, k1, n1⟩ := optional_TestAll L stop fuel s0
    (s0.TrainEnv.Epoch.Cur = 0 ∧ s0.TrainEnv.Trial.Cur = 0) (by rw [l0]; exact hlen)
    (by rw [l0]; exact hfuel)
  obtain ⟨e1, i1, m1, l1, -⟩ := keepTest_frame k1
  obtain ⟨a1, a2, a3, a4, -, -⟩ := keepTest_frame_logs k1
  have hsame : ¬ (ss.TrainEnv.Step.Epoch.Cur = 0 ∧ ss.TrainEnv.Step.Trial.Cur = 0) →
      s1 = s0 := by
    intro hb
    rw [if_neg (by rw [e0]; exact hb)] at r1
    cases r1
    rfl
  rw [hun, r1]
  dsimp only
  rw [e0, r0] at n1
  have eT : s1.TrainEnv = ss.TrainEnv.Step := e1.trans e0
  cases hchg : ss.TrainEnv.Step.Epoch.Chg
  · rw [trainTrialRest_same L now stop fuel s1 (by rw [eT]; exact hchg)]
    obtain ⟨t1, t2, t3, t4, t5, t6, t7, t8, t9⟩ := trainStep_state L s1
    refine ⟨_, rfl, fun _ => ⟨?_, ?_, t1, t2, ?_, ?_, ?_, ?_, ?_⟩, fun hh => ?_, fun hh => ?_⟩
    · rw [t6, n1]
    · intro hb
      rw [t6, t7, hsame hb]
      exact ⟨r0, u0⟩
    · rw [t3, a4, y0]
    · rw [a2, z0, eT] at t4
      exact t4
    · rw [t5, eT]
    · rw [t8, a1, x0]
    · rw [t9, a3, w0]
    · cases hh
    · cases hh
  · obtain ⟨s2, r2, P2, Q2⟩ := trainTrialRest_changed_state L now stop fuel s1
      (by rw [eT]; exact hchg) (by rw [i1, i0]; exact hTI hchg) (by rw [l1, l0]; exact hlen)
      (by rw [l1, l0]; exact hfuel)
      (by
        rw [m1, m0, eT, i1, i0, n1]
        intro hle
        have := hrows hchg hle
        omega)
    rw [eT, m1, m0, i1, i0] at P2
    rw [eT, m1, m0] at Q2
    refine ⟨s2, r2, fun hh => ?_, fun _ hle => ?_, fun _ hle => ?_⟩
    · cases hh
    · obtain ⟨b1, b2, b3, b4, b5, b6, b7⟩ := P2 hle
      refine ⟨?_, ?_, b3, b4, b5, ?_, b7⟩
      · rw [b1, a1, x0]
      · rw [b2, n1]
      · rw [a2, z0] at b6
        exact b6
    · rw [Q2 hle, a3, w0]

/-! ## The alpha cycle and the item probe in the state: claims -/

/-- The step records among the calls of one `AlphaCyc`: the times of the 100
`Cycle` calls and of the 4 `QuarterFinal` calls, quarter by quarter. -/
theorem recTrace_steps (train : Bool) (a b : ℚ) :
    (recTrace train a b).filterMap NetCall.stepTime =
      ((List.range 4).map (fun q : ℕ =>
        (List.range 25).map (fun c : ℕ => ({ Cycle := 25 * q + c, Quarter := q } : Time)) ++
          [{ Cycle := 25 * q + 25, Quarter := q }])).flatten ∧
    ((recTrace train a b).filter NetCall.isCycle).length = 100 ∧
    ((recTrace train a b).filter NetCall.isQuarterFinal).length = 4 := by
  cases train <;> exact ⟨rfl, rfl, rfl⟩

/-- The weight updates among the calls of one `AlphaCyc`. -/
theorem recTrace_weights :
    (∃ mid : List NetCall,
      recTrain = NetCall.wtFmDWt :: mid ++ [NetCall.dWt] ∧
      mid.filter NetCall.isWeight = [] ∧
      (mid.filter NetCall.isCycle).length = 100 ∧
      (mid.filter NetCall.isQuarterFinal).length = 4) ∧
    (∀ a b : ℚ, (recTest a b).filter NetCall.isWeight = []) :=
  ⟨⟨recTrain.tail.dropLast, rfl, rfl, rfl, rfl⟩, fun _ _ => rfl⟩

/-- C1: in training and in test mode alike, one call of `AlphaCyc` performs
100 `Net.Cycle` calls, 100 `Time.CycleInc` calls, 4 `QuarterFinal` calls and
4 `QuarterInc` calls, and these step operations come as 4 quarters of exactly
25 (`Cycle`, `CycleInc`) pairs, each quarter closed by `QuarterFinal` and
`QuarterInc`: no step loop is left early.  In the state, the call leaves the
time at cycle 100 of quarter 4, whatever the time was on entry; and the
recording network, which appends a record to its state at every call made on
it, holds after the call the records `recTrace` in addition to those it held
before: 100 `Cycle` records and 4 `QuarterFinal` records, the `Cycle` calls of
quarter `q` made at the times `25 q`, ..., `25 q + 24` of that quarter and its
`QuarterFinal` call at time `25 q + 25`. -/
theorem AlphaCyc_step_counts (L : Leabra σ) (train : Bool) (ss : Sim σ) :
    (opsOf (AlphaCycTrace L train ss)).count .Cycle = 100 ∧
    (opsOf (AlphaCycTrace L train ss)).count .CycleInc = 100 ∧
    (opsOf (AlphaCycTrace L train ss)).count .QuarterFinal = 4 ∧
    (opsOf (AlphaCycTrace L train ss)).count .QuarterInc = 4 ∧
    (opsOf (AlphaCycTrace L train ss)).filter Op.isStep =
      (List.replicate 4 ((List.replicate 25 [Op.Cycle, Op.CycleInc]).flatten ++
        [Op.QuarterFinal, Op.QuarterInc])).flatten ∧
    (AlphaCyc L train ss).Time.Cycle = 100 ∧
    (AlphaCyc L train ss).Time.Quarter = 4 ∧
    (∀ s : Sim (List NetCall),
      (AlphaCyc recLeabra train s).Net.core =
        s.Net.core ++ recTrace train s.Net.ca1FmECinAbs s.Net.ca1FmCa3Abs) ∧
    (∀ a b : ℚ,
      (recTrace train a b).filterMap NetCall.stepTime =
        ((List.range 4).map (fun q : ℕ =>
          (List.range 25).map (fun c : ℕ => ({ Cycle := 25 * q + c, Quarter := q } : Time)) ++
            [{ Cycle := 25 * q + 25, Quarter := q }])).flatten ∧
      ((recTrace train a b).filter NetCall.isCycle).length = 100 ∧
      ((recTrace train a b).filter NetCall.isQuarterFinal).length = 4) := by
  obtain ⟨h1, h2, h3, h4, h5⟩ := AlphaCyc_step_log L train ss
  have ht := AlphaCyc_Time L train ss
  exact ⟨h1, h2, h3, h4, h5, congrArg Time.Cycle ht, congrArg Time.Quarter ht,
    fun s => AlphaCyc_rec train s, fun a b => recTrace_steps train a b⟩

/-- C9: in every `AlphaCyc` call, training or test, `MemStats(train)` is
invoked exactly once; among the simulation operations it comes directly after
the third `QuarterFinal` (75 cycles, two `QuarterFinal` and two `QuarterInc`
before that one) and directly before the third `QuarterInc`.  In the state:
on the recording network, the first of whose two off-target units is active
once three `QuarterFinal` calls were made and the second once 76 `Cycle` calls
were made, a call entered with no record leaves `TrgOffWasOn = 1/2`; the
statistic that the call leaves was computed from the network as it was after
the third `QuarterFinal` call and before the cycles of the fourth quarter. -/
theorem AlphaCyc_MemStats_once (L : Leabra σ) (train : Bool) (ss : Sim σ) :
    (opsOf (AlphaCycTrace L train ss)).count (.MemStats train) = 1 ∧
    (opsOf (AlphaCycTrace L train ss)).count (.MemStats (!train)) = 0 ∧
    (∃ pre post : List Op,
      opsOf (AlphaCycOps L train ss) =
        pre ++ [Op.QuarterFinal, Op.MemStats train, Op.QuarterInc] ++ post ∧
      pre.count .Cycle = 75 ∧ pre.count .QuarterFinal = 2 ∧ pre.count .QuarterInc = 2) ∧
    (∀ s : Sim (List NetCall),
      (AlphaCyc recLeabra train { s with Net := { s.Net with core := [] } }).TrgOffWasOn =
        F64.fin (1 / 2)) ∧
    (∀ s : Sim (List NetCall),
      (MemStats recLeabra train s).TrgOffWasOn =
        F64.fin ((((if 3 ≤ (s.Net.core.filter NetCall.isQuarterFinal).length then 1 else 0) +
          (if 76 ≤ (s.Net.core.filter NetCall.isCycle).length then 1 else 0) : ℕ) : ℚ) / 2)) := by
  obtain ⟨h1, h2, h3⟩ := AlphaCyc_MemStats_log L train ss
  exact ⟨h1, h2, h3, fun s => AlphaCyc_rec_TrgOffWasOn train s, fun s => MemStats_rec train s⟩

/-- C12: `AlphaCyc(true)` calls `WtFmDWt` exactly once, as its first
operation, before `AlphaCycInit` and all 100 cycles, and calls `DWt` exactly
once, as its last simulation operation, after the fourth `QuarterFinal`; in
between neither is called.  Two training trials in a row therefore perform
`DWt` (end of trial k) directly followed by `WtFmDWt` (start of trial k+1).
`AlphaCyc(false)` calls neither.  In the state: after `AlphaCyc(true)` the
recording network holds, in addition to the records it held, the records
`recTrain`, which begin with the `WtFmDWt` record and end with the `DWt`
record with no weight update, 100 `Cycle` records and 4 `QuarterFinal` records
in between; after `AlphaCyc(false)` it holds the weight-update records it held
before the call and no other. -/
theorem AlphaCyc_deferred_weight_update (L : Leabra σ) (ss : Sim σ) :
    (∃ mid : List Op,
      opsOf (AlphaCycOps L true ss) = [Op.WtFmDWt] ++ mid ++ [Op.DWt] ∧
      mid.count .WtFmDWt = 0 ∧ mid.count .DWt = 0 ∧ mid.count .AlphaCycInit = 1 ∧
      mid.count .Cycle = 100 ∧ mid.count .QuarterFinal = 4 ∧
      opsOf (simOps (AlphaCyc L true (AlphaCyc L true { ss with log := [] })).log) =
        ([Op.WtFmDWt] ++ mid ++ [Op.DWt]) ++ ([Op.WtFmDWt] ++ mid ++ [Op.DWt])) ∧
    (opsOf (AlphaCycTrace L true ss)).count .WtFmDWt = 1 ∧
    (opsOf (AlphaCycTrace L true ss)).count .DWt = 1 ∧
    (opsOf (AlphaCycTrace L false ss)).count .WtFmDWt = 0 ∧
    (opsOf (AlphaCycTrace L false ss)).count .DWt = 0 ∧
    (∀ s : Sim (List NetCall), (AlphaCyc recLeabra true s).Net.core = s.Net.core ++ recTrain) ∧
    (∃ mid : List NetCall,
      recTrain = NetCall.wtFmDWt :: mid ++ [NetCall.dWt] ∧
      mid.filter NetCall.isWeight = [] ∧
      (mid.filter NetCall.isCycle).length = 100 ∧
      (mid.filter NetCall.isQuarterFinal).length = 4) ∧
    (∀ s : Sim (List NetCall),
      (AlphaCyc recLeabra false s).Net.core.filter NetCall.isWeight =
        s.Net.core.filter NetCall.isWeight) := by
  obtain ⟨h1, h2, h3, h4, h5⟩ := AlphaCyc_weights_log L ss
  refine ⟨h1, h2, h3, h4, h5, fun s => AlphaCyc_rec true s, recTrace_weights.1, ?_⟩
  intro s
  rw [AlphaCyc_rec false s, List.filter_append]
  have : recTrace false s.Net.ca1FmECinAbs s.Net.ca1FmCa3Abs =
      recTest s.Net.ca1FmECinAbs s.Net.ca1FmCa3Abs := rfl
  rw [this, recTrace_weights.2, List.append_nil]

/-- C25: for every index `idx` of a row of the test table, `TestItem(idx)`
calls `ApplyInputs` for the test environment, `AlphaCyc(false)` once, with the
trial counter of the test environment at `idx`, and `TrialStats(false)`; one
alpha cycle starts; on return the trial counter of the test environment has
the value it had before the call, and the training environment and the
accumulators `SumSSE`, `SumAvgSSE`, `SumCosDiff` and `CntErr` are as before
the call.  In the state: the trial name of the test environment is that of
row `idx`; the network is the one that `AlphaCyc(false)` leaves when it is
run on the inputs of trial `idx` of the test environment; the time is at cycle
100 of quarter 4; `ECout` has type `Compare`; `TrlSSE`, `TrlAvgSSE` and
`TrlCosDiff` are the statistics of that network; and the recording network
holds, after the records it held, those of `InitExt`, of the patterns of trial
`idx` of the test environment applied to `Input` and to `ECout`, and of one
alpha cycle without training. -/
theorem TestItem_probe (L : Leabra σ) (idx : ℤ) (ss : Sim σ)
    (hidx : 0 ≤ idx ∧ idx < ss.TestEnv.Names.length) :
    calls (TestItem L idx ss).log =
      calls ss.log ++ [.ApplyInputs false, .AlphaCyc false idx, .TrialStats false] ∧
    (opsOf (TestItem L idx ss).log).count .AlphaCycStart =
      (opsOf ss.log).count .AlphaCycStart + 1 ∧
    (TestItem L idx ss).TestEnv.Trial.Cur = ss.TestEnv.Trial.Cur ∧
    (TestItem L idx ss).TrainEnv = ss.TrainEnv ∧
    (TestItem L idx ss).SumSSE = ss.SumSSE ∧
    (TestItem L idx ss).SumAvgSSE = ss.SumAvgSSE ∧
    (TestItem L idx ss).SumCosDiff = ss.SumCosDiff ∧
    (TestItem L idx ss).CntErr = ss.CntErr ∧
    (TestItem L idx ss).TestEnv.TrialName = ss.TestEnv.Names.getD idx.toNat "" ∧
    (TestItem L idx ss).Net =
      (AlphaCyc L false (ApplyInputs L false
        { ss with TestEnv := { ss.TestEnv with
          Trial := { ss.TestEnv.Trial with Cur := idx } } })).Net ∧
    (TestItem L idx ss).Time.Cycle = 100 ∧
    (TestItem L idx ss).Time.Quarter = 4 ∧
    (TestItem L idx ss).Net.ecoutTyp = .Compare ∧
    (TestItem L idx ss).TrlSSE = (L.MSE (TestItem L idx ss).Net.core .ECout (1 / 2)).1 ∧
    (TestItem L idx ss).TrlAvgSSE = (L.MSE (TestItem L idx ss).Net.core .ECout (1 / 2)).2 ∧
    (TestItem L idx ss).TrlCosDiff = L.CosDiffCos (TestItem L idx ss).Net.core .ECout ∧
    (∀ s : Sim (List NetCall), 0 ≤ idx ∧ idx < s.TestEnv.Names.length →
      (TestItem recLeabra idx s).Net.core =
        s.Net.core ++ [.initExt, .applyExt .Input idx false, .applyExt .ECout idx false] ++
          recTest s.Net.ca1FmECinAbs s.Net.ca1FmCa3Abs) := by
  obtain ⟨a1, a2, a3, a4, a5, a6, a7, a8⟩ := TestItem_calls_frame L idx ss
  obtain ⟨b1, b2, b3, b4, b5, b6, b7⟩ := TestItem_state L idx ss hidx
  exact ⟨a1, a2, a3, a4, a5, a6, a7, a8, b1, b2, congrArg Time.Cycle b3,
    congrArg Time.Quarter b3, b4, b5, b6, b7, fun s _ => TestItem_rec idx s⟩

/-- Witness for C25: the item of row 1 probed on the recording network while
the test environment is at trial 0: the trial counter is back at 0, the trial
name is that of row 1, and the network recorded the inputs of trial 1 and one
alpha cycle without training. -/
theorem TestItem_probe_witness :
    ((0 : ℤ) ≤ 1 ∧ (1 : ℤ) < (recSim 0).TestEnv.Names.length) ∧
    (TestItem recLeabra 1 (recSim 0)).TestEnv.Trial.Cur = 0 ∧
    (TestItem recLeabra 1 (recSim 0)).TestEnv.TrialName = "b" ∧
    (TestItem recLeabra 1 (recSim 0)).Time.Cycle = 100 ∧
    (TestItem recLeabra 1 (recSim 0)).Net.core =
      [.initExt, .applyExt .Input 1 false, .applyExt .ECout 1 false] ++ recTest 1 1 := by
  have hidx : (0 : ℤ) ≤ 1 ∧ (1 : ℤ) < (recSim 0).TestEnv.Names.length := by decide
  obtain ⟨-, -, a3, -, -, -, -, -, b1, -, b3, -, -, -, -, -, b8⟩ :=
    TestItem_probe recLeabra 1 (recSim 0) hidx
  exact ⟨hidx, a3, b1, b3, b8 (recSim 0) hidx⟩

/-! ## The training trial in the state: claims -/

/-- C21: in a `TrainTrial` call in which, after the step of the training
environment, `Epoch.Cur = 0` and `Trial.Cur = 0`, one evaluation pass
`TestAll` runs, and it runs before the training inputs are applied and before
`AlphaCyc(true)`: the calls of the trial are `TrainTrial`, those of one
evaluation pass, then `ApplyInputs`, `AlphaCyc(true)` for trial 0,
`TrialStats(true)`, `LogTrnTrl`.  In a call in which the epoch did not change
and `Epoch.Cur` or `Trial.Cur` is not 0, `TestAll` is not called.  In the
state: after the first kind of call `TstEpcLog` has one row more, after the
second `TstEpcLog` and `TstTrlLog` are as before; after both the time is at
cycle 100 of quarter 4, `ECout` is a target layer, as the alpha cycle with
training leaves it and the alpha cycles of an evaluation pass do not, the
error of the trial is added to `SumSSE`, the last row of `TrnTrlLog` is that
of the trial, and the training environment is the stepped one.  The test
table has at least one row and the loop of `TestAll` has the fuel for its
rows; as in every run of the program, no maximum is set for the epoch counter
and the epoch is not negative. -/
theorem TrainTrial_baseline_TestAll (L : Leabra σ) (now : ℤ) (stop : ℕ → Bool) (fuel : ℕ)
    (ss : Sim σ) (hlen : 0 < ss.TestSL.length) (hfuel : ss.TestSL.length < fuel)
    (hmax : ss.TrainEnv.Epoch.Max = 0) (hcur : 0 ≤ ss.TrainEnv.Epoch.Cur) :
    (ss.TrainEnv.Step.Epoch.Cur = 0 ∧ ss.TrainEnv.Step.Trial.Cur = 0 →
      ∃ (k : ℕ) (w : Bool) (s1 : Sim σ),
        TrainTrial L now stop fuel ss = .ok s1 ∧
        calls s1.log = calls ss.log ++ [.TrainTrial] ++ testAllCalls k w ++ trainCalls 0 ∧
        ([Op.TrainTrial] ++ testAllCalls k w ++ trainCalls 0).count .TestAll = 1 ∧
        (∀ o ∈ [Op.TrainTrial] ++ testAllCalls k w, o.isTrainStep = false) ∧
        s1.TstEpcLog.length = ss.TstEpcLog.length + 1 ∧
        s1.Time.Cycle = 100 ∧ s1.Time.Quarter = 4 ∧
        s1.Net.ecoutTyp = .Target ∧
        s1.SumSSE = F64.add ss.SumSSE s1.TrlSSE ∧
        (∃ row : TrnTrlRow, s1.TrnTrlLog = [row] ∧ row.Trial = F64.ofInt 0) ∧
        s1.TrainEnv = ss.TrainEnv.Step) ∧
    (ss.TrainEnv.Step.Epoch.Chg = false →
      (ss.TrainEnv.Step.Epoch.Cur ≠ 0 ∨ ss.TrainEnv.Step.Trial.Cur ≠ 0) →
      ∃ s1 : Sim σ,
        TrainTrial L now stop fuel ss = .ok s1 ∧
        calls s1.log = calls ss.log ++ [.TrainTrial] ++ trainCalls ss.TrainEnv.Step.Trial.Cur ∧
        ([Op.TrainTrial] ++ trainCalls ss.TrainEnv.Step.Trial.Cur).count .TestAll = 0 ∧
        s1.TstEpcLog = ss.TstEpcLog ∧ s1.TstTrlLog = ss.TstTrlLog ∧
        s1.Time.Cycle = 100 ∧ s1.Time.Quarter = 4 ∧
        s1.Net.ecoutTyp = .Target ∧
        s1.SumSSE = F64.add ss.SumSSE s1.TrlSSE ∧
        (∃ row : TrnTrlRow,
          s1.TrnTrlLog =
            ss.TrnTrlLog.take
              (if ss.TrainEnv.Step.Trial.Cur = 0 then 0 else ss.TrnTrlLog.length) ++ [row] ∧
          row.Trial = F64.ofInt ss.TrainEnv.Step.Trial.Cur) ∧
        s1.TrainEnv = ss.TrainEnv.Step) := by
  constructor
  · intro h0
    obtain ⟨k, w, s1, r1, c1, n1, t1⟩ :=
      (TrainTrial_baseline_calls L now stop fuel ss hlen hfuel hmax hcur).1 h0
    have hchg := Step_epoch_zero ss.TrainEnv hmax hcur h0.1
    obtain ⟨s2, r2, F, -, -⟩ := TrainTrial_state L now stop fuel ss hlen hfuel
      (by rw [hchg]; intro h; cases h) (by rw [hchg]; intro h; cases h)
    have e : s2 = s1 := by
      rw [r1] at r2
      cases r2
      rfl
    subst e
    obtain ⟨f1, -, f3, f4, f5, ⟨row, f6, f7⟩, f8, -, -⟩ := F hchg
    rw [if_pos h0] at f1
    refine ⟨k, w, _, r1, c1, n1, t1, f1, congrArg Time.Cycle f3, congrArg Time.Quarter f3, f4,
      f5, ⟨row, ?_, ?_⟩, f8⟩
    · rw [f6, h0.2]
      simp
    · rw [f7, h0.2]
  · intro hchg hne
    obtain ⟨s1, r1, c1, n1⟩ :=
      (TrainTrial_baseline_calls L now stop fuel ss hlen hfuel hmax hcur).2 hchg hne
    obtain ⟨s2, r2, F, -, -⟩ := TrainTrial_state L now stop fuel ss hlen hfuel
      (by rw [hchg]; intro h; cases h) (by rw [hchg]; intro h; cases h)
    have e : s2 = s1 := by
      rw [r1] at r2
      cases r2
      rfl
    subst e
    obtain ⟨-, f2, f3, f4, f5, f6, f8, -, -⟩ := F hchg
    obtain ⟨g1, g2⟩ := f2 (by tauto)
    exact ⟨_, r1, c1, n1, g1, g2, congrArg Time.Cycle f3, congrArg Time.Quarter f3, f4, f5, f6,
      f8⟩

/-- Witness for C21: the first trial of a run (trial counter at -1 before the
step, epoch 0) runs one evaluation pass, which adds the first row to
`TstEpcLog`, and then the training trial 0; the second trial of the epoch runs
the training trial 1 only and leaves `TstEpcLog` empty. -/
theorem TrainTrial_baseline_TestAll_witness :
    (∃ (k : ℕ) (w : Bool) (s1 : Sim Units),
      TrainTrial unitsLeabra 7 (fun _ => false) 3 (trialSim 0 0 (-1) []) = .ok s1 ∧
      calls s1.log = [.TrainTrial] ++ testAllCalls k w ++ trainCalls 0 ∧
      s1.TstEpcLog.length = 1 ∧ s1.Time.Cycle = 100) ∧
    (∃ s1 : Sim Units,
      TrainTrial unitsLeabra 7 (fun _ => false) 3 (trialSim 0 0 0 []) = .ok s1 ∧
      calls s1.log = [.TrainTrial] ++ trainCalls 1 ∧
      s1.TstEpcLog = [] ∧ s1.Time.Cycle = 100) := by
  obtain ⟨k, w, s1, r1, c1, -, -, l1, t1, -⟩ :=
    (TrainTrial_baseline_TestAll unitsLeabra 7 (fun _ => false) 3 (trialSim 0 0 (-1) [])
      (by decide) (by decide) rfl (by decide)).1 ⟨by decide, by decide⟩
  obtain ⟨s2, r2, c2, -, l2, -, t2, -⟩ :=
    (TrainTrial_baseline_TestAll unitsLeabra 7 (fun _ => false) 3 (trialSim 0 0 0 [])
      (by decide) (by decide) rfl (by decide)).2 (by decide) (Or.inr (by decide))
  exact ⟨⟨k, w, s1, r1, c1, l1, t1⟩, ⟨s2, r2, c2, l2, t2⟩⟩

/-- C22: in a `TrainTrial` call in which the epoch counter reports a change
to an epoch `epc ≥ 1`, the calls are `TrainTrial`, `LogTrnEpc`, then those of
one evaluation pass if `epc % TestInterval = 0` and none otherwise, and then
either the end of the run or the training trial proper: `TestAll` is called
once if `epc % TestInterval = 0` and not at all otherwise, after `LogTrnEpc`
and before the training inputs are applied; with `TestInterval = 1` it is
called once.  In the state: when the run goes on, `TrnEpcLog` has one row
more, `TstEpcLog` has one row more if `epc % TestInterval = 0` and as many
rows as before otherwise, and the training trial proper ran on the sums that
`LogTrnEpc` had reset (`SumSSE` is 0 plus the error of the trial), leaving the
time at cycle 100 of quarter 4, `ECout` a target layer and the row of the
trial as the last of `TrnTrlLog`; at the end of a run `RunLog` has one row
more.  `TestInterval` is not 0 (the remainder would panic), the test
table has at least one row, the loop of `TestAll` has the fuel for its rows,
and at the end of a run `TstEpcLog` has the two rows that `LogRun` reads. -/
theorem TrainTrial_epoch_change (L : Leabra σ) (now : ℤ) (stop : ℕ → Bool) (fuel : ℕ)
    (ss : Sim σ) (hlen : 0 < ss.TestSL.length) (hfuel : ss.TestSL.length < fuel)
    (hchg : ss.TrainEnv.Step.Epoch.Chg = true) (hepc : 1 ≤ ss.TrainEnv.Step.Epoch.Cur)
    (hTI : ss.TestInterval ≠ 0)
    (hrows : ss.MaxEpcs ≤ ss.TrainEnv.Step.Epoch.Cur →
      2 ≤ ss.TstEpcLog.length +
        (if Int.tmod ss.TrainEnv.Step.Epoch.Cur ss.TestInterval = 0 then 1 else 0)) :
    ∃ (p rest : List Op) (s1 : Sim σ),
      TrainTrial L now stop fuel ss = .ok s1 ∧
      calls s1.log = calls ss.log ++ [.TrainTrial, .LogTrnEpc] ++ p ++ rest ∧
      (if Int.tmod ss.TrainEnv.Step.Epoch.Cur ss.TestInterval = 0 then
          ∃ k w, p = testAllCalls k w
        else p = []) ∧
      rest =
        (if ss.MaxEpcs ≤ ss.TrainEnv.Step.Epoch.Cur then
          [.RunEnd, .LogRun] ++
            (if ss.TrainEnv.Run.Incr.2 then [] else [.NewRun, .EnvInit true, .EnvInit false])
        else trainCalls ss.TrainEnv.Step.Trial.Cur) ∧
      ([Op.TrainTrial, .LogTrnEpc] ++ p ++ rest).count .TestAll =
        (if Int.tmod ss.TrainEnv.Step.Epoch.Cur ss.TestInterval = 0 then 1 else 0) ∧
      (∀ o ∈ [Op.TrainTrial, .LogTrnEpc] ++ p, o.isTrainStep = false) ∧
      (ss.TestInterval = 1 → ([Op.TrainTrial, .LogTrnEpc] ++ p ++ rest).count .TestAll = 1) ∧
      (¬ ss.MaxEpcs ≤ ss.TrainEnv.Step.Epoch.Cur →
        s1.TrnEpcLog.length = ss.TrnEpcLog.length + 1 ∧
        s1.TstEpcLog.length = ss.TstEpcLog.length +
          (if Int.tmod ss.TrainEnv.Step.Epoch.Cur ss.TestInterval = 0 then 1 else 0) ∧
        s1.Time.Cycle = 100 ∧ s1.Time.Quarter = 4 ∧
        s1.Net.ecoutTyp = .Target ∧
        s1.SumSSE = F64.add (.fin 0) s1.TrlSSE ∧
        (∃ row : TrnTrlRow,
          s1.TrnTrlLog =
            ss.TrnTrlLog.take
              (if ss.TrainEnv.Step.Trial.Cur = 0 then 0 else ss.TrnTrlLog.length) ++ [row] ∧
          row.Trial = F64.ofInt ss.TrainEnv.Step.Trial.Cur) ∧
        s1.TrainEnv = ss.TrainEnv.Step) ∧
      (ss.MaxEpcs ≤ ss.TrainEnv.Step.Epoch.Cur → s1.RunLog.length = ss.RunLog.length + 1) := by
  obtain ⟨p, rest, s1, r1, c1, P, hr, hc, ht, h1⟩ :=
    TrainTrial_epoch_calls L now stop fuel ss hlen hfuel hchg hepc hTI hrows
  have hb : ¬ (ss.TrainEnv.Step.Epoch.Cur = 0 ∧ ss.TrainEnv.Step.Trial.Cur = 0) := by
    intro h
    omega
  obtain ⟨s2, r2, -, F, G⟩ := TrainTrial_state L now stop fuel ss hlen hfuel (fun _ => hTI)
    (by
      intro _ hle
      have := hrows hle
      omega)
  have e : s2 = s1 := by
    rw [r1] at r2
    cases r2
    rfl
  subst e
  refine ⟨p, rest, _, r1, c1, P, hr, hc, ht, h1, fun hle => ?_, fun hle => G hchg hle⟩
  obtain ⟨f1, f2, f3, f4, f5, f6, f7⟩ := F hchg hle
  rw [if_neg hb, Nat.add_zero] at f2
  exact ⟨f1, f2, congrArg Time.Cycle f3, congrArg Time.Quarter f3, f4, f5, f6, f7⟩

/-- Witness for C22: the trial that follows the third trial of epoch 0, with
`TestInterval = 1`: the epoch changes to 1, `LogTrnEpc` is called and adds a
row to `TrnEpcLog`, then one evaluation pass runs and adds a row to
`TstEpcLog`. -/
theorem TrainTrial_epoch_change_witness :
    ∃ (p rest : List Op) (s1 : Sim Units),
      TrainTrial unitsLeabra 7 (fun _ => false) 3 (trialSim 0 0 2 []) = .ok s1 ∧
      calls s1.log = [.TrainTrial, .LogTrnEpc] ++ p ++ rest ∧
      ([Op.TrainTrial, .LogTrnEpc] ++ p ++ rest).count .TestAll = 1 ∧
      rest = trainCalls 0 ∧
      s1.TrnEpcLog.length = 1 ∧ s1.TstEpcLog.length = 1 := by
  obtain ⟨p, rest, s1, r1, c1, -, hr, -, -, h1, F, -⟩ :=
    TrainTrial_epoch_change unitsLeabra 7 (fun _ => false) 3 (trialSim 0 0 2 [])
      (by decide) (by decide) (by decide) (by decide) (by decide) (by decide)
  obtain ⟨f1, f2, -⟩ := F (by decide)
  exact ⟨p, rest, s1, r1, c1, h1 rfl, hr, f1, f2⟩

end HipSL
